import Mathlib

/-!
# One-dimensional boosting partitioner: embedding and checked properties

Shallow embedding of `PartitionOneDimensionalBoosting.cpp` (the split finder
`FindBestSplitGain`, the best-first growth loop of
`PartitionOneDimensionalBoostingInternal::Func` and the in-order `Flatten`).

Conventions of the embedding.

* `FloatBig` values are the rationals extended with `+inf`, `-inf` and `NaN`.
  Finite arithmetic is exact; the special values follow the IEEE-754 rules.
  Neither the rounding nor the range of the double is part of the
  arithmetic: a finite sum of the embedding can stand for a double sum that
  has overflowed to an infinity.
* Pointers into the bin array and into the tree-node buffer are indices.
  `m_pBinLast` is the index of the last bin of a node (inclusive), as in the
  source, where the scan runs `do ... while(pBinLast != pBinCur)`.
* `size_t` sample counts wrap modulo `2^64`.
* The tree-node buffer is a total map from slot index to `TreeNode`; its
  initial content is arbitrary (uninitialised memory).
-/

namespace Ebm

/-! ## Floating point values -/

/-- Values of the C++ type `FloatBig`: exact rationals together with the
three IEEE special values. -/
inductive FloatBig where
  | nan
  | ninf
  | fin (q : ℚ)
  | pinf
  deriving DecidableEq

namespace FloatBig

/-- Unary minus. -/
def neg : FloatBig → FloatBig
  | nan => nan
  | ninf => pinf
  | fin q => fin (-q)
  | pinf => ninf

/-- IEEE addition: `NaN` absorbs, `inf + -inf` is `NaN`. -/
def add : FloatBig → FloatBig → FloatBig
  | nan, _ => nan
  | _, nan => nan
  | pinf, ninf => nan
  | ninf, pinf => nan
  | pinf, _ => pinf
  | _, pinf => pinf
  | ninf, _ => ninf
  | _, ninf => ninf
  | fin a, fin b => fin (a + b)

/-- IEEE subtraction. -/
def sub (a b : FloatBig) : FloatBig := add a (neg b)

/-- The C++ comparison `a < b`; false as soon as one side is `NaN`. -/
def lt : FloatBig → FloatBig → Bool
  | nan, _ => false
  | _, nan => false
  | _, ninf => false
  | pinf, _ => false
  | ninf, _ => true
  | fin _, pinf => true
  | fin a, fin b => decide (a < b)

/-- The C++ comparison `a <= b`; false as soon as one side is `NaN`. -/
def le : FloatBig → FloatBig → Bool
  | nan, _ => false
  | _, nan => false
  | ninf, _ => true
  | _, pinf => true
  | pinf, _ => false
  | fin _, ninf => false
  | fin a, fin b => decide (a ≤ b)

/-- The C++ comparison `a == b`; `NaN` is different from everything. -/
def eq : FloatBig → FloatBig → Bool
  | nan, _ => false
  | _, nan => false
  | ninf, ninf => true
  | pinf, pinf => true
  | fin a, fin b => decide (a = b)
  | _, _ => false

/-- The test `std::isnan(x)`. -/
def isnan : FloatBig → Bool
  | nan => true
  | _ => false

/-- The test `std::isinf(x)`. -/
def isinf : FloatBig → Bool
  | pinf => true
  | ninf => true
  | _ => false

/-- The comparison `x <= std::numeric_limits<FloatBig>::max()`: every finite
value and `-inf` pass, `+inf` and `NaN` do not. -/
def leMax : FloatBig → Bool
  | nan => false
  | pinf => false
  | _ => true

/-- The comparison `std::numeric_limits<FloatBig>::lowest() <= x`: every
finite value and `+inf` pass, `-inf` and `NaN` do not. -/
def lowestLe : FloatBig → Bool
  | nan => false
  | ninf => false
  | _ => true

/-- IEEE multiplication (used by the sample oracle only). -/
def mul : FloatBig → FloatBig → FloatBig
  | nan, _ => nan
  | _, nan => nan
  | fin a, fin b => fin (a * b)
  | fin a, pinf => if a = 0 then nan else if 0 < a then pinf else ninf
  | fin a, ninf => if a = 0 then nan else if 0 < a then ninf else pinf
  | pinf, fin b => if b = 0 then nan else if 0 < b then pinf else ninf
  | ninf, fin b => if b = 0 then nan else if 0 < b then ninf else pinf
  | pinf, pinf => pinf
  | ninf, ninf => pinf
  | pinf, ninf => ninf
  | ninf, pinf => ninf

/-- IEEE division (used by the sample oracle only); the sign of a zero
divisor is taken as positive. -/
def div : FloatBig → FloatBig → FloatBig
  | nan, _ => nan
  | _, nan => nan
  | fin a, fin b =>
    if b = 0 then (if a = 0 then nan else if 0 < a then pinf else ninf) else fin (a / b)
  | fin _, pinf => fin 0
  | fin _, ninf => fin 0
  | pinf, fin b => if 0 ≤ b then pinf else ninf
  | ninf, fin b => if 0 ≤ b then ninf else pinf
  | _, _ => nan

end FloatBig

/-! ## Machine integers -/

/-- Number of values of `size_t`. -/
def k_sizeMod : Nat := 18446744073709551616

/-- Addition of `size_t`. -/
def addSize (a b : Nat) : Nat := (a + b) % 18446744073709551616

/-- Subtraction of `size_t` (wraps below zero). -/
def subSize (a b : Nat) : Nat :=
  (a + (18446744073709551616 - b % 18446744073709551616)) % 18446744073709551616

/-- The test `IsMultiplyError(a, b)`: the product does not fit `size_t`. -/
def IsMultiplyError (a b : Nat) : Bool := decide (18446744073709551616 ≤ a * b)

/-! ## Bins -/

/-- One `GradientPair`: the gradient sum and, for classification, the
hessian sum of one score. -/
structure GradientPair where
  m_sumGradients : FloatBig
  m_sumHessians : FloatBig
  deriving DecidableEq

/-- The all-zero gradient pair. -/
def GradientPair.zero : GradientPair := ⟨.fin 0, .fin 0⟩

/-- A histogram bin: sample count, weight and one gradient pair per score. -/
structure Bin where
  m_cSamples : Nat
  m_weight : FloatBig
  m_aGradientPairs : List GradientPair
  deriving DecidableEq

namespace Bin

/-- Gradient pair number `iScore` of a bin. -/
def pair (b : Bin) (iScore : Nat) : GradientPair := b.m_aGradientPairs.getD iScore GradientPair.zero

/-- The bin written by `Zero`: all fields zero. -/
def Zero (cScores : Nat) : Bin :=
  { m_cSamples := 0, m_weight := .fin 0,
    m_aGradientPairs := (List.range cScores).map fun _ => GradientPair.zero }

/-- The bin written by `Copy(src, cScores)`. -/
def Copy (src : Bin) (cScores : Nat) : Bin :=
  { m_cSamples := src.m_cSamples, m_weight := src.m_weight,
    m_aGradientPairs := (List.range cScores).map fun i => src.pair i }

/-- The bin after `Add(other, cScores)`. -/
def Add (b other : Bin) (cScores : Nat) : Bin :=
  { m_cSamples := addSize b.m_cSamples other.m_cSamples,
    m_weight := b.m_weight.add other.m_weight,
    m_aGradientPairs := (List.range cScores).map fun i =>
      { m_sumGradients := (b.pair i).m_sumGradients.add (other.pair i).m_sumGradients,
        m_sumHessians := (b.pair i).m_sumHessians.add (other.pair i).m_sumHessians } }

/-- The bin after `Subtract(other, cScores)`. -/
def Subtract (b other : Bin) (cScores : Nat) : Bin :=
  { m_cSamples := subSize b.m_cSamples other.m_cSamples,
    m_weight := b.m_weight.sub other.m_weight,
    m_aGradientPairs := (List.range cScores).map fun i =>
      { m_sumGradients := (b.pair i).m_sumGradients.sub (other.pair i).m_sumGradients,
        m_sumHessians := (b.pair i).m_sumHessians.sub (other.pair i).m_sumHessians } }

end Bin

/-! ## Compile-time settings and the loss oracle -/

/-- The parts of the build and of `EbmStats` that the partitioner uses and
whose source is outside this file: the template parameters, the constants
`k_bUseLogitboost` and `k_gainMin`, whether `ZERO_FIRST_MULTICLASS_LOGIT` is
defined, the two oracle functions and the narrowing `SafeConvertFloat`. -/
structure Settings where
  bClassification : Bool
  bMulticlass : Bool
  cScores : Nat
  k_bUseLogitboost : Bool
  bZeroFirstMulticlassLogit : Bool
  k_gainMin : FloatBig
  CalcPartialGain : FloatBig → FloatBig → FloatBig
  ComputeSinglePartitionUpdate : FloatBig → FloatBig → FloatBig
  SafeConvertFloat : FloatBig → FloatBig

/-! ## Tree nodes -/

/-- Modelled from the spec: `TreeNode.hpp` is not among the sources. A node
has a bin range before its gain calculation, and children, split value and
split gain after it. `m_splitGain = none` stands for the reserved value
`k_illegalGainFloat`, which marks a node that was formally split; no
computed gain is equal to it. -/
structure TreeNode where
  m_pBinFirst : Nat
  m_pBinLast : Nat
  m_pTreeNodeChildren : Nat
  m_splitVal : Nat
  m_splitGain : Option FloatBig
  m_bin : Bin

namespace TreeNode

/-- Modelled from the spec: `BEFORE_IsSplittable`, a node is splittable when
its range holds more than one bin. -/
def BEFORE_IsSplittable (n : TreeNode) : Bool := decide (n.m_pBinLast ≠ n.m_pBinFirst)

/-- Modelled from the spec: `AFTER_IsSplit`, the node was formally split. -/
def AFTER_IsSplit (n : TreeNode) : Bool := n.m_splitGain.isNone

/-- Modelled from the spec: `AFTER_SplitNode`, formally split the node. -/
def AFTER_SplitNode (n : TreeNode) : TreeNode := { n with m_splitGain := none }

/-- Modelled from the spec: `AFTER_RejectSplit`, the node stays a leaf. -/
def AFTER_RejectSplit (n : TreeNode) : TreeNode := { n with m_splitGain := some (.fin 0) }

/-- Modelled from the spec: `AFTER_GetSplitGain`; it is only read on nodes
that are not formally split. -/
def AFTER_GetSplitGain (n : TreeNode) : FloatBig := n.m_splitGain.getD .ninf

end TreeNode

/-- The tree-node buffer (`GetThreadByteBuffer2`), addressed by slot index. -/
abbrev Arena := Nat → TreeNode

/-- Store a node into a slot of the buffer. -/
def Arena.set (a : Arena) (i : Nat) (n : TreeNode) : Arena := fun j => if j = i then n else a j

/-! ## Random stream -/

/-- Modelled from the spec: `RandomDeterministic` is a deterministic stream;
`seq` is the sequence of raw draws fixed by the seed and `pos` the number of
draws made so far. -/
structure RandomDeterministic where
  seq : Nat → Nat
  pos : Nat

/-- Modelled from the spec: `NextFast(n)` draws an index below `n`. -/
def RandomDeterministic.NextFast (r : RandomDeterministic) (n : Nat) : Nat × RandomDeterministic :=
  (r.seq r.pos % n, { r with pos := r.pos + 1 })

/-! ## The split finder -/

/-- One entry of the tie list: the bin of the boundary and the left
accumulator at that boundary. -/
structure TreeSweep where
  m_pBestBin : Nat
  m_bestLeftBin : Bin

/-- The gain of one boundary: the loop over the scores that adds the partial
gain of the right and of the left accumulator. -/
def CalcSplitGain (E : Settings) (left right : Bin) : FloatBig :=
  (List.range E.cScores).foldl
    (fun gain iScore =>
      let sumHessiansLeft :=
        if E.bClassification && E.k_bUseLogitboost then (left.pair iScore).m_sumHessians
        else left.m_weight
      let sumHessiansRight :=
        if E.bClassification && E.k_bUseLogitboost then (right.pair iScore).m_sumHessians
        else right.m_weight
      let gainRight := E.CalcPartialGain (right.pair iScore).m_sumGradients sumHessiansRight
      let gainLeft := E.CalcPartialGain (left.pair iScore).m_sumGradients sumHessiansLeft
      (gain.add gainRight).add gainLeft)
    (.fin 0)

/-- The loop over the scores that subtracts the partial gain of the parent
from the winning gain. -/
def SubtractParentGain (E : Settings) (parent : Bin) (BEST_gain : FloatBig) : FloatBig :=
  (List.range E.cScores).foldl
    (fun best iScore =>
      let sumHessiansOverwrite :=
        if E.bClassification && E.k_bUseLogitboost then (parent.pair iScore).m_sumHessians
        else parent.m_weight
      best.sub (E.CalcPartialGain (parent.pair iScore).m_sumGradients sumHessiansOverwrite))
    BEST_gain

/-- The variables carried by the scan: the two accumulators kept in the
scratch child slots, the best gain and the tie list from `pTreeSweepStart`
up to `pTreeSweepCur`. -/
structure Sweep where
  left : Bin
  right : Bin
  BEST_gain : FloatBig
  aTreeSweep : List TreeSweep

/-- The part of the scan body after the early exit: with enough samples on
the left the gain of the boundary is computed, and a gain that is not below
the best one is recorded, after the ties when it is equal to the best one
and in place of them otherwise. `left` and `right` are the accumulators
after the bin `iBinCur` has moved from the right to the left. -/
def SweepRecord (E : Settings) (cSamplesLeafMin iBinCur : Nat) (left right : Bin)
    (s : Sweep) : Sweep :=
  if cSamplesLeafMin ≤ left.m_cSamples then
    let gain := CalcSplitGain E left right
    if !(gain.lt s.BEST_gain) then
      { left := left, right := right, BEST_gain := gain,
        aTreeSweep := (if s.BEST_gain.eq gain then s.aTreeSweep else []) ++
          [{ m_pBestBin := iBinCur, m_bestLeftBin := left.Copy E.cScores }] }
    else
      { s with left := left, right := right }
  else
    { s with left := left, right := right }

/-- The scan `do ... while(pBinLast != pBinCur)` of `FindBestSplitGain`.
The first argument is the number of boundaries still to visit,
`pBinLast - pBinCur`. -/
def SweepLoop (E : Settings) (aBins : List Bin) (cSamplesLeafMin : Nat) :
    Nat → Nat → Sweep → Sweep
  | 0, _, s => s
  | k + 1, iBinCur, s =>
    let bin := aBins.getD iBinCur (Bin.Zero E.cScores)
    let right := s.right.Subtract bin E.cScores
    let left := s.left.Add bin E.cScores
    if right.m_cSamples < cSamplesLeafMin then
      { s with left := left, right := right }
    else
      SweepLoop E aBins cSamplesLeafMin k (iBinCur + 1)
        (SweepRecord E cSamplesLeafMin iBinCur left right s)

/-- The state of the scan before the first boundary. -/
def SweepInit (E : Settings) (parent : Bin) : Sweep :=
  { left := Bin.Zero E.cScores, right := parent.Copy E.cScores,
    BEST_gain := E.k_gainMin, aTreeSweep := [] }

/-- The scan of a node: the state after the loop of `FindBestSplitGain`,
started on the range and the aggregate of the node. -/
def NodeSweep (E : Settings) (aBins : List Bin) (cSamplesLeafMin : Nat) (node : TreeNode) : Sweep :=
  SweepLoop E aBins cSamplesLeafMin (node.m_pBinLast - node.m_pBinFirst) node.m_pBinFirst
    (SweepInit E node.m_bin)

/-- What `FindBestSplitGain` leaves behind: its return value (0 split, 1 no
split, -1 overflow), the buffer and the random stream. -/
structure FindResult where
  ret : Int
  arena : Arena
  rng : RandomDeterministic

/-- The two child slots as the scan leaves them: they hold the accumulators,
the left one the first bin of the node and the right one its last bin. The
source keeps the accumulators in these slots during the whole scan. -/
def ScratchChildren (arena : Arena) (iNode iChildren : Nat) (s : Sweep) : Arena :=
  let a1 := arena.set iChildren
    { arena iChildren with m_bin := s.left, m_pBinFirst := (arena iNode).m_pBinFirst }
  a1.set (iChildren + 1)
    { a1 (iChildren + 1) with m_bin := s.right, m_pBinLast := (arena iNode).m_pBinLast }

/-- The draw among the ties: the entry of the tie list that is split on. -/
def PickSweep (E : Settings) (rng : RandomDeterministic) (aTreeSweep : List TreeSweep) :
    TreeSweep × RandomDeterministic :=
  let draw := if 1 < aTreeSweep.length then rng.NextFast aTreeSweep.length else (0, rng)
  (aTreeSweep.getD draw.1 { m_pBestBin := 0, m_bestLeftBin := Bin.Zero E.cScores }, draw.2)

/-- The end of `FindBestSplitGain` when it splits: the left child ends at the
chosen bin and takes the recorded left aggregate, the right child starts at
the next bin and takes the aggregate of the node minus the recorded one, and
the node receives its children, its split gain and its split value, which is
the index of the chosen bin. -/
def CommitSplit (E : Settings) (arena : Arena) (iNode iChildren : Nat) (best : TreeSweep)
    (BEST_gain : FloatBig) : Arena :=
  let a1 := arena.set iChildren
    { arena iChildren with
      m_pBinLast := best.m_pBestBin, m_bin := best.m_bestLeftBin.Copy E.cScores }
  let a2 := a1.set (iChildren + 1)
    { a1 (iChildren + 1) with
      m_pBinFirst := best.m_pBestBin + 1,
      m_bin := ((a1 iNode).m_bin.Copy E.cScores).Subtract best.m_bestLeftBin E.cScores }
  a2.set iNode
    { a2 iNode with
      m_pTreeNodeChildren := iChildren, m_splitGain := some BEST_gain,
      m_splitVal := best.m_pBestBin }

/-- The function `FindBestSplitGain`. `iNode` is the slot of `pTreeNode`
and `iChildren` the slot of `pTreeNodeChildrenAvailableStorageSpaceCur`;
the left child lives in slot `iChildren` and the right one in the next.
The source asserts `pBinLast != pBinCur` on entry and is only called on
such nodes. -/
def FindBestSplitGain (E : Settings) (aBins : List Bin) (rng : RandomDeterministic)
    (arena : Arena) (iNode iChildren cSamplesLeafMin : Nat) : FindResult :=
  let s := NodeSweep E aBins cSamplesLeafMin (arena iNode)
  let scratch := ScratchChildren arena iNode iChildren s
  if s.aTreeSweep.isEmpty then
    { ret := 1, arena := scratch, rng := rng }
  else if !s.BEST_gain.leMax then
    { ret := -1, arena := scratch, rng := rng }
  else
    let BEST_gain := SubtractParentGain E (scratch iNode).m_bin s.BEST_gain
    if !(E.k_gainMin.le BEST_gain) then
      { ret := if BEST_gain.lowestLe then 1 else -1, arena := scratch, rng := rng }
    else
      let pick := PickSweep E rng s.aTreeSweep
      { ret := 0, arena := CommitSplit E scratch iNode iChildren pick.1 BEST_gain, rng := pick.2 }

/-! ## Flattening -/

/-- The score vector that `Flatten` writes for a leaf (its `else` branch).
With `ZERO_FIRST_MULTICLASS_LOGIT` and at least two scores, `zeroLogit` is
assigned the update of score 0 in the first round of the loop and is
subtracted from every update, that of score 0 included. -/
def FlattenLeaf (E : Settings) (node : TreeNode) : List FloatBig :=
  let zeroLogit := E.ComputeSinglePartitionUpdate
    (node.m_bin.pair 0).m_sumGradients (node.m_bin.pair 0).m_sumHessians
  (List.range E.cScores).map fun iScore =>
    if E.bClassification then
      let updateScore := E.ComputeSinglePartitionUpdate
        (node.m_bin.pair iScore).m_sumGradients (node.m_bin.pair iScore).m_sumHessians
      E.SafeConvertFloat
        (if E.bZeroFirstMulticlassLogit && decide (2 ≤ E.cScores) then updateScore.sub zeroLogit
         else updateScore)
    else
      E.SafeConvertFloat
        (E.ComputeSinglePartitionUpdate (node.m_bin.pair iScore).m_sumGradients node.m_bin.m_weight)

/-- The recursive function `Flatten`: the split values and the scores it
writes, in the order it writes them. The first argument bounds the depth of
the recursion; with no depth left nothing is written. -/
def Flatten (E : Settings) (arena : Arena) : Nat → Nat → List Nat × List FloatBig
  | 0, _ => ([], [])
  | fuel + 1, iNode =>
    let node := arena iNode
    if node.AFTER_IsSplit then
      let l := Flatten E arena fuel node.m_pTreeNodeChildren
      let r := Flatten E arena fuel (node.m_pTreeNodeChildren + 1)
      (l.1 ++ node.m_splitVal :: r.1, l.2 ++ r.2)
    else
      ([], FlattenLeaf E node)

/-! ## The priority queue -/

/-- The comparator `CompareTreeNodeSplittingGain` on two slots. -/
def CompareTreeNodeSplittingGain (arena : Arena) (lhs rhs : Nat) : Bool :=
  (arena lhs).AFTER_GetSplitGain.lt (arena rhs).AFTER_GetSplitGain

/-- The element returned by `top()` of the `std::priority_queue`, kept here
as the list of its elements, newest first: one that the comparator puts
below no other. The C++ standard leaves the choice among elements of equal
gain to the library; a binary heap does not move a pushed element above an
element that the comparator does not put below it, so that of two nodes of
equal gain the one pushed first, the left child when both children of a node
are pushed, stays on top. Here `top()` is the oldest of the elements that
the comparator puts below no other. -/
def QueueTop (arena : Arena) : List Nat → Option Nat
  | [] => none
  | x :: xs =>
    some (xs.foldl (fun best y => if CompareTreeNodeSplittingGain arena y best then best else y) x)

/-! ## The growth loop -/

/-- The variables of the general path of `Func`. -/
structure Growth where
  arena : Arena
  rng : RandomDeterministic
  iStorageCur : Nat
  bestTreeNodeToSplit : List Nat
  cLeaves : Nat
  totalGain : FloatBig

/-- The treatment of one child in the loop body: try to split it when it is
splittable and push it on success, reject it otherwise. The source has this
block twice, for the left and for the right child. -/
def ExamineChild (E : Settings) (aBins : List Bin) (cSamplesLeafMin : Nat)
    (g : Growth) (iChild : Nat) : Growth :=
  if (g.arena iChild).BEFORE_IsSplittable then
    let r := FindBestSplitGain E aBins g.rng g.arena iChild g.iStorageCur cSamplesLeafMin
    if r.ret = 0 then
      { g with arena := r.arena, rng := r.rng, iStorageCur := g.iStorageCur + 2,
               bestTreeNodeToSplit := iChild :: g.bestTreeNodeToSplit }
    else
      { g with arena := r.arena.set iChild (r.arena iChild).AFTER_RejectSplit, rng := r.rng }
  else
    { g with arena := g.arena.set iChild (g.arena iChild).AFTER_RejectSplit }

/-- The loop body from the label `skip_first_push_pop` to `++cLeaves`. -/
def SplitParent (E : Settings) (aBins : List Bin) (cSamplesLeafMin : Nat)
    (g : Growth) (iParent : Nat) : Growth :=
  let totalGain := g.totalGain.add (g.arena iParent).AFTER_GetSplitGain
  let arena := g.arena.set iParent (g.arena iParent).AFTER_SplitNode
  let g1 := ExamineChild E aBins cSamplesLeafMin
    { g with arena := arena, totalGain := totalGain } (arena iParent).m_pTreeNodeChildren
  let g2 := ExamineChild E aBins cSamplesLeafMin g1 ((g1.arena iParent).m_pTreeNodeChildren + 1)
  { g2 with cLeaves := g2.cLeaves + 1 }

/-- The loop `do ... while(cLeaves < cLeavesMax && !bestTreeNodeToSplit.empty())`,
entered at `skip_first_push_pop` with `iParent` the node to split. The
first argument bounds the number of further rounds. -/
def GrowLoop (E : Settings) (aBins : List Bin) (cSamplesLeafMin cLeavesMax : Nat) :
    Nat → Growth → Nat → Growth
  | fuel, g, iParent =>
    let g1 := SplitParent E aBins cSamplesLeafMin g iParent
    if g1.cLeaves < cLeavesMax then
      match QueueTop g1.arena g1.bestTreeNodeToSplit with
      | none => g1
      | some iTop =>
        match fuel with
        | 0 => g1
        | fuel + 1 =>
          GrowLoop E aBins cSamplesLeafMin cLeavesMax fuel
            { g1 with bestTreeNodeToSplit := g1.bestTreeNodeToSplit.erase iTop } iTop
    else g1

/-! ## The driver -/

/-- The error codes that the driver returns. -/
inductive ErrorEbm where
  | Error_None
  | Error_OutOfMemory
  | Error_UnexpectedInternal
  deriving DecidableEq

/-- Modelled from the spec: `Tensor.hpp` is not among the sources. The
output container fails on a capacity it cannot provide: `SetCountSplits`
when the count is above `cSplitsLimit`, `EnsureTensorScoreCapacity` when the
count is above `cScoresLimit`. -/
structure Tensor where
  cSplitsLimit : Nat
  cScoresLimit : Nat

/-- Modelled from the spec: `SetCountSplits(iDimension, cSplits)`. -/
def Tensor.SetCountSplits (t : Tensor) (cSplits : Nat) : ErrorEbm :=
  if cSplits ≤ t.cSplitsLimit then .Error_None else .Error_OutOfMemory

/-- Modelled from the spec: `EnsureTensorScoreCapacity(cTensorScores)`. -/
def Tensor.EnsureTensorScoreCapacity (t : Tensor) (cTensorScores : Nat) : ErrorEbm :=
  if cTensorScores ≤ t.cScoresLimit then .Error_None else .Error_OutOfMemory

/-- The inputs that `Func` reads from the `BoosterShell`: the bins, the sum
of all bins, the tree-node buffer and the container of the update. -/
structure BoosterShell where
  aBins : List Bin
  sumAllBins : Bin
  aTreeNodes : Arena
  innerTermUpdate : Tensor

/-- What a call of `Func` leaves behind: the error code, the value stored
into `*pTotalGain` if any, the split count set for `iDimension` if any, the
values stored from `GetSplitPointer(iDimension)` on and those stored from
`GetTensorScoresPointer()` on, and the random stream. -/
structure Outcome where
  error : ErrorEbm
  totalGain : Option FloatBig
  iDimension : Nat
  cSplits : Option Nat
  aSplits : List Nat
  aScores : List FloatBig
  rng : RandomDeterministic

/-- The scores written when the root is not split. -/
def RootScores (E : Settings) (root : TreeNode) : List FloatBig :=
  if E.bClassification then
    let zeroLogit := E.ComputeSinglePartitionUpdate
      (root.m_bin.pair 0).m_sumGradients (root.m_bin.pair 0).m_sumHessians
    (List.range E.cScores).map fun iScore =>
      let updateScore := E.ComputeSinglePartitionUpdate
        (root.m_bin.pair iScore).m_sumGradients (root.m_bin.pair iScore).m_sumHessians
      E.SafeConvertFloat
        (if E.bZeroFirstMulticlassLogit && E.bMulticlass then updateScore.sub zeroLogit
         else updateScore)
  else
    [E.SafeConvertFloat
      (E.ComputeSinglePartitionUpdate (root.m_bin.pair 0).m_sumGradients root.m_bin.m_weight)]

/-- The scores written by the fast path for one child; the driver stores
those of the left child first and those of the right child after them. -/
def FastScores (E : Settings) (child : TreeNode) : List FloatBig :=
  if E.bClassification then
    let zeroLogit := E.ComputeSinglePartitionUpdate
      (child.m_bin.pair 0).m_sumGradients (child.m_bin.pair 0).m_sumHessians
    (List.range E.cScores).map fun iScore =>
      let updateScore := E.ComputeSinglePartitionUpdate
        (child.m_bin.pair iScore).m_sumGradients (child.m_bin.pair iScore).m_sumHessians
      E.SafeConvertFloat
        (if E.bZeroFirstMulticlassLogit && E.bMulticlass then updateScore.sub zeroLogit
         else updateScore)
  else
    [E.SafeConvertFloat
      (E.ComputeSinglePartitionUpdate (child.m_bin.pair 0).m_sumGradients child.m_bin.m_weight)]

/-- The buffer after the driver has set up the root node in slot 0. -/
def RootArena (E : Settings) (shell : BoosterShell) (cBins : Nat) : Arena :=
  shell.aTreeNodes.set 0
    { shell.aTreeNodes 0 with
      m_pBinFirst := 0, m_pBinLast := cBins - 1, m_bin := shell.sumAllBins.Copy E.cScores }

/-- The call of `FindBestSplitGain` on the root, children in slots 1 and 2. -/
def RootFind (E : Settings) (rng : RandomDeterministic) (shell : BoosterShell)
    (cBins cSamplesLeafMin : Nat) : FindResult :=
  FindBestSplitGain E shell.aBins rng (RootArena E shell cBins) 0 1 cSamplesLeafMin

/-- The general path up to the end of the loop: the growth of the tree from
the split root. The loop cannot run more than `cLeavesMax` rounds. -/
def GrowTree (E : Settings) (rng : RandomDeterministic) (shell : BoosterShell)
    (cBins cSamplesLeafMin cLeavesMax : Nat) : Growth :=
  let r := RootFind E rng shell cBins cSamplesLeafMin
  GrowLoop E shell.aBins cSamplesLeafMin cLeavesMax cLeavesMax
    { arena := r.arena, rng := r.rng, iStorageCur := 3, bestTreeNodeToSplit := [],
      cLeaves := 1, totalGain := .fin 0 } 0

namespace PartitionOneDimensionalBoostingInternal

/-- The function `PartitionOneDimensionalBoostingInternal::Func`. The
exceptions that the priority queue can throw on allocation failure are not
part of the embedding. -/
def Func (E : Settings) (rng : RandomDeterministic) (shell : BoosterShell)
    (cBins iDimension cSamplesLeafMin cLeavesMax : Nat) : Outcome :=
  let r := RootFind E rng shell cBins cSamplesLeafMin
  if r.ret ≠ 0 then
    let totalGain := if r.ret < 0 then FloatBig.pinf else FloatBig.fin 0
    if shell.innerTermUpdate.SetCountSplits 0 ≠ .Error_None then
      { error := shell.innerTermUpdate.SetCountSplits 0, totalGain := some totalGain,
        iDimension := iDimension, cSplits := none, aSplits := [], aScores := [], rng := r.rng }
    else
      { error := .Error_None, totalGain := some totalGain, iDimension := iDimension,
        cSplits := some 0, aSplits := [], aScores := RootScores E (r.arena 0), rng := r.rng }
  else if cLeavesMax = 2 ∨ cBins = 2 then
    if shell.innerTermUpdate.SetCountSplits 1 ≠ .Error_None then
      { error := shell.innerTermUpdate.SetCountSplits 1, totalGain := none,
        iDimension := iDimension, cSplits := none, aSplits := [], aScores := [], rng := r.rng }
    else
      let root := r.arena 0
      { error := .Error_None, totalGain := some root.AFTER_GetSplitGain, iDimension := iDimension,
        cSplits := some 1, aSplits := [root.m_splitVal],
        aScores := FastScores E (r.arena root.m_pTreeNodeChildren) ++
          FastScores E (r.arena (root.m_pTreeNodeChildren + 1)),
        rng := r.rng }
  else
    let g := GrowTree E rng shell cBins cSamplesLeafMin cLeavesMax
    if shell.innerTermUpdate.SetCountSplits (g.cLeaves - 1) ≠ .Error_None then
      { error := shell.innerTermUpdate.SetCountSplits (g.cLeaves - 1),
        totalGain := some g.totalGain, iDimension := iDimension, cSplits := none,
        aSplits := [], aScores := [], rng := g.rng }
    else if IsMultiplyError E.cScores g.cLeaves then
      { error := .Error_OutOfMemory, totalGain := some g.totalGain, iDimension := iDimension,
        cSplits := some (g.cLeaves - 1), aSplits := [], aScores := [], rng := g.rng }
    else if shell.innerTermUpdate.EnsureTensorScoreCapacity (E.cScores * g.cLeaves) ≠ .Error_None then
      { error := shell.innerTermUpdate.EnsureTensorScoreCapacity (E.cScores * g.cLeaves),
        totalGain := some g.totalGain, iDimension := iDimension,
        cSplits := some (g.cLeaves - 1), aSplits := [], aScores := [], rng := g.rng }
    else
      let out := Flatten E g.arena g.cLeaves 0
      { error := .Error_None, totalGain := some g.totalGain, iDimension := iDimension,
        cSplits := some (g.cLeaves - 1), aSplits := out.1, aScores := out.2, rng := g.rng }

end PartitionOneDimensionalBoostingInternal

/-- The entry point `PartitionOneDimensionalBoosting`: it selects the
instance of `Func` for the kind of model, which `Settings` carries here. -/
def PartitionOneDimensionalBoosting (E : Settings) (rng : RandomDeterministic)
    (shell : BoosterShell) (cBins iDimension cSamplesLeafMin cLeavesMax : Nat) : Outcome :=
  PartitionOneDimensionalBoostingInternal.Func E rng shell cBins iDimension cSamplesLeafMin
    cLeavesMax

/-! ## Bit packs (`compute.hpp`) -/

/-- Modelled from the spec: the constant `k_cBitsForStorageType` of
`bridge_cpp.hpp`, which is not among the sources; the storage type has 64
bits. -/
def k_cBitsForStorageType : Int := 64

/-- Modelled from the spec: the constant `k_cItemsPerBitPackDynamic` of
`bridge_cpp.hpp`, the dynamic value 0. -/
def k_cItemsPerBitPackDynamic : Int := 0

/-- The constant `k_cItemsPerBitPackMax`. -/
def k_cItemsPerBitPackMax : Int := 8

/-- The constant `k_cItemsPerBitPackMin`. -/
def k_cItemsPerBitPackMin : Int := 4

/-- The constant `k_cItemsPerBitPackLast`. -/
def k_cItemsPerBitPackLast : Int :=
  if k_cBitsForStorageType = k_cItemsPerBitPackMax ∧ 1 = k_cItemsPerBitPackMin then 1
  else k_cItemsPerBitPackDynamic

/-- The function `GetNextBitPack`. The division of `ptrdiff_t` truncates
towards zero. The source never calls the function on the dynamic value 0,
where the C++ division by zero is undefined. -/
def GetNextBitPack (cItemsBitPackedPrev : Int) : Int :=
  if k_cItemsPerBitPackMin = cItemsBitPackedPrev then k_cItemsPerBitPackDynamic
  else k_cBitsForStorageType.tdiv ((k_cBitsForStorageType.tdiv cItemsBitPackedPrev) + 1)

/-! ## The loss `MseRegressionLoss` (`MseRegressionLoss.hpp`) -/

/-- Modelled from the spec: the structure `Config` of `Loss.hpp`, which is
not among the sources; the constructor of the loss reads the number of
outputs only. -/
structure Config where
  cOutputs : Nat

/-- Modelled from the spec: exceptions that the constructor of a loss can
throw; their declarations are not among the sources. -/
inductive LossException where
  | ParamValMalformedException
  | ParamValOutOfRangeException
  | ParamMismatchWithConfigException
  deriving DecidableEq

/-- The structure `MseRegressionLoss`, which has no data members. -/
structure MseRegressionLoss where
  deriving DecidableEq

namespace MseRegressionLoss

/-- The constructor `MseRegressionLoss(const Config & config)`, under the
name `Construct` since a constructor has no name of its own: it throws when
the number of outputs is not 1. -/
def Construct (config : Config) : Except LossException MseRegressionLoss :=
  if 1 ≠ config.cOutputs then .error .ParamMismatchWithConfigException
  else .ok {}

/-- The member function `GetFinalMultiplier`. -/
def GetFinalMultiplier (_ : MseRegressionLoss) : FloatBig := .fin 1

end MseRegressionLoss

/-! ## Sample oracle and scenario inputs -/

/-- Modelled from the spec: the constant `k_hessianMin` of `EbmStats`, the
smallest positive normal value of `FloatBig`, which is `2^-1022`; the
exponent is split so that each power is evaluated. -/
def k_hessianMin : FloatBig := .fin (mkRat 1 (2 ^ 255 * 2 ^ 255 * 2 ^ 255 * 2 ^ 255 * 4))

/-- Modelled from the spec: `ebm_stats.hpp` is not among the sources. The
settings of a regression build with the second-order oracle: the partial
gain is `sumGradient / sumHessian * sumGradient` and the update is
`-sumGradient / sumHessian`, both replaced by 0 when the hessian is below
`k_hessianMin`; `k_gainMin` is 0 and the narrowing of a score is exact. -/
def RegressionSettings : Settings :=
  { bClassification := false, bMulticlass := false, cScores := 1, k_bUseLogitboost := false,
    bZeroFirstMulticlassLogit := false, k_gainMin := .fin 0,
    CalcPartialGain := fun g h => if h.lt k_hessianMin then .fin 0 else (g.div h).mul g,
    ComputeSinglePartitionUpdate := fun g h =>
      if h.lt k_hessianMin then .fin 0 else (g.neg).div h,
    SafeConvertFloat := fun x => x }

/-- A regression bin with `c` samples, weight `c` and gradient sum `g`. -/
def RegressionBin (c : Nat) (g : ℚ) : Bin :=
  { m_cSamples := c, m_weight := .fin c, m_aGradientPairs := [⟨.fin g, .fin 0⟩] }

/-- A tree-node slot with all fields zero. -/
def ZeroNode : TreeNode :=
  { m_pBinFirst := 0, m_pBinLast := 0, m_pTreeNodeChildren := 0, m_splitVal := 0,
    m_splitGain := some (.fin 0), m_bin := Bin.Zero 1 }

/-- A random stream whose draws are all 0. -/
def ZeroStream : RandomDeterministic := { seq := fun _ => 0, pos := 0 }

/-- The shell of the scenario with four bins of ten samples and gradient
sums -4, -2, 2, 4; the buffer content is left open and the container has
room for three splits and four scores. -/
def FourBinShell (aTreeNodes : Arena) : BoosterShell :=
  { aBins := [RegressionBin 10 (-4), RegressionBin 10 (-2), RegressionBin 10 2, RegressionBin 10 4],
    sumAllBins := RegressionBin 40 0,
    aTreeNodes := aTreeNodes,
    innerTermUpdate := { cSplitsLimit := 3, cScoresLimit := 4 } }

/-! ## Specification vocabulary -/

/-- The sum of `k` bins from the bin `first` on, accumulated from zero as
the left accumulator of the scan does. -/
def BinSum (E : Settings) (aBins : List Bin) (first : Nat) : Nat → Bin
  | 0 => Bin.Zero E.cScores
  | k + 1 =>
    (BinSum E aBins first k).Add (aBins.getD (first + k) (Bin.Zero E.cScores)) E.cScores

/-- What is known of an entry of the tie list of a node whose first bin is
`first`, once the scan has passed the boundaries below `stop`: it is a
boundary of the node, both sides hold `cSamplesLeafMin` samples, the right
side being the aggregate of the node minus the recorded left one, and the
recorded left aggregate is the sum of the bins from the first bin of the
node to the bin of the boundary. -/
def SweepEntryOk (E : Settings) (aBins : List Bin) (cSamplesLeafMin parentCount first stop : Nat)
    (e : TreeSweep) : Prop :=
  first ≤ e.m_pBestBin ∧ e.m_pBestBin < stop ∧ cSamplesLeafMin ≤ e.m_bestLeftBin.m_cSamples ∧
    cSamplesLeafMin ≤ subSize parentCount e.m_bestLeftBin.m_cSamples ∧
    e.m_bestLeftBin = (BinSum E aBins first (e.m_pBestBin + 1 - first)).Copy E.cScores

/-- The net gain that `FindBestSplitGain` computes for a node: the winning
gain of the scan of the node minus the partial gain of its aggregate. It
depends on the range and on the aggregate of the node only. -/
def NetSplitGain (E : Settings) (aBins : List Bin) (cSamplesLeafMin : Nat) (node : TreeNode) :
    FloatBig :=
  SubtractParentGain E node.m_bin (NodeSweep E aBins cSamplesLeafMin node).BEST_gain

/-- The facts that a split by `FindBestSplitGain` establishes on a node and
its two children: the split value is a bin of the node other than the last,
the left child covers the bins up to the split value and the right child the
bins after it, both children hold at least `cSamplesLeafMin` samples, the
aggregate of the right child is that of the node minus that of the left
child, the aggregate of the left child is the sum of its bins, and the
winning gain of the scan of the node is not above the largest finite value. -/
def BranchOk (E : Settings) (aBins : List Bin) (cSamplesLeafMin : Nat) (arena : Arena)
    (i : Nat) : Prop :=
  (arena i).m_pBinFirst ≤ (arena i).m_splitVal ∧
  (arena i).m_splitVal < (arena i).m_pBinLast ∧
  (arena (arena i).m_pTreeNodeChildren).m_pBinFirst = (arena i).m_pBinFirst ∧
  (arena (arena i).m_pTreeNodeChildren).m_pBinLast = (arena i).m_splitVal ∧
  (arena ((arena i).m_pTreeNodeChildren + 1)).m_pBinFirst = (arena i).m_splitVal + 1 ∧
  (arena ((arena i).m_pTreeNodeChildren + 1)).m_pBinLast = (arena i).m_pBinLast ∧
  cSamplesLeafMin ≤ (arena (arena i).m_pTreeNodeChildren).m_bin.m_cSamples ∧
  cSamplesLeafMin ≤ (arena ((arena i).m_pTreeNodeChildren + 1)).m_bin.m_cSamples ∧
  (arena ((arena i).m_pTreeNodeChildren + 1)).m_bin =
    ((arena i).m_bin.Copy E.cScores).Subtract
      (arena (arena i).m_pTreeNodeChildren).m_bin E.cScores ∧
  (arena (arena i).m_pTreeNodeChildren).m_bin =
    (BinSum E aBins (arena i).m_pBinFirst
      ((arena i).m_splitVal + 1 - (arena i).m_pBinFirst)).Copy E.cScores ∧
  (NodeSweep E aBins cSamplesLeafMin (arena i)).BEST_gain.leMax = true

/-- The shape of a tree in the buffer, by slot: a leaf, a node that
`FindBestSplitGain` has split and that waits in the priority queue (its
children, in slots `ch` and `ch + 1`, are not examined yet), or a node that
is formally split. -/
inductive Shape where
  | leaf (i : Nat)
  | pend (i ch : Nat)
  | split (i : Nat) (l r : Shape)

namespace Shape

/-- The slot of the root of a shape. -/
def root : Shape → Nat
  | leaf i => i
  | pend i _ => i
  | split i _ _ => i

/-- All the slots of a shape, the children of waiting nodes included. -/
def cells : Shape → List Nat
  | leaf i => [i]
  | pend i ch => [i, ch, ch + 1]
  | split i l r => i :: (l.cells ++ r.cells)

/-- The slots of the waiting nodes. -/
def pends : Shape → List Nat
  | leaf _ => []
  | pend i _ => [i]
  | split _ l r => l.pends ++ r.pends

/-- The slots of the formally split nodes, in the order of the in-order walk. -/
def branches : Shape → List Nat
  | leaf _ => []
  | pend _ _ => []
  | split i l r => l.branches ++ i :: r.branches

/-- The slots that the in-order walk treats as leaves, in order: the leaves
and the waiting nodes. -/
def leaves : Shape → List Nat
  | leaf i => [i]
  | pend i _ => [i]
  | split _ l r => l.leaves ++ r.leaves

/-- The number of nodes on the longest path of the in-order walk. -/
def height : Shape → Nat
  | leaf _ => 1
  | pend _ _ => 1
  | split _ l r => max l.height r.height + 1

/-- The shape after the waiting node in slot `p` is formally split, with
`L` and `R` the shapes of its children. -/
def expand (p : Nat) (L R : Shape) : Shape → Shape
  | leaf i => leaf i
  | pend i ch => if i = p then split i L R else pend i ch
  | split i l r => split i (expand p L R l) (expand p L R r)

/-- The buffer holds the shape: a leaf is not formally split; a waiting node
carries its net gain and the facts of its split; a formally split node
carries the reserved gain, the facts of its split, and its children hold
their shapes. -/
def Ok (E : Settings) (aBins : List Bin) (cSamplesLeafMin : Nat) (arena : Arena) : Shape → Prop
  | leaf i => (arena i).m_splitGain.isSome = true
  | pend i ch =>
    (arena i).m_splitGain = some (NetSplitGain E aBins cSamplesLeafMin (arena i)) ∧
    E.k_gainMin.le (NetSplitGain E aBins cSamplesLeafMin (arena i)) = true ∧
    (arena i).m_pTreeNodeChildren = ch ∧ BranchOk E aBins cSamplesLeafMin arena i
  | split i l r =>
    (arena i).m_splitGain = none ∧
    E.k_gainMin.le (NetSplitGain E aBins cSamplesLeafMin (arena i)) = true ∧
    (arena i).m_pTreeNodeChildren = l.root ∧ r.root = l.root + 1 ∧
    BranchOk E aBins cSamplesLeafMin arena i ∧
    Ok E aBins cSamplesLeafMin arena l ∧ Ok E aBins cSamplesLeafMin arena r

end Shape

/-- The slots of the formally split nodes that `Flatten` walks through, in
the order in which it stores their split values. -/
def FlattenBranches (arena : Arena) : Nat → Nat → List Nat
  | 0, _ => []
  | fuel + 1, iNode =>
    if (arena iNode).AFTER_IsSplit then
      FlattenBranches arena fuel (arena iNode).m_pTreeNodeChildren ++
        iNode :: FlattenBranches arena fuel ((arena iNode).m_pTreeNodeChildren + 1)
    else []

/-- The slots of the leaves that `Flatten` computes scores for, in order. -/
def FlattenLeaves (arena : Arena) : Nat → Nat → List Nat
  | 0, _ => []
  | fuel + 1, iNode =>
    if (arena iNode).AFTER_IsSplit then
      FlattenLeaves arena fuel (arena iNode).m_pTreeNodeChildren ++
        FlattenLeaves arena fuel ((arena iNode).m_pTreeNodeChildren + 1)
    else [iNode]

/-- Two nodes with the same bin range and the same aggregate. -/
def SameData (n n' : TreeNode) : Prop :=
  n'.m_pBinFirst = n.m_pBinFirst ∧ n'.m_pBinLast = n.m_pBinLast ∧ n'.m_bin = n.m_bin

/-- The invariant of the growth loop. `root` is the root node as the driver
set it up. `P` lists the nodes that wait for their formal split: the queue,
and in front of it the node about to be split when the body is entered.
`commits` lists the formally split nodes in the order of their splits. -/
def GrowInv (E : Settings) (aBins : List Bin) (cSamplesLeafMin : Nat) (root : TreeNode)
    (g : Growth) (P : List Nat) : Prop :=
  ∃ (T : Shape) (commits : List Nat),
    SameData root (g.arena 0) ∧
    T.root = 0 ∧ T.Ok E aBins cSamplesLeafMin g.arena ∧ T.cells.Nodup ∧
    (∀ k ∈ T.cells, k < g.iStorageCur) ∧ P.Nodup ∧ (∀ q ∈ P, q ∈ T.pends) ∧
    T.leaves.length = g.cLeaves ∧ commits.Perm T.branches ∧
    g.totalGain = commits.foldl
      (fun t i => t.add (NetSplitGain E aBins cSamplesLeafMin (g.arena i))) (.fin 0)

/-- The variables of the loop after the first two statements of the body:
the gain of the parent is added to the total and the parent is formally
split. -/
def FormalSplit (g : Growth) (iParent : Nat) : Growth :=
  { g with arena := g.arena.set iParent (g.arena iParent).AFTER_SplitNode,
           totalGain := g.totalGain.add (g.arena iParent).AFTER_GetSplitGain }

/-- The number of leaves of the tree that a call produces: one when the
root is not split, two on the fast path, and the final value of the variable
`cLeaves` on the general path. -/
def LeafCount (E : Settings) (rng : RandomDeterministic) (shell : BoosterShell)
    (cBins cSamplesLeafMin cLeavesMax : Nat) : Nat :=
  if (RootFind E rng shell cBins cSamplesLeafMin).ret ≠ 0 then 1
  else if cLeavesMax = 2 ∨ cBins = 2 then 2
  else (GrowTree E rng shell cBins cSamplesLeafMin cLeavesMax).cLeaves

/-- The buffer as a call leaves it: after the growth loop on the general
path, after the call of `FindBestSplitGain` on the root otherwise. -/
def FinalArena (E : Settings) (rng : RandomDeterministic) (shell : BoosterShell)
    (cBins cSamplesLeafMin cLeavesMax : Nat) : Arena :=
  if (RootFind E rng shell cBins cSamplesLeafMin).ret ≠ 0 then
    (RootFind E rng shell cBins cSamplesLeafMin).arena
  else if cLeavesMax = 2 ∨ cBins = 2 then (RootFind E rng shell cBins cSamplesLeafMin).arena
  else (GrowTree E rng shell cBins cSamplesLeafMin cLeavesMax).arena

/-- The slots of the branches that a call commits, in the order of their
split values in the output: none when the root is not split, the root alone
on the fast path, and on the general path the formally split nodes (the root
and the nodes taken from the queue) as `Flatten` walks through them. -/
def CommittedBranches (E : Settings) (rng : RandomDeterministic) (shell : BoosterShell)
    (cBins cSamplesLeafMin cLeavesMax : Nat) : List Nat :=
  if (RootFind E rng shell cBins cSamplesLeafMin).ret ≠ 0 then []
  else if cLeavesMax = 2 ∨ cBins = 2 then [0]
  else FlattenBranches (GrowTree E rng shell cBins cSamplesLeafMin cLeavesMax).arena
    (GrowTree E rng shell cBins cSamplesLeafMin cLeavesMax).cLeaves 0

/-- All the gradient sums of a bin are zero, and its weight and its hessian
sums are finite. -/
def ZeroGrad (E : Settings) (b : Bin) : Prop :=
  (∃ w : ℚ, b.m_weight = .fin w) ∧
  ∀ iScore < E.cScores, (b.pair iScore).m_sumGradients = .fin 0 ∧
    ∃ h : ℚ, (b.pair iScore).m_sumHessians = .fin h

/-- The shell of a scenario with two bins of ten samples whose gradient
sums are zero. -/
def ZeroGradShell : BoosterShell :=
  { aBins := [RegressionBin 10 0, RegressionBin 10 0],
    sumAllBins := RegressionBin 20 0,
    aTreeNodes := fun _ => ZeroNode,
    innerTermUpdate := { cSplitsLimit := 3, cScoresLimit := 4 } }

/-- The total sample count of the first `k` bins, as a number and not as a
`size_t`. -/
def CountSum (E : Settings) (aBins : List Bin) : Nat → Nat
  | 0 => 0
  | k + 1 => CountSum E aBins k + (aBins.getD k (Bin.Zero E.cScores)).m_cSamples

/-- The shell of a scenario with two bins of ten samples where the gradient
sum of the first bin, and so that of the sum of all bins, is +infinity. -/
def OverflowShell : BoosterShell :=
  { aBins := [{ m_cSamples := 10, m_weight := .fin 10, m_aGradientPairs := [⟨.pinf, .fin 0⟩] },
      RegressionBin 10 0],
    sumAllBins := { m_cSamples := 20, m_weight := .fin 20, m_aGradientPairs := [⟨.pinf, .fin 0⟩] },
    aTreeNodes := fun _ => ZeroNode,
    innerTermUpdate := { cSplitsLimit := 3, cScoresLimit := 4 } }

/-- The shell of the four-bin scenario with a container that has room for
one split and two scores only. -/
def TightShell : BoosterShell :=
  { aBins := [RegressionBin 10 (-4), RegressionBin 10 (-2), RegressionBin 10 2, RegressionBin 10 4],
    sumAllBins := RegressionBin 40 0,
    aTreeNodes := fun _ => ZeroNode,
    innerTermUpdate := { cSplitsLimit := 1, cScoresLimit := 2 } }

/-- The number of slots of the tree-node buffer that a call takes: the root
and two child slots for every call of `FindBestSplitGain` that returns 0.
On the general path this is the final value of the cursor
`pTreeNodeChildrenAvailableStorageSpaceCur`, counted in slots from the root;
the fast path takes the root and its two children, and an unsplit root is
alone. -/
def SlotsUsed (E : Settings) (rng : RandomDeterministic) (shell : BoosterShell)
    (cBins cSamplesLeafMin cLeavesMax : Nat) : Nat :=
  if (RootFind E rng shell cBins cSamplesLeafMin).ret ≠ 0 then 1
  else if cLeavesMax = 2 ∨ cBins = 2 then 3
  else (GrowTree E rng shell cBins cSamplesLeafMin cLeavesMax).iStorageCur

/-- The number of nodes that `FindBestSplitGain` has split and that are
still in the priority queue when the call ends. -/
def PendingCount (E : Settings) (rng : RandomDeterministic) (shell : BoosterShell)
    (cBins cSamplesLeafMin cLeavesMax : Nat) : Nat :=
  if (RootFind E rng shell cBins cSamplesLeafMin).ret ≠ 0 then 0
  else if cLeavesMax = 2 ∨ cBins = 2 then 0
  else (GrowTree E rng shell cBins cSamplesLeafMin cLeavesMax).bestTreeNodeToSplit.length

/-- The variables of the general path when the loop is entered: the root
was split by `FindBestSplitGain`, the cursor is behind its two children. -/
def GrowStart (E : Settings) (rng : RandomDeterministic) (shell : BoosterShell)
    (cBins cSamplesLeafMin : Nat) : Growth :=
  { arena := (RootFind E rng shell cBins cSamplesLeafMin).arena,
    rng := (RootFind E rng shell cBins cSamplesLeafMin).rng, iStorageCur := 3,
    bestTreeNodeToSplit := [], cLeaves := 1, totalGain := .fin 0 }

/-- The variables of the loop after the child in slot `x` has been scanned
without a split and rejected: the buffer holds the scratch content that the
scan leaves in the two slots at the cursor, and the child is marked by
`AFTER_RejectSplit`; the other variables are unchanged. -/
def RejectChild (E : Settings) (aBins : List Bin) (cSamplesLeafMin : Nat) (g : Growth)
    (x : Nat) : Growth :=
  { g with
    arena := Arena.set
      (ScratchChildren g.arena x g.iStorageCur (NodeSweep E aBins cSamplesLeafMin (g.arena x)))
      x (g.arena x).AFTER_RejectSplit }

/-- Two random streams give the same draws from now on. -/
def RandomDeterministic.Agree (r r' : RandomDeterministic) : Prop :=
  ∀ k, r.seq (r.pos + k) = r'.seq (r'.pos + k)

/-- Two states of the loop with the same variables and random streams that
give the same draws. -/
def Growth.Agree (g g' : Growth) : Prop :=
  g.arena = g'.arena ∧ g.rng.Agree g'.rng ∧ g.iStorageCur = g'.iStorageCur ∧
    g.bestTreeNodeToSplit = g'.bestTreeNodeToSplit ∧ g.cLeaves = g'.cLeaves ∧
    g.totalGain = g'.totalGain

/-- A random stream whose draws are all `j`. -/
def ConstStream (j : Nat) : RandomDeterministic := { seq := fun _ => j, pos := 0 }

/-- The shell of a scenario with three bins of ten samples whose gradient
sums are zero: the two boundaries have the same gain. -/
def TieShell : BoosterShell :=
  { aBins := [RegressionBin 10 0, RegressionBin 10 0, RegressionBin 10 0],
    sumAllBins := RegressionBin 30 0,
    aTreeNodes := fun _ => ZeroNode,
    innerTermUpdate := { cSplitsLimit := 3, cScoresLimit := 4 } }

/-- The shell of a scenario with four bins of ten samples and gradient sums
-2, -3, 1, 4: the root is split after the bin 1, and the net gain of its
right child, 9/20, is above that of its left child, 1/20. -/
def SkewShell : BoosterShell :=
  { aBins := [RegressionBin 10 (-2), RegressionBin 10 (-3), RegressionBin 10 1, RegressionBin 10 4],
    sumAllBins := RegressionBin 40 0,
    aTreeNodes := fun _ => ZeroNode,
    innerTermUpdate := { cSplitsLimit := 3, cScoresLimit := 4 } }

/-- The pops of the growth loop: for every round after the first, the
variables of the loop when `top()` is taken and the node that it returns, in
the order of the rounds. The recursion is that of `GrowLoop`. -/
def GrowPops (E : Settings) (aBins : List Bin) (cSamplesLeafMin cLeavesMax : Nat) :
    Nat → Growth → Nat → List (Growth × Nat)
  | fuel, g, iParent =>
    let g1 := SplitParent E aBins cSamplesLeafMin g iParent
    if g1.cLeaves < cLeavesMax then
      match QueueTop g1.arena g1.bestTreeNodeToSplit with
      | none => []
      | some iTop =>
        match fuel with
        | 0 => []
        | fuel + 1 =>
          (g1, iTop) :: GrowPops E aBins cSamplesLeafMin cLeavesMax fuel
            { g1 with bestTreeNodeToSplit := g1.bestTreeNodeToSplit.erase iTop } iTop
    else []

/-- The hessian sum that the partial gain of the score `iScore` of a bin is
computed with (the variables `sumHessiansLeft`, `sumHessiansRight` and
`sumHessiansOverwrite` of the source): the hessian sum of the score for a
classification with `k_bUseLogitboost`, the weight of the bin otherwise. -/
def GainHessian (E : Settings) (b : Bin) (iScore : Nat) : FloatBig :=
  if E.bClassification && E.k_bUseLogitboost then (b.pair iScore).m_sumHessians else b.m_weight

/-- The shell of a scenario with three bins of ten samples where the
gradient sum of the first bin, and so that of the sum of all bins, is
+infinity, and where the samples of the last bin have the weight zero. -/
def NanGainShell : BoosterShell :=
  { aBins := [{ m_cSamples := 10, m_weight := .fin 10, m_aGradientPairs := [⟨.pinf, .fin 0⟩] },
      RegressionBin 10 0,
      { m_cSamples := 10, m_weight := .fin 0, m_aGradientPairs := [⟨.fin 0, .fin 0⟩] }],
    sumAllBins := { m_cSamples := 30, m_weight := .fin 20, m_aGradientPairs := [⟨.pinf, .fin 0⟩] },
    aTreeNodes := fun _ => ZeroNode,
    innerTermUpdate := { cSplitsLimit := 3, cScoresLimit := 4 } }

/-- The shell of a scenario with three bins of ten samples where the
gradient sum of the first bin, and so that of the sum of all bins, is
+infinity; the samples of the first bin have the weight zero and the other
two bins have the weight `3 * 2^-1024` each, which is below `k_hessianMin`,
while the weight `3 * 2^-1023` of all bins is above it. -/
def TinyWeightShell : BoosterShell :=
  { aBins := [{ m_cSamples := 10, m_weight := .fin 0, m_aGradientPairs := [⟨.pinf, .fin 0⟩] },
      { m_cSamples := 10, m_weight := .fin (mkRat 3 (2 ^ 255 * 2 ^ 255 * 2 ^ 255 * 2 ^ 255 * 16)),
        m_aGradientPairs := [⟨.fin 0, .fin 0⟩] },
      { m_cSamples := 10, m_weight := .fin (mkRat 3 (2 ^ 255 * 2 ^ 255 * 2 ^ 255 * 2 ^ 255 * 16)),
        m_aGradientPairs := [⟨.fin 0, .fin 0⟩] }],
    sumAllBins :=
      { m_cSamples := 30, m_weight := .fin (mkRat 3 (2 ^ 255 * 2 ^ 255 * 2 ^ 255 * 2 ^ 255 * 8)),
        m_aGradientPairs := [⟨.pinf, .fin 0⟩] },
    aTreeNodes := fun _ => ZeroNode,
    innerTermUpdate := { cSplitsLimit := 3, cScoresLimit := 4 } }

/-! ## The range of the double -/

/-- The magnitude from which on the exact result of a double operation is
rounded to an infinity: `2^1024 - 2^970`, half a unit in the last place
above the largest finite double `2^1024 - 2^971`. -/
def k_floatOverflow : ℚ :=
  mkRat ((2 ^ 54 - 1) * (2 ^ 255 * 2 ^ 255 * 2 ^ 255 * 2 ^ 205)) 1

/-- The result of a double operation whose exact value is `x`, as far as
the range goes: a value of magnitude `2^1024 - 2^970` or more is an
infinity. The rounding of the values within the range is not modelled. -/
def FloatBig.overflow : FloatBig → FloatBig
  | .fin q => if k_floatOverflow ≤ q then .pinf else if q ≤ -k_floatOverflow then .ninf else .fin q
  | x => x

/-- Modelled from the spec: the settings of `RegressionSettings` with the
range of the double: the quotient and the product of the partial gain and
the quotient of the update are infinite when their exact value is beyond
the range. -/
def DoubleRangeSettings : Settings :=
  { bClassification := false, bMulticlass := false, cScores := 1, k_bUseLogitboost := false,
    bZeroFirstMulticlassLogit := false, k_gainMin := .fin 0,
    CalcPartialGain := fun g h =>
      if h.lt k_hessianMin then .fin 0 else (((g.div h).overflow).mul g).overflow,
    ComputeSinglePartitionUpdate := fun g h =>
      if h.lt k_hessianMin then .fin 0 else ((g.neg).div h).overflow,
    SafeConvertFloat := fun x => x }

/-- The shell of a scenario with four bins of 1, 1, 3 and 2 samples of
weight one and the gradient sums 0, `2^512`, `-3 * 2^511` and `2^511`. -/
def HugeGradientShell : BoosterShell :=
  { aBins := [RegressionBin 1 0, RegressionBin 1 (mkRat (2 ^ 255 * 2 ^ 255 * 4) 1),
      RegressionBin 3 (mkRat (-3 * (2 ^ 255 * 2 ^ 255 * 2)) 1),
      RegressionBin 2 (mkRat (2 ^ 255 * 2 ^ 255 * 2) 1)],
    sumAllBins := RegressionBin 7 0,
    aTreeNodes := fun _ => ZeroNode,
    innerTermUpdate := { cSplitsLimit := 3, cScoresLimit := 4 } }

/-! ## The scan, boundary by boundary -/

/-- The right accumulator of the scan of a node after `k` bins have moved to
the left: the copy of the aggregate of the node minus these bins, one after
the other. -/
def RightAcc (E : Settings) (aBins : List Bin) (node : TreeNode) : Nat → Bin
  | 0 => node.m_bin.Copy E.cScores
  | k + 1 =>
    (RightAcc E aBins node k).Subtract
      (aBins.getD (node.m_pBinFirst + k) (Bin.Zero E.cScores)) E.cScores

/-- The gain of the boundary number `k` of a node, behind its bin
`m_pBinFirst + k`: that of the two accumulators once this bin has moved. -/
def BoundaryGain (E : Settings) (aBins : List Bin) (node : TreeNode) (k : Nat) : FloatBig :=
  CalcSplitGain E (BinSum E aBins node.m_pBinFirst (k + 1)) (RightAcc E aBins node (k + 1))

/-- The boundary number `k` of a node is eligible: both accumulators hold
`cSamplesLeafMin` samples. -/
def Eligible (E : Settings) (aBins : List Bin) (cSamplesLeafMin : Nat) (node : TreeNode)
    (k : Nat) : Bool :=
  decide (cSamplesLeafMin ≤ (BinSum E aBins node.m_pBinFirst (k + 1)).m_cSamples) &&
    decide (cSamplesLeafMin ≤ (RightAcc E aBins node (k + 1)).m_cSamples)

/-- The scan reaches the gain computation of the boundary number `k`: the
right accumulator holds `cSamplesLeafMin` samples at this boundary and at
every boundary before it (the scan stops at the first boundary where it does
not). -/
def Reached (E : Settings) (aBins : List Bin) (cSamplesLeafMin : Nat) (node : TreeNode) :
    Nat → Bool
  | 0 => decide (cSamplesLeafMin ≤ (RightAcc E aBins node 1).m_cSamples)
  | k + 1 =>
    Reached E aBins cSamplesLeafMin node k &&
      decide (cSamplesLeafMin ≤ (RightAcc E aBins node (k + 2)).m_cSamples)

/-- The scan computes the gain of the boundary number `k`: it reaches the
boundary and the left accumulator holds `cSamplesLeafMin` samples. -/
def Visited (E : Settings) (aBins : List Bin) (cSamplesLeafMin : Nat) (node : TreeNode)
    (k : Nat) : Bool :=
  Reached E aBins cSamplesLeafMin node k &&
    decide (cSamplesLeafMin ≤ (BinSum E aBins node.m_pBinFirst (k + 1)).m_cSamples)

/-- The entry of the tie list for the boundary number `k` of a node: the bin
of the boundary and the copy of the left accumulator at that boundary. -/
def TieEntry (E : Settings) (aBins : List Bin) (node : TreeNode) (k : Nat) : TreeSweep :=
  { m_pBestBin := node.m_pBinFirst + k,
    m_bestLeftBin := (BinSum E aBins node.m_pBinFirst (k + 1)).Copy E.cScores }

/-- The state of the scan after the first `c` boundaries: the tie list holds
the boundaries whose gain was computed and is equal to the best gain, in
ascending order; no computed gain is above the best gain, which is not below
`k_gainMin` and is `k_gainMin` or one of the computed gains. -/
def ScanInv (E : Settings) (aBins : List Bin) (cSamplesLeafMin : Nat) (node : TreeNode)
    (c : Nat) (s : Sweep) : Prop :=
  s.aTreeSweep =
    ((List.range c).filter fun i =>
      Visited E aBins cSamplesLeafMin node i &&
        (BoundaryGain E aBins node i).eq s.BEST_gain).map (TieEntry E aBins node) ∧
  (∀ i < c, Visited E aBins cSamplesLeafMin node i = true →
    (BoundaryGain E aBins node i).le s.BEST_gain = true) ∧
  E.k_gainMin.le s.BEST_gain = true ∧
  (s.BEST_gain = E.k_gainMin ∨
    ∃ i < c, Visited E aBins cSamplesLeafMin node i = true ∧
      s.BEST_gain = BoundaryGain E aBins node i)

/-- The total sample count of `k` bins from the bin `first` on, as a number
and not as a `size_t`. -/
def RangeCount (E : Settings) (aBins : List Bin) (first : Nat) : Nat → Nat
  | 0 => 0
  | k + 1 => RangeCount E aBins first k + (aBins.getD (first + k) (Bin.Zero E.cScores)).m_cSamples

/-- The tie list as the scan is specified: the eligible boundaries of the
node whose gain is not below `k_gainMin` and not below the gain of any
eligible boundary, in ascending order, each with the left accumulator at
the boundary. -/
def TieListSpec (E : Settings) (aBins : List Bin) (cSamplesLeafMin : Nat) (node : TreeNode) :
    List TreeSweep :=
  ((List.range (node.m_pBinLast - node.m_pBinFirst)).filter fun k =>
    Eligible E aBins cSamplesLeafMin node k &&
      (E.k_gainMin.le (BoundaryGain E aBins node k) &&
        (List.range (node.m_pBinLast - node.m_pBinFirst)).all fun j =>
          !Eligible E aBins cSamplesLeafMin node j ||
            (BoundaryGain E aBins node j).le (BoundaryGain E aBins node k))).map
    (TieEntry E aBins node)

/-! ## Leaves and their bins -/

/-- The weight of a bin and the gradient and hessian sums of its scores are
finite. -/
def FinBin (E : Settings) (b : Bin) : Prop :=
  (∃ w : ℚ, b.m_weight = .fin w) ∧
  ∀ iScore < E.cScores, (∃ g : ℚ, (b.pair iScore).m_sumGradients = .fin g) ∧
    ∃ h : ℚ, (b.pair iScore).m_sumHessians = .fin h

/-- The range of a node is not empty and its aggregate is the sum of the
bins of its range. -/
def NodeSum (E : Settings) (aBins : List Bin) (node : TreeNode) : Prop :=
  node.m_pBinFirst ≤ node.m_pBinLast ∧
  node.m_bin = BinSum E aBins node.m_pBinFirst (node.m_pBinLast + 1 - node.m_pBinFirst)

/-- The slots of the leaves whose scores a call writes, in the order of the
scores: the root when it is not split, its two children on the fast path,
and on the general path the leaves as `Flatten` walks through them. -/
def OutputLeaves (E : Settings) (rng : RandomDeterministic) (shell : BoosterShell)
    (cBins cSamplesLeafMin cLeavesMax : Nat) : List Nat :=
  if (RootFind E rng shell cBins cSamplesLeafMin).ret ≠ 0 then [0]
  else if cLeavesMax = 2 ∨ cBins = 2 then
    [((RootFind E rng shell cBins cSamplesLeafMin).arena 0).m_pTreeNodeChildren,
     ((RootFind E rng shell cBins cSamplesLeafMin).arena 0).m_pTreeNodeChildren + 1]
  else FlattenLeaves (GrowTree E rng shell cBins cSamplesLeafMin cLeavesMax).arena
    (GrowTree E rng shell cBins cSamplesLeafMin cLeavesMax).cLeaves 0

/-- The score vector that a call computes for a leaf with the aggregate
`b`, by the code of the path that the call takes: that of the unsplit root,
that of the fast path, or that of `Flatten`. -/
def LeafScores (E : Settings) (rng : RandomDeterministic) (shell : BoosterShell)
    (cBins cSamplesLeafMin cLeavesMax : Nat) (b : Bin) : List FloatBig :=
  if (RootFind E rng shell cBins cSamplesLeafMin).ret ≠ 0 then
    RootScores E { ZeroNode with m_bin := b }
  else if cLeavesMax = 2 ∨ cBins = 2 then FastScores E { ZeroNode with m_bin := b }
  else FlattenLeaf E { ZeroNode with m_bin := b }

/-! ## The scan without the early exit -/

/-- The scan as it is specified, without the early exit: every boundary of
the node is examined, and the boundary is passed over when the right
accumulator holds fewer than `cSamplesLeafMin` samples, where the scan of
the source stops. The first argument is the number of boundaries still to
visit. -/
def SweepLoopAll (E : Settings) (aBins : List Bin) (cSamplesLeafMin : Nat) :
    Nat → Nat → Sweep → Sweep
  | 0, _, s => s
  | k + 1, iBinCur, s =>
    let bin := aBins.getD iBinCur (Bin.Zero E.cScores)
    let right := s.right.Subtract bin E.cScores
    let left := s.left.Add bin E.cScores
    SweepLoopAll E aBins cSamplesLeafMin k (iBinCur + 1)
      (if right.m_cSamples < cSamplesLeafMin then { s with left := left, right := right }
       else SweepRecord E cSamplesLeafMin iBinCur left right s)

/-- The scan without the early exit on a node, started as `NodeSweep` on
the range and the aggregate of the node. -/
def NodeSweepAll (E : Settings) (aBins : List Bin) (cSamplesLeafMin : Nat) (node : TreeNode) :
    Sweep :=
  SweepLoopAll E aBins cSamplesLeafMin (node.m_pBinLast - node.m_pBinFirst) node.m_pBinFirst
    (SweepInit E node.m_bin)

/-! ## The general path taken alone -/

/-- The general path of `Func`, from the loop to the end (the code behind
the block of the fast path), as it runs when the test for the fast path is
left out: the growth of the tree from the split root, the sizing of the
container, and `Flatten`. It is the last branch of `Func`, word for word. -/
def GeneralPath (E : Settings) (rng : RandomDeterministic) (shell : BoosterShell)
    (cBins iDimension cSamplesLeafMin cLeavesMax : Nat) : Outcome :=
  let g := GrowTree E rng shell cBins cSamplesLeafMin cLeavesMax
  if shell.innerTermUpdate.SetCountSplits (g.cLeaves - 1) ≠ .Error_None then
    { error := shell.innerTermUpdate.SetCountSplits (g.cLeaves - 1),
      totalGain := some g.totalGain, iDimension := iDimension, cSplits := none,
      aSplits := [], aScores := [], rng := g.rng }
  else if IsMultiplyError E.cScores g.cLeaves then
    { error := .Error_OutOfMemory, totalGain := some g.totalGain, iDimension := iDimension,
      cSplits := some (g.cLeaves - 1), aSplits := [], aScores := [], rng := g.rng }
  else if shell.innerTermUpdate.EnsureTensorScoreCapacity (E.cScores * g.cLeaves) ≠ .Error_None then
    { error := shell.innerTermUpdate.EnsureTensorScoreCapacity (E.cScores * g.cLeaves),
      totalGain := some g.totalGain, iDimension := iDimension,
      cSplits := some (g.cLeaves - 1), aSplits := [], aScores := [], rng := g.rng }
  else
    let out := Flatten E g.arena g.cLeaves 0
    { error := .Error_None, totalGain := some g.totalGain, iDimension := iDimension,
      cSplits := some (g.cLeaves - 1), aSplits := out.1, aScores := out.2, rng := g.rng }

/-! ## The zero-first-logit normalisation -/

/-- The settings of the same build with `ZERO_FIRST_MULTICLASS_LOGIT`
defined (`true`) or not (`false`). -/
def WithZeroFirst (E : Settings) (b : Bool) : Settings :=
  { E with bZeroFirstMulticlassLogit := b }

/-- The raw update of the score `iScore` of a classification leaf: the
value of `ComputeSinglePartitionUpdate` on the gradient sum and the hessian
sum of the score. -/
def RawUpdate (E : Settings) (node : TreeNode) (iScore : Nat) : FloatBig :=
  E.ComputeSinglePartitionUpdate (node.m_bin.pair iScore).m_sumGradients
    (node.m_bin.pair iScore).m_sumHessians

/-- Modelled from the spec: the settings of a multiclass build with three
scores and `ZERO_FIRST_MULTICLASS_LOGIT`, with the oracle of
`RegressionSettings` (the hessian sums take the place of the weight in the
update). -/
def MulticlassSettings : Settings :=
  { bClassification := true, bMulticlass := true, cScores := 3, k_bUseLogitboost := false,
    bZeroFirstMulticlassLogit := true, k_gainMin := .fin 0,
    CalcPartialGain := fun g h => if h.lt k_hessianMin then .fin 0 else (g.div h).mul g,
    ComputeSinglePartitionUpdate := fun g h =>
      if h.lt k_hessianMin then .fin 0 else (g.neg).div h,
    SafeConvertFloat := fun x => x }

/-- The shell of a multiclass scenario with two bins of ten samples where
the gradient sum of the first score has overflowed to +infinity in the
first bin, and so in the sum of all bins. -/
def OverflowLogitShell : BoosterShell :=
  { aBins := [
      { m_cSamples := 10, m_weight := .fin 10,
        m_aGradientPairs := [⟨.pinf, .fin 5⟩, ⟨.fin 1, .fin 5⟩, ⟨.fin (-1), .fin 5⟩] },
      { m_cSamples := 10, m_weight := .fin 10,
        m_aGradientPairs := [⟨.fin 1, .fin 5⟩, ⟨.fin 1, .fin 5⟩, ⟨.fin (-2), .fin 5⟩] }],
    sumAllBins :=
      { m_cSamples := 20, m_weight := .fin 20,
        m_aGradientPairs := [⟨.pinf, .fin 10⟩, ⟨.fin 2, .fin 10⟩, ⟨.fin (-3), .fin 10⟩] },
    aTreeNodes := fun _ => ZeroNode,
    innerTermUpdate := { cSplitsLimit := 3, cScoresLimit := 12 } }

/-- The shell of a multiclass scenario with two bins of ten samples and
finite sums. -/
def MulticlassShell : BoosterShell :=
  { aBins := [
      { m_cSamples := 10, m_weight := .fin 10,
        m_aGradientPairs := [⟨.fin 4, .fin 5⟩, ⟨.fin 1, .fin 5⟩, ⟨.fin (-5), .fin 5⟩] },
      { m_cSamples := 10, m_weight := .fin 10,
        m_aGradientPairs := [⟨.fin (-4), .fin 5⟩, ⟨.fin 1, .fin 5⟩, ⟨.fin 3, .fin 5⟩] }],
    sumAllBins :=
      { m_cSamples := 20, m_weight := .fin 20,
        m_aGradientPairs := [⟨.fin 0, .fin 10⟩, ⟨.fin 2, .fin 10⟩, ⟨.fin (-2), .fin 10⟩] },
    aTreeNodes := fun _ => ZeroNode,
    innerTermUpdate := { cSplitsLimit := 3, cScoresLimit := 12 } }

/-! ## The slots that the evaluations use -/

/-- The cursor at the calls of `FindBestSplitGain` that one round of the
loop makes, in the order of the calls: the cursor when the left child is
evaluated, if it is splittable, and the cursor when the right child is
evaluated, if it is splittable. Each call uses the slot at the cursor and
the next one for its accumulators and, when it splits, for the children.
The states are those of `SplitParent`. -/
def SplitParentEvals (E : Settings) (aBins : List Bin) (cSamplesLeafMin : Nat)
    (g : Growth) (iParent : Nat) : List Nat :=
  let totalGain := g.totalGain.add (g.arena iParent).AFTER_GetSplitGain
  let arena := g.arena.set iParent (g.arena iParent).AFTER_SplitNode
  let g0 : Growth := { g with arena := arena, totalGain := totalGain }
  let g1 := ExamineChild E aBins cSamplesLeafMin g0 (arena iParent).m_pTreeNodeChildren
  (if (g0.arena (arena iParent).m_pTreeNodeChildren).BEFORE_IsSplittable then [g0.iStorageCur]
   else []) ++
  (if (g1.arena ((g1.arena iParent).m_pTreeNodeChildren + 1)).BEFORE_IsSplittable then
    [g1.iStorageCur]
   else [])

/-- The cursor at every call of `FindBestSplitGain` that the loop makes, in
the order of the calls. The recursion is that of `GrowLoop`. -/
def GrowEvals (E : Settings) (aBins : List Bin) (cSamplesLeafMin cLeavesMax : Nat) :
    Nat → Growth → Nat → List Nat
  | fuel, g, iParent =>
    let g1 := SplitParent E aBins cSamplesLeafMin g iParent
    SplitParentEvals E aBins cSamplesLeafMin g iParent ++
      (if g1.cLeaves < cLeavesMax then
        match QueueTop g1.arena g1.bestTreeNodeToSplit with
        | none => []
        | some iTop =>
          match fuel with
          | 0 => []
          | fuel + 1 =>
            GrowEvals E aBins cSamplesLeafMin cLeavesMax fuel
              { g1 with bestTreeNodeToSplit := g1.bestTreeNodeToSplit.erase iTop } iTop
      else [])

/-- The cursor at every call of `FindBestSplitGain` that a call of `Func`
makes: the slot 1 for the root, and on the general path the cursors of the
loop. -/
def CallEvals (E : Settings) (rng : RandomDeterministic) (shell : BoosterShell)
    (cBins cSamplesLeafMin cLeavesMax : Nat) : List Nat :=
  1 :: (if (RootFind E rng shell cBins cSamplesLeafMin).ret ≠ 0 then []
    else if cLeavesMax = 2 ∨ cBins = 2 then []
    else GrowEvals E shell.aBins cSamplesLeafMin cLeavesMax cLeavesMax
      (GrowStart E rng shell cBins cSamplesLeafMin) 0)

/-! ## The progression of the bit packs -/

/-- The second operand of the conditional of `GetNextBitPack`: the next
value of the progression series, without the cut at
`k_cItemsPerBitPackMin`. -/
def NextOnSeries (cItemsBitPackedPrev : Int) : Int :=
  k_cBitsForStorageType.tdiv ((k_cBitsForStorageType.tdiv cItemsBitPackedPrev) + 1)

/-- The chain of bit packs from `c` on: `c`, then the values that
`GetNextBitPack` gives one after the other, up to the dynamic value, where
the chain ends. The first argument bounds the number of steps. -/
def BitPackChain : Nat → Int → List Int
  | 0, c => [c]
  | fuel + 1, c =>
    if c = k_cItemsPerBitPackDynamic then [c]
    else c :: BitPackChain fuel (GetNextBitPack c)

/-! ## Arithmetic of sample counts -/

theorem subSize_step (p l r b : Nat)
    (h : r % 18446744073709551616 = subSize p l) :
    subSize r b % 18446744073709551616 = subSize p (addSize l b) := by
  unfold subSize addSize at *
  omega

theorem subSize_lt (a b : Nat) : subSize a b < 18446744073709551616 := by
  unfold subSize; omega

/-! ## Bins -/

theorem Bin.pair_map (f : Nat → GradientPair) (c i : Nat) (h : i < c) (w : FloatBig) (n : Nat) :
    Bin.pair { m_cSamples := n, m_weight := w, m_aGradientPairs := (List.range c).map f } i =
      f i := by
  simp [Bin.pair, List.getD_eq_getElem?_getD, List.getElem?_map, List.getElem?_range h]

theorem Bin.pair_Copy (b : Bin) (c i : Nat) (h : i < c) : (b.Copy c).pair i = b.pair i := by
  simp only [Bin.Copy]; exact Bin.pair_map _ c i h _ _

theorem Bin.Subtract_Copy (x y : Bin) (c : Nat) : x.Subtract (y.Copy c) c = x.Subtract y c := by
  simp only [Bin.Subtract]
  congr 1
  apply List.map_congr_left
  intro i hi
  rw [Bin.pair_Copy y c i (List.mem_range.mp hi)]

/-! ## The scan -/

theorem SweepEntryOk.mono {E : Settings} {aBins : List Bin} {m p first stop stop' : Nat}
    {e : TreeSweep} (h : SweepEntryOk E aBins m p first stop e) (hs : stop ≤ stop') :
    SweepEntryOk E aBins m p first stop' e :=
  ⟨h.1, lt_of_lt_of_le h.2.1 hs, h.2.2⟩

theorem SweepRecord_left (E : Settings) (m cur : Nat) (l r : Bin) (s : Sweep) :
    (SweepRecord E m cur l r s).left = l := by
  simp only [SweepRecord]; split_ifs <;> rfl

theorem SweepRecord_right (E : Settings) (m cur : Nat) (l r : Bin) (s : Sweep) :
    (SweepRecord E m cur l r s).right = r := by
  simp only [SweepRecord]; split_ifs <;> rfl

/-- Every entry of the tie list after one boundary is an old entry or the
entry of this boundary, recorded with enough samples on the left. -/
theorem SweepRecord_mem (E : Settings) (m cur : Nat) (l r : Bin) (s : Sweep) (e : TreeSweep)
    (he : e ∈ (SweepRecord E m cur l r s).aTreeSweep) :
    e ∈ s.aTreeSweep ∨
      (e = { m_pBestBin := cur, m_bestLeftBin := l.Copy E.cScores } ∧ m ≤ l.m_cSamples) := by
  simp only [SweepRecord] at he
  by_cases h2 : m ≤ l.m_cSamples
  · rw [if_pos h2] at he
    by_cases h3 : (!(CalcSplitGain E l r).lt s.BEST_gain) = true
    · simp only [h3, if_true, List.mem_append, List.mem_singleton] at he
      rcases he with he | he
      · by_cases h4 : s.BEST_gain.eq (CalcSplitGain E l r) = true
        · rw [if_pos h4] at he; exact Or.inl he
        · rw [if_neg h4] at he; simp at he
      · exact Or.inr ⟨he, h2⟩
    · simp only [h3] at he; exact Or.inl he
  · rw [if_neg h2] at he; exact Or.inl he

theorem Bin.Copy_Copy (b : Bin) (c : Nat) : (b.Copy c).Copy c = b.Copy c := by
  simp only [Bin.Copy]
  congr 1
  apply List.map_congr_left
  intro i hi
  exact Bin.pair_map _ c i (List.mem_range.mp hi) _ _

theorem SweepLoop_entries (E : Settings) (aBins : List Bin) (m p first : Nat) :
    ∀ (k cur : Nat) (s : Sweep), first ≤ cur →
      s.right.m_cSamples % 18446744073709551616 = subSize p s.left.m_cSamples →
      s.left = BinSum E aBins first (cur - first) →
      (∀ e ∈ s.aTreeSweep, SweepEntryOk E aBins m p first cur e) →
      ∀ e ∈ (SweepLoop E aBins m k cur s).aTreeSweep,
        SweepEntryOk E aBins m p first (cur + k) e := by
  intro k
  induction k with
  | zero => intro cur s _ _ _ h e he; exact h e he
  | succ k ih =>
    intro cur s hcur hinv hleft hent e he
    have hstep := subSize_step p s.left.m_cSamples s.right.m_cSamples
      (aBins.getD cur (Bin.Zero E.cScores)).m_cSamples hinv
    have hlt := subSize_lt s.right.m_cSamples (aBins.getD cur (Bin.Zero E.cScores)).m_cSamples
    have hk : cur + (k + 1) = (cur + 1) + k := by omega
    have hsum : s.left.Add (aBins.getD cur (Bin.Zero E.cScores)) E.cScores =
        BinSum E aBins first (cur + 1 - first) := by
      have e1 : cur + 1 - first = (cur - first) + 1 := by omega
      have e2 : first + (cur - first) = cur := by omega
      rw [e1, BinSum, e2, hleft]
    rw [hk]
    rw [SweepLoop] at he
    by_cases h1 : (s.right.Subtract (aBins.getD cur (Bin.Zero E.cScores)) E.cScores).m_cSamples < m
    · rw [if_pos h1] at he
      exact (hent e he).mono (by omega)
    · rw [if_neg h1] at he
      refine ih (cur + 1) _ (by omega) ?_ ?_ ?_ e he
      · rw [SweepRecord_left, SweepRecord_right]
        simpa [Bin.Subtract, Bin.Add] using hstep
      · rw [SweepRecord_left]; exact hsum
      · intro e' he'
        rcases SweepRecord_mem _ _ _ _ _ _ _ he' with h | ⟨rfl, h2⟩
        · exact (hent e' h).mono (Nat.le_succ _)
        · refine ⟨hcur, Nat.lt_succ_self _, ?_, ?_, ?_⟩
          · simpa [Bin.Copy] using h2
          · simp only [Bin.Copy, Bin.Add]
            simp only [Bin.Subtract, Bin.Add] at hstep h1
            rw [← hstep, Nat.mod_eq_of_lt hlt]
            omega
          · dsimp only
            rw [hsum]

/-- Every entry of the tie list of a node is a boundary of the node with
enough samples on both sides, recorded with the sum of the bins on its left. -/
theorem NodeSweep_entries (E : Settings) (aBins : List Bin) (m : Nat) (node : TreeNode)
    (e : TreeSweep) (he : e ∈ (NodeSweep E aBins m node).aTreeSweep) :
    SweepEntryOk E aBins m node.m_bin.m_cSamples node.m_pBinFirst
      (node.m_pBinFirst + (node.m_pBinLast - node.m_pBinFirst)) e := by
  refine SweepLoop_entries E aBins m node.m_bin.m_cSamples node.m_pBinFirst _ _ _ le_rfl ?_ ?_ ?_
    e he
  · simp [SweepInit, Bin.Copy, Bin.Zero, subSize]
  · simp [SweepInit, BinSum]
  · intro e he; simp [SweepInit] at he

/-! ## Stores into the buffer -/

@[simp] theorem Arena.set_same (a : Arena) (i : Nat) (n : TreeNode) : (a.set i n) i = n := by
  simp [Arena.set]

@[simp] theorem Arena.set_other (a : Arena) (i j : Nat) (n : TreeNode) (h : j ≠ i) :
    (a.set i n) j = a j := by
  simp [Arena.set, h]

/-! ## The split finder -/

section Find

variable (E : Settings) (aBins : List Bin) (rng : RandomDeterministic) (arena : Arena)
variable (iNode iChildren cSamplesLeafMin : Nat)

theorem ScratchChildren_other (s : Sweep) (j : Nat) (h1 : j ≠ iChildren)
    (h2 : j ≠ iChildren + 1) : ScratchChildren arena iNode iChildren s j = arena j := by
  simp [ScratchChildren, h1, h2]

theorem CommitSplit_other (a : Arena) (best : TreeSweep) (g : FloatBig) (j : Nat)
    (h0 : j ≠ iNode) (h1 : j ≠ iChildren) (h2 : j ≠ iChildren + 1) :
    CommitSplit E a iNode iChildren best g j = a j := by
  simp [CommitSplit, h0, h1, h2]

theorem CommitSplit_node (a : Arena) (best : TreeSweep) (g : FloatBig)
    (h1 : iNode ≠ iChildren) (h2 : iNode ≠ iChildren + 1) :
    CommitSplit E a iNode iChildren best g iNode =
      { a iNode with
        m_pTreeNodeChildren := iChildren, m_splitGain := some g,
        m_splitVal := best.m_pBestBin } := by
  simp [CommitSplit, h1, h2]

theorem CommitSplit_left (a : Arena) (best : TreeSweep) (g : FloatBig)
    (h1 : iNode ≠ iChildren) :
    CommitSplit E a iNode iChildren best g iChildren =
      { a iChildren with
        m_pBinLast := best.m_pBestBin, m_bin := best.m_bestLeftBin.Copy E.cScores } := by
  simp [CommitSplit, h1.symm]

theorem CommitSplit_right (a : Arena) (best : TreeSweep) (g : FloatBig)
    (h1 : iNode ≠ iChildren) (h2 : iNode ≠ iChildren + 1) :
    CommitSplit E a iNode iChildren best g (iChildren + 1) =
      { a (iChildren + 1) with
        m_pBinFirst := best.m_pBestBin + 1,
        m_bin := ((a iNode).m_bin.Copy E.cScores).Subtract best.m_bestLeftBin E.cScores } := by
  simp [CommitSplit, h1, h2, h2.symm]

/-- The return value of `FindBestSplitGain` is 0, 1 or -1. -/
theorem FindBestSplitGain_ret :
    (FindBestSplitGain E aBins rng arena iNode iChildren cSamplesLeafMin).ret = 0 ∨
    (FindBestSplitGain E aBins rng arena iNode iChildren cSamplesLeafMin).ret = 1 ∨
    (FindBestSplitGain E aBins rng arena iNode iChildren cSamplesLeafMin).ret = -1 := by
  simp only [FindBestSplitGain]
  split_ifs <;> simp

/-- `FindBestSplitGain` stores into the slot of the node and into the two
child slots only. -/
theorem FindBestSplitGain_frame (j : Nat) (h0 : j ≠ iNode) (h1 : j ≠ iChildren)
    (h2 : j ≠ iChildren + 1) :
    (FindBestSplitGain E aBins rng arena iNode iChildren cSamplesLeafMin).arena j = arena j := by
  simp only [FindBestSplitGain]
  split_ifs <;> simp [ScratchChildren_other, CommitSplit_other, h0, h1, h2]

/-- Without a split the node and the random stream are as before. -/
theorem FindBestSplitGain_reject (h : (FindBestSplitGain E aBins rng arena iNode iChildren
      cSamplesLeafMin).ret ≠ 0) (h1 : iNode ≠ iChildren) (h2 : iNode ≠ iChildren + 1) :
    (FindBestSplitGain E aBins rng arena iNode iChildren cSamplesLeafMin).arena iNode = arena iNode ∧
    (FindBestSplitGain E aBins rng arena iNode iChildren cSamplesLeafMin).rng = rng := by
  simp only [FindBestSplitGain] at h ⊢
  split_ifs at h ⊢ <;> simp_all [ScratchChildren_other]

theorem PickSweep_mem (l : List TreeSweep) (h : l ≠ []) : (PickSweep E rng l).1 ∈ l := by
  simp only [PickSweep]
  have hpos : 0 < l.length := List.length_pos.mpr h
  split_ifs with h1
  · have hlt : rng.seq rng.pos % l.length < l.length := Nat.mod_lt _ hpos
    simp only [RandomDeterministic.NextFast]
    rw [List.getD_eq_getElem _ _ hlt]
    exact List.getElem_mem _
  · rw [List.getD_eq_getElem _ _ hpos]
    exact List.getElem_mem _

/-- With a split, the chosen entry is in the tie list of the node, the gain
stored is the winning gain minus the partial gain of the node and is not
below `k_gainMin`, and the three slots are as `CommitSplit` leaves them. -/
theorem FindBestSplitGain_commit (h : (FindBestSplitGain E aBins rng arena iNode iChildren
      cSamplesLeafMin).ret = 0) (h1 : iNode ≠ iChildren) (h2 : iNode ≠ iChildren + 1) :
    ∃ best g, best ∈ (NodeSweep E aBins cSamplesLeafMin (arena iNode)).aTreeSweep ∧
      (NodeSweep E aBins cSamplesLeafMin (arena iNode)).BEST_gain.leMax = true ∧
      g = SubtractParentGain E (arena iNode).m_bin
        (NodeSweep E aBins cSamplesLeafMin (arena iNode)).BEST_gain ∧
      E.k_gainMin.le g = true ∧
      (FindBestSplitGain E aBins rng arena iNode iChildren cSamplesLeafMin).arena iNode =
        { arena iNode with
          m_pTreeNodeChildren := iChildren, m_splitGain := some g,
          m_splitVal := best.m_pBestBin } ∧
      (FindBestSplitGain E aBins rng arena iNode iChildren cSamplesLeafMin).arena iChildren =
        { arena iChildren with
          m_pBinFirst := (arena iNode).m_pBinFirst, m_pBinLast := best.m_pBestBin,
          m_bin := best.m_bestLeftBin.Copy E.cScores } ∧
      (FindBestSplitGain E aBins rng arena iNode iChildren cSamplesLeafMin).arena (iChildren + 1) =
        { arena (iChildren + 1) with
          m_pBinFirst := best.m_pBestBin + 1, m_pBinLast := (arena iNode).m_pBinLast,
          m_bin := ((arena iNode).m_bin.Copy E.cScores).Subtract best.m_bestLeftBin E.cScores } := by
  have hs : ScratchChildren arena iNode iChildren
      (NodeSweep E aBins cSamplesLeafMin (arena iNode)) iNode = arena iNode :=
    ScratchChildren_other arena iNode iChildren _ iNode h1 h2
  simp only [FindBestSplitGain] at h ⊢
  split_ifs at h ⊢ with c1 c2 c3 c4
  · simp at h
  · simp at h
  · simp at h
  · simp at h
  · refine ⟨(PickSweep E rng (NodeSweep E aBins cSamplesLeafMin (arena iNode)).aTreeSweep).1, _,
      PickSweep_mem E rng _ (by simpa using c1), by simpa using c2, rfl, ?_, ?_, ?_, ?_⟩
    · rw [hs] at c3; simpa using c3
    · dsimp only
      rw [CommitSplit_node E _ _ _ _ _ h1 h2, hs]
    · dsimp only
      rw [CommitSplit_left E _ _ _ _ _ h1]
      simp [ScratchChildren]
    · dsimp only
      rw [CommitSplit_right E _ _ _ _ _ h1 h2, hs]
      simp [ScratchChildren]

end Find

/-! ## Shapes -/

namespace Shape

theorem root_mem_cells (T : Shape) : T.root ∈ T.cells := by
  cases T <;> simp [root, cells]

theorem pends_subset_cells (T : Shape) : ∀ q ∈ T.pends, q ∈ T.cells := by
  induction T with
  | leaf i => intro q hq; simp [pends] at hq
  | pend i ch => intro q hq; simp [pends] at hq; simp [cells, hq]
  | split i l r ihl ihr =>
    intro q hq
    simp only [pends, List.mem_append] at hq
    simp only [cells, List.mem_cons, List.mem_append]
    rcases hq with h | h
    · exact Or.inr (Or.inl (ihl q h))
    · exact Or.inr (Or.inr (ihr q h))

theorem leaves_length_pos (T : Shape) : 0 < T.leaves.length := by
  induction T with
  | leaf i => simp [leaves]
  | pend i ch => simp [leaves]
  | split i l r ihl _ => simp only [leaves, List.length_append]; omega

theorem height_le_leaves (T : Shape) : T.height ≤ T.leaves.length := by
  induction T with
  | leaf i => simp [leaves, height]
  | pend i ch => simp [leaves, height]
  | split i l r ihl ihr =>
    have hl := leaves_length_pos l
    have hr := leaves_length_pos r
    simp only [leaves, height, List.length_append]
    omega

theorem branches_length (T : Shape) : T.branches.length + 1 = T.leaves.length := by
  induction T with
  | leaf i => simp [leaves, branches]
  | pend i ch => simp [leaves, branches]
  | split i l r ihl ihr =>
    simp only [leaves, branches, List.length_append, List.length_cons]
    omega

theorem BranchOk_congr {E : Settings} {aBins : List Bin} {m : Nat} {a a' : Arena} {i : Nat}
    (h0 : a' i = a i)
    (h1 : a' (a i).m_pTreeNodeChildren = a (a i).m_pTreeNodeChildren)
    (h2 : a' ((a i).m_pTreeNodeChildren + 1) = a ((a i).m_pTreeNodeChildren + 1))
    (h : BranchOk E aBins m a i) : BranchOk E aBins m a' i := by
  unfold BranchOk at *
  rw [h0, h1, h2]
  exact h

/-- A buffer that agrees with another on the slots of a shape holds the
shape as well. -/
theorem Ok.frame {E : Settings} {aBins : List Bin} {m : Nat} {a a' : Arena} :
    ∀ {T : Shape}, (∀ k ∈ T.cells, a' k = a k) → T.Ok E aBins m a → T.Ok E aBins m a' := by
  intro T
  induction T with
  | leaf i =>
    intro h hok
    simp only [Ok] at *
    rw [h i (by simp [cells])]; exact hok
  | pend i ch =>
    intro h hok
    simp only [Ok] at *
    obtain ⟨h1, h2, h3, h4⟩ := hok
    have e0 : a' i = a i := h i (by simp [cells])
    have e1 : a' ch = a ch := h ch (by simp [cells])
    have e2 : a' (ch + 1) = a (ch + 1) := h (ch + 1) (by simp [cells])
    refine ⟨by rw [e0]; exact h1, by rw [e0]; exact h2, by rw [e0]; exact h3, ?_⟩
    exact BranchOk_congr e0 (by rw [h3]; exact e1) (by rw [h3]; exact e2) h4
  | split i l r ihl ihr =>
    intro h hok
    simp only [Ok] at *
    obtain ⟨h1, h2, h3, h4, h5, h6, h7⟩ := hok
    have e0 : a' i = a i := h i (by simp [cells])
    have hl : ∀ k ∈ l.cells, a' k = a k := fun k hk => h k (by simp [cells, hk])
    have hr : ∀ k ∈ r.cells, a' k = a k := fun k hk => h k (by simp [cells, hk])
    refine ⟨by rw [e0]; exact h1, by rw [e0]; exact h2, by rw [e0]; exact h3, h4, ?_,
      ihl hl h6, ihr hr h7⟩
    refine BranchOk_congr e0 ?_ ?_ h5
    · rw [h3]; exact hl _ (root_mem_cells l)
    · rw [h3, ← h4]; exact hr _ (root_mem_cells r)

theorem expand_root (p : Nat) (L R : Shape) (T : Shape) : (expand p L R T).root = T.root := by
  cases T with
  | leaf i => rfl
  | pend i ch => simp only [expand]; split_ifs <;> rfl
  | split i l r => rfl

theorem expand_of_not_mem (p : Nat) (L R : Shape) :
    ∀ (T : Shape), p ∉ T.pends → expand p L R T = T := by
  intro T
  induction T with
  | leaf i => intro _; rfl
  | pend i ch =>
    intro h
    simp only [pends, List.mem_singleton] at h
    simp only [expand]
    rw [if_neg (fun e => h e.symm)]
  | split i l r ihl ihr =>
    intro h
    simp only [pends, List.mem_append, not_or] at h
    simp only [expand, ihl h.1, ihr h.2]

end Shape

theorem SameData.refl (n : TreeNode) : SameData n n := ⟨rfl, rfl, rfl⟩

theorem SameData.trans {a b c : TreeNode} (h1 : SameData a b) (h2 : SameData b c) :
    SameData a c :=
  ⟨h2.1.trans h1.1, h2.2.1.trans h1.2.1, h2.2.2.trans h1.2.2⟩

theorem SameData.of_eq {a b : TreeNode} (h : b = a) : SameData a b := h ▸ SameData.refl a

theorem NetSplitGain_congr (E : Settings) (aBins : List Bin) (m : Nat) {n n' : TreeNode}
    (h : SameData n n') : NetSplitGain E aBins m n' = NetSplitGain E aBins m n := by
  obtain ⟨h1, h2, h3⟩ := h
  simp only [NetSplitGain, NodeSweep, h1, h2, h3]

theorem BranchOk_of_data {E : Settings} {aBins : List Bin} {m : Nat} {a a' : Arena} {i : Nat}
    (h0 : SameData (a i) (a' i))
    (hc : (a' i).m_pTreeNodeChildren = (a i).m_pTreeNodeChildren)
    (hv : (a' i).m_splitVal = (a i).m_splitVal)
    (h1 : SameData (a (a i).m_pTreeNodeChildren) (a' (a i).m_pTreeNodeChildren))
    (h2 : SameData (a ((a i).m_pTreeNodeChildren + 1)) (a' ((a i).m_pTreeNodeChildren + 1)))
    (h : BranchOk E aBins m a i) : BranchOk E aBins m a' i := by
  simp only [BranchOk, NodeSweep] at *
  obtain ⟨f0, l0, b0⟩ := h0
  obtain ⟨f1, l1, b1⟩ := h1
  obtain ⟨f2, l2, b2⟩ := h2
  rw [hc, hv, f0, l0, b0, f1, l1, b1, f2, l2, b2]
  exact h

namespace Shape

theorem branches_subset_cells (T : Shape) : ∀ q ∈ T.branches, q ∈ T.cells := by
  induction T with
  | leaf j => intro q hq; simp [branches] at hq
  | pend j c => intro q hq; simp [branches] at hq
  | split j l r ih1 ih2 =>
    intro q hq
    simp only [branches, List.mem_append, List.mem_cons] at hq
    simp only [cells, List.mem_cons, List.mem_append]
    rcases hq with h | h | h
    · exact Or.inr (Or.inl (ih1 q h))
    · exact Or.inl h
    · exact Or.inr (Or.inr (ih2 q h))

/-- The children of a waiting node are slots of the shape, different from
the node, and are not waiting nodes themselves. -/
theorem pend_children {E : Settings} {aBins : List Bin} {m : Nat} {a : Arena} {p : Nat} :
    ∀ {T : Shape}, T.Ok E aBins m a → T.cells.Nodup → p ∈ T.pends →
      (a p).m_pTreeNodeChildren ∈ T.cells ∧ (a p).m_pTreeNodeChildren + 1 ∈ T.cells ∧
      p ≠ (a p).m_pTreeNodeChildren ∧ p ≠ (a p).m_pTreeNodeChildren + 1 ∧
      (a p).m_pTreeNodeChildren ∉ T.pends ∧ (a p).m_pTreeNodeChildren + 1 ∉ T.pends ∧
      p ∉ T.branches ∧
      (a p).m_splitGain = some (NetSplitGain E aBins m (a p)) ∧
      E.k_gainMin.le (NetSplitGain E aBins m (a p)) = true ∧ BranchOk E aBins m a p := by
  intro T
  induction T with
  | leaf i => intro _ _ hp; simp [pends] at hp
  | pend i ch =>
    intro hok hnd hp
    simp only [pends, List.mem_singleton] at hp
    subst hp
    simp only [Ok] at hok
    obtain ⟨h1, h2, h3, h4⟩ := hok
    simp only [cells, List.nodup_cons, List.mem_cons, List.mem_singleton, not_or] at hnd
    have hne1 : p ≠ ch := hnd.1.1
    have hne2 : p ≠ ch + 1 := hnd.1.2.1
    rw [h3]
    refine ⟨by simp [cells], by simp [cells], hne1, hne2, ?_, ?_, by simp [branches], h1, h2, h4⟩
    · simp only [pends, List.mem_singleton]; exact fun h => hne1 h.symm
    · simp only [pends, List.mem_singleton]; exact fun h => hne2 h.symm
  | split i l r ihl ihr =>
    intro hok hnd hp
    simp only [Ok] at hok
    obtain ⟨-, -, -, -, -, hl, hr⟩ := hok
    simp only [cells, List.nodup_cons, List.mem_append, not_or] at hnd
    obtain ⟨⟨hil, hir⟩, hnd⟩ := hnd
    have hnl := (List.nodup_append.mp hnd).1
    have hnr := (List.nodup_append.mp hnd).2.1
    have hdis : ∀ x, x ∈ l.cells → x ∈ r.cells → False := fun x hx hy =>
      (List.nodup_append.mp hnd).2.2 hx hy
    simp only [pends, List.mem_append] at hp
    simp only [cells, pends, branches, List.mem_cons, List.mem_append, not_or]
    rcases hp with hp | hp
    · obtain ⟨c1, c2, n1, n2, p1, p2, b1, rest⟩ := ihl hl hnl hp
      have hpl := pends_subset_cells l p hp
      refine ⟨Or.inr (Or.inl c1), Or.inr (Or.inl c2), n1, n2, ⟨p1, ?_⟩, ⟨p2, ?_⟩, ⟨b1, ?_, ?_⟩, rest⟩
      · exact fun h => hdis _ c1 (pends_subset_cells r _ h)
      · exact fun h => hdis _ c2 (pends_subset_cells r _ h)
      · exact fun h => hil (h ▸ hpl)
      · exact fun h => hdis _ hpl (branches_subset_cells r _ h)
    · obtain ⟨c1, c2, n1, n2, p1, p2, b1, rest⟩ := ihr hr hnr hp
      have hpr := pends_subset_cells r p hp
      refine ⟨Or.inr (Or.inr c1), Or.inr (Or.inr c2), n1, n2, ⟨?_, p1⟩, ⟨?_, p2⟩, ⟨?_, ?_, b1⟩, rest⟩
      · exact fun h => hdis _ (pends_subset_cells l _ h) c1
      · exact fun h => hdis _ (pends_subset_cells l _ h) c2
      · exact fun h => hdis _ (branches_subset_cells l _ h) hpr
      · exact fun h => hir (h ▸ hpr)

end Shape

theorem perm_swap_tail (A X B : List Nat) : List.Perm ((A ++ X) ++ B) ((A ++ B) ++ X) := by
  rw [List.append_assoc, List.append_assoc]
  exact List.Perm.append_left _ List.perm_append_comm

namespace Shape

/-- The formal split of a waiting node of a shape held by the buffer `a`,
seen in the buffer `a'` after the body of the loop: `a'` holds the expanded
shape, whose slots are the old ones and the new slots of `L` and `R`, which
has one leaf more, the node as additional formally split node, and whose
waiting nodes are the old ones but the node, and those of `L` and `R`. -/
theorem expand_spec {E : Settings} {aBins : List Bin} {m : Nat} {a a' : Arena} {p : Nat}
    {L R : Shape} {xl xr : List Nat}
    (hLc : L.cells = (a p).m_pTreeNodeChildren :: xl)
    (hRc : R.cells = ((a p).m_pTreeNodeChildren + 1) :: xr)
    (hLr : L.root = (a p).m_pTreeNodeChildren) (hRr : R.root = (a p).m_pTreeNodeChildren + 1)
    (hLl : L.leaves.length = 1) (hRl : R.leaves.length = 1)
    (hLb : L.branches = []) (hRb : R.branches = [])
    (hLok : L.Ok E aBins m a') (hRok : R.Ok E aBins m a')
    (hp' : a' p = (a p).AFTER_SplitNode) :
    ∀ {T : Shape}, T.Ok E aBins m a → T.cells.Nodup → p ∈ T.pends →
      (∀ k ∈ T.cells, SameData (a k) (a' k)) →
      (∀ k ∈ T.cells, k ≠ p → k ≠ (a p).m_pTreeNodeChildren →
        k ≠ (a p).m_pTreeNodeChildren + 1 → a' k = a k) →
      (expand p L R T).Ok E aBins m a' ∧
      (expand p L R T).cells.Perm (T.cells ++ (xl ++ xr)) ∧
      (expand p L R T).leaves.length = T.leaves.length + 1 ∧
      (expand p L R T).branches.Perm (p :: T.branches) ∧
      (∀ q ∈ T.pends, q ≠ p → q ∈ (expand p L R T).pends) ∧
      (∀ q, q ∈ L.pends ∨ q ∈ R.pends → q ∈ (expand p L R T).pends) := by
  intro T
  induction T with
  | leaf i => intro _ _ hp; simp [pends] at hp
  | pend i ch =>
    intro hok hnd hp hdata hsame
    simp only [pends, List.mem_singleton] at hp
    subst hp
    simp only [Ok] at hok
    obtain ⟨h1, h2, h3, h4⟩ := hok
    have hd0 : SameData (a p) (a' p) := hdata p (by simp [cells])
    simp only [expand, if_true]
    refine ⟨?_, ?_, ?_, ?_, ?_, ?_⟩
    · simp only [Ok]
      refine ⟨by rw [hp']; rfl, ?_, by rw [hp', hLr]; rfl, by rw [hRr, hLr], ?_, hLok, hRok⟩
      · rw [NetSplitGain_congr E aBins m hd0]; exact h2
      · refine BranchOk_of_data hd0 (by rw [hp']; rfl) (by rw [hp']; rfl) ?_ ?_ h4
        · exact hdata _ (by rw [h3]; simp [cells])
        · exact hdata _ (by rw [h3]; simp [cells])
    · simp only [cells, hLc, hRc, h3]
      refine List.Perm.cons _ ?_
      simp only [List.cons_append, List.nil_append]
      refine List.Perm.cons _ ?_
      exact List.perm_middle
    · simp [leaves, hLl, hRl]
    · simp [branches, hLb, hRb]
    · intro q hq hne; simp [pends] at hq; exact absurd hq hne
    · intro q hq; simp only [pends, List.mem_append]; exact hq
  | split i l r ihl ihr =>
    intro hok hnd hp hdata hsame
    have hchild := pend_children hok hnd hp
    simp only [Ok] at hok
    obtain ⟨g1, g2, g3, g4, g5, hl, hr⟩ := hok
    simp only [cells, List.nodup_cons, List.mem_append, not_or] at hnd
    obtain ⟨⟨hil, hir⟩, hnd⟩ := hnd
    have hnl := (List.nodup_append.mp hnd).1
    have hnr := (List.nodup_append.mp hnd).2.1
    have hdis : ∀ x, x ∈ l.cells → x ∈ r.cells → False := fun x hx hy =>
      (List.nodup_append.mp hnd).2.2 hx hy
    have hdl : ∀ k ∈ l.cells, SameData (a k) (a' k) := fun k hk => hdata k (by simp [cells, hk])
    have hdr : ∀ k ∈ r.cells, SameData (a k) (a' k) := fun k hk => hdata k (by simp [cells, hk])
    have hsl : ∀ k ∈ l.cells, k ≠ p → k ≠ (a p).m_pTreeNodeChildren →
        k ≠ (a p).m_pTreeNodeChildren + 1 → a' k = a k :=
      fun k hk => hsame k (by simp [cells, hk])
    have hsr : ∀ k ∈ r.cells, k ≠ p → k ≠ (a p).m_pTreeNodeChildren →
        k ≠ (a p).m_pTreeNodeChildren + 1 → a' k = a k :=
      fun k hk => hsame k (by simp [cells, hk])
    have hd0 : SameData (a i) (a' i) := hdata i (by simp [cells])
    simp only [pends, List.mem_append] at hp
    rcases hp with hp | hp
    · obtain ⟨c1, c2, -⟩ := pend_children hl hnl hp
      have hpl := pends_subset_cells l p hp
      have hpr : p ∉ r.pends := fun h => hdis _ hpl (pends_subset_cells r _ h)
      have hi : a' i = a i := hsame i (by simp [cells]) (fun h => hil (h ▸ hpl))
        (fun h => hil (h ▸ c1)) (fun h => hil (h ▸ c2))
      have hrs : ∀ k ∈ r.cells, a' k = a k := fun k hk =>
        hsr k hk (fun h => hdis _ hpl (h ▸ hk)) (fun h => hdis _ c1 (h ▸ hk))
          (fun h => hdis _ c2 (h ▸ hk))
      obtain ⟨o1, o2, o3, o4, o5, o6⟩ := ihl hl hnl hp hdl hsl
      simp only [expand, expand_of_not_mem p L R r hpr]
      refine ⟨?_, ?_, ?_, ?_, ?_, ?_⟩
      · simp only [Ok]
        refine ⟨by rw [hi]; exact g1, ?_, by rw [hi, expand_root]; exact g3,
          by rw [expand_root]; exact g4, ?_, o1, Ok.frame hrs hr⟩
        · rw [NetSplitGain_congr E aBins m hd0]; exact g2
        · refine BranchOk_of_data hd0 (by rw [hi]) (by rw [hi]) ?_ ?_ g5
          · rw [g3]; exact hdl _ (root_mem_cells l)
          · rw [g3, ← g4]; exact hdr _ (root_mem_cells r)
      · show List.Perm (i :: ((expand p L R l).cells ++ r.cells))
          (i :: ((l.cells ++ r.cells) ++ (xl ++ xr)))
        refine List.Perm.cons _ ((List.Perm.append_right _ o2).trans ?_)
        exact perm_swap_tail _ _ _
      · simp only [leaves, List.length_append, o3]; omega
      · simp only [branches]
        exact List.Perm.append_right _ o4
      · intro q hq hne
        simp only [pends, List.mem_append] at hq ⊢
        rcases hq with h | h
        · exact Or.inl (o5 q h hne)
        · exact Or.inr h
      · intro q hq
        simp only [pends, List.mem_append]
        exact Or.inl (o6 q hq)
    · obtain ⟨c1, c2, -⟩ := pend_children hr hnr hp
      have hpr := pends_subset_cells r p hp
      have hpl : p ∉ l.pends := fun h => hdis _ (pends_subset_cells l _ h) hpr
      have hi : a' i = a i := hsame i (by simp [cells]) (fun h => hir (h ▸ hpr))
        (fun h => hir (h ▸ c1)) (fun h => hir (h ▸ c2))
      have hls : ∀ k ∈ l.cells, a' k = a k := fun k hk =>
        hsl k hk (fun h => hdis _ (h ▸ hk) hpr) (fun h => hdis _ (h ▸ hk) c1)
          (fun h => hdis _ (h ▸ hk) c2)
      obtain ⟨o1, o2, o3, o4, o5, o6⟩ := ihr hr hnr hp hdr hsr
      simp only [expand, expand_of_not_mem p L R l hpl]
      refine ⟨?_, ?_, ?_, ?_, ?_, ?_⟩
      · simp only [Ok]
        refine ⟨by rw [hi]; exact g1, ?_, by rw [hi]; exact g3,
          by rw [expand_root]; exact g4, ?_, Ok.frame hls hl, o1⟩
        · rw [NetSplitGain_congr E aBins m hd0]; exact g2
        · refine BranchOk_of_data hd0 (by rw [hi]) (by rw [hi]) ?_ ?_ g5
          · rw [g3]; exact hdl _ (root_mem_cells l)
          · rw [g3, ← g4]; exact hdr _ (root_mem_cells r)
      · show List.Perm (i :: (l.cells ++ (expand p L R r).cells))
          (i :: ((l.cells ++ r.cells) ++ (xl ++ xr)))
        refine List.Perm.cons _ ((List.Perm.append_left _ o2).trans ?_)
        rw [List.append_assoc]
      · simp only [leaves, List.length_append, o3]; omega
      · simp only [branches]
        refine (List.Perm.append_left _ (List.Perm.cons _ o4)).trans ?_
        have e : l.branches ++ i :: (p :: r.branches) = (l.branches ++ [i]) ++ p :: r.branches := by
          simp
        rw [e]
        refine List.perm_middle.trans ?_
        simp
      · intro q hq hne
        simp only [pends, List.mem_append] at hq ⊢
        rcases hq with h | h
        · exact Or.inl h
        · exact Or.inr (o5 q h hne)
      · intro q hq
        simp only [pends, List.mem_append]
        exact Or.inr (o6 q hq)

end Shape

/-- A split by `FindBestSplitGain` establishes the facts of `BranchOk` on
the node, stores its net gain, which is not below `k_gainMin`, and keeps
the range and the aggregate of the node. -/
theorem FindBestSplitGain_BranchOk (E : Settings) (aBins : List Bin) (rng : RandomDeterministic)
    (arena : Arena) (iNode iChildren m : Nat)
    (h : (FindBestSplitGain E aBins rng arena iNode iChildren m).ret = 0)
    (h1 : iNode ≠ iChildren) (h2 : iNode ≠ iChildren + 1) :
    BranchOk E aBins m (FindBestSplitGain E aBins rng arena iNode iChildren m).arena iNode ∧
    ((FindBestSplitGain E aBins rng arena iNode iChildren m).arena iNode).m_splitGain =
      some (NetSplitGain E aBins m (arena iNode)) ∧
    E.k_gainMin.le (NetSplitGain E aBins m (arena iNode)) = true ∧
    ((FindBestSplitGain E aBins rng arena iNode iChildren m).arena iNode).m_pTreeNodeChildren =
      iChildren ∧
    SameData (arena iNode) ((FindBestSplitGain E aBins rng arena iNode iChildren m).arena iNode) := by
  obtain ⟨best, g, hmem, hmax, hg, hle, e0, e1, e2⟩ :=
    FindBestSplitGain_commit E aBins rng arena iNode iChildren m h h1 h2
  obtain ⟨b1, b2, b3, b4, b5⟩ := NodeSweep_entries E aBins m (arena iNode) best hmem
  have hgn : g = NetSplitGain E aBins m (arena iNode) := hg
  refine ⟨?_, by rw [e0, hgn], by rw [← hgn]; exact hle, by rw [e0], by rw [e0]; exact ⟨rfl, rfl, rfl⟩⟩
  unfold BranchOk
  rw [e0]
  simp only
  rw [e1, e2]
  simp only
  refine ⟨b1, by omega, trivial, trivial, trivial, trivial, ?_, ?_, ?_, ?_, hmax⟩
  · simpa [Bin.Copy] using b3
  · simpa [Bin.Subtract, Bin.Copy] using b4
  · rw [Bin.Subtract_Copy]
  · rw [b5, Bin.Copy_Copy]


/-! ## The body of the growth loop -/

/-- The treatment of a child in a slot below the storage cursor: the other
slots below the cursor are untouched, the child keeps its range and its
aggregate, and the buffer then holds the child as a leaf, or as a waiting
node whose children are the two slots at the old cursor; in the second case
the child is pushed and the cursor advances by two. -/
theorem ExamineChild_spec (E : Settings) (aBins : List Bin) (m : Nat) (g : Growth) (x : Nat)
    (hx : x < g.iStorageCur) :
    (∀ j, j ≠ x → j < g.iStorageCur → (ExamineChild E aBins m g x).arena j = g.arena j) ∧
    SameData (g.arena x) ((ExamineChild E aBins m g x).arena x) ∧
    (ExamineChild E aBins m g x).cLeaves = g.cLeaves ∧
    (ExamineChild E aBins m g x).totalGain = g.totalGain ∧
    g.iStorageCur ≤ (ExamineChild E aBins m g x).iStorageCur ∧
    ∃ (S : Shape) (xs : List Nat), S.root = x ∧ S.cells = x :: xs ∧ S.leaves.length = 1 ∧
      S.branches = [] ∧ S.Ok E aBins m (ExamineChild E aBins m g x).arena ∧
      (∀ k ∈ xs, g.iStorageCur ≤ k ∧ k < (ExamineChild E aBins m g x).iStorageCur) ∧
      xs.Nodup ∧
      (ExamineChild E aBins m g x).bestTreeNodeToSplit = S.pends ++ g.bestTreeNodeToSplit ∧
      (∀ q ∈ S.pends, q = x) ∧ S.pends.Nodup := by
  have hx1 : x ≠ g.iStorageCur := by omega
  have hx2 : x ≠ g.iStorageCur + 1 := by omega
  unfold ExamineChild
  by_cases hs : (g.arena x).BEFORE_IsSplittable = true
  · rw [if_pos hs]
    by_cases hr : (FindBestSplitGain E aBins g.rng g.arena x g.iStorageCur m).ret = 0
    · rw [if_pos hr]
      obtain ⟨k1, k2, k3, k4, k5⟩ :=
        FindBestSplitGain_BranchOk E aBins g.rng g.arena x g.iStorageCur m hr hx1 hx2
      refine ⟨?_, k5, rfl, rfl, by dsimp only; omega, Shape.pend x g.iStorageCur,
        [g.iStorageCur, g.iStorageCur + 1], rfl, rfl, rfl, rfl, ?_, ?_, ?_, rfl, ?_⟩
      · intro j hj hlt
        exact FindBestSplitGain_frame E aBins g.rng g.arena x g.iStorageCur m j hj (by omega)
          (by omega)
      · simp only [Shape.Ok]
        rw [NetSplitGain_congr E aBins m k5]
        exact ⟨k2, k3, k4, k1⟩
      · intro k hk
        simp only [List.mem_cons, List.mem_singleton, List.not_mem_nil, or_false] at hk
        dsimp only
        rcases hk with rfl | rfl <;> omega
      · simp
      · exact ⟨fun q hq => by simpa [Shape.pends] using hq, by simp [Shape.pends]⟩
    · rw [if_neg hr]
      obtain ⟨k1, -⟩ := FindBestSplitGain_reject E aBins g.rng g.arena x g.iStorageCur m hr hx1 hx2
      refine ⟨?_, ?_, rfl, rfl, le_rfl, Shape.leaf x, [], rfl, rfl, rfl, rfl, ?_, ?_, ?_, rfl, ?_⟩
      · intro j hj hlt
        dsimp only
        rw [Arena.set_other _ _ _ _ hj]
        exact FindBestSplitGain_frame E aBins g.rng g.arena x g.iStorageCur m j hj (by omega)
          (by omega)
      · dsimp only
        rw [Arena.set_same, k1]; exact ⟨rfl, rfl, rfl⟩
      · simp [Shape.Ok, TreeNode.AFTER_RejectSplit]
      · intro k hk; simp at hk
      · simp
      · exact ⟨fun q hq => by simp [Shape.pends] at hq, by simp [Shape.pends]⟩
  · rw [if_neg hs]
    refine ⟨?_, ?_, rfl, rfl, le_rfl, Shape.leaf x, [], rfl, rfl, rfl, rfl, ?_, ?_, ?_, rfl, ?_⟩
    · intro j hj _; exact Arena.set_other _ _ _ _ hj
    · dsimp only
      rw [Arena.set_same]; exact ⟨rfl, rfl, rfl⟩
    · simp [Shape.Ok, TreeNode.AFTER_RejectSplit]
    · intro k hk; simp at hk
    · simp
    · exact ⟨fun q hq => by simp [Shape.pends] at hq, by simp [Shape.pends]⟩


theorem foldl_gain_congr (f f' : Nat → FloatBig) :
    ∀ (l : List Nat) (z : FloatBig), (∀ k ∈ l, f' k = f k) →
      l.foldl (fun t i => t.add (f' i)) z = l.foldl (fun t i => t.add (f i)) z := by
  intro l
  induction l with
  | nil => intro z _; rfl
  | cons x xs ih =>
    intro z h
    simp only [List.foldl_cons]
    rw [h x (List.mem_cons_self _ _)]
    exact ih _ (fun k hk => h k (List.mem_cons_of_mem _ hk))

/-- The loop body written with its two treatments of a child in a row. -/
theorem SplitParent_eq (E : Settings) (aBins : List Bin) (m : Nat) (g : Growth) (p : Nat)
    (hp : p ≠ (g.arena p).m_pTreeNodeChildren)
    (hc : (g.arena p).m_pTreeNodeChildren < g.iStorageCur) (hpc : p < g.iStorageCur) :
    SplitParent E aBins m g p =
      { ExamineChild E aBins m
          (ExamineChild E aBins m (FormalSplit g p) (g.arena p).m_pTreeNodeChildren)
          ((g.arena p).m_pTreeNodeChildren + 1) with
        cLeaves := (ExamineChild E aBins m
          (ExamineChild E aBins m (FormalSplit g p) (g.arena p).m_pTreeNodeChildren)
          ((g.arena p).m_pTreeNodeChildren + 1)).cLeaves + 1 } := by
  have e0 : (g.arena.set p (g.arena p).AFTER_SplitNode p).m_pTreeNodeChildren =
      (g.arena p).m_pTreeNodeChildren := by
    rw [Arena.set_same]; rfl
  have e1 := (ExamineChild_spec E aBins m (FormalSplit g p)
    (g.arena p).m_pTreeNodeChildren hc).1 p hp hpc
  simp only [SplitParent, e0]
  simp only [FormalSplit] at e1 ⊢
  rw [e1, e0]


/-- The body of the loop keeps the invariant: entered with the node `p` in
front of the queue, it leaves the invariant for the queue, with one leaf
more. -/
theorem SplitParent_inv (E : Settings) (aBins : List Bin) (m : Nat) (root : TreeNode)
    (g : Growth) (p : Nat) (h : GrowInv E aBins m root g (p :: g.bestTreeNodeToSplit)) :
    GrowInv E aBins m root (SplitParent E aBins m g p)
      (SplitParent E aBins m g p).bestTreeNodeToSplit ∧
    (SplitParent E aBins m g p).cLeaves = g.cLeaves + 1 := by
  obtain ⟨T, commits, hrd, hroot, hok, hnd, hlt, hPnd, hP, hleaves, hperm, hgain⟩ := h
  have hp : p ∈ T.pends := hP p (List.mem_cons_self _ _)
  obtain ⟨c1, c2, n1, n2, q1, q2, -, gainp, -, -⟩ := Shape.pend_children hok hnd hp
  have hpc : p < g.iStorageCur := hlt p (Shape.pends_subset_cells T p hp)
  have hc1 : (g.arena p).m_pTreeNodeChildren < g.iStorageCur := hlt _ c1
  have hc2 : (g.arena p).m_pTreeNodeChildren + 1 < g.iStorageCur := hlt _ c2
  rw [SplitParent_eq E aBins m g p n1 hc1 hpc]
  generalize hG0 : FormalSplit g p = G0
  have G0a : G0.arena = g.arena.set p (g.arena p).AFTER_SplitNode := by rw [← hG0]; rfl
  have G0c : G0.iStorageCur = g.iStorageCur := by rw [← hG0]; rfl
  have G0h : G0.bestTreeNodeToSplit = g.bestTreeNodeToSplit := by rw [← hG0]; rfl
  have G0l : G0.cLeaves = g.cLeaves := by rw [← hG0]; rfl
  have G0t : G0.totalGain = g.totalGain.add (g.arena p).AFTER_GetSplitGain := by
    rw [← hG0]; rfl
  obtain ⟨f1, d1, l1, t1, m1, L, xl, Lr, Lc, Ll, Lb, Lok, Lx, Lxn, Lh, Lp, Lpn⟩ :=
    ExamineChild_spec E aBins m G0 (g.arena p).m_pTreeNodeChildren (by rw [G0c]; exact hc1)
  generalize hg1 : ExamineChild E aBins m G0 (g.arena p).m_pTreeNodeChildren = g1 at *
  obtain ⟨f2, d2, l2, t2, m2, R, xr, Rr, Rc, Rl, Rb, Rok, Rx, Rxn, Rh, Rp, Rpn⟩ :=
    ExamineChild_spec E aBins m g1 ((g.arena p).m_pTreeNodeChildren + 1) (by omega)
  generalize hg2 : ExamineChild E aBins m g1 ((g.arena p).m_pTreeNodeChildren + 1) = g2 at *
  rw [G0c] at f1 m1 Lx
  -- the buffer at the end, slot by slot
  have ap : g2.arena p = (g.arena p).AFTER_SplitNode := by
    rw [f2 p n2 (by omega), f1 p n1 hpc, G0a, Arena.set_same]
  have aother : ∀ k, k < g.iStorageCur → k ≠ p → k ≠ (g.arena p).m_pTreeNodeChildren →
      k ≠ (g.arena p).m_pTreeNodeChildren + 1 → g2.arena k = g.arena k := by
    intro k hk k0 k1 k2
    rw [f2 k k2 (by omega), f1 k k1 hk, G0a, Arena.set_other _ _ _ _ k0]
  have adata : ∀ k, k < g.iStorageCur → SameData (g.arena k) (g2.arena k) := by
    intro k hk
    by_cases k0 : k = p
    · rw [k0, ap]; exact ⟨rfl, rfl, rfl⟩
    · by_cases k1 : k = (g.arena p).m_pTreeNodeChildren
      · rw [k1, f2 _ (by omega) (by omega)]
        have := d1
        rw [G0a, Arena.set_other _ _ _ _ (fun e => n1 e.symm)] at this
        exact this
      · by_cases k2 : k = (g.arena p).m_pTreeNodeChildren + 1
        · rw [k2]
          have := d2
          rw [f1 _ (by omega) hc2, G0a, Arena.set_other _ _ _ _ (fun e => n2 e.symm)] at this
          exact this
        · exact SameData.of_eq (aother k hk k0 k1 k2)
  have Lok2 : L.Ok E aBins m g2.arena := by
    refine Shape.Ok.frame ?_ Lok
    intro k hk
    rw [Lc] at hk
    rcases List.mem_cons.mp hk with rfl | hk
    · exact f2 _ (by omega) (by omega)
    · have := Lx k hk
      exact f2 _ (by omega) (by omega)
  obtain ⟨o1, o2, o3, o4, o5, o6⟩ :=
    @Shape.expand_spec E aBins m g.arena g2.arena p _ _ _ _
      Lc Rc Lr Rr Ll Rl Lb Rb Lok2 Rok ap _ hok hnd hp
      (fun k hk => adata k (hlt k hk)) (fun k hk => aother k (hlt k hk))
  refine ⟨⟨Shape.expand p L R T, commits ++ [p], ?_, ?_, o1, ?_, ?_, ?_, ?_, ?_, ?_, ?_⟩, ?_⟩
  · exact hrd.trans (adata 0 (hlt 0 (hroot ▸ Shape.root_mem_cells T)))
  · rw [Shape.expand_root]; exact hroot
  · rw [o2.nodup_iff]
    refine List.Nodup.append hnd (List.Nodup.append Lxn Rxn ?_) ?_
    · intro k hk1 hk2
      have := Lx k hk1; have := Rx k hk2; omega
    · intro k hk1 hk2
      have := hlt k hk1
      rcases List.mem_append.mp hk2 with hk | hk
      · have := Lx k hk; omega
      · have := Rx k hk; omega
  · intro k hk
    dsimp only
    rcases List.mem_append.mp (o2.mem_iff.mp hk) with hk | hk
    · have := hlt k hk; omega
    · rcases List.mem_append.mp hk with hk | hk
      · have := Lx k hk; omega
      · have := Rx k hk; omega
  · dsimp only
    rw [Rh, Lh, G0h]
    have hH : g.bestTreeNodeToSplit.Nodup := (List.nodup_cons.mp hPnd).2
    refine List.Nodup.append Rpn (List.Nodup.append Lpn hH ?_) ?_
    · intro k hk1 hk2
      rw [Lp k hk1] at hk2
      exact q1 (hP _ (List.mem_cons_of_mem _ hk2))
    · intro k hk1 hk2
      rw [Rp k hk1] at hk2
      rcases List.mem_append.mp hk2 with hk | hk
      · have := Lp _ hk; omega
      · exact q2 (hP _ (List.mem_cons_of_mem _ hk))
  · intro q hq
    dsimp only at hq
    rw [Rh, Lh, G0h] at hq
    rcases List.mem_append.mp hq with hq | hq
    · exact o6 q (Or.inr hq)
    · rcases List.mem_append.mp hq with hq | hq
      · exact o6 q (Or.inl hq)
      · refine o5 q (hP q (List.mem_cons_of_mem _ hq)) ?_
        intro e
        rw [e] at hq
        exact (List.nodup_cons.mp hPnd).1 hq
  · dsimp only
    rw [o3, hleaves, l2, l1, G0l]
  · refine List.Perm.trans ?_ o4.symm
    refine List.perm_append_singleton _ _ |>.trans ?_
    exact List.Perm.cons _ hperm
  · dsimp only
    rw [t2, t1, G0t, List.foldl_append, List.foldl_cons, List.foldl_nil]
    have hcong := foldl_gain_congr (fun i => NetSplitGain E aBins m (g.arena i))
      (fun i => NetSplitGain E aBins m (g2.arena i)) commits (.fin 0) (by
        intro k hk
        have hk' : k ∈ T.cells := Shape.branches_subset_cells T k (hperm.mem_iff.mp hk)
        exact NetSplitGain_congr E aBins m (adata k (hlt k hk')))
    rw [hcong, ← hgain, NetSplitGain_congr E aBins m (adata p hpc)]
    simp [TreeNode.AFTER_GetSplitGain, gainp]
  · dsimp only
    rw [l2, l1, G0l]


/-! ## The growth loop -/

theorem QueueTop_mem (a : Arena) : ∀ (l : List Nat) (x : Nat), QueueTop a l = some x → x ∈ l := by
  intro l x h
  cases l with
  | nil => simp [QueueTop] at h
  | cons y ys =>
    simp only [QueueTop, Option.some.injEq] at h
    have key : ∀ (zs : List Nat) (b : Nat),
        zs.foldl (fun best y => if CompareTreeNodeSplittingGain a y best then best else y) b = b ∨
        zs.foldl (fun best y => if CompareTreeNodeSplittingGain a y best then best else y) b ∈ zs := by
      intro zs
      induction zs with
      | nil => intro b; exact Or.inl rfl
      | cons z zs ih =>
        intro b
        simp only [List.foldl_cons]
        rcases ih (if CompareTreeNodeSplittingGain a z b then b else z) with h1 | h1
        · rw [h1]
          split_ifs
          · exact Or.inl rfl
          · exact Or.inr (List.mem_cons_self _ _)
        · exact Or.inr (List.mem_cons_of_mem _ h1)
    rcases key ys y with h1 | h1
    · rw [h1] at h; rw [← h]; exact List.mem_cons_self _ _
    · rw [h] at h1; exact List.mem_cons_of_mem _ h1

theorem QueueTop_none (a : Arena) (l : List Nat) (h : QueueTop a l = none) : l = [] := by
  cases l with
  | nil => rfl
  | cons y ys => simp [QueueTop] at h

/-- Taking the top of the queue out keeps the invariant, with the top in
front of the rest of the queue. -/
theorem GrowInv_pop (E : Settings) (aBins : List Bin) (m : Nat) (root : TreeNode) (g : Growth)
    (iTop : Nat) (h : GrowInv E aBins m root g g.bestTreeNodeToSplit)
    (hmem : iTop ∈ g.bestTreeNodeToSplit) :
    GrowInv E aBins m root { g with bestTreeNodeToSplit := g.bestTreeNodeToSplit.erase iTop }
      (iTop :: g.bestTreeNodeToSplit.erase iTop) := by
  obtain ⟨T, commits, hrd, hroot, hok, hnd, hlt, hPnd, hP, hleaves, hperm, hgain⟩ := h
  refine ⟨T, commits, hrd, hroot, hok, hnd, hlt, ?_, ?_, hleaves, hperm, hgain⟩
  · refine List.nodup_cons.mpr ⟨?_, hPnd.erase _⟩
    intro h
    exact ((List.Nodup.mem_erase_iff hPnd).mp h).1 rfl
  · intro q hq
    rcases List.mem_cons.mp hq with rfl | hq
    · exact hP _ hmem
    · exact hP _ (List.mem_of_mem_erase hq)

/-- The growth loop ends with the invariant for the queue that is left,
with more leaves than before, and with at most `cLeavesMax` leaves when it
is entered with fewer. -/
theorem GrowLoop_inv (E : Settings) (aBins : List Bin) (m cLeavesMax : Nat) (root : TreeNode) :
    ∀ (fuel : Nat) (g : Growth) (p : Nat),
      GrowInv E aBins m root g (p :: g.bestTreeNodeToSplit) →
      GrowInv E aBins m root (GrowLoop E aBins m cLeavesMax fuel g p)
        (GrowLoop E aBins m cLeavesMax fuel g p).bestTreeNodeToSplit ∧
      (g.cLeaves < cLeavesMax → (GrowLoop E aBins m cLeavesMax fuel g p).cLeaves ≤ cLeavesMax) ∧
      g.cLeaves < (GrowLoop E aBins m cLeavesMax fuel g p).cLeaves := by
  intro fuel
  induction fuel with
  | zero =>
    intro g p h
    obtain ⟨h1, h2⟩ := SplitParent_inv E aBins m root g p h
    unfold GrowLoop
    simp only
    split_ifs with c
    · split
      · exact ⟨h1, by omega, by omega⟩
      · exact ⟨h1, by omega, by omega⟩
    · exact ⟨h1, by omega, by omega⟩
  | succ fuel ih =>
    intro g p h
    obtain ⟨h1, h2⟩ := SplitParent_inv E aBins m root g p h
    unfold GrowLoop
    simp only
    split_ifs with c
    · split
      · exact ⟨h1, by omega, by omega⟩
      · rename_i iTop htop
        have hmem := QueueTop_mem _ _ _ htop
        obtain ⟨k1, k2, k3⟩ := ih _ iTop (GrowInv_pop E aBins m root _ iTop h1 hmem)
        exact ⟨k1, fun _ => k2 c, by simp only at k3; omega⟩
    · exact ⟨h1, by omega, by omega⟩


/-! ## Flattening -/

namespace Shape

/-- With enough depth, `Flatten` on the root of a shape held by the buffer
stores the split values of the formally split nodes and the scores of the
leaves and waiting nodes, both in the order of the in-order walk. -/
theorem flatten_eq {E : Settings} {aBins : List Bin} {m : Nat} {a : Arena} :
    ∀ (T : Shape) (fuel : Nat), T.Ok E aBins m a → T.height ≤ fuel →
      Flatten E a fuel T.root =
        (T.branches.map fun i => (a i).m_splitVal,
         (T.leaves.map fun i => FlattenLeaf E (a i)).flatten) ∧
      FlattenBranches a fuel T.root = T.branches ∧
      FlattenLeaves a fuel T.root = T.leaves := by
  intro T
  induction T with
  | leaf i =>
    intro fuel hok hh
    cases fuel with
    | zero => simp [height] at hh
    | succ f =>
      simp only [Ok] at hok
      have hs : (a i).AFTER_IsSplit = false := by
        simp only [TreeNode.AFTER_IsSplit]
        cases hg : (a i).m_splitGain <;> simp_all
      simp [Flatten, FlattenBranches, FlattenLeaves, root, hs, branches, leaves]
  | pend i ch =>
    intro fuel hok hh
    cases fuel with
    | zero => simp [height] at hh
    | succ f =>
      simp only [Ok] at hok
      have hs : (a i).AFTER_IsSplit = false := by
        simp only [TreeNode.AFTER_IsSplit, hok.1]; rfl
      simp [Flatten, FlattenBranches, FlattenLeaves, root, hs, branches, leaves]
  | split i l r ihl ihr =>
    intro fuel hok hh
    cases fuel with
    | zero => simp [height] at hh
    | succ f =>
      simp only [Ok] at hok
      obtain ⟨g1, -, g3, g4, -, hl, hr⟩ := hok
      simp only [height] at hh
      have hs : (a i).AFTER_IsSplit = true := by
        simp only [TreeNode.AFTER_IsSplit, g1]; rfl
      obtain ⟨l1, l2, l3⟩ := ihl f hl (by omega)
      obtain ⟨r1, r2, r3⟩ := ihr f hr (by omega)
      rw [g4] at r1 r2 r3
      show Flatten E a (f + 1) i = _ ∧ FlattenBranches a (f + 1) i = _ ∧
        FlattenLeaves a (f + 1) i = _
      simp only [Flatten, FlattenBranches, FlattenLeaves, hs, if_true, g3, l1, l2, l3, r1,
        r2, r3, branches, leaves]
      simp

/-- The split values of a shape held by the buffer lie in the range of its
root, the last bin excluded, and are strictly ascending in the order of the
in-order walk. -/
theorem splits_sorted {E : Settings} {aBins : List Bin} {m : Nat} {a : Arena} :
    ∀ (T : Shape), T.Ok E aBins m a →
      (∀ s ∈ T.branches.map (fun i => (a i).m_splitVal),
        (a T.root).m_pBinFirst ≤ s ∧ s < (a T.root).m_pBinLast) ∧
      (T.branches.map fun i => (a i).m_splitVal).Sorted (· < ·) := by
  intro T
  induction T with
  | leaf i => intro _; simp [branches]
  | pend i ch => intro _; simp [branches]
  | split i l r ihl ihr =>
    intro hok
    simp only [Ok] at hok
    obtain ⟨-, -, g3, g4, g5, hl, hr⟩ := hok
    obtain ⟨bl, sl⟩ := ihl hl
    obtain ⟨br, sr⟩ := ihr hr
    unfold BranchOk at g5
    rw [g3] at g5
    rw [g4] at br
    obtain ⟨b1, b2, b3, b4, b5, b6, -⟩ := g5
    rw [b3, b4] at bl
    rw [b5, b6] at br
    simp only [branches, root, List.map_append, List.map_cons]
    refine ⟨?_, ?_⟩
    · intro s hs
      rcases List.mem_append.mp hs with h | h
      · have := bl s h; omega
      · rcases List.mem_cons.mp h with h | h
        · omega
        · have := br s h; omega
    · refine List.pairwise_append.mpr ⟨sl, ?_, ?_⟩
      · refine List.pairwise_cons.mpr ⟨?_, sr⟩
        intro s hs; have := br s hs; omega
      · intro x hx y hy
        have := bl x hx
        rcases List.mem_cons.mp hy with h | h
        · omega
        · have := br y h; omega

theorem flatten_length_const {α : Type} (c : Nat) :
    ∀ (l : List (List α)), (∀ x ∈ l, x.length = c) → l.flatten.length = c * l.length := by
  intro l
  induction l with
  | nil => intro _; simp
  | cons x xs ih =>
    intro h
    simp only [List.flatten_cons, List.length_append, List.length_cons]
    rw [h x (List.mem_cons_self _ _), ih (fun y hy => h y (List.mem_cons_of_mem _ hy))]
    ring

end Shape

theorem FlattenLeaf_length (E : Settings) (n : TreeNode) : (FlattenLeaf E n).length = E.cScores := by
  simp [FlattenLeaf]


/-! ## The driver -/

section Driver

variable (E : Settings) (rng : RandomDeterministic) (shell : BoosterShell)
variable (cBins iDimension m cLeavesMax : Nat)

theorem SetCountSplits_zero (t : Tensor) : t.SetCountSplits 0 = .Error_None := by
  simp [Tensor.SetCountSplits]

/-- The outcome of the driver when the root is not split. -/
theorem Func_root (h : (RootFind E rng shell cBins m).ret ≠ 0) :
    PartitionOneDimensionalBoostingInternal.Func E rng shell cBins iDimension m cLeavesMax =
      { error := .Error_None,
        totalGain := some (if (RootFind E rng shell cBins m).ret < 0 then .pinf else .fin 0),
        iDimension := iDimension, cSplits := some 0, aSplits := [],
        aScores := RootScores E ((RootFind E rng shell cBins m).arena 0),
        rng := (RootFind E rng shell cBins m).rng } := by
  simp only [PartitionOneDimensionalBoostingInternal.Func]
  rw [if_pos h]
  simp [SetCountSplits_zero]

/-- The outcome of the driver on the fast path, when it succeeds. -/
theorem Func_fast (h : (RootFind E rng shell cBins m).ret = 0) (hf : cLeavesMax = 2 ∨ cBins = 2)
    (hs : (PartitionOneDimensionalBoostingInternal.Func E rng shell cBins iDimension m
      cLeavesMax).error = .Error_None) :
    PartitionOneDimensionalBoostingInternal.Func E rng shell cBins iDimension m cLeavesMax =
      { error := .Error_None,
        totalGain := some ((RootFind E rng shell cBins m).arena 0).AFTER_GetSplitGain,
        iDimension := iDimension, cSplits := some 1,
        aSplits := [((RootFind E rng shell cBins m).arena 0).m_splitVal],
        aScores :=
          FastScores E ((RootFind E rng shell cBins m).arena
            ((RootFind E rng shell cBins m).arena 0).m_pTreeNodeChildren) ++
          FastScores E ((RootFind E rng shell cBins m).arena
            (((RootFind E rng shell cBins m).arena 0).m_pTreeNodeChildren + 1)),
        rng := (RootFind E rng shell cBins m).rng } := by
  simp only [PartitionOneDimensionalBoostingInternal.Func] at hs ⊢
  rw [if_neg (not_not.mpr h), if_pos hf] at hs ⊢
  by_cases c : shell.innerTermUpdate.SetCountSplits 1 ≠ .Error_None
  · rw [if_pos c] at hs; dsimp only at hs; exact absurd hs c
  · rw [if_neg c]

/-- The outcome of the driver on the general path, when it succeeds. -/
theorem Func_general (h : (RootFind E rng shell cBins m).ret = 0)
    (hf : ¬ (cLeavesMax = 2 ∨ cBins = 2))
    (hs : (PartitionOneDimensionalBoostingInternal.Func E rng shell cBins iDimension m
      cLeavesMax).error = .Error_None) :
    PartitionOneDimensionalBoostingInternal.Func E rng shell cBins iDimension m cLeavesMax =
      { error := .Error_None,
        totalGain := some (GrowTree E rng shell cBins m cLeavesMax).totalGain,
        iDimension := iDimension,
        cSplits := some ((GrowTree E rng shell cBins m cLeavesMax).cLeaves - 1),
        aSplits := (Flatten E (GrowTree E rng shell cBins m cLeavesMax).arena
          (GrowTree E rng shell cBins m cLeavesMax).cLeaves 0).1,
        aScores := (Flatten E (GrowTree E rng shell cBins m cLeavesMax).arena
          (GrowTree E rng shell cBins m cLeavesMax).cLeaves 0).2,
        rng := (GrowTree E rng shell cBins m cLeavesMax).rng } := by
  simp only [PartitionOneDimensionalBoostingInternal.Func] at hs ⊢
  rw [if_neg (not_not.mpr h), if_neg hf] at hs ⊢
  by_cases c1 : shell.innerTermUpdate.SetCountSplits
      ((GrowTree E rng shell cBins m cLeavesMax).cLeaves - 1) ≠ .Error_None
  · rw [if_pos c1] at hs; dsimp only at hs; exact absurd hs c1
  · rw [if_neg c1] at hs ⊢
    by_cases c2 : IsMultiplyError E.cScores (GrowTree E rng shell cBins m cLeavesMax).cLeaves = true
    · rw [if_pos c2] at hs; simp at hs
    · rw [if_neg c2] at hs ⊢
      by_cases c3 : shell.innerTermUpdate.EnsureTensorScoreCapacity
          (E.cScores * (GrowTree E rng shell cBins m cLeavesMax).cLeaves) ≠ .Error_None
      · rw [if_pos c3] at hs; dsimp only at hs; exact absurd hs c3
      · rw [if_neg c3]

/-- The growth of the tree from a split root ends with the invariant of the
loop, with more than one leaf, and at most `cLeavesMax` leaves when
`cLeavesMax` is at least 2. -/
theorem GrowTree_inv (h : (RootFind E rng shell cBins m).ret = 0) :
    GrowInv E shell.aBins m (RootArena E shell cBins 0) (GrowTree E rng shell cBins m cLeavesMax)
      (GrowTree E rng shell cBins m cLeavesMax).bestTreeNodeToSplit ∧
    (2 ≤ cLeavesMax → (GrowTree E rng shell cBins m cLeavesMax).cLeaves ≤ cLeavesMax) ∧
    1 < (GrowTree E rng shell cBins m cLeavesMax).cLeaves := by
  unfold GrowTree
  simp only
  refine GrowLoop_inv E shell.aBins m cLeavesMax (RootArena E shell cBins 0) cLeavesMax _ 0 ?_
  unfold RootFind at h ⊢
  obtain ⟨k1, k2, k3, k4, k5⟩ := FindBestSplitGain_BranchOk E shell.aBins rng
    (RootArena E shell cBins) 0 1 m h (by decide) (by decide)
  refine ⟨Shape.pend 0 1, [], k5, rfl, ?_, by simp [Shape.cells], ?_, by simp,
    by simp [Shape.pends], rfl, by simp [Shape.branches], rfl⟩
  · simp only [Shape.Ok]
    rw [NetSplitGain_congr E shell.aBins m k5]
    exact ⟨k2, k3, k4, k1⟩
  · intro k hk
    simp only [Shape.cells, List.mem_cons, List.mem_singleton, List.not_mem_nil, or_false] at hk
    dsimp only
    omega

end Driver


theorem RootScores_length (E : Settings) (n : TreeNode)
    (hreg : E.bClassification = false → E.cScores = 1) : (RootScores E n).length = E.cScores := by
  unfold RootScores
  by_cases h : E.bClassification = true
  · simp [h]
  · have h' : E.bClassification = false := by simpa using h
    simp [h', hreg h']

theorem FastScores_length (E : Settings) (n : TreeNode)
    (hreg : E.bClassification = false → E.cScores = 1) : (FastScores E n).length = E.cScores := by
  unfold FastScores
  by_cases h : E.bClassification = true
  · simp [h]
  · have h' : E.bClassification = false := by simpa using h
    simp [h', hreg h']

/-- On the general path, when the root is split, `Flatten` stores the split
values of a shape that the final buffer holds, whose number of leaves is the
final `cLeaves`. -/
theorem GrowTree_flatten (E : Settings) (rng : RandomDeterministic) (shell : BoosterShell)
    (cBins m cLeavesMax : Nat) (h : (RootFind E rng shell cBins m).ret = 0) :
    ∃ T : Shape, T.root = 0 ∧
      T.Ok E shell.aBins m (GrowTree E rng shell cBins m cLeavesMax).arena ∧
      T.leaves.length = (GrowTree E rng shell cBins m cLeavesMax).cLeaves ∧
      Flatten E (GrowTree E rng shell cBins m cLeavesMax).arena
          (GrowTree E rng shell cBins m cLeavesMax).cLeaves 0 =
        (T.branches.map fun i => ((GrowTree E rng shell cBins m cLeavesMax).arena i).m_splitVal,
         (T.leaves.map fun i =>
            FlattenLeaf E ((GrowTree E rng shell cBins m cLeavesMax).arena i)).flatten) := by
  obtain ⟨⟨T, commits, -, hroot, hok, -, -, -, -, hleaves, -, -⟩, -, -⟩ :=
    GrowTree_inv E rng shell cBins m cLeavesMax h
  refine ⟨T, hroot, hok, hleaves, ?_⟩
  have := (Shape.flatten_eq T (GrowTree E rng shell cBins m cLeavesMax).cLeaves hok
    (by rw [← hleaves]; exact Shape.height_le_leaves T)).1
  rw [hroot] at this
  exact this


/-! ## Arithmetic of `FloatBig` -/

theorem FloatBig.add_swap (z x y : FloatBig) : (z.add x).add y = (z.add y).add x := by
  cases z <;> cases x <;> cases y <;> simp [FloatBig.add, add_right_comm]

theorem FloatBig.zero_add (x : FloatBig) : (FloatBig.fin 0).add x = x := by
  cases x <;> simp [FloatBig.add]

/-! ## Facts on the branches of the grown tree -/

/-- Every formally split node of a shape held by the buffer carries the
facts of its split and the net gain of its split is not below `k_gainMin`. -/
theorem Shape.branches_ok {E : Settings} {aBins : List Bin} {m : Nat} {a : Arena} :
    ∀ (T : Shape), T.Ok E aBins m a → ∀ i ∈ T.branches,
      BranchOk E aBins m a i ∧ E.k_gainMin.le (NetSplitGain E aBins m (a i)) = true := by
  intro T
  induction T with
  | leaf i => intro _ j hj; simp [Shape.branches] at hj
  | pend i ch => intro _ j hj; simp [Shape.branches] at hj
  | split i l r ihl ihr =>
    intro hok j hj
    simp only [Shape.Ok] at hok
    obtain ⟨-, g2, -, -, g5, hl, hr⟩ := hok
    simp only [Shape.branches, List.mem_append, List.mem_cons] at hj
    rcases hj with h | h | h
    · exact ihl hl j h
    · rw [h]; exact ⟨g5, g2⟩
    · exact ihr hr j h

/-- On the general path the formally split nodes that `Flatten` walks
through are the formally split nodes of a shape that the final buffer holds. -/
theorem GrowTree_branches (E : Settings) (rng : RandomDeterministic) (shell : BoosterShell)
    (cBins m cLeavesMax : Nat) (h : (RootFind E rng shell cBins m).ret = 0) :
    ∃ T : Shape, T.root = 0 ∧
      SameData (RootArena E shell cBins 0) ((GrowTree E rng shell cBins m cLeavesMax).arena 0) ∧
      T.Ok E shell.aBins m (GrowTree E rng shell cBins m cLeavesMax).arena ∧
      FlattenBranches (GrowTree E rng shell cBins m cLeavesMax).arena
        (GrowTree E rng shell cBins m cLeavesMax).cLeaves 0 = T.branches ∧
      (Flatten E (GrowTree E rng shell cBins m cLeavesMax).arena
        (GrowTree E rng shell cBins m cLeavesMax).cLeaves 0).1 =
        T.branches.map (fun i => ((GrowTree E rng shell cBins m cLeavesMax).arena i).m_splitVal) ∧
      (GrowTree E rng shell cBins m cLeavesMax).totalGain =
        T.branches.foldl (fun t i => t.add
          (NetSplitGain E shell.aBins m ((GrowTree E rng shell cBins m cLeavesMax).arena i)))
          (.fin 0) := by
  obtain ⟨⟨T, commits, hrd, hroot, hok, -, -, -, -, hleaves, hperm, hgain⟩, -, -⟩ :=
    GrowTree_inv E rng shell cBins m cLeavesMax h
  obtain ⟨f1, f2, -⟩ := Shape.flatten_eq T (GrowTree E rng shell cBins m cLeavesMax).cLeaves hok
    (by rw [← hleaves]; exact Shape.height_le_leaves T)
  rw [hroot] at f1 f2
  refine ⟨T, hroot, hrd, hok, f2, by rw [f1], ?_⟩
  rw [hgain]
  exact List.Perm.foldl_eq' hperm (fun x _ y _ z => FloatBig.add_swap _ _ _) _


/-! ## Order of `FloatBig` -/

theorem FloatBig.le_trans' {a b c : FloatBig} (h1 : a.le b = true) (h2 : b.le c = true) :
    a.le c = true := by
  cases a <;> cases b <;> cases c <;> simp_all [FloatBig.le]
  exact le_trans h1 h2

theorem FloatBig.zero_le_add {t g : FloatBig} (h1 : (FloatBig.fin 0).le t = true)
    (h2 : (FloatBig.fin 0).le g = true) : (FloatBig.fin 0).le (t.add g) = true := by
  cases t <;> cases g <;> simp_all [FloatBig.le, FloatBig.add]
  exact add_nonneg h1 h2

theorem foldl_gain_nonneg (f : Nat → FloatBig) :
    ∀ (l : List Nat) (z : FloatBig), (FloatBig.fin 0).le z = true →
      (∀ i ∈ l, (FloatBig.fin 0).le (f i) = true) →
      (FloatBig.fin 0).le (l.foldl (fun t i => t.add (f i)) z) = true := by
  intro l
  induction l with
  | nil => intro z hz _; exact hz
  | cons x xs ih =>
    intro z hz h
    simp only [List.foldl_cons]
    exact ih _ (FloatBig.zero_le_add hz (h x (List.mem_cons_self _ _)))
      (fun i hi => h i (List.mem_cons_of_mem _ hi))


/-! ## Bins without gradient -/

theorem ZeroGrad.Zero (E : Settings) : ZeroGrad E (Bin.Zero E.cScores) := by
  refine ⟨⟨0, rfl⟩, ?_⟩
  intro i hi
  simp only [Bin.Zero]
  rw [Bin.pair_map _ _ _ hi]
  exact ⟨rfl, 0, rfl⟩

theorem ZeroGrad.Copy {E : Settings} {b : Bin} (h : ZeroGrad E b) : ZeroGrad E (b.Copy E.cScores) := by
  refine ⟨h.1, ?_⟩
  intro i hi
  rw [Bin.pair_Copy _ _ _ hi]
  exact h.2 i hi

theorem ZeroGrad.Add {E : Settings} {a b : Bin} (ha : ZeroGrad E a) (hb : ZeroGrad E b) :
    ZeroGrad E (a.Add b E.cScores) := by
  obtain ⟨⟨wa, hwa⟩, ga⟩ := ha
  obtain ⟨⟨wb, hwb⟩, gb⟩ := hb
  refine ⟨⟨wa + wb, by simp [Bin.Add, hwa, hwb, FloatBig.add]⟩, ?_⟩
  intro i hi
  obtain ⟨a1, x, a2⟩ := ga i hi
  obtain ⟨b1, y, b2⟩ := gb i hi
  simp only [Bin.Add]
  rw [Bin.pair_map _ _ _ hi]
  exact ⟨by simp [a1, b1, FloatBig.add], x + y, by simp [a2, b2, FloatBig.add]⟩

theorem ZeroGrad.Subtract {E : Settings} {a b : Bin} (ha : ZeroGrad E a) (hb : ZeroGrad E b) :
    ZeroGrad E (a.Subtract b E.cScores) := by
  obtain ⟨⟨wa, hwa⟩, ga⟩ := ha
  obtain ⟨⟨wb, hwb⟩, gb⟩ := hb
  refine ⟨⟨wa + -wb, by simp [Bin.Subtract, hwa, hwb, FloatBig.add, FloatBig.sub, FloatBig.neg]⟩, ?_⟩
  intro i hi
  obtain ⟨a1, x, a2⟩ := ga i hi
  obtain ⟨b1, y, b2⟩ := gb i hi
  simp only [Bin.Subtract]
  rw [Bin.pair_map _ _ _ hi]
  exact ⟨by simp [a1, b1, FloatBig.add, FloatBig.sub, FloatBig.neg], x + -y,
    by simp [a2, b2, FloatBig.add, FloatBig.sub, FloatBig.neg]⟩

theorem ZeroGrad.getD {E : Settings} {aBins : List Bin} (h : ∀ b ∈ aBins, ZeroGrad E b) (i : Nat) :
    ZeroGrad E (aBins.getD i (Bin.Zero E.cScores)) := by
  by_cases hi : i < aBins.length
  · rw [List.getD_eq_getElem _ _ hi]
    exact h _ (List.getElem_mem _)
  · rw [List.getD_eq_default _ _ (by omega)]
    exact ZeroGrad.Zero E

theorem ZeroGrad.BinSum {E : Settings} {aBins : List Bin} (h : ∀ b ∈ aBins, ZeroGrad E b)
    (first : Nat) : ∀ k, ZeroGrad E (BinSum E aBins first k) := by
  intro k
  induction k with
  | zero => exact ZeroGrad.Zero E
  | succ k ih => exact ZeroGrad.Add ih (ZeroGrad.getD h _)

theorem FloatBig.sub_zero (x : FloatBig) : x.sub (.fin 0) = x := by
  cases x <;> simp [FloatBig.sub, FloatBig.add, FloatBig.neg]

theorem foldl_range_fixed {α : Type} (f : α → Nat → α) (z : α) :
    ∀ (n : Nat), (∀ i < n, f z i = z) → (List.range n).foldl f z = z := by
  intro n
  induction n with
  | zero => intro _; rfl
  | succ n ih =>
    intro h
    rw [List.range_succ, List.foldl_append, ih (fun i hi => h i (by omega))]
    simp [h n (by omega)]

/-- Without gradient on either side the gain of a boundary is 0. -/
theorem CalcSplitGain_zero {E : Settings} {l r : Bin} (hl : ZeroGrad E l) (hr : ZeroGrad E r)
    (ho : ∀ h : ℚ, E.CalcPartialGain (.fin 0) (.fin h) = .fin 0) :
    CalcSplitGain E l r = .fin 0 := by
  unfold CalcSplitGain
  apply foldl_range_fixed
  intro i hi
  obtain ⟨⟨wl, hwl⟩, gl⟩ := hl
  obtain ⟨⟨wr, hwr⟩, gr⟩ := hr
  obtain ⟨a1, x, a2⟩ := gl i hi
  obtain ⟨b1, y, b2⟩ := gr i hi
  dsimp only
  rw [a1, b1, a2, b2, hwl, hwr]
  split_ifs <;> simp [ho, FloatBig.add]

/-- Without gradient in the node, subtracting its partial gain changes
nothing. -/
theorem SubtractParentGain_zero {E : Settings} {p : Bin} (hp : ZeroGrad E p)
    (ho : ∀ h : ℚ, E.CalcPartialGain (.fin 0) (.fin h) = .fin 0) (g : FloatBig) :
    SubtractParentGain E p g = g := by
  unfold SubtractParentGain
  apply foldl_range_fixed
  intro i hi
  obtain ⟨⟨w, hw⟩, gp⟩ := hp
  obtain ⟨a1, x, a2⟩ := gp i hi
  dsimp only
  rw [a1, a2, hw]
  split_ifs <;> simp [ho, FloatBig.sub_zero]

theorem FloatBig.eq_zero_of_le_of_not_lt {k : FloatBig} (h1 : (FloatBig.fin 0).le k = true)
    (h2 : (FloatBig.fin 0).lt k = false) : k = .fin 0 := by
  cases k <;> simp_all [FloatBig.le, FloatBig.lt]
  exact le_antisymm h2 h1

/-- The scan of bins without gradient: the tie list is empty and the best
gain is still `k_gainMin`, or the tie list is not empty, the best gain is 0
and `k_gainMin` is not above 0. -/
theorem SweepLoop_zero (E : Settings) (aBins : List Bin) (m : Nat)
    (hbins : ∀ b ∈ aBins, ZeroGrad E b)
    (ho : ∀ h : ℚ, E.CalcPartialGain (.fin 0) (.fin h) = .fin 0) :
    ∀ (k cur : Nat) (s : Sweep), ZeroGrad E s.left → ZeroGrad E s.right →
      ((s.aTreeSweep = [] ∧ s.BEST_gain = E.k_gainMin) ∨
        (s.aTreeSweep ≠ [] ∧ s.BEST_gain = .fin 0 ∧ (FloatBig.fin 0).lt E.k_gainMin = false)) →
      (((SweepLoop E aBins m k cur s).aTreeSweep = [] ∧
          (SweepLoop E aBins m k cur s).BEST_gain = E.k_gainMin) ∨
        ((SweepLoop E aBins m k cur s).aTreeSweep ≠ [] ∧
          (SweepLoop E aBins m k cur s).BEST_gain = .fin 0 ∧
          (FloatBig.fin 0).lt E.k_gainMin = false)) := by
  intro k
  induction k with
  | zero => intro cur s _ _ h; exact h
  | succ k ih =>
    intro cur s hl hr h
    have hl' := ZeroGrad.Add hl (ZeroGrad.getD hbins cur)
    have hr' := ZeroGrad.Subtract hr (ZeroGrad.getD hbins cur)
    rw [SweepLoop]
    by_cases h1 : (s.right.Subtract (aBins.getD cur (Bin.Zero E.cScores)) E.cScores).m_cSamples < m
    · rw [if_pos h1]; exact h
    · rw [if_neg h1]
      refine ih (cur + 1) _ (by rw [SweepRecord_left]; exact hl')
        (by rw [SweepRecord_right]; exact hr') ?_
      simp only [SweepRecord]
      have hg := CalcSplitGain_zero hl' hr' ho
      by_cases h2 : m ≤ (s.left.Add (aBins.getD cur (Bin.Zero E.cScores)) E.cScores).m_cSamples
      · rw [if_pos h2, hg]
        by_cases hc : (!(FloatBig.fin 0).lt s.BEST_gain) = true
        · rw [if_pos hc]
          dsimp only
          refine Or.inr ⟨by simp, rfl, ?_⟩
          rcases h with ⟨-, e2⟩ | ⟨-, -, e3⟩
          · rw [e2] at hc; simpa using hc
          · exact e3
        · rw [if_neg hc]; exact h
      · rw [if_neg h2]; exact h

/-- On a node without gradient, over bins without gradient and with
`0 <= k_gainMin`, `FindBestSplitGain` does not return -1; it returns 1 when
`k_gainMin` is above 0, and otherwise the net gain of the node is 0. -/
theorem FindBestSplitGain_zero (E : Settings) (aBins : List Bin) (rng : RandomDeterministic)
    (arena : Arena) (iNode iChildren m : Nat)
    (hbins : ∀ b ∈ aBins, ZeroGrad E b)
    (ho : ∀ h : ℚ, E.CalcPartialGain (.fin 0) (.fin h) = .fin 0)
    (hk : (FloatBig.fin 0).le E.k_gainMin = true) (hnode : ZeroGrad E (arena iNode).m_bin)
    (h1 : iNode ≠ iChildren) (h2 : iNode ≠ iChildren + 1) :
    (FindBestSplitGain E aBins rng arena iNode iChildren m).ret ≠ -1 ∧
    ((FloatBig.fin 0).lt E.k_gainMin = true →
      (FindBestSplitGain E aBins rng arena iNode iChildren m).ret = 1) ∧
    ((FloatBig.fin 0).lt E.k_gainMin = false →
      NetSplitGain E aBins m (arena iNode) = .fin 0) := by
  have hz : ((NodeSweep E aBins m (arena iNode)).aTreeSweep = [] ∧
        (NodeSweep E aBins m (arena iNode)).BEST_gain = E.k_gainMin) ∨
      ((NodeSweep E aBins m (arena iNode)).aTreeSweep ≠ [] ∧
        (NodeSweep E aBins m (arena iNode)).BEST_gain = .fin 0 ∧
        (FloatBig.fin 0).lt E.k_gainMin = false) :=
    SweepLoop_zero E aBins m hbins ho
      ((arena iNode).m_pBinLast - (arena iNode).m_pBinFirst) (arena iNode).m_pBinFirst
      (SweepInit E (arena iNode).m_bin) (ZeroGrad.Zero E) (ZeroGrad.Copy hnode)
      (Or.inl ⟨rfl, rfl⟩)
  have hs : ScratchChildren arena iNode iChildren (NodeSweep E aBins m (arena iNode)) iNode =
      arena iNode := ScratchChildren_other arena iNode iChildren _ iNode h1 h2
  have hnet : ∀ g, SubtractParentGain E (arena iNode).m_bin g = g :=
    SubtractParentGain_zero hnode ho
  refine ⟨?_, ?_, ?_⟩
  · simp only [FindBestSplitGain, hs, hnet]
    rcases hz with ⟨e1, e2⟩ | ⟨e1, e2, e3⟩
    · simp [e1]
    · have hk0 := FloatBig.eq_zero_of_le_of_not_lt hk e3
      have hne : (NodeSweep E aBins m (arena iNode)).aTreeSweep.isEmpty = false := by
        cases hh : (NodeSweep E aBins m (arena iNode)).aTreeSweep with
        | nil => exact absurd hh e1
        | cons x xs => rfl
      simp [hne, e2, hk0, FloatBig.leMax, FloatBig.le]
  · intro hpos
    rcases hz with ⟨e1, e2⟩ | ⟨e1, e2, e3⟩
    · simp [FindBestSplitGain, e1]
    · rw [hpos] at e3; exact absurd e3 (by simp)
  · intro hnpos
    have hk0 := FloatBig.eq_zero_of_le_of_not_lt hk hnpos
    unfold NetSplitGain
    rw [hnet]
    rcases hz with ⟨e1, e2⟩ | ⟨e1, e2, e3⟩
    · rw [e2, hk0]
    · exact e2


/-- In a shape held by the buffer whose root has no gradient, over bins
without gradient, no formally split node has a gradient. -/
theorem Shape.zero_branches {E : Settings} {aBins : List Bin} {m : Nat} {a : Arena}
    (hbins : ∀ b ∈ aBins, ZeroGrad E b) :
    ∀ (T : Shape), T.Ok E aBins m a → ZeroGrad E (a T.root).m_bin →
      ∀ i ∈ T.branches, ZeroGrad E (a i).m_bin := by
  intro T
  induction T with
  | leaf i => intro _ _ j hj; simp [Shape.branches] at hj
  | pend i ch => intro _ _ j hj; simp [Shape.branches] at hj
  | split i l r ihl ihr =>
    intro hok hroot j hj
    simp only [Shape.Ok] at hok
    obtain ⟨-, -, g3, g4, g5, hl, hr⟩ := hok
    unfold BranchOk at g5
    rw [g3] at g5
    obtain ⟨-, -, -, -, -, -, -, -, b9, b10, -⟩ := g5
    have hzl : ZeroGrad E (a l.root).m_bin := by
      rw [b10]; exact ZeroGrad.Copy (ZeroGrad.BinSum hbins _ _)
    have hzr : ZeroGrad E (a r.root).m_bin := by
      rw [g4, b9]; exact ZeroGrad.Subtract (ZeroGrad.Copy hroot) hzl
    simp only [Shape.branches, List.mem_append, List.mem_cons] at hj
    rcases hj with h | h | h
    · exact ihl hl hzl j h
    · rw [h]; exact hroot
    · exact ihr hr hzr j h

theorem foldl_gain_zero (f : Nat → FloatBig) :
    ∀ (l : List Nat), (∀ i ∈ l, f i = FloatBig.fin 0) →
      l.foldl (fun (t : FloatBig) i => t.add (f i)) (FloatBig.fin 0) = FloatBig.fin 0 := by
  intro l
  induction l with
  | nil => intro _; rfl
  | cons x xs ih =>
    intro h
    simp only [List.foldl_cons]
    rw [h x (List.mem_cons_self _ _), FloatBig.zero_add]
    exact ih (fun i hi => h i (List.mem_cons_of_mem _ hi))


/-- A regression bin whose gradient sum is 0 has no gradient. -/
theorem RegressionBin_ZeroGrad (c : Nat) : ZeroGrad RegressionSettings (RegressionBin c 0) := by
  refine ⟨⟨c, rfl⟩, ?_⟩
  intro i hi
  have hi0 : i = 0 := by
    have : RegressionSettings.cScores = 1 := rfl
    omega
  rw [hi0]
  exact ⟨rfl, 0, rfl⟩

/-- Zero is below `k_hessianMin`. -/
theorem k_hessianMin_pos : (FloatBig.fin 0).lt k_hessianMin = true := by
  simp only [k_hessianMin, FloatBig.lt, decide_eq_true_eq, Rat.mkRat_eq_div]
  positivity

/-- The partial gain of the sample oracle for a zero gradient sum and a
finite hessian is 0. -/
theorem RegressionSettings_zero_gain (h : ℚ) :
    RegressionSettings.CalcPartialGain (.fin 0) (.fin h) = .fin 0 := by
  simp only [RegressionSettings]
  by_cases h0 : h = 0
  · rw [h0, if_pos k_hessianMin_pos]
  · split_ifs
    · rfl
    · simp [FloatBig.div, FloatBig.mul, h0]


/-! ## Sample counts of the scan -/

theorem CountSum_mono (E : Settings) (aBins : List Bin) (k : Nat) :
    ∀ n, CountSum E aBins k ≤ CountSum E aBins (k + n) := by
  intro n
  induction n with
  | zero => exact le_rfl
  | succ n ih =>
    have e : k + (n + 1) = (k + n) + 1 := by omega
    rw [e, CountSum]
    omega

/-- The sample count of the sum of the first `k` bins is their total count
as a `size_t`. -/
theorem BinSum_count (E : Settings) (aBins : List Bin) :
    ∀ k, (BinSum E aBins 0 k).m_cSamples = CountSum E aBins k % 18446744073709551616 := by
  intro k
  induction k with
  | zero => rfl
  | succ k ih =>
    simp only [BinSum, CountSum, Bin.Add, addSize, ih, Nat.zero_add]
    omega

/-- When the root holds the total sample count of the bins and twice
`cSamplesLeafMin` is above it, no boundary of the root has
`cSamplesLeafMin` samples on both sides. -/
theorem Root_not_eligible (E : Settings) (shell : BoosterShell) (cBins m : Nat)
    (hsum : shell.sumAllBins.m_cSamples = CountSum E shell.aBins cBins)
    (hfit : CountSum E shell.aBins cBins < 18446744073709551616)
    (hmin : CountSum E shell.aBins cBins < 2 * m) (k : Nat) (hk : k + 1 ≤ cBins) :
    ¬ (m ≤ (BinSum E shell.aBins 0 (k + 1)).m_cSamples ∧
      m ≤ subSize (RootArena E shell cBins 0).m_bin.m_cSamples
        (BinSum E shell.aBins 0 (k + 1)).m_cSamples) := by
  have hp : (RootArena E shell cBins 0).m_bin.m_cSamples = CountSum E shell.aBins cBins := by
    simp [RootArena, Bin.Copy, hsum]
  have hle : CountSum E shell.aBins (k + 1) ≤ CountSum E shell.aBins cBins := by
    have := CountSum_mono E shell.aBins (k + 1) (cBins - (k + 1))
    have e : k + 1 + (cBins - (k + 1)) = cBins := by omega
    rwa [e] at this
  rw [hp, BinSum_count, subSize]
  omega

/-- Under the same conditions the tie list of the scan of the root is
empty. -/
theorem Root_no_ties (E : Settings) (shell : BoosterShell) (cBins m : Nat)
    (hsum : shell.sumAllBins.m_cSamples = CountSum E shell.aBins cBins)
    (hfit : CountSum E shell.aBins cBins < 18446744073709551616)
    (hmin : CountSum E shell.aBins cBins < 2 * m) :
    (NodeSweep E shell.aBins m (RootArena E shell cBins 0)).aTreeSweep = [] := by
  apply List.eq_nil_iff_forall_not_mem.mpr
  intro e he
  obtain ⟨-, h2, h3, h4, h5⟩ := NodeSweep_entries E shell.aBins m _ e he
  have hf : (RootArena E shell cBins 0).m_pBinFirst = 0 := by simp [RootArena]
  have hl : (RootArena E shell cBins 0).m_pBinLast = cBins - 1 := by simp [RootArena]
  rw [hf, hl] at h2
  rw [hf] at h5
  have hc : e.m_bestLeftBin.m_cSamples =
      (BinSum E shell.aBins 0 (e.m_pBestBin + 1)).m_cSamples := by
    rw [h5]; rfl
  rw [hc] at h3 h4
  exact Root_not_eligible E shell cBins m hsum hfit hmin e.m_pBestBin (by omega) ⟨h3, h4⟩

/-- With an empty tie list `FindBestSplitGain` returns 1. -/
theorem FindBestSplitGain_no_ties (E : Settings) (aBins : List Bin) (rng : RandomDeterministic)
    (arena : Arena) (iNode iChildren m : Nat)
    (h : (NodeSweep E aBins m (arena iNode)).aTreeSweep = []) :
    (FindBestSplitGain E aBins rng arena iNode iChildren m).ret = 1 := by
  simp [FindBestSplitGain, h]

/-! ## Comparisons of `FloatBig` -/

theorem FloatBig.le_nan (x : FloatBig) : x.le .nan = false := by
  cases x <;> rfl

theorem FloatBig.le_ninf_of_zero_le {k : FloatBig} (hk : (FloatBig.fin 0).le k = true) :
    k.le .ninf = false := by
  cases k <;> simp_all [FloatBig.le]

theorem FloatBig.le_pinf_of_zero_le {k : FloatBig} (hk : (FloatBig.fin 0).le k = true) :
    k.le .pinf = true := by
  cases k <;> simp_all [FloatBig.le]

theorem FloatBig.le_eq_not_lt {k x : FloatBig} (hk : (FloatBig.fin 0).le k = true)
    (hx : x.isnan = false) : k.le x = !x.lt k := by
  cases k with
  | fin a =>
    cases x with
    | fin b =>
      simp only [FloatBig.le, FloatBig.lt]
      by_cases hab : a ≤ b
      · simp [hab, not_lt.mpr hab]
      · simp [hab, not_le.mp hab]
    | _ => simp_all [FloatBig.le, FloatBig.lt, FloatBig.isnan]
  | _ => cases x <;> simp_all [FloatBig.le, FloatBig.lt, FloatBig.isnan]

/-! ## The cursor of the buffer -/

/-- The treatment of a child advances the cursor by two exactly when it
pushes the child. -/
theorem ExamineChild_cursor (E : Settings) (aBins : List Bin) (m : Nat) (g : Growth) (x : Nat) :
    (ExamineChild E aBins m g x).iStorageCur + 2 * g.bestTreeNodeToSplit.length =
      g.iStorageCur + 2 * (ExamineChild E aBins m g x).bestTreeNodeToSplit.length ∧
    (ExamineChild E aBins m g x).bestTreeNodeToSplit.length ≤ g.bestTreeNodeToSplit.length + 1 ∧
    (ExamineChild E aBins m g x).cLeaves = g.cLeaves := by
  unfold ExamineChild
  by_cases hs : (g.arena x).BEFORE_IsSplittable = true
  · rw [if_pos hs]
    by_cases hr : (FindBestSplitGain E aBins g.rng g.arena x g.iStorageCur m).ret = 0
    · rw [if_pos hr]
      refine ⟨?_, ?_, rfl⟩
      · simp only [List.length_cons]; omega
      · simp only [List.length_cons]; omega
    · rw [if_neg hr]
      exact ⟨rfl, by dsimp only; omega, rfl⟩
  · rw [if_neg hs]
    exact ⟨rfl, by dsimp only; omega, rfl⟩

theorem SplitParent_cursor (E : Settings) (aBins : List Bin) (m : Nat) (g : Growth) (p : Nat) :
    (SplitParent E aBins m g p).iStorageCur + 2 * g.bestTreeNodeToSplit.length =
      g.iStorageCur + 2 * (SplitParent E aBins m g p).bestTreeNodeToSplit.length ∧
    (SplitParent E aBins m g p).bestTreeNodeToSplit.length ≤ g.bestTreeNodeToSplit.length + 2 ∧
    (SplitParent E aBins m g p).cLeaves = g.cLeaves + 1 := by
  have hS : SplitParent E aBins m g p =
      { ExamineChild E aBins m
          (ExamineChild E aBins m (FormalSplit g p)
            ((g.arena.set p (g.arena p).AFTER_SplitNode) p).m_pTreeNodeChildren)
          (((ExamineChild E aBins m (FormalSplit g p)
            ((g.arena.set p (g.arena p).AFTER_SplitNode) p).m_pTreeNodeChildren).arena
              p).m_pTreeNodeChildren + 1) with
        cLeaves := (ExamineChild E aBins m
          (ExamineChild E aBins m (FormalSplit g p)
            ((g.arena.set p (g.arena p).AFTER_SplitNode) p).m_pTreeNodeChildren)
          (((ExamineChild E aBins m (FormalSplit g p)
            ((g.arena.set p (g.arena p).AFTER_SplitNode) p).m_pTreeNodeChildren).arena
              p).m_pTreeNodeChildren + 1)).cLeaves + 1 } := rfl
  rw [hS]
  have e1 : (FormalSplit g p).iStorageCur = g.iStorageCur := rfl
  have e2 : (FormalSplit g p).bestTreeNodeToSplit = g.bestTreeNodeToSplit := rfl
  have e3 : (FormalSplit g p).cLeaves = g.cLeaves := rfl
  generalize FormalSplit g p = G0 at *
  obtain ⟨a1, a2, a3⟩ := ExamineChild_cursor E aBins m G0
    ((g.arena.set p (g.arena p).AFTER_SplitNode) p).m_pTreeNodeChildren
  generalize ExamineChild E aBins m G0
    ((g.arena.set p (g.arena p).AFTER_SplitNode) p).m_pTreeNodeChildren = g1 at *
  obtain ⟨b1, b2, b3⟩ := ExamineChild_cursor E aBins m g1 ((g1.arena p).m_pTreeNodeChildren + 1)
  generalize ExamineChild E aBins m g1 ((g1.arena p).m_pTreeNodeChildren + 1) = g2 at *
  rw [e1, e2] at a1
  rw [e2] at a2
  dsimp only
  omega

/-- The growth loop, entered with the cursor at twice the number of leaves,
of the node to split and of the nodes in the queue, minus one, ends with the
cursor at twice the number of leaves and of nodes in the queue, minus one;
the queue is never longer than the number of leaves. -/
theorem GrowLoop_cursor (E : Settings) (aBins : List Bin) (m cLeavesMax : Nat) :
    ∀ (fuel : Nat) (g : Growth) (p : Nat),
      g.iStorageCur + 1 = 2 * (g.cLeaves + 1 + g.bestTreeNodeToSplit.length) →
      g.bestTreeNodeToSplit.length + 1 ≤ g.cLeaves →
      (GrowLoop E aBins m cLeavesMax fuel g p).iStorageCur + 1 =
        2 * ((GrowLoop E aBins m cLeavesMax fuel g p).cLeaves +
          (GrowLoop E aBins m cLeavesMax fuel g p).bestTreeNodeToSplit.length) ∧
      (GrowLoop E aBins m cLeavesMax fuel g p).bestTreeNodeToSplit.length ≤
        (GrowLoop E aBins m cLeavesMax fuel g p).cLeaves := by
  intro fuel
  induction fuel with
  | zero =>
    intro g p h1 h2
    obtain ⟨a1, a2, a3⟩ := SplitParent_cursor E aBins m g p
    unfold GrowLoop
    simp only
    split_ifs with c
    · split <;> exact ⟨by omega, by omega⟩
    · exact ⟨by omega, by omega⟩
  | succ fuel ih =>
    intro g p h1 h2
    obtain ⟨a1, a2, a3⟩ := SplitParent_cursor E aBins m g p
    unfold GrowLoop
    simp only
    split_ifs with c
    · split
      · exact ⟨by omega, by omega⟩
      · rename_i iTop htop
        have hmem := QueueTop_mem _ _ _ htop
        have hlen := List.length_erase_of_mem hmem
        have hpos : 0 < (SplitParent E aBins m g p).bestTreeNodeToSplit.length :=
          List.length_pos_of_mem hmem
        refine ih _ iTop ?_ ?_
        · dsimp only; rw [hlen]; omega
        · dsimp only; rw [hlen]; omega
    · exact ⟨by omega, by omega⟩

theorem GrowTree_cursor (E : Settings) (rng : RandomDeterministic) (shell : BoosterShell)
    (cBins m cLeavesMax : Nat) :
    (GrowTree E rng shell cBins m cLeavesMax).iStorageCur + 1 =
      2 * ((GrowTree E rng shell cBins m cLeavesMax).cLeaves +
        (GrowTree E rng shell cBins m cLeavesMax).bestTreeNodeToSplit.length) ∧
    (GrowTree E rng shell cBins m cLeavesMax).bestTreeNodeToSplit.length ≤
      (GrowTree E rng shell cBins m cLeavesMax).cLeaves := by
  unfold GrowTree
  exact GrowLoop_cursor E shell.aBins m cLeavesMax cLeavesMax _ 0 (by simp) (by simp)

/-! ## Finite gains -/

/-- Subtracting a value that is NaN or not negative from a value that is NaN
or not above the largest finite value leaves such a value. -/
theorem FloatBig.sub_leMax {a x : FloatBig} (ha : a.isnan = true ∨ a.leMax = true)
    (hx : x.isnan = true ∨ (FloatBig.fin 0).le x = true) :
    (a.sub x).isnan = true ∨ (a.sub x).leMax = true := by
  cases a <;> cases x <;>
    simp_all [FloatBig.sub, FloatBig.add, FloatBig.neg, FloatBig.isnan, FloatBig.leMax,
      FloatBig.le]

theorem foldl_sub_leMax (f : Nat → FloatBig)
    (hf : ∀ i, (f i).isnan = true ∨ (FloatBig.fin 0).le (f i) = true) :
    ∀ (l : List Nat) (z : FloatBig), (z.isnan = true ∨ z.leMax = true) →
      ((l.foldl (fun (t : FloatBig) i => t.sub (f i)) z).isnan = true ∨
        (l.foldl (fun (t : FloatBig) i => t.sub (f i)) z).leMax = true) := by
  intro l
  induction l with
  | nil => intro z hz; exact hz
  | cons x xs ih =>
    intro z hz
    simp only [List.foldl_cons]
    exact ih _ (FloatBig.sub_leMax hz (hf x))

/-- A value that is NaN or not above the largest finite value, and that a
value not below 0 is not above, is finite and not negative. -/
theorem FloatBig.fin_of_le {k x : FloatBig} (hk : (FloatBig.fin 0).le k = true)
    (hx : x.isnan = true ∨ x.leMax = true) (hle : k.le x = true) :
    ∃ q : ℚ, 0 ≤ q ∧ x = .fin q := by
  cases k <;> cases x <;> simp_all [FloatBig.le, FloatBig.isnan, FloatBig.leMax]
  exact le_trans hk hle

/-- With partial gains that are NaN or not negative, the net gain of a node
whose winning gain is not above the largest finite value and whose net gain
is not below `k_gainMin` is finite and not negative. -/
theorem NetSplitGain_fin (E : Settings) (aBins : List Bin) (m : Nat) (node : TreeNode)
    (hk : (FloatBig.fin 0).le E.k_gainMin = true)
    (ho : ∀ g h, (E.CalcPartialGain g h).isnan = true ∨
      (FloatBig.fin 0).le (E.CalcPartialGain g h) = true)
    (hmax : (NodeSweep E aBins m node).BEST_gain.leMax = true)
    (hle : E.k_gainMin.le (NetSplitGain E aBins m node) = true) :
    ∃ q : ℚ, 0 ≤ q ∧ NetSplitGain E aBins m node = .fin q := by
  refine FloatBig.fin_of_le hk ?_ hle
  unfold NetSplitGain SubtractParentGain
  exact foldl_sub_leMax _ (fun i => ho _ _) _ _ (Or.inr hmax)

theorem foldl_gain_fin (f : Nat → FloatBig) :
    ∀ (l : List Nat) (z : ℚ), 0 ≤ z → (∀ i ∈ l, ∃ q : ℚ, 0 ≤ q ∧ f i = .fin q) →
      ∃ q : ℚ, 0 ≤ q ∧ l.foldl (fun (t : FloatBig) i => t.add (f i)) (.fin z) = .fin q := by
  intro l
  induction l with
  | nil => intro z hz _; exact ⟨z, hz, rfl⟩
  | cons x xs ih =>
    intro z hz h
    obtain ⟨q, hq, hfx⟩ := h x (List.mem_cons_self _ _)
    simp only [List.foldl_cons, hfx, FloatBig.add]
    exact ih (z + q) (add_nonneg hz hq) (fun i hi => h i (List.mem_cons_of_mem _ hi))

/-- When `FindBestSplitGain` does not split, the buffer holds the scratch
content of the scan and the random stream is as before. -/
theorem FindBestSplitGain_scratch (E : Settings) (aBins : List Bin) (rng : RandomDeterministic)
    (arena : Arena) (iNode iChildren m : Nat)
    (h : (FindBestSplitGain E aBins rng arena iNode iChildren m).ret ≠ 0) :
    (FindBestSplitGain E aBins rng arena iNode iChildren m).arena =
      ScratchChildren arena iNode iChildren (NodeSweep E aBins m (arena iNode)) ∧
    (FindBestSplitGain E aBins rng arena iNode iChildren m).rng = rng := by
  simp only [FindBestSplitGain] at h ⊢
  split_ifs at h ⊢ <;> simp_all

/-- The partial gain of the sample oracle is NaN or not negative. -/
theorem RegressionSettings_gain_nonneg (g h : FloatBig) :
    (RegressionSettings.CalcPartialGain g h).isnan = true ∨
      (FloatBig.fin 0).le (RegressionSettings.CalcPartialGain g h) = true := by
  simp only [RegressionSettings]
  split_ifs with c
  · right; rfl
  · cases g with
    | nan => left; cases h <;> rfl
    | ninf =>
      cases h with
      | fin b =>
        by_cases hb : 0 ≤ b
        · right; simp [FloatBig.div, FloatBig.mul, FloatBig.le, hb]
        · exfalso
          apply c
          have hp := k_hessianMin_pos
          simp only [k_hessianMin, FloatBig.lt, decide_eq_true_eq] at hp ⊢
          exact lt_trans (not_le.mp hb) hp
      | _ => left; rfl
    | pinf =>
      cases h with
      | fin b =>
        by_cases hb : 0 ≤ b
        · right; simp [FloatBig.div, FloatBig.mul, FloatBig.le, hb]
        · exfalso
          apply c
          have hp := k_hessianMin_pos
          simp only [k_hessianMin, FloatBig.lt, decide_eq_true_eq] at hp ⊢
          exact lt_trans (not_le.mp hb) hp
      | _ => left; rfl
    | fin a =>
      cases h with
      | nan => left; rfl
      | ninf => exact absurd rfl c
      | pinf => right; simp [FloatBig.div, FloatBig.mul, FloatBig.le]
      | fin b =>
        have hp := k_hessianMin_pos
        simp only [k_hessianMin, FloatBig.lt, decide_eq_true_eq] at hp c
        have hb : 0 < b := lt_of_lt_of_le hp (not_lt.mp c)
        right
        simp only [FloatBig.div, if_neg (ne_of_gt hb), FloatBig.mul, FloatBig.le,
          decide_eq_true_eq]
        have : a / b * a = a * a / b := by ring
        rw [this]
        exact div_nonneg (mul_self_nonneg a) (le_of_lt hb)

/-! ## The random draws -/

theorem RandomDeterministic.Agree_refl (r : RandomDeterministic) : r.Agree r := fun _ => rfl

theorem NextFast_agree {r r' : RandomDeterministic} (h : r.Agree r') (n : Nat) :
    (r.NextFast n).1 = (r'.NextFast n).1 ∧ (r.NextFast n).2.Agree (r'.NextFast n).2 := by
  refine ⟨?_, ?_⟩
  · have := h 0
    simp only [Nat.add_zero] at this
    simp [RandomDeterministic.NextFast, this]
  · intro k
    have := h (k + 1)
    simp only [RandomDeterministic.NextFast]
    rw [show r.pos + 1 + k = r.pos + (k + 1) by omega,
      show r'.pos + 1 + k = r'.pos + (k + 1) by omega]
    exact this

theorem PickSweep_agree (E : Settings) {r r' : RandomDeterministic} (h : r.Agree r')
    (l : List TreeSweep) :
    (PickSweep E r l).1 = (PickSweep E r' l).1 ∧ (PickSweep E r l).2.Agree (PickSweep E r' l).2 := by
  simp only [PickSweep]
  by_cases c : 1 < l.length
  · simp only [if_pos c]
    obtain ⟨a, b⟩ := NextFast_agree h l.length
    exact ⟨by rw [a], b⟩
  · simp only [if_neg c]
    exact ⟨trivial, h⟩

/-- The return value of `FindBestSplitGain` does not depend on the random
stream. -/
theorem FindBestSplitGain_ret_rng (E : Settings) (aBins : List Bin)
    (rng rng' : RandomDeterministic) (arena : Arena) (iNode iChildren m : Nat) :
    (FindBestSplitGain E aBins rng arena iNode iChildren m).ret =
      (FindBestSplitGain E aBins rng' arena iNode iChildren m).ret := by
  simp only [FindBestSplitGain]
  split_ifs <;> rfl

/-- With a split, the buffer and the random stream that `FindBestSplitGain`
leaves are those of the draw among the ties. -/
theorem FindBestSplitGain_pick (E : Settings) (aBins : List Bin) (rng : RandomDeterministic)
    (arena : Arena) (iNode iChildren m : Nat)
    (h : (FindBestSplitGain E aBins rng arena iNode iChildren m).ret = 0) :
    (FindBestSplitGain E aBins rng arena iNode iChildren m).arena =
      CommitSplit E (ScratchChildren arena iNode iChildren (NodeSweep E aBins m (arena iNode)))
        iNode iChildren (PickSweep E rng (NodeSweep E aBins m (arena iNode)).aTreeSweep).1
        (SubtractParentGain E
          (ScratchChildren arena iNode iChildren (NodeSweep E aBins m (arena iNode)) iNode).m_bin
          (NodeSweep E aBins m (arena iNode)).BEST_gain) ∧
    (FindBestSplitGain E aBins rng arena iNode iChildren m).rng =
      (PickSweep E rng (NodeSweep E aBins m (arena iNode)).aTreeSweep).2 := by
  simp only [FindBestSplitGain] at h ⊢
  split_ifs at h ⊢ <;> simp_all

/-- Random streams that give the same draws lead `FindBestSplitGain` to the
same return value and the same buffer, and give the same draws afterwards. -/
theorem FindBestSplitGain_agree (E : Settings) (aBins : List Bin)
    {rng rng' : RandomDeterministic} (hr : rng.Agree rng') (arena : Arena)
    (iNode iChildren m : Nat) :
    (FindBestSplitGain E aBins rng arena iNode iChildren m).ret =
      (FindBestSplitGain E aBins rng' arena iNode iChildren m).ret ∧
    (FindBestSplitGain E aBins rng arena iNode iChildren m).arena =
      (FindBestSplitGain E aBins rng' arena iNode iChildren m).arena ∧
    (FindBestSplitGain E aBins rng arena iNode iChildren m).rng.Agree
      (FindBestSplitGain E aBins rng' arena iNode iChildren m).rng := by
  have hret := FindBestSplitGain_ret_rng E aBins rng rng' arena iNode iChildren m
  refine ⟨hret, ?_⟩
  by_cases h0 : (FindBestSplitGain E aBins rng arena iNode iChildren m).ret = 0
  · obtain ⟨a1, a2⟩ := FindBestSplitGain_pick E aBins rng arena iNode iChildren m h0
    obtain ⟨b1, b2⟩ := FindBestSplitGain_pick E aBins rng' arena iNode iChildren m
      (by rw [← hret]; exact h0)
    obtain ⟨p1, p2⟩ := PickSweep_agree E hr (NodeSweep E aBins m (arena iNode)).aTreeSweep
    rw [a1, a2, b1, b2, p1]
    exact ⟨rfl, p2⟩
  · obtain ⟨a1, a2⟩ := FindBestSplitGain_scratch E aBins rng arena iNode iChildren m h0
    obtain ⟨b1, b2⟩ := FindBestSplitGain_scratch E aBins rng' arena iNode iChildren m
      (by rw [← hret]; exact h0)
    rw [a1, a2, b1, b2]
    exact ⟨rfl, hr⟩

theorem ExamineChild_agree (E : Settings) (aBins : List Bin) (m : Nat) {g g' : Growth}
    (h : g.Agree g') (x : Nat) :
    (ExamineChild E aBins m g x).Agree (ExamineChild E aBins m g' x) := by
  obtain ⟨a, r, c, q, l, t⟩ := g
  obtain ⟨a', r', c', q', l', t'⟩ := g'
  simp only [Growth.Agree] at h
  obtain ⟨rfl, hr, rfl, rfl, rfl, rfl⟩ := h
  obtain ⟨f1, f2, f3⟩ := FindBestSplitGain_agree E aBins hr a x c m
  simp only [ExamineChild]
  by_cases hs : (a x).BEFORE_IsSplittable = true
  · rw [if_pos hs, if_pos hs, ← f1]
    by_cases h0 : (FindBestSplitGain E aBins r a x c m).ret = 0
    · rw [if_pos h0, if_pos h0]
      exact ⟨f2, f3, rfl, rfl, rfl, rfl⟩
    · rw [if_neg h0, if_neg h0]
      exact ⟨by dsimp only; rw [f2], f3, rfl, rfl, rfl, rfl⟩
  · rw [if_neg hs, if_neg hs]
    exact ⟨rfl, hr, rfl, rfl, rfl, rfl⟩

/-- The body of the loop as two treatments of a child after the formal
split of the parent. -/
theorem SplitParent_formal (E : Settings) (aBins : List Bin) (m : Nat) (g : Growth) (p : Nat) :
    SplitParent E aBins m g p =
      { ExamineChild E aBins m
          (ExamineChild E aBins m (FormalSplit g p)
            ((FormalSplit g p).arena p).m_pTreeNodeChildren)
          (((ExamineChild E aBins m (FormalSplit g p)
            ((FormalSplit g p).arena p).m_pTreeNodeChildren).arena p).m_pTreeNodeChildren + 1) with
        cLeaves := (ExamineChild E aBins m
          (ExamineChild E aBins m (FormalSplit g p)
            ((FormalSplit g p).arena p).m_pTreeNodeChildren)
          (((ExamineChild E aBins m (FormalSplit g p)
            ((FormalSplit g p).arena p).m_pTreeNodeChildren).arena
              p).m_pTreeNodeChildren + 1)).cLeaves + 1 } := rfl

theorem SplitParent_agree (E : Settings) (aBins : List Bin) (m : Nat) {g g' : Growth}
    (h : g.Agree g') (p : Nat) :
    (SplitParent E aBins m g p).Agree (SplitParent E aBins m g' p) := by
  have h0 : (FormalSplit g p).Agree (FormalSplit g' p) := by
    obtain ⟨ha, hr, hc, hq, hl, ht⟩ := h
    exact ⟨by simp only [FormalSplit]; rw [ha], hr, hc, hq, hl,
      by simp only [FormalSplit]; rw [ha, ht]⟩
  rw [SplitParent_formal, SplitParent_formal]
  generalize FormalSplit g p = G at h0 ⊢
  generalize FormalSplit g' p = G' at h0 ⊢
  have hc1 : (G.arena p).m_pTreeNodeChildren = (G'.arena p).m_pTreeNodeChildren := by rw [h0.1]
  rw [← hc1]
  have h1 := ExamineChild_agree E aBins m h0 (G.arena p).m_pTreeNodeChildren
  generalize ExamineChild E aBins m G (G.arena p).m_pTreeNodeChildren = G1 at h1 ⊢
  generalize ExamineChild E aBins m G' (G.arena p).m_pTreeNodeChildren = G1' at h1 ⊢
  have hc2 : (G1.arena p).m_pTreeNodeChildren = (G1'.arena p).m_pTreeNodeChildren := by
    rw [h1.1]
  rw [← hc2]
  obtain ⟨ha, hr, hc, hq, hl, ht⟩ :=
    ExamineChild_agree E aBins m h1 ((G1.arena p).m_pTreeNodeChildren + 1)
  exact ⟨ha, hr, hc, hq, by dsimp only; rw [hl], ht⟩

theorem GrowLoop_agree (E : Settings) (aBins : List Bin) (m cLeavesMax : Nat) :
    ∀ (fuel : Nat) (g g' : Growth) (p : Nat), g.Agree g' →
      (GrowLoop E aBins m cLeavesMax fuel g p).Agree (GrowLoop E aBins m cLeavesMax fuel g' p) := by
  intro fuel
  induction fuel with
  | zero =>
    intro g g' p h
    have hs := SplitParent_agree E aBins m h p
    unfold GrowLoop
    simp only
    rw [← hs.2.2.2.2.1, ← hs.1, ← hs.2.2.2.1]
    split_ifs
    · split <;> exact hs
    · exact hs
  | succ fuel ih =>
    intro g g' p h
    have hs := SplitParent_agree E aBins m h p
    unfold GrowLoop
    simp only
    rw [← hs.2.2.2.2.1, ← hs.1, ← hs.2.2.2.1]
    split_ifs
    · split
      · exact hs
      · rename_i iTop _
        refine ih _ _ iTop ?_
        obtain ⟨ha, hr, hc, hq, hl, ht⟩ := hs
        exact ⟨rfl, hr, hc, rfl, rfl, ht⟩
    · exact hs

/-- Random streams that give the same draws lead the growth of the tree to
the same variables. -/
theorem GrowTree_agree (E : Settings) {rng rng' : RandomDeterministic} (hr : rng.Agree rng')
    (shell : BoosterShell) (cBins m cLeavesMax : Nat) :
    (GrowTree E rng shell cBins m cLeavesMax).Agree (GrowTree E rng' shell cBins m cLeavesMax) := by
  obtain ⟨-, e2, e3⟩ := FindBestSplitGain_agree E shell.aBins hr (RootArena E shell cBins) 0 1 m
  unfold GrowTree
  exact GrowLoop_agree E shell.aBins m cLeavesMax cLeavesMax _ _ 0 ⟨e2, e3, rfl, rfl, rfl, rfl⟩

/-- Random streams that give the same draws lead the driver to the same
error code, total gain, split count, split values and scores. -/
theorem Func_agree (E : Settings) {rng rng' : RandomDeterministic} (hr : rng.Agree rng')
    (shell : BoosterShell) (cBins iDimension m cLeavesMax : Nat) :
    (PartitionOneDimensionalBoostingInternal.Func E rng shell cBins iDimension m
        cLeavesMax).error =
      (PartitionOneDimensionalBoostingInternal.Func E rng' shell cBins iDimension m
        cLeavesMax).error ∧
    (PartitionOneDimensionalBoostingInternal.Func E rng shell cBins iDimension m
        cLeavesMax).totalGain =
      (PartitionOneDimensionalBoostingInternal.Func E rng' shell cBins iDimension m
        cLeavesMax).totalGain ∧
    (PartitionOneDimensionalBoostingInternal.Func E rng shell cBins iDimension m
        cLeavesMax).cSplits =
      (PartitionOneDimensionalBoostingInternal.Func E rng' shell cBins iDimension m
        cLeavesMax).cSplits ∧
    (PartitionOneDimensionalBoostingInternal.Func E rng shell cBins iDimension m
        cLeavesMax).aSplits =
      (PartitionOneDimensionalBoostingInternal.Func E rng' shell cBins iDimension m
        cLeavesMax).aSplits ∧
    (PartitionOneDimensionalBoostingInternal.Func E rng shell cBins iDimension m
        cLeavesMax).aScores =
      (PartitionOneDimensionalBoostingInternal.Func E rng' shell cBins iDimension m
        cLeavesMax).aScores ∧
    (PartitionOneDimensionalBoostingInternal.Func E rng shell cBins iDimension m
        cLeavesMax).rng.Agree
      (PartitionOneDimensionalBoostingInternal.Func E rng' shell cBins iDimension m
        cLeavesMax).rng := by
  have hR := FindBestSplitGain_agree E shell.aBins hr (RootArena E shell cBins) 0 1 m
  have e1 : (RootFind E rng shell cBins m).ret = (RootFind E rng' shell cBins m).ret := hR.1
  have e2 : (RootFind E rng shell cBins m).arena = (RootFind E rng' shell cBins m).arena :=
    hR.2.1
  have e3 : (RootFind E rng shell cBins m).rng.Agree (RootFind E rng' shell cBins m).rng :=
    hR.2.2
  obtain ⟨ga, gr, -, -, gl, gt⟩ := GrowTree_agree E hr shell cBins m cLeavesMax
  simp only [PartitionOneDimensionalBoostingInternal.Func]
  by_cases h0 : (RootFind E rng shell cBins m).ret ≠ 0
  · have h0' : (RootFind E rng' shell cBins m).ret ≠ 0 := by rw [← e1]; exact h0
    rw [if_pos h0, if_pos h0']
    by_cases hc : shell.innerTermUpdate.SetCountSplits 0 ≠ .Error_None
    · rw [if_pos hc, if_pos hc]
      refine ⟨?_, ?_, ?_, ?_, ?_, ?_⟩ <;> dsimp only <;>
        first | rfl | exact e3 | simp only [e1, e2]
    · rw [if_neg hc, if_neg hc]
      refine ⟨?_, ?_, ?_, ?_, ?_, ?_⟩ <;> dsimp only <;>
        first | rfl | exact e3 | simp only [e1, e2]
  · have h0' : ¬ (RootFind E rng' shell cBins m).ret ≠ 0 := by rw [← e1]; exact h0
    rw [if_neg h0, if_neg h0']
    by_cases hf : cLeavesMax = 2 ∨ cBins = 2
    · rw [if_pos hf, if_pos hf]
      by_cases hc : shell.innerTermUpdate.SetCountSplits 1 ≠ .Error_None
      · rw [if_pos hc, if_pos hc]
        exact ⟨rfl, rfl, rfl, rfl, rfl, e3⟩
      · rw [if_neg hc, if_neg hc]
        refine ⟨?_, ?_, ?_, ?_, ?_, ?_⟩ <;> dsimp only <;>
          first | rfl | exact e3 | simp only [e1, e2]
    · rw [if_neg hf, if_neg hf, ← gl, ← ga, ← gt]
      split_ifs <;> exact ⟨rfl, rfl, rfl, rfl, rfl, gr⟩

/-! ## The top of the priority queue -/

theorem FloatBig.not_nan_of_le {k x : FloatBig} (h : k.le x = true) : x.isnan = false := by
  cases k <;> cases x <;> simp_all [FloatBig.le, FloatBig.isnan]

theorem FloatBig.le_refl' {x : FloatBig} (h : x.isnan = false) : x.le x = true := by
  cases x <;> simp_all [FloatBig.le, FloatBig.isnan]

theorem FloatBig.le_of_lt {x y : FloatBig} (h : x.lt y = true) : x.le y = true := by
  cases x <;> cases y <;> simp_all [FloatBig.le, FloatBig.lt]
  exact LT.lt.le h

theorem FloatBig.le_of_not_lt {x y : FloatBig} (hx : x.isnan = false) (hy : y.isnan = false)
    (h : x.lt y = false) : y.le x = true := by
  cases x <;> cases y <;> simp_all [FloatBig.le, FloatBig.lt, FloatBig.isnan]

/-- The fold of `top()` ends on an element whose gain is not below the gain
of the start and of every element of the list, when no gain is NaN. -/
theorem QueueTop_fold (a : Arena) :
    ∀ (zs : List Nat) (b : Nat), (a b).AFTER_GetSplitGain.isnan = false →
      (∀ z ∈ zs, (a z).AFTER_GetSplitGain.isnan = false) →
      (a b).AFTER_GetSplitGain.le (a (zs.foldl
        (fun best y => if CompareTreeNodeSplittingGain a y best then best else y)
        b)).AFTER_GetSplitGain = true ∧
      ∀ z ∈ zs, (a z).AFTER_GetSplitGain.le (a (zs.foldl
        (fun best y => if CompareTreeNodeSplittingGain a y best then best else y)
        b)).AFTER_GetSplitGain = true := by
  intro zs
  induction zs with
  | nil => intro b hb _; exact ⟨FloatBig.le_refl' hb, fun z hz => by simp at hz⟩
  | cons y ys ih =>
    intro b hb h
    have hy := h y (List.mem_cons_self _ _)
    have hys : ∀ z ∈ ys, (a z).AFTER_GetSplitGain.isnan = false :=
      fun z hz => h z (List.mem_cons_of_mem _ hz)
    simp only [List.foldl_cons]
    by_cases c : CompareTreeNodeSplittingGain a y b = true
    · rw [if_pos c]
      obtain ⟨i1, i2⟩ := ih b hb hys
      have hyb : (a y).AFTER_GetSplitGain.le (a b).AFTER_GetSplitGain = true :=
        FloatBig.le_of_lt c
      refine ⟨i1, ?_⟩
      intro z hz
      rcases List.mem_cons.mp hz with rfl | hz
      · exact FloatBig.le_trans' hyb i1
      · exact i2 z hz
    · rw [if_neg c]
      obtain ⟨i1, i2⟩ := ih y hy hys
      have hby : (a b).AFTER_GetSplitGain.le (a y).AFTER_GetSplitGain = true :=
        FloatBig.le_of_not_lt hy hb (by simpa [CompareTreeNodeSplittingGain] using c)
      refine ⟨FloatBig.le_trans' hby i1, ?_⟩
      intro z hz
      rcases List.mem_cons.mp hz with rfl | hz
      · exact i1
      · exact i2 z hz

/-- The node that `top()` returns has a gain that is not below the gain of
any node of the queue, when no gain in the queue is NaN. -/
theorem QueueTop_max (a : Arena) (l : List Nat) (x : Nat) (h : QueueTop a l = some x)
    (hn : ∀ q ∈ l, (a q).AFTER_GetSplitGain.isnan = false) :
    ∀ q ∈ l, (a q).AFTER_GetSplitGain.le (a x).AFTER_GetSplitGain = true := by
  cases l with
  | nil => simp [QueueTop] at h
  | cons y ys =>
    simp only [QueueTop, Option.some.injEq] at h
    obtain ⟨i1, i2⟩ := QueueTop_fold a ys y (hn y (List.mem_cons_self _ _))
      (fun z hz => hn z (List.mem_cons_of_mem _ hz))
    rw [h] at i1 i2
    intro q hq
    rcases List.mem_cons.mp hq with rfl | hq
    · exact i1
    · exact i2 q hq

/-- Under the invariant of the loop every node of the queue carries its net
gain, which is not below `k_gainMin`, and is not formally split. -/
theorem GrowInv_queue {E : Settings} {aBins : List Bin} {m : Nat} {root : TreeNode}
    {g : Growth} {P : List Nat} (h : GrowInv E aBins m root g P) :
    ∀ q ∈ P, (g.arena q).m_splitGain = some (NetSplitGain E aBins m (g.arena q)) ∧
      E.k_gainMin.le (NetSplitGain E aBins m (g.arena q)) = true := by
  obtain ⟨T, commits, -, -, hok, hnd, -, -, hP, -, -, -⟩ := h
  intro q hq
  obtain ⟨-, -, -, -, -, -, -, g1, g2, -⟩ := Shape.pend_children hok hnd (hP q hq)
  exact ⟨g1, g2⟩

/-- Every pop of the growth loop takes a node of the queue that is not
formally split and whose net gain is not below the net gain of any node of
the queue. -/
theorem GrowPops_max (E : Settings) (aBins : List Bin) (m cLeavesMax : Nat) (root : TreeNode) :
    ∀ (fuel : Nat) (g : Growth) (p : Nat),
      GrowInv E aBins m root g (p :: g.bestTreeNodeToSplit) →
      ∀ x ∈ GrowPops E aBins m cLeavesMax fuel g p,
        x.2 ∈ x.1.bestTreeNodeToSplit ∧
        (x.1.arena x.2).AFTER_IsSplit = false ∧
        ∀ q ∈ x.1.bestTreeNodeToSplit,
          (x.1.arena q).m_splitGain = some (NetSplitGain E aBins m (x.1.arena q)) ∧
          (NetSplitGain E aBins m (x.1.arena q)).le
            (NetSplitGain E aBins m (x.1.arena x.2)) = true := by
  intro fuel
  induction fuel with
  | zero =>
    intro g p _ x hx
    unfold GrowPops at hx
    simp only at hx
    split_ifs at hx
    · split at hx <;> simp at hx
    · simp at hx
  | succ fuel ih =>
    intro g p h x hx
    obtain ⟨h1, -⟩ := SplitParent_inv E aBins m root g p h
    unfold GrowPops at hx
    simp only at hx
    split_ifs at hx with c
    · split at hx
      · simp at hx
      · rename_i iTop htop
        have hmem := QueueTop_mem _ _ _ htop
        have hq := GrowInv_queue h1
        rcases List.mem_cons.mp hx with rfl | hx
        · have hgain : ∀ q ∈ (SplitParent E aBins m g p).bestTreeNodeToSplit,
              ((SplitParent E aBins m g p).arena q).AFTER_GetSplitGain =
                NetSplitGain E aBins m ((SplitParent E aBins m g p).arena q) := by
            intro q hq'
            simp only [TreeNode.AFTER_GetSplitGain, (hq q hq').1, Option.getD_some]
          have hmax := QueueTop_max _ _ _ htop (by
            intro q hq'
            rw [hgain q hq']
            exact FloatBig.not_nan_of_le (hq q hq').2)
          refine ⟨hmem, ?_, ?_⟩
          · simp only [TreeNode.AFTER_IsSplit, (hq iTop hmem).1, Option.isNone_some]
          · intro q hq'
            refine ⟨(hq q hq').1, ?_⟩
            have := hmax q hq'
            rw [hgain q hq', hgain iTop hmem] at this
            exact this
        · exact ih _ iTop (GrowInv_pop E aBins m root _ iTop h1 hmem) x hx
    · simp at hx

/-- Every pop of the growth loop is followed by a round, which adds a leaf:
the loop ends with one leaf more than it had, and one more for every pop. -/
theorem GrowLoop_pops (E : Settings) (aBins : List Bin) (m cLeavesMax : Nat) :
    ∀ (fuel : Nat) (g : Growth) (p : Nat),
      (GrowLoop E aBins m cLeavesMax fuel g p).cLeaves =
        g.cLeaves + 1 + (GrowPops E aBins m cLeavesMax fuel g p).length := by
  intro fuel
  induction fuel with
  | zero =>
    intro g p
    obtain ⟨-, -, a3⟩ := SplitParent_cursor E aBins m g p
    unfold GrowLoop GrowPops
    simp only
    split_ifs
    · split <;> simp [a3]
    · simp [a3]
  | succ fuel ih =>
    intro g p
    obtain ⟨-, -, a3⟩ := SplitParent_cursor E aBins m g p
    unfold GrowLoop GrowPops
    simp only
    split_ifs
    · split
      · simp [a3]
      · rw [ih]
        simp only [List.length_cons, a3]
        omega
    · simp [a3]

/-- When the root is split, the invariant of the loop holds at its entry. -/
theorem GrowStart_inv (E : Settings) (rng : RandomDeterministic) (shell : BoosterShell)
    (cBins m : Nat) (h : (RootFind E rng shell cBins m).ret = 0) :
    GrowInv E shell.aBins m (RootArena E shell cBins 0) (GrowStart E rng shell cBins m)
      (0 :: (GrowStart E rng shell cBins m).bestTreeNodeToSplit) := by
  unfold GrowStart
  unfold RootFind at h ⊢
  obtain ⟨k1, k2, k3, k4, k5⟩ := FindBestSplitGain_BranchOk E shell.aBins rng
    (RootArena E shell cBins) 0 1 m h (by decide) (by decide)
  refine ⟨Shape.pend 0 1, [], k5, rfl, ?_, by simp [Shape.cells], ?_, by simp,
    by simp [Shape.pends], rfl, by simp [Shape.branches], rfl⟩
  · simp only [Shape.Ok]
    rw [NetSplitGain_congr E shell.aBins m k5]
    exact ⟨k2, k3, k4, k1⟩
  · intro k hk
    simp only [Shape.cells, List.mem_cons, List.mem_singleton, List.not_mem_nil, or_false] at hk
    dsimp only
    omega

/-! ## The scan, boundary by boundary -/

theorem FloatBig.eq_self {x : FloatBig} (h : x.isnan = false) : x.eq x = true := by
  cases x <;> simp_all [FloatBig.eq, FloatBig.isnan]

theorem FloatBig.eq_of_eq {x y : FloatBig} (h : x.eq y = true) : x = y := by
  cases x <;> cases y <;> simp_all [FloatBig.eq]

theorem FloatBig.eq_of_le_le {x y : FloatBig} (h1 : x.le y = true) (h2 : y.le x = true) :
    x.eq y = true := by
  cases x <;> cases y <;> simp_all [FloatBig.le, FloatBig.eq]
  exact le_antisymm h1 h2

theorem FloatBig.not_lt_of_le {x y : FloatBig} (h : x.le y = true) : y.lt x = false := by
  cases x <;> cases y <;> simp_all [FloatBig.le, FloatBig.lt]

theorem FloatBig.not_eq_of_lt {x y : FloatBig} (h : x.lt y = true) : x.eq y = false := by
  cases x <;> cases y <;> simp_all [FloatBig.lt, FloatBig.eq]
  exact ne_of_lt h

theorem FloatBig.nan_of_le_left {x y : FloatBig} (h : x.le y = true) : x.isnan = false := by
  cases x <;> cases y <;> simp_all [FloatBig.le, FloatBig.isnan]

/-- A value that is not above a value strictly smaller than `g` is not equal
to `g`. -/
theorem FloatBig.not_eq_of_le_of_lt {x b g : FloatBig} (h1 : x.le b = true)
    (h2 : b.le g = true) (h3 : b.eq g = false) : x.eq g = false := by
  cases x <;> cases b <;> cases g <;> simp_all [FloatBig.le, FloatBig.eq]
  intro h
  rw [h] at h1
  exact h3 (le_antisymm h2 h1)

theorem filter_range_succ (p : Nat → Bool) (c : Nat) :
    (List.range (c + 1)).filter p = (List.range c).filter p ++ (if p c then [c] else []) := by
  rw [List.range_succ, List.filter_append]
  by_cases h : p c = true <;> simp [h]

/-- Once the scan has stopped, it reaches no later boundary. -/
theorem Reached_mono (E : Settings) (aBins : List Bin) (m : Nat) (node : TreeNode) :
    ∀ (j i : Nat), Reached E aBins m node (i + j) = true → Reached E aBins m node i = true := by
  intro j
  induction j with
  | zero => intro i h; exact h
  | succ j ih =>
    intro i h
    have e : i + (j + 1) = (i + j) + 1 := by omega
    rw [e, Reached] at h
    simp only [Bool.and_eq_true] at h
    exact ih i h.1

theorem Reached_right (E : Settings) (aBins : List Bin) (m : Nat) (node : TreeNode) (k : Nat)
    (h : Reached E aBins m node k = true) : m ≤ (RightAcc E aBins node (k + 1)).m_cSamples := by
  cases k with
  | zero => simpa [Reached] using h
  | succ k =>
    rw [Reached] at h
    simp only [Bool.and_eq_true, decide_eq_true_eq] at h
    exact h.2

theorem Reached_succ (E : Settings) (aBins : List Bin) (m : Nat) (node : TreeNode) (c : Nat)
    (hprev : ∀ i < c, Reached E aBins m node i = true)
    (hr : m ≤ (RightAcc E aBins node (c + 1)).m_cSamples) : Reached E aBins m node c = true := by
  cases c with
  | zero => simpa [Reached] using hr
  | succ c =>
    rw [Reached]
    simp only [Bool.and_eq_true, decide_eq_true_eq]
    exact ⟨hprev c (by omega), hr⟩

theorem ScanInv_congr {E : Settings} {aBins : List Bin} {m : Nat} {node : TreeNode} {c : Nat}
    {s s' : Sweep} (h1 : s'.aTreeSweep = s.aTreeSweep) (h2 : s'.BEST_gain = s.BEST_gain)
    (h : ScanInv E aBins m node c s) : ScanInv E aBins m node c s' := by
  unfold ScanInv at *
  rw [h1, h2]
  exact h

/-- The state of the scan stays as it is over boundaries whose gain is not
computed. -/
theorem ScanInv_skip {E : Settings} {aBins : List Bin} {m : Nat} {node : TreeNode} {s : Sweep} :
    ∀ (k c : Nat), (∀ i, c ≤ i → i < c + k → Visited E aBins m node i = false) →
      ScanInv E aBins m node c s → ScanInv E aBins m node (c + k) s := by
  intro k
  induction k with
  | zero => intro c _ h; exact h
  | succ k ih =>
    intro c hv h
    have hk := ih c (fun i h1 h2 => hv i h1 (by omega)) h
    have hvc : Visited E aBins m node (c + k) = false := hv (c + k) (by omega) (by omega)
    obtain ⟨I1, I2, I3, I4⟩ := hk
    have e : c + (k + 1) = (c + k) + 1 := by omega
    rw [e]
    refine ⟨?_, ?_, I3, ?_⟩
    · rw [filter_range_succ, I1]
      simp [hvc]
    · intro i hi hvi
      by_cases hic : i < c + k
      · exact I2 i hic hvi
      · have : i = c + k := by omega
        rw [this, hvc] at hvi
        exact absurd hvi (by simp)
    · rcases I4 with h4 | ⟨i, hi, h4⟩
      · exact Or.inl h4
      · exact Or.inr ⟨i, by omega, h4⟩

/-- One boundary of the scan that is reached keeps the state of the scan. -/
theorem SweepRecord_inv {E : Settings} {aBins : List Bin} {m : Nat} {node : TreeNode}
    {c : Nat} {s : Sweep} (hinv : ScanInv E aBins m node c s)
    (hreach : Reached E aBins m node c = true)
    (hnan : Visited E aBins m node c = true → (BoundaryGain E aBins node c).isnan = false) :
    ScanInv E aBins m node (c + 1)
      (SweepRecord E m (node.m_pBinFirst + c) (BinSum E aBins node.m_pBinFirst (c + 1))
        (RightAcc E aBins node (c + 1)) s) := by
  obtain ⟨I1, I2, I3, I4⟩ := hinv
  have hB : s.BEST_gain.isnan = false := FloatBig.not_nan_of_le I3
  have I4' : s.BEST_gain = E.k_gainMin ∨ ∃ i < c + 1, Visited E aBins m node i = true ∧
      s.BEST_gain = BoundaryGain E aBins node i := by
    rcases I4 with h4 | ⟨i, hi, h4⟩
    · exact Or.inl h4
    · exact Or.inr ⟨i, by omega, h4⟩
  simp only [SweepRecord]
  by_cases hl : m ≤ (BinSum E aBins node.m_pBinFirst (c + 1)).m_cSamples
  · have hv : Visited E aBins m node c = true := by
      simp [Visited, hreach, hl]
    have hg := hnan hv
    rw [if_pos hl]
    by_cases hlt : (BoundaryGain E aBins node c).lt s.BEST_gain = true
    · have hcond : (!(CalcSplitGain E (BinSum E aBins node.m_pBinFirst (c + 1))
          (RightAcc E aBins node (c + 1))).lt s.BEST_gain) = false := by
        simpa [BoundaryGain] using hlt
      rw [hcond]
      simp only [Bool.false_eq_true, if_false]
      refine ⟨?_, ?_, I3, I4'⟩
      · dsimp only
        rw [filter_range_succ, I1]
        simp [FloatBig.not_eq_of_lt hlt]
      · intro i hi hvi
        by_cases hic : i < c
        · exact I2 i hic hvi
        · have : i = c := by omega
          rw [this]
          exact FloatBig.le_of_lt hlt
    · have hlt' : (BoundaryGain E aBins node c).lt s.BEST_gain = false := by simpa using hlt
      have hle : s.BEST_gain.le (BoundaryGain E aBins node c) = true :=
        FloatBig.le_of_not_lt hg hB hlt'
      have hcond : (!(CalcSplitGain E (BinSum E aBins node.m_pBinFirst (c + 1))
          (RightAcc E aBins node (c + 1))).lt s.BEST_gain) = true := by
        simpa [BoundaryGain] using hlt'
      rw [hcond]
      simp only [if_true]
      show ScanInv E aBins m node (c + 1)
        { left := BinSum E aBins node.m_pBinFirst (c + 1),
          right := RightAcc E aBins node (c + 1),
          BEST_gain := BoundaryGain E aBins node c,
          aTreeSweep :=
            (if s.BEST_gain.eq (BoundaryGain E aBins node c) = true then s.aTreeSweep else []) ++
              [TieEntry E aBins node c] }
      refine ⟨?_, ?_, FloatBig.le_trans' I3 hle, Or.inr ⟨c, by omega, hv, rfl⟩⟩
      · dsimp only
        rw [filter_range_succ]
        have hc : (Visited E aBins m node c &&
            (BoundaryGain E aBins node c).eq (BoundaryGain E aBins node c)) = true := by
          simp [hv, FloatBig.eq_self hg]
        simp only [hc, if_true, List.map_append, List.map_cons, List.map_nil]
        congr 1
        by_cases he : s.BEST_gain.eq (BoundaryGain E aBins node c) = true
        · rw [if_pos he, I1, FloatBig.eq_of_eq he]
        · rw [if_neg he]
          have he' : s.BEST_gain.eq (BoundaryGain E aBins node c) = false := by simpa using he
          symm
          rw [List.map_eq_nil_iff, List.filter_eq_nil_iff]
          intro i hi
          have hic : i < c := List.mem_range.mp hi
          by_cases hvi : Visited E aBins m node i = true
          · simp [FloatBig.not_eq_of_le_of_lt (I2 i hic hvi) hle he']
          · simp [hvi]
      · intro i hi hvi
        by_cases hic : i < c
        · exact FloatBig.le_trans' (I2 i hic hvi) hle
        · have : i = c := by omega
          rw [this]
          exact FloatBig.le_refl' hg
  · have hv : Visited E aBins m node c = false := by
      simp [Visited, hl]
    rw [if_neg hl]
    refine ⟨?_, ?_, I3, I4'⟩
    · dsimp only
      rw [filter_range_succ, I1]
      simp [hv]
    · intro i hi hvi
      by_cases hic : i < c
      · exact I2 i hic hvi
      · have : i = c := by omega
        rw [this, hv] at hvi
        exact absurd hvi (by simp)

/-- The scan loop keeps the state of the scan, when no computed gain is
NaN. -/
theorem SweepLoop_scan (E : Settings) (aBins : List Bin) (m : Nat) (node : TreeNode) :
    ∀ (k c : Nat) (s : Sweep), s.left = BinSum E aBins node.m_pBinFirst c →
      s.right = RightAcc E aBins node c →
      (∀ i < c, Reached E aBins m node i = true) →
      (∀ i < c + k, Visited E aBins m node i = true →
        (BoundaryGain E aBins node i).isnan = false) →
      ScanInv E aBins m node c s →
      ScanInv E aBins m node (c + k) (SweepLoop E aBins m k (node.m_pBinFirst + c) s) := by
  intro k
  induction k with
  | zero => intro c s _ _ _ _ h; exact h
  | succ k ih =>
    intro c s hl hr hreach hnan hinv
    rw [SweepLoop]
    have hr' : s.right.Subtract (aBins.getD (node.m_pBinFirst + c) (Bin.Zero E.cScores))
        E.cScores = RightAcc E aBins node (c + 1) := by rw [hr]; rfl
    have hl' : s.left.Add (aBins.getD (node.m_pBinFirst + c) (Bin.Zero E.cScores))
        E.cScores = BinSum E aBins node.m_pBinFirst (c + 1) := by rw [hl]; rfl
    simp only [hr', hl']
    by_cases hb : (RightAcc E aBins node (c + 1)).m_cSamples < m
    · rw [if_pos hb]
      refine ScanInv_congr rfl rfl (ScanInv_skip (k + 1) c ?_ hinv)
      intro i hci _
      have hnr : Reached E aBins m node i = false := by
        by_contra hcon
        have hri : Reached E aBins m node i = true := by simpa using hcon
        have e : i = c + (i - c) := by omega
        rw [e] at hri
        have := Reached_right E aBins m node c (Reached_mono E aBins m node (i - c) c hri)
        omega
      simp [Visited, hnr]
    · rw [if_neg hb]
      have hrc : Reached E aBins m node c = true :=
        Reached_succ E aBins m node c hreach (by omega)
      have e1 : node.m_pBinFirst + c + 1 = node.m_pBinFirst + (c + 1) := by omega
      have e2 : c + (k + 1) = (c + 1) + k := by omega
      rw [e1, e2]
      refine ih (c + 1) _ (SweepRecord_left _ _ _ _ _ _) (SweepRecord_right _ _ _ _ _ _) ?_ ?_ ?_
      · intro i hi
        by_cases hic : i < c
        · exact hreach i hic
        · have : i = c := by omega
          rw [this]; exact hrc
      · intro i hi
        exact hnan i (by omega)
      · exact SweepRecord_inv hinv hrc (hnan c (by omega))

/-- The scan of a node ends in the state of the scan for all its boundaries,
when `k_gainMin` and the computed gains are not NaN. -/
theorem NodeSweep_scan (E : Settings) (aBins : List Bin) (m : Nat) (node : TreeNode)
    (hk : E.k_gainMin.isnan = false)
    (hnan : ∀ i < node.m_pBinLast - node.m_pBinFirst, Visited E aBins m node i = true →
      (BoundaryGain E aBins node i).isnan = false) :
    ScanInv E aBins m node (node.m_pBinLast - node.m_pBinFirst) (NodeSweep E aBins m node) := by
  have h := SweepLoop_scan E aBins m node (node.m_pBinLast - node.m_pBinFirst) 0
    (SweepInit E node.m_bin) rfl rfl (fun i hi => absurd hi (by omega))
    (by intro i hi; exact hnan i (by omega))
    ⟨by simp [SweepInit], fun i hi => absurd hi (by omega), FloatBig.le_refl' hk, Or.inl rfl⟩
  simpa [NodeSweep] using h

theorem RangeCount_mono (E : Settings) (aBins : List Bin) (first k : Nat) :
    ∀ j, RangeCount E aBins first k ≤ RangeCount E aBins first (k + j) := by
  intro j
  induction j with
  | zero => exact le_rfl
  | succ j ih =>
    have e : k + (j + 1) = (k + j) + 1 := by omega
    rw [e, RangeCount]
    omega

/-- When the node holds the sample count of its bins, the right accumulator
holds the count of the bins that have not moved. -/
theorem RightAcc_count (E : Settings) (aBins : List Bin) (node : TreeNode) (n : Nat)
    (hcount : node.m_bin.m_cSamples = RangeCount E aBins node.m_pBinFirst n)
    (hfit : RangeCount E aBins node.m_pBinFirst n < 18446744073709551616) :
    ∀ k, k ≤ n →
      (RightAcc E aBins node k).m_cSamples + RangeCount E aBins node.m_pBinFirst k =
        RangeCount E aBins node.m_pBinFirst n := by
  intro k
  induction k with
  | zero => intro _; simp [RightAcc, Bin.Copy, RangeCount, hcount]
  | succ k ih =>
    intro hk
    have h1 := ih (by omega)
    have h2 := RangeCount_mono E aBins node.m_pBinFirst (k + 1) (n - (k + 1))
    have e : k + 1 + (n - (k + 1)) = n := by omega
    rw [e] at h2
    simp only [RightAcc, Bin.Subtract, subSize, RangeCount] at h2 ⊢
    omega

/-- When the node holds the sample count of its bins, the scan computes the
gain of exactly the eligible boundaries. -/
theorem Visited_eq_Eligible (E : Settings) (aBins : List Bin) (m : Nat) (node : TreeNode)
    (n : Nat)
    (hcount : node.m_bin.m_cSamples = RangeCount E aBins node.m_pBinFirst n)
    (hfit : RangeCount E aBins node.m_pBinFirst n < 18446744073709551616) :
    ∀ i, i + 1 ≤ n → Visited E aBins m node i = Eligible E aBins m node i := by
  have hreach : ∀ i, i + 1 ≤ n → m ≤ (RightAcc E aBins node (i + 1)).m_cSamples →
      Reached E aBins m node i = true := by
    intro i
    induction i with
    | zero => intro _ h; simpa [Reached] using h
    | succ i ih =>
      intro hi h
      have c1 := RightAcc_count E aBins node n hcount hfit (i + 1) (by omega)
      have c2 := RightAcc_count E aBins node n hcount hfit (i + 2) (by omega)
      have hm : RangeCount E aBins node.m_pBinFirst (i + 1) ≤
          RangeCount E aBins node.m_pBinFirst (i + 2) :=
        RangeCount_mono E aBins node.m_pBinFirst (i + 1) 1
      have h' : m ≤ (RightAcc E aBins node (i + 2)).m_cSamples := h
      rw [Reached]
      simp only [Bool.and_eq_true, decide_eq_true_eq]
      exact ⟨ih (by omega) (by omega), h'⟩
  intro i hi
  simp only [Visited, Eligible]
  by_cases hr : m ≤ (RightAcc E aBins node (i + 1)).m_cSamples
  · rw [hreach i hi hr]
    simp [hr, Bool.and_comm]
  · have hnr : Reached E aBins m node i = false := by
      by_contra hcon
      exact hr (Reached_right E aBins m node i (by simpa using hcon))
    simp [hnr, hr]

/-! ## NaN gains in the scan -/

theorem FloatBig.nan_lt {x y : FloatBig} (h : x.isnan = true) : x.lt y = false := by
  cases x <;> simp_all [FloatBig.isnan, FloatBig.lt]

/-- A boundary with enough samples on the left whose gain is NaN is
recorded: the best gain becomes NaN and the tie list is not empty. -/
theorem SweepRecord_nan (E : Settings) (m cur : Nat) (l r : Bin) (s : Sweep)
    (hl : m ≤ l.m_cSamples) (hg : (CalcSplitGain E l r).isnan = true) :
    (SweepRecord E m cur l r s).BEST_gain = CalcSplitGain E l r ∧
    (SweepRecord E m cur l r s).aTreeSweep ≠ [] := by
  simp only [SweepRecord, if_pos hl, FloatBig.nan_lt hg, Bool.not_false, if_true]
  exact ⟨trivial, by simp⟩

/-- When the gain of a boundary that the scan computes is NaN and the gains
of all the boundaries that it computes afterwards are NaN, the scan ends
with a NaN best gain and a tie list that is not empty. -/
theorem SweepLoop_nan (E : Settings) (aBins : List Bin) (m : Nat) (node : TreeNode) (j : Nat)
    (hvj : Visited E aBins m node j = true)
    (hgj : (BoundaryGain E aBins node j).isnan = true) :
    ∀ (k c : Nat) (s : Sweep), s.left = BinSum E aBins node.m_pBinFirst c →
      s.right = RightAcc E aBins node c →
      (∀ i < c, Reached E aBins m node i = true) →
      (∀ i, j < i → i < c + k → Visited E aBins m node i = true →
        (BoundaryGain E aBins node i).isnan = true) →
      j < c + k →
      (c ≤ j ∨ (s.BEST_gain.isnan = true ∧ s.aTreeSweep ≠ [])) →
      (SweepLoop E aBins m k (node.m_pBinFirst + c) s).BEST_gain.isnan = true ∧
      (SweepLoop E aBins m k (node.m_pBinFirst + c) s).aTreeSweep ≠ [] := by
  have hrj : Reached E aBins m node j = true := by
    simp only [Visited, Bool.and_eq_true] at hvj
    exact hvj.1
  intro k
  induction k with
  | zero =>
    intro c s _ _ _ _ hj hP
    rcases hP with h | h
    · omega
    · exact h
  | succ k ih =>
    intro c s hl hr hreach hlater hj hP
    rw [SweepLoop]
    have hr' : s.right.Subtract (aBins.getD (node.m_pBinFirst + c) (Bin.Zero E.cScores))
        E.cScores = RightAcc E aBins node (c + 1) := by rw [hr]; rfl
    have hl' : s.left.Add (aBins.getD (node.m_pBinFirst + c) (Bin.Zero E.cScores))
        E.cScores = BinSum E aBins node.m_pBinFirst (c + 1) := by rw [hl]; rfl
    simp only [hr', hl']
    by_cases hb : (RightAcc E aBins node (c + 1)).m_cSamples < m
    · rw [if_pos hb]
      rcases hP with h | h
      · exfalso
        have e : j = c + (j - c) := by omega
        rw [e] at hrj
        have := Reached_right E aBins m node c (Reached_mono E aBins m node (j - c) c hrj)
        omega
      · exact h
    · rw [if_neg hb]
      have hrc : Reached E aBins m node c = true :=
        Reached_succ E aBins m node c hreach (by omega)
      have e1 : node.m_pBinFirst + c + 1 = node.m_pBinFirst + (c + 1) := by omega
      rw [e1]
      refine ih (c + 1) _ (SweepRecord_left _ _ _ _ _ _) (SweepRecord_right _ _ _ _ _ _) ?_ ?_
        (by omega) ?_
      · intro i hi
        by_cases hic : i < c
        · exact hreach i hic
        · have : i = c := by omega
          rw [this]; exact hrc
      · intro i h1 h2
        exact hlater i h1 (by omega)
      · by_cases hcj : c < j
        · left; omega
        · right
          by_cases hlc : m ≤ (BinSum E aBins node.m_pBinFirst (c + 1)).m_cSamples
          · have hvc : Visited E aBins m node c = true := by simp [Visited, hrc, hlc]
            have hgc : (BoundaryGain E aBins node c).isnan = true := by
              by_cases hcj' : c = j
              · rw [hcj']; exact hgj
              · exact hlater c (by omega) (by omega) hvc
            obtain ⟨n1, n2⟩ := SweepRecord_nan E m (node.m_pBinFirst + c)
              (BinSum E aBins node.m_pBinFirst (c + 1)) (RightAcc E aBins node (c + 1)) s hlc hgc
            exact ⟨by rw [n1]; exact hgc, n2⟩
          · have hvc : Visited E aBins m node c = false := by simp [Visited, hlc]
            have hne : c ≠ j := by
              intro h; rw [h, hvj] at hvc; exact absurd hvc (by simp)
            rcases hP with h | h
            · omega
            · simp only [SweepRecord, if_neg hlc]
              exact h

/-! ## Sums of bins -/

theorem FinBin_Zero (E : Settings) : FinBin E (Bin.Zero E.cScores) := by
  refine ⟨⟨0, rfl⟩, ?_⟩
  intro i hi
  simp only [Bin.Zero]
  rw [Bin.pair_map _ _ _ hi]
  exact ⟨⟨0, rfl⟩, 0, rfl⟩

theorem FinBin_Add {E : Settings} {a b : Bin} (ha : FinBin E a) (hb : FinBin E b) :
    FinBin E (a.Add b E.cScores) := by
  obtain ⟨⟨wa, hwa⟩, ga⟩ := ha
  obtain ⟨⟨wb, hwb⟩, gb⟩ := hb
  refine ⟨⟨wa + wb, by simp [Bin.Add, hwa, hwb, FloatBig.add]⟩, ?_⟩
  intro i hi
  obtain ⟨⟨x1, a1⟩, x2, a2⟩ := ga i hi
  obtain ⟨⟨y1, b1⟩, y2, b2⟩ := gb i hi
  simp only [Bin.Add]
  rw [Bin.pair_map _ _ _ hi]
  exact ⟨⟨x1 + y1, by simp [a1, b1, FloatBig.add]⟩, x2 + y2, by simp [a2, b2, FloatBig.add]⟩

theorem FinBin_Copy {E : Settings} {b : Bin} (h : FinBin E b) : FinBin E (b.Copy E.cScores) := by
  refine ⟨h.1, ?_⟩
  intro i hi
  rw [Bin.pair_Copy _ _ _ hi]
  exact h.2 i hi

theorem FinBin_getD {E : Settings} {aBins : List Bin} (h : ∀ b ∈ aBins, FinBin E b) (i : Nat) :
    FinBin E (aBins.getD i (Bin.Zero E.cScores)) := by
  by_cases hi : i < aBins.length
  · rw [List.getD_eq_getElem _ _ hi]
    exact h _ (List.getElem_mem _)
  · rw [List.getD_eq_default _ _ (by omega)]
    exact FinBin_Zero E

theorem FinBin_BinSum {E : Settings} {aBins : List Bin} (h : ∀ b ∈ aBins, FinBin E b)
    (first : Nat) : ∀ k, FinBin E (BinSum E aBins first k) := by
  intro k
  induction k with
  | zero => exact FinBin_Zero E
  | succ k ih => exact FinBin_Add ih (FinBin_getD h _)

theorem Bin.Zero_Copy (c : Nat) : (Bin.Zero c).Copy c = Bin.Zero c := by
  simp only [Bin.Copy, Bin.Zero, Bin.mk.injEq, true_and]
  apply List.map_congr_left
  intro i hi
  exact Bin.pair_map _ c i (List.mem_range.mp hi) _ _

theorem Bin.Add_Copy (x b : Bin) (c : Nat) : (x.Add b c).Copy c = x.Add b c := by
  simp only [Bin.Copy, Bin.Add, Bin.mk.injEq, true_and]
  apply List.map_congr_left
  intro i hi
  exact Bin.pair_map _ c i (List.mem_range.mp hi) _ _

/-- The sum of bins is a bin in the form that `Copy` gives. -/
theorem BinSum_Copy (E : Settings) (aBins : List Bin) (first : Nat) :
    ∀ k, (BinSum E aBins first k).Copy E.cScores = BinSum E aBins first k := by
  intro k
  cases k with
  | zero => exact Bin.Zero_Copy _
  | succ k => exact Bin.Add_Copy _ _ _

/-- A sum of finite bins minus itself is the zero bin. -/
theorem Bin.Subtract_self {E : Settings} {x : Bin} (hx : FinBin E x) :
    (x.Copy E.cScores).Subtract (x.Copy E.cScores) E.cScores = Bin.Zero E.cScores := by
  obtain ⟨⟨w, hw⟩, hp⟩ := hx
  simp only [Bin.Subtract, Bin.Zero, Bin.mk.injEq]
  refine ⟨?_, ?_, ?_⟩
  · simp only [Bin.Copy, subSize]; omega
  · simp [Bin.Copy, hw, FloatBig.sub, FloatBig.add, FloatBig.neg]
  · apply List.map_congr_left
    intro i hi
    have hi' := List.mem_range.mp hi
    obtain ⟨⟨g, hg⟩, h, hh⟩ := hp i hi'
    rw [Bin.pair_Copy _ _ _ hi', hg, hh]
    simp [GradientPair.zero, FloatBig.sub, FloatBig.add, FloatBig.neg]

/-- Adding a bin before or after subtracting another gives the same bin,
for finite bins. -/
theorem Bin.Add_Subtract_swap {E : Settings} {y b l : Bin} (hy : FinBin E y) (hb : FinBin E b)
    (hl : FinBin E l) :
    (y.Add b E.cScores).Subtract l E.cScores =
      ((y.Copy E.cScores).Subtract l E.cScores).Add b E.cScores := by
  obtain ⟨⟨wy, hwy⟩, py⟩ := hy
  obtain ⟨⟨wb, hwb⟩, pb⟩ := hb
  obtain ⟨⟨wl, hwl⟩, pl⟩ := hl
  simp only [Bin.Subtract, Bin.Add, Bin.mk.injEq]
  refine ⟨?_, ?_, ?_⟩
  · simp only [Bin.Copy, subSize, addSize]; omega
  · simp only [Bin.Copy, hwy, hwb, hwl, FloatBig.sub, FloatBig.add, FloatBig.neg,
      FloatBig.fin.injEq]
    ring
  · apply List.map_congr_left
    intro i hi
    have hi' := List.mem_range.mp hi
    obtain ⟨⟨g1, hg1⟩, h1, hh1⟩ := py i hi'
    obtain ⟨⟨g2, hg2⟩, h2, hh2⟩ := pb i hi'
    obtain ⟨⟨g3, hg3⟩, h3, hh3⟩ := pl i hi'
    rw [Bin.pair_map _ _ _ hi', Bin.pair_map _ _ _ hi', Bin.pair_Copy _ _ _ hi',
      hg1, hg2, hg3, hh1, hh2, hh3]
    simp only [FloatBig.sub, FloatBig.add, FloatBig.neg, GradientPair.mk.injEq,
      FloatBig.fin.injEq]
    constructor <;> ring

/-- The sum of the bins of a range minus the sum of its first bins is the
sum of the other bins, for finite bins. -/
theorem BinSum_split (E : Settings) (aBins : List Bin) (hfin : ∀ b ∈ aBins, FinBin E b)
    (first k1 : Nat) :
    ∀ k2, ((BinSum E aBins first (k1 + k2)).Copy E.cScores).Subtract
        ((BinSum E aBins first k1).Copy E.cScores) E.cScores =
      BinSum E aBins (first + k1) k2 := by
  intro k2
  induction k2 with
  | zero =>
    exact Bin.Subtract_self (FinBin_BinSum hfin first k1)
  | succ k2 ih =>
    have e : k1 + (k2 + 1) = (k1 + k2) + 1 := by omega
    rw [e, BinSum_Copy]
    show ((BinSum E aBins first (k1 + k2)).Add
      (aBins.getD (first + (k1 + k2)) (Bin.Zero E.cScores)) E.cScores).Subtract _ _ = _
    rw [Bin.Add_Subtract_swap (FinBin_BinSum hfin first (k1 + k2)) (FinBin_getD hfin _)
      (FinBin_Copy (FinBin_BinSum hfin first k1)), ih]
    show _ = (BinSum E aBins (first + k1) k2).Add
      (aBins.getD (first + k1 + k2) (Bin.Zero E.cScores)) E.cScores
    rw [Nat.add_assoc]

/-- The children of a split node whose aggregate is the sum of its bins
have aggregates that are the sums of their bins, for finite bins. -/
theorem BranchOk_NodeSum {E : Settings} {aBins : List Bin} {m : Nat} {a : Arena} {i : Nat}
    (hfin : ∀ b ∈ aBins, FinBin E b) (hb : BranchOk E aBins m a i)
    (hn : NodeSum E aBins (a i)) :
    NodeSum E aBins (a (a i).m_pTreeNodeChildren) ∧
    NodeSum E aBins (a ((a i).m_pTreeNodeChildren + 1)) := by
  unfold BranchOk at hb
  obtain ⟨b1, b2, b3, b4, b5, b6, -, -, b9, b10, -⟩ := hb
  obtain ⟨-, n2⟩ := hn
  have hl : (a (a i).m_pTreeNodeChildren).m_bin =
      BinSum E aBins (a i).m_pBinFirst ((a i).m_splitVal + 1 - (a i).m_pBinFirst) := by
    rw [b10, BinSum_Copy]
  refine ⟨⟨by omega, by rw [b3, b4]; exact hl⟩, by omega, ?_⟩
  rw [b9, n2, hl, b5, b6]
  have e1 : (a i).m_pBinLast + 1 - (a i).m_pBinFirst =
      ((a i).m_splitVal + 1 - (a i).m_pBinFirst) + ((a i).m_pBinLast - (a i).m_splitVal) := by
    omega
  have e2 : (a i).m_pBinLast + 1 - ((a i).m_splitVal + 1) =
      (a i).m_pBinLast - (a i).m_splitVal := by omega
  have e3 : (a i).m_splitVal + 1 =
      (a i).m_pBinFirst + ((a i).m_splitVal + 1 - (a i).m_pBinFirst) := by omega
  rw [e1, e2]
  rw [← BinSum_Copy E aBins (a i).m_pBinFirst ((a i).m_splitVal + 1 - (a i).m_pBinFirst),
    Bin.Subtract_Copy]
  rw [← Bin.Subtract_Copy, BinSum_split E aBins hfin]
  rw [← e3]

/-- The leaves of a shape whose root aggregate is the sum of its bins: the
aggregate of every leaf is the sum of its bins, the first bins of the leaves
are the first bin of the root and the bins behind the split values, and the
last bins of the leaves are the split values and the last bin of the root,
all in the order of the in-order walk. -/
theorem Shape.leaf_ranges {E : Settings} {aBins : List Bin} {m : Nat} {a : Arena}
    (hfin : ∀ b ∈ aBins, FinBin E b) :
    ∀ (T : Shape), T.Ok E aBins m a → NodeSum E aBins (a T.root) →
      (∀ i ∈ T.leaves, NodeSum E aBins (a i)) ∧
      T.leaves.map (fun i => (a i).m_pBinFirst) =
        (a T.root).m_pBinFirst :: (T.branches.map fun i => (a i).m_splitVal).map (· + 1) ∧
      T.leaves.map (fun i => (a i).m_pBinLast) =
        (T.branches.map fun i => (a i).m_splitVal) ++ [(a T.root).m_pBinLast] := by
  intro T
  induction T with
  | leaf i =>
    intro _ hn
    simp only [Shape.leaves, Shape.branches, Shape.root] at hn ⊢
    exact ⟨fun j hj => by rw [List.mem_singleton.mp hj]; exact hn, by simp, by simp⟩
  | pend i ch =>
    intro _ hn
    simp only [Shape.leaves, Shape.branches, Shape.root] at hn ⊢
    exact ⟨fun j hj => by rw [List.mem_singleton.mp hj]; exact hn, by simp, by simp⟩
  | split i l r ihl ihr =>
    intro hok hn
    simp only [Shape.Ok] at hok
    obtain ⟨-, -, g3, g4, g5, hl, hr⟩ := hok
    simp only [Shape.root] at hn
    obtain ⟨nl, nr⟩ := BranchOk_NodeSum hfin g5 hn
    rw [g3] at nl
    rw [g3, ← g4] at nr
    obtain ⟨l1, l2, l3⟩ := ihl hl nl
    obtain ⟨r1, r2, r3⟩ := ihr hr nr
    unfold BranchOk at g5
    rw [g3, ← g4] at g5
    obtain ⟨-, -, b3, b4, b5, b6, -⟩ := g5
    simp only [Shape.leaves, Shape.branches, Shape.root, List.map_append, List.map_cons,
      List.mem_append]
    refine ⟨?_, ?_, ?_⟩
    · intro j hj
      rcases hj with h | h
      · exact l1 j h
      · exact r1 j h
    · rw [l2, r2, b3, b5]
      simp
    · rw [l3, r3, b4, b6]
      simp

/-- Consecutive ranges: every range starts at or after the start of the
first one. -/
theorem ranges_lower {α : Type} (f l : α → Nat) (e : Nat) :
    ∀ (L : List α) (f0 : Nat) (S : List Nat), L.map f = f0 :: S.map (· + 1) →
      L.map l = S ++ [e] → (∀ i ∈ L, f i ≤ l i) → ∀ i ∈ L, f0 ≤ f i := by
  intro L
  induction L with
  | nil => intro f0 S h; simp at h
  | cons x rest ih =>
    intro f0 S hf hl hne i hi
    simp only [List.map_cons, List.cons.injEq] at hf
    obtain ⟨hfx, hfr⟩ := hf
    rcases List.mem_cons.mp hi with rfl | hi
    · omega
    · cases S with
      | nil =>
        simp only [List.map_nil, List.map_eq_nil_iff] at hfr
        rw [hfr] at hi
        simp at hi
      | cons s S' =>
        simp only [List.map_cons, List.cons_append, List.cons.injEq] at hfr hl
        have := ih (s + 1) S' hfr hl.2 (fun j hj => hne j (List.mem_cons_of_mem _ hj)) i hi
        have := hne x (List.mem_cons_self _ _)
        omega

/-- Consecutive ranges from `f0` to `e`: a bin before `f0` lies in no
range, and a bin from `f0` to `e` lies in exactly one. -/
theorem ranges_count {α : Type} (f l : α → Nat) (e : Nat) :
    ∀ (L : List α) (f0 : Nat) (S : List Nat), L.map f = f0 :: S.map (· + 1) →
      L.map l = S ++ [e] → (∀ i ∈ L, f i ≤ l i) → ∀ b, f0 ≤ b → b ≤ e →
        L.countP (fun i => decide (f i ≤ b) && decide (b ≤ l i)) = 1 := by
  intro L
  induction L with
  | nil => intro f0 S h; simp at h
  | cons x rest ih =>
    intro f0 S hf hl hne b hb1 hb2
    simp only [List.map_cons, List.cons.injEq] at hf
    obtain ⟨hfx, hfr⟩ := hf
    cases S with
    | nil =>
      simp only [List.map_nil, List.map_eq_nil_iff] at hfr
      subst hfr
      simp only [List.map_cons, List.map_nil, List.nil_append, List.cons.injEq, and_true] at hl
      simp [List.countP_cons, hfx, hl, hb1, hb2]
    | cons s S' =>
      simp only [List.map_cons, List.cons_append, List.cons.injEq] at hfr hl
      obtain ⟨hlx, hlr⟩ := hl
      have hner : ∀ j ∈ rest, f j ≤ l j := fun j hj => hne j (List.mem_cons_of_mem _ hj)
      rw [List.countP_cons]
      by_cases hbs : b ≤ s
      · have hzero : rest.countP (fun i => decide (f i ≤ b) && decide (b ≤ l i)) = 0 := by
          rw [List.countP_eq_zero]
          intro j hj
          have := ranges_lower f l e rest (s + 1) S' hfr hlr hner j hj
          simp only [Bool.and_eq_true, decide_eq_true_eq, not_and]
          intro h1
          omega
        rw [hzero]
        simp [hfx, hlx, hb1, hbs]
      · rw [ih (s + 1) S' hfr hlr hner b (by omega) hb2]
        have : ¬ b ≤ l x := by omega
        simp [this]

theorem RootScores_bin (E : Settings) (n : TreeNode) :
    RootScores E n = RootScores E { ZeroNode with m_bin := n.m_bin } := rfl

theorem FastScores_bin (E : Settings) (n : TreeNode) :
    FastScores E n = FastScores E { ZeroNode with m_bin := n.m_bin } := rfl

theorem FlattenLeaf_bin (E : Settings) (n : TreeNode) :
    FlattenLeaf E n = FlattenLeaf E { ZeroNode with m_bin := n.m_bin } := rfl

/-- The bins of the regression scenarios are finite. -/
theorem RegressionBin_FinBin (c : Nat) (g : ℚ) : FinBin RegressionSettings (RegressionBin c g) := by
  refine ⟨⟨c, rfl⟩, ?_⟩
  intro iScore hi
  have : iScore = 0 := by
    have : RegressionSettings.cScores = 1 := rfl
    omega
  subst this
  exact ⟨⟨g, rfl⟩, ⟨0, rfl⟩⟩

/-- The leaves of the output of a successful call: the scores are those of
the leaves in order, the aggregate of every leaf is the sum of the bins of
its range, which is not empty, the first range starts at the bin 0, every
other range starts behind the split value before it, every range but the
last ends at its split value and the last range ends at the last bin. -/
theorem Func_leaves (E : Settings) (rng : RandomDeterministic) (shell : BoosterShell)
    (cBins iDimension m cLeavesMax : Nat) (hbins : 1 ≤ cBins)
    (hfin : ∀ b ∈ shell.aBins, FinBin E b)
    (hsum : shell.sumAllBins.Copy E.cScores = BinSum E shell.aBins 0 cBins)
    (hok : (PartitionOneDimensionalBoostingInternal.Func E rng shell cBins iDimension m
      cLeavesMax).error = .Error_None) :
    (PartitionOneDimensionalBoostingInternal.Func E rng shell cBins iDimension m
        cLeavesMax).aScores =
      ((OutputLeaves E rng shell cBins m cLeavesMax).map fun i =>
        LeafScores E rng shell cBins m cLeavesMax
          (FinalArena E rng shell cBins m cLeavesMax i).m_bin).flatten ∧
    (∀ i ∈ OutputLeaves E rng shell cBins m cLeavesMax,
      NodeSum E shell.aBins (FinalArena E rng shell cBins m cLeavesMax i)) ∧
    (OutputLeaves E rng shell cBins m cLeavesMax).map
        (fun i => (FinalArena E rng shell cBins m cLeavesMax i).m_pBinFirst) =
      0 :: (PartitionOneDimensionalBoostingInternal.Func E rng shell cBins iDimension m
        cLeavesMax).aSplits.map (· + 1) ∧
    (OutputLeaves E rng shell cBins m cLeavesMax).map
        (fun i => (FinalArena E rng shell cBins m cLeavesMax i).m_pBinLast) =
      (PartitionOneDimensionalBoostingInternal.Func E rng shell cBins iDimension m
        cLeavesMax).aSplits ++ [cBins - 1] := by
  have hroot : NodeSum E shell.aBins (RootArena E shell cBins 0) := by
    simp only [NodeSum, RootArena, Arena.set, if_true]
    refine ⟨Nat.zero_le _, ?_⟩
    rw [hsum]
    congr 1
    omega
  by_cases h0 : (RootFind E rng shell cBins m).ret ≠ 0
  · -- the root is not split
    have hr := (FindBestSplitGain_reject E shell.aBins rng (RootArena E shell cBins) 0 1 m
      h0 (by decide) (by decide)).1
    have hr' : (RootFind E rng shell cBins m).arena 0 = RootArena E shell cBins 0 := hr
    rw [Func_root E rng shell cBins iDimension m cLeavesMax h0]
    simp only [OutputLeaves, LeafScores, FinalArena, if_pos h0]
    · refine ⟨?_, ?_, ?_, ?_⟩
      · simp only [List.map_cons, List.map_nil, List.flatten_cons, List.flatten_nil,
          List.append_nil]
        exact RootScores_bin E _
      · intro i hi
        rw [List.mem_singleton.mp hi, hr']
        exact hroot
      · simp only [List.map_cons, List.map_nil]
        rw [hr']
        simp [RootArena, Arena.set]
      · simp only [List.map_cons, List.map_nil, List.nil_append]
        rw [hr']
        simp [RootArena, Arena.set]
  · have h0' : (RootFind E rng shell cBins m).ret = 0 := by
      by_contra h; exact h0 h
    by_cases hfast : cLeavesMax = 2 ∨ cBins = 2
    · -- the fast path
      obtain ⟨k1, -, -, k4, k5⟩ := FindBestSplitGain_BranchOk E shell.aBins rng
        (RootArena E shell cBins) 0 1 m h0' (by decide) (by decide)
      have s1' : ((RootFind E rng shell cBins m).arena 0).m_pBinFirst =
        (RootArena E shell cBins 0).m_pBinFirst := k5.1
      have s2' : ((RootFind E rng shell cBins m).arena 0).m_pBinLast =
        (RootArena E shell cBins 0).m_pBinLast := k5.2.1
      have s3' : ((RootFind E rng shell cBins m).arena 0).m_bin =
        (RootArena E shell cBins 0).m_bin := k5.2.2
      have hn : NodeSum E shell.aBins ((RootFind E rng shell cBins m).arena 0) := by
        unfold NodeSum at hroot ⊢
        rw [s1', s2', s3']
        exact hroot
      have k1' : BranchOk E shell.aBins m (RootFind E rng shell cBins m).arena 0 := k1
      obtain ⟨nl, nr⟩ := BranchOk_NodeSum hfin k1' hn
      unfold BranchOk at k1'
      obtain ⟨-, -, b3, b4, b5, b6, -⟩ := k1'
      have f1 : ((RootFind E rng shell cBins m).arena 0).m_pBinFirst = 0 := by
        rw [s1']; simp [RootArena, Arena.set]
      have f2 : ((RootFind E rng shell cBins m).arena 0).m_pBinLast = cBins - 1 := by
        rw [s2']; simp [RootArena, Arena.set]
      rw [Func_fast E rng shell cBins iDimension m cLeavesMax h0' hfast hok]
      simp only [OutputLeaves, LeafScores, FinalArena, if_neg h0, if_pos hfast]
      · refine ⟨?_, ?_, ?_, ?_⟩
        · simp only [List.map_cons, List.map_nil, List.flatten_cons, List.flatten_nil,
            List.append_nil]
          rw [← FastScores_bin, ← FastScores_bin]
        · intro i hi
          simp only [List.mem_cons, List.mem_singleton, List.not_mem_nil, or_false] at hi
          rcases hi with rfl | rfl
          · exact nl
          · exact nr
        · simp only [List.map_cons, List.map_nil]
          rw [b3, b5, f1]
        · simp only [List.map_cons, List.map_nil, List.cons_append, List.nil_append]
          rw [b4, b6, f2]
    · -- the general path
      obtain ⟨⟨T, commits, hrd, hTroot, hTok, -, -, -, -, hleaves, -, -⟩, -, -⟩ :=
        GrowTree_inv E rng shell cBins m cLeavesMax h0'
      obtain ⟨e1, -, e3⟩ := Shape.flatten_eq T (GrowTree E rng shell cBins m cLeavesMax).cLeaves
        hTok (by rw [← hleaves]; exact Shape.height_le_leaves T)
      rw [hTroot] at e1 e3
      have hn : NodeSum E shell.aBins ((GrowTree E rng shell cBins m cLeavesMax).arena T.root) := by
        rw [hTroot]
        obtain ⟨s1, s2, s3⟩ := hrd
        unfold NodeSum at hroot ⊢
        rw [s1, s2, s3]
        exact hroot
      obtain ⟨l1, l2, l3⟩ := Shape.leaf_ranges hfin T hTok hn
      rw [hTroot] at l2 l3
      have f1 : ((GrowTree E rng shell cBins m cLeavesMax).arena 0).m_pBinFirst = 0 := by
        rw [hrd.1]; simp [RootArena, Arena.set]
      have f2 : ((GrowTree E rng shell cBins m cLeavesMax).arena 0).m_pBinLast = cBins - 1 := by
        rw [hrd.2.1]; simp [RootArena, Arena.set]
      rw [Func_general E rng shell cBins iDimension m cLeavesMax h0' hfast hok]
      simp only [OutputLeaves, LeafScores, FinalArena, if_neg h0, if_neg hfast]
      rw [e1, e3]
      refine ⟨?_, l1, ?_, ?_⟩
      · rfl
      · rw [l2, f1]
      · rw [l3, f2]

/-- Consecutive ranges are disjoint: every range ends before the ranges
behind it start. -/
theorem ranges_pairwise {α : Type} (f l : α → Nat) (e : Nat) :
    ∀ (L : List α) (f0 : Nat) (S : List Nat), L.map f = f0 :: S.map (· + 1) →
      L.map l = S ++ [e] → (∀ i ∈ L, f i ≤ l i) → L.Pairwise (fun i j => l i < f j) := by
  intro L
  induction L with
  | nil => intro f0 S h; simp at h
  | cons x rest ih =>
    intro f0 S hf hl hne
    simp only [List.map_cons, List.cons.injEq] at hf
    obtain ⟨hfx, hfr⟩ := hf
    cases S with
    | nil =>
      simp only [List.map_nil, List.map_eq_nil_iff] at hfr
      subst hfr
      simp
    | cons s S' =>
      simp only [List.map_cons, List.cons_append, List.cons.injEq] at hfr hl
      obtain ⟨hlx, hlr⟩ := hl
      have hner : ∀ j ∈ rest, f j ≤ l j := fun j hj => hne j (List.mem_cons_of_mem _ hj)
      rw [List.pairwise_cons]
      refine ⟨?_, ih (s + 1) S' hfr hlr hner⟩
      intro j hj
      have := ranges_lower f l e rest (s + 1) S' hfr hlr hner j hj
      omega

/-! ## Bounds on the split values of the output -/

/-- Every split value that a call stores is the index of a bin other than
the last bin. -/
theorem Func_splits_bound (E : Settings) (rng : RandomDeterministic) (shell : BoosterShell)
    (cBins iDimension m cLeavesMax : Nat) :
    ∀ v ∈ (PartitionOneDimensionalBoostingInternal.Func E rng shell cBins iDimension m
      cLeavesMax).aSplits, v + 2 ≤ cBins := by
  intro v hv
  by_cases h0 : (RootFind E rng shell cBins m).ret ≠ 0
  · rw [Func_root E rng shell cBins iDimension m cLeavesMax h0] at hv
    simp at hv
  · have h0' : (RootFind E rng shell cBins m).ret = 0 := by
      by_contra h; exact h0 h
    by_cases hfast : cLeavesMax = 2 ∨ cBins = 2
    · obtain ⟨k1, -, -, -, k5⟩ := FindBestSplitGain_BranchOk E shell.aBins rng
        (RootArena E shell cBins) 0 1 m h0' (by decide) (by decide)
      have k1' : BranchOk E shell.aBins m (RootFind E rng shell cBins m).arena 0 := k1
      have s2 : ((RootFind E rng shell cBins m).arena 0).m_pBinLast =
        (RootArena E shell cBins 0).m_pBinLast := k5.2.1
      have f2 : ((RootFind E rng shell cBins m).arena 0).m_pBinLast = cBins - 1 := by
        rw [s2]; simp [RootArena, Arena.set]
      unfold BranchOk at k1'
      obtain ⟨-, b2, -⟩ := k1'
      simp only [PartitionOneDimensionalBoostingInternal.Func] at hv
      rw [if_neg h0, if_pos hfast] at hv
      split_ifs at hv
      · simp at hv
      · simp only [List.mem_singleton] at hv
        omega
    · obtain ⟨T, hroot, hrd, hok, -, hfl, -⟩ :=
        GrowTree_branches E rng shell cBins m cLeavesMax h0'
      obtain ⟨hb, -⟩ := Shape.splits_sorted T hok
      rw [hroot, hrd.1, hrd.2.1] at hb
      simp only [PartitionOneDimensionalBoostingInternal.Func] at hv
      rw [if_neg h0, if_neg hfast] at hv
      split_ifs at hv
      · simp at hv
      · simp at hv
      · simp at hv
      · dsimp only at hv
        rw [hfl] at hv
        have := (hb v hv).2
        simp [RootArena, Arena.set] at this
        omega

/-! ## The number of leaves and the number of bins -/

namespace Shape

/-- A shape held by the buffer has no more leaves and waiting nodes than its
root has bins, a waiting node counting twice: every formally split and every
waiting node has a split value inside its range, which divides it into two
ranges that are not empty. -/
theorem cap_le_bins {E : Settings} {aBins : List Bin} {m : Nat} {a : Arena} :
    ∀ (T : Shape), T.Ok E aBins m a → (a T.root).m_pBinFirst ≤ (a T.root).m_pBinLast →
      T.leaves.length + T.pends.length ≤ (a T.root).m_pBinLast + 1 - (a T.root).m_pBinFirst := by
  intro T
  induction T with
  | leaf i =>
    intro _ hne
    simp only [leaves, pends, root, List.length_cons, List.length_nil] at hne ⊢
    omega
  | pend i ch =>
    intro hok _
    simp only [Ok] at hok
    obtain ⟨-, -, -, hb⟩ := hok
    unfold BranchOk at hb
    obtain ⟨b1, b2, -⟩ := hb
    simp only [leaves, pends, root, List.length_cons, List.length_nil]
    omega
  | split i l r ihl ihr =>
    intro hok _
    simp only [Ok] at hok
    obtain ⟨-, -, g3, g4, g5, hl, hr⟩ := hok
    unfold BranchOk at g5
    rw [g3, ← g4] at g5
    obtain ⟨b1, b2, b3, b4, b5, b6, -⟩ := g5
    have il := ihl hl (by rw [b3, b4]; exact b1)
    have ir := ihr hr (by rw [b5, b6]; omega)
    rw [b3, b4] at il
    rw [b5, b6] at ir
    simp only [leaves, pends, root, List.length_append]
    omega

end Shape

/-- The loop is not cut short by the bound on its rounds: with at least
`cLeavesMax - g.cLeaves - 1` further rounds allowed, it ends with
`cLeavesMax` leaves reached or with an empty queue. -/
theorem GrowLoop_exit (E : Settings) (aBins : List Bin) (m cLeavesMax : Nat) :
    ∀ (fuel : Nat) (g : Growth) (p : Nat), cLeavesMax ≤ g.cLeaves + 1 + fuel →
      ¬ (GrowLoop E aBins m cLeavesMax fuel g p).cLeaves < cLeavesMax ∨
      (GrowLoop E aBins m cLeavesMax fuel g p).bestTreeNodeToSplit = [] := by
  intro fuel
  induction fuel with
  | zero =>
    intro g p hf
    obtain ⟨-, -, a3⟩ := SplitParent_cursor E aBins m g p
    unfold GrowLoop
    simp only
    split_ifs with c
    · omega
    · exact Or.inl c
  | succ fuel ih =>
    intro g p hf
    obtain ⟨-, -, a3⟩ := SplitParent_cursor E aBins m g p
    unfold GrowLoop
    simp only
    split_ifs with c
    · split
      · rename_i htop
        exact Or.inr (QueueTop_none _ _ htop)
      · rename_i iTop htop
        refine ih _ iTop ?_
        dsimp only
        omega
    · exact Or.inl c

/-- The number of leaves of a call with `cLeavesMax >= 2` on at least one
bin is at most `cLeavesMax` and at most the number of bins. -/
theorem LeafCount_le (E : Settings) (rng : RandomDeterministic) (shell : BoosterShell)
    (cBins m cLeavesMax : Nat) (hmax : 2 ≤ cLeavesMax) (hbins : 1 ≤ cBins) :
    LeafCount E rng shell cBins m cLeavesMax ≤ cLeavesMax ∧
    LeafCount E rng shell cBins m cLeavesMax ≤ cBins := by
  unfold LeafCount
  by_cases h0 : (RootFind E rng shell cBins m).ret ≠ 0
  · rw [if_pos h0]; omega
  · have h0' : (RootFind E rng shell cBins m).ret = 0 := by
      by_contra h; exact h0 h
    rw [if_neg h0]
    obtain ⟨k1, -, -, -, k5⟩ := FindBestSplitGain_BranchOk E shell.aBins rng
      (RootArena E shell cBins) 0 1 m h0' (by decide) (by decide)
    have hlast : (RootArena E shell cBins 0).m_pBinLast = cBins - 1 := by
      simp [RootArena, Arena.set]
    have hfirst : (RootArena E shell cBins 0).m_pBinFirst = 0 := by
      simp [RootArena, Arena.set]
    by_cases hfast : cLeavesMax = 2 ∨ cBins = 2
    · rw [if_pos hfast]
      unfold BranchOk at k1
      obtain ⟨b1, b2, -⟩ := k1
      rw [k5.2.1, hlast] at b2
      omega
    · rw [if_neg hfast]
      obtain ⟨⟨T, commits, hrd, hroot, hok, -, -, -, -, hleaves, -, -⟩, hle, -⟩ :=
        GrowTree_inv E rng shell cBins m cLeavesMax h0'
      have hcap := Shape.cap_le_bins T hok (by rw [hroot, hrd.1, hrd.2.1, hfirst]; omega)
      rw [hroot, hrd.1, hrd.2.1, hfirst, hlast, hleaves] at hcap
      exact ⟨hle hmax, by omega⟩

/-- The number of formally split nodes of a call is its number of leaves
minus one. -/
theorem CommittedBranches_length (E : Settings) (rng : RandomDeterministic)
    (shell : BoosterShell) (cBins m cLeavesMax : Nat) :
    (CommittedBranches E rng shell cBins m cLeavesMax).length + 1 =
      LeafCount E rng shell cBins m cLeavesMax := by
  unfold CommittedBranches LeafCount
  by_cases h0 : (RootFind E rng shell cBins m).ret ≠ 0
  · rw [if_pos h0, if_pos h0]; rfl
  · have h0' : (RootFind E rng shell cBins m).ret = 0 := by
      by_contra h; exact h0 h
    rw [if_neg h0, if_neg h0]
    by_cases hfast : cLeavesMax = 2 ∨ cBins = 2
    · rw [if_pos hfast, if_pos hfast]; rfl
    · rw [if_neg hfast, if_neg hfast]
      obtain ⟨⟨T, commits, -, hroot, hok, -, -, -, -, hleaves, -, -⟩, -, -⟩ :=
        GrowTree_inv E rng shell cBins m cLeavesMax h0'
      obtain ⟨-, e2, -⟩ := Shape.flatten_eq T (GrowTree E rng shell cBins m cLeavesMax).cLeaves
        hok (by rw [← hleaves]; exact Shape.height_le_leaves T)
      rw [hroot] at e2
      rw [e2, Shape.branches_length, hleaves]

/-- A child with a single bin is rejected without a call of
`FindBestSplitGain`: only its slot changes. -/
theorem ExamineChild_single (E : Settings) (aBins : List Bin) (m : Nat) (g : Growth) (x : Nat)
    (h : (g.arena x).m_pBinLast = (g.arena x).m_pBinFirst) :
    (ExamineChild E aBins m g x).arena = g.arena.set x (g.arena x).AFTER_RejectSplit ∧
    (ExamineChild E aBins m g x).rng = g.rng ∧
    (ExamineChild E aBins m g x).iStorageCur = g.iStorageCur ∧
    (ExamineChild E aBins m g x).bestTreeNodeToSplit = g.bestTreeNodeToSplit ∧
    (ExamineChild E aBins m g x).cLeaves = g.cLeaves ∧
    (ExamineChild E aBins m g x).totalGain = g.totalGain := by
  have hs : (g.arena x).BEFORE_IsSplittable = false := by
    simp [TreeNode.BEFORE_IsSplittable, h]
  unfold ExamineChild
  rw [hs]
  simp

/-! ## The early exit of the scan -/

theorem RangeCount_shift (E : Settings) (aBins : List Bin) (i : Nat) :
    ∀ k, RangeCount E aBins i (k + 1) =
      (aBins.getD i (Bin.Zero E.cScores)).m_cSamples + RangeCount E aBins (i + 1) k := by
  intro k
  induction k with
  | zero => simp [RangeCount]
  | succ k ih =>
    have e : i + 1 + k = i + (k + 1) := by omega
    rw [RangeCount, ih, RangeCount, e]
    omega

/-- Once the right accumulator holds fewer than `cSamplesLeafMin` samples,
and at least the samples of the bins still to scan, the scan without the
early exit records nothing more. -/
theorem SweepLoopAll_below (E : Settings) (aBins : List Bin) (m : Nat) :
    ∀ (k i : Nat) (s : Sweep), s.right.m_cSamples < m →
      RangeCount E aBins i k ≤ s.right.m_cSamples →
      s.right.m_cSamples < 18446744073709551616 →
      (SweepLoopAll E aBins m k i s).aTreeSweep = s.aTreeSweep ∧
      (SweepLoopAll E aBins m k i s).BEST_gain = s.BEST_gain := by
  intro k
  induction k with
  | zero => intro i s _ _ _; simp [SweepLoopAll]
  | succ k ih =>
    intro i s h1 h2 h3
    rw [RangeCount_shift] at h2
    have hc : (s.right.Subtract (aBins.getD i (Bin.Zero E.cScores)) E.cScores).m_cSamples =
        s.right.m_cSamples - (aBins.getD i (Bin.Zero E.cScores)).m_cSamples := by
      simp only [Bin.Subtract, subSize]
      omega
    have hlt : (s.right.Subtract (aBins.getD i (Bin.Zero E.cScores)) E.cScores).m_cSamples < m := by
      omega
    simp only [SweepLoopAll]
    rw [if_pos hlt]
    obtain ⟨r1, r2⟩ := ih (i + 1)
      { s with left := s.left.Add (aBins.getD i (Bin.Zero E.cScores)) E.cScores,
               right := s.right.Subtract (aBins.getD i (Bin.Zero E.cScores)) E.cScores }
      hlt (by dsimp only; omega) (by dsimp only; omega)
    exact ⟨r1, r2⟩

/-- The scan with the early exit and the scan without it record the same
tie list and the same best gain, when the right accumulator holds at least
the samples of the bins still to scan. -/
theorem SweepLoop_eq_All (E : Settings) (aBins : List Bin) (m : Nat) :
    ∀ (k i : Nat) (s : Sweep), RangeCount E aBins i k ≤ s.right.m_cSamples →
      s.right.m_cSamples < 18446744073709551616 →
      (SweepLoop E aBins m k i s).aTreeSweep = (SweepLoopAll E aBins m k i s).aTreeSweep ∧
      (SweepLoop E aBins m k i s).BEST_gain = (SweepLoopAll E aBins m k i s).BEST_gain := by
  intro k
  induction k with
  | zero => intro i s _ _; simp [SweepLoop, SweepLoopAll]
  | succ k ih =>
    intro i s h2 h3
    rw [RangeCount_shift] at h2
    have hc : (s.right.Subtract (aBins.getD i (Bin.Zero E.cScores)) E.cScores).m_cSamples =
        s.right.m_cSamples - (aBins.getD i (Bin.Zero E.cScores)).m_cSamples := by
      simp only [Bin.Subtract, subSize]
      omega
    simp only [SweepLoop, SweepLoopAll]
    by_cases hlt : (s.right.Subtract (aBins.getD i (Bin.Zero E.cScores)) E.cScores).m_cSamples < m
    · rw [if_pos hlt, if_pos hlt]
      obtain ⟨r1, r2⟩ := SweepLoopAll_below E aBins m k (i + 1)
        { s with left := s.left.Add (aBins.getD i (Bin.Zero E.cScores)) E.cScores,
                 right := s.right.Subtract (aBins.getD i (Bin.Zero E.cScores)) E.cScores }
        hlt (by dsimp only; omega) (by dsimp only; omega)
      exact ⟨r1.symm, r2.symm⟩
    · rw [if_neg hlt, if_neg hlt]
      refine ih (i + 1) _ ?_ ?_
      · rw [SweepRecord_right]; omega
      · rw [SweepRecord_right]; omega

/-! ## The gains of the nodes of the queue -/

/-- The state of the loop at every pop satisfies the invariant of the loop. -/
theorem GrowPops_inv (E : Settings) (aBins : List Bin) (m cLeavesMax : Nat) (root : TreeNode) :
    ∀ (fuel : Nat) (g : Growth) (p : Nat),
      GrowInv E aBins m root g (p :: g.bestTreeNodeToSplit) →
      ∀ x ∈ GrowPops E aBins m cLeavesMax fuel g p,
        GrowInv E aBins m root x.1 x.1.bestTreeNodeToSplit := by
  intro fuel
  induction fuel with
  | zero =>
    intro g p _ x hx
    unfold GrowPops at hx
    simp only at hx
    split_ifs at hx
    · split at hx <;> simp at hx
    · simp at hx
  | succ fuel ih =>
    intro g p h x hx
    obtain ⟨h1, -⟩ := SplitParent_inv E aBins m root g p h
    unfold GrowPops at hx
    simp only at hx
    split_ifs at hx with c
    · split at hx
      · simp at hx
      · rename_i iTop htop
        have hmem := QueueTop_mem _ _ _ htop
        rcases List.mem_cons.mp hx with rfl | hx
        · exact h1
        · exact ih _ iTop (GrowInv_pop E aBins m root _ iTop h1 hmem) x hx
    · simp at hx

/-- Under the invariant of the loop, with `0 <= k_gainMin` and partial gains
that are NaN or not negative, every waiting node carries a split gain that
is finite and not negative. -/
theorem GrowInv_queue_fin {E : Settings} {aBins : List Bin} {m : Nat} {root : TreeNode}
    {g : Growth} {P : List Nat} (h : GrowInv E aBins m root g P)
    (hk : (FloatBig.fin 0).le E.k_gainMin = true)
    (ho : ∀ g h, (E.CalcPartialGain g h).isnan = true ∨
      (FloatBig.fin 0).le (E.CalcPartialGain g h) = true) :
    ∀ q ∈ P, ∃ v : ℚ, 0 ≤ v ∧ (g.arena q).AFTER_GetSplitGain = .fin v := by
  obtain ⟨T, commits, -, -, hok, hnd, -, -, hP, -, -, -⟩ := h
  intro q hq
  obtain ⟨-, -, -, -, -, -, -, g1, g2, g3⟩ := Shape.pend_children hok hnd (hP q hq)
  unfold BranchOk at g3
  obtain ⟨v, hv, e⟩ := NetSplitGain_fin E aBins m (g.arena q) hk ho g3.2.2.2.2.2.2.2.2.2.2 g2
  exact ⟨v, hv, by simp only [TreeNode.AFTER_GetSplitGain, g1, Option.getD_some, e]⟩

/-- With `0 <= k_gainMin` and partial gains that are NaN or not negative, a
split by `FindBestSplitGain` stores a gain that is finite and not negative. -/
theorem FindBestSplitGain_gain_fin (E : Settings) (aBins : List Bin) (rng : RandomDeterministic)
    (arena : Arena) (iNode iChildren m : Nat)
    (hk : (FloatBig.fin 0).le E.k_gainMin = true)
    (ho : ∀ g h, (E.CalcPartialGain g h).isnan = true ∨
      (FloatBig.fin 0).le (E.CalcPartialGain g h) = true)
    (h : (FindBestSplitGain E aBins rng arena iNode iChildren m).ret = 0)
    (h1 : iNode ≠ iChildren) (h2 : iNode ≠ iChildren + 1) :
    ∃ q : ℚ, 0 ≤ q ∧
      ((FindBestSplitGain E aBins rng arena iNode iChildren m).arena iNode).m_splitGain =
        some (.fin q) := by
  obtain ⟨best, g, -, hmax, hg, hle, e0, -, -⟩ :=
    FindBestSplitGain_commit E aBins rng arena iNode iChildren m h h1 h2
  have hgn : g = NetSplitGain E aBins m (arena iNode) := hg
  rw [hgn] at hle
  obtain ⟨q, hq, e⟩ := NetSplitGain_fin E aBins m (arena iNode) hk ho hmax hle
  exact ⟨q, hq, by rw [e0, hgn, e]⟩

/-! ## The aggregate of every node -/

namespace Shape

/-- The number of slots of a shape: twice the number of its leaves and
waiting nodes, a waiting node counting twice, minus one. -/
theorem cells_length (T : Shape) :
    T.cells.length + 1 = 2 * (T.leaves.length + T.pends.length) := by
  induction T with
  | leaf i => simp [cells, leaves, pends]
  | pend i ch => simp [cells, leaves, pends]
  | split i l r ihl ihr =>
    simp only [cells, leaves, pends, List.length_cons, List.length_append]
    omega

/-- In a shape whose root aggregate is the sum of its bins, the aggregate
of every slot is the sum of the bins of its range, which is not empty. -/
theorem cells_sum {E : Settings} {aBins : List Bin} {m : Nat} {a : Arena}
    (hfin : ∀ b ∈ aBins, FinBin E b) :
    ∀ (T : Shape), T.Ok E aBins m a → NodeSum E aBins (a T.root) →
      ∀ i ∈ T.cells, NodeSum E aBins (a i) := by
  intro T
  induction T with
  | leaf i =>
    intro _ hn j hj
    simp only [cells, List.mem_singleton] at hj
    rw [hj]; exact hn
  | pend i ch =>
    intro hok hn j hj
    simp only [Ok] at hok
    obtain ⟨-, -, h3, hb⟩ := hok
    simp only [root] at hn
    obtain ⟨nl, nr⟩ := BranchOk_NodeSum hfin hb hn
    rw [h3] at nl nr
    simp only [cells, List.mem_cons, List.mem_singleton, List.not_mem_nil, or_false] at hj
    rcases hj with rfl | rfl | rfl
    · exact hn
    · exact nl
    · exact nr
  | split i l r ihl ihr =>
    intro hok hn j hj
    simp only [Ok] at hok
    obtain ⟨-, -, g3, g4, g5, hl, hr⟩ := hok
    simp only [root] at hn
    obtain ⟨nl, nr⟩ := BranchOk_NodeSum hfin g5 hn
    rw [g3] at nl
    rw [g3, ← g4] at nr
    simp only [cells, List.mem_cons, List.mem_append] at hj
    rcases hj with rfl | h | h
    · exact hn
    · exact ihl hl nl j h
    · exact ihr hr nr j h

end Shape

/-- When the loop ends, the slots of the shape that the buffer holds are
all the slots below the cursor, and the nodes of the queue are all the
waiting nodes. -/
theorem GrowTree_cells (E : Settings) (rng : RandomDeterministic) (shell : BoosterShell)
    (cBins m cLeavesMax : Nat) (h : (RootFind E rng shell cBins m).ret = 0) :
    ∃ T : Shape, T.root = 0 ∧
      SameData (RootArena E shell cBins 0) ((GrowTree E rng shell cBins m cLeavesMax).arena 0) ∧
      T.Ok E shell.aBins m (GrowTree E rng shell cBins m cLeavesMax).arena ∧
      T.cells.Nodup ∧
      T.leaves.length = (GrowTree E rng shell cBins m cLeavesMax).cLeaves ∧
      T.pends.length = (GrowTree E rng shell cBins m cLeavesMax).bestTreeNodeToSplit.length ∧
      (∀ q ∈ (GrowTree E rng shell cBins m cLeavesMax).bestTreeNodeToSplit, q ∈ T.pends) ∧
      T.cells.length = (GrowTree E rng shell cBins m cLeavesMax).iStorageCur ∧
      ∀ i, i < (GrowTree E rng shell cBins m cLeavesMax).iStorageCur ↔ i ∈ T.cells := by
  obtain ⟨⟨T, commits, hrd, hroot, hok, hnd, hlt, hPnd, hP, hleaves, -, -⟩, -, -⟩ :=
    GrowTree_inv E rng shell cBins m cLeavesMax h
  obtain ⟨c1, -⟩ := GrowTree_cursor E rng shell cBins m cLeavesMax
  have hlen := Shape.cells_length T
  have hsub : T.cells ⊆ List.range (GrowTree E rng shell cBins m cLeavesMax).iStorageCur :=
    fun k hk => List.mem_range.mpr (hlt k hk)
  have hsp := List.Nodup.subperm hnd hsub
  have h1 : T.cells.length ≤ (GrowTree E rng shell cBins m cLeavesMax).iStorageCur := by
    have := hsp.length_le
    simpa using this
  have h2 : (GrowTree E rng shell cBins m cLeavesMax).bestTreeNodeToSplit.length ≤
      T.pends.length := (List.Nodup.subperm hPnd hP).length_le
  have h3 : T.cells.length = (GrowTree E rng shell cBins m cLeavesMax).iStorageCur := by omega
  have hperm := hsp.perm_of_length_le (by simp only [List.length_range]; omega)
  refine ⟨T, hroot, hrd, hok, hnd, hleaves, by omega, hP, h3, ?_⟩
  intro i
  rw [hperm.mem_iff, List.mem_range]

/-- The root as the driver sets it up holds the sum of all the bins, when
the sum of all the bins is handed in as such. -/
theorem RootArena_NodeSum (E : Settings) (shell : BoosterShell) (cBins : Nat) (hbins : 1 ≤ cBins)
    (hsum : shell.sumAllBins.Copy E.cScores = BinSum E shell.aBins 0 cBins) :
    NodeSum E shell.aBins (RootArena E shell cBins 0) := by
  simp only [NodeSum, RootArena, Arena.set, if_true]
  refine ⟨Nat.zero_le _, ?_⟩
  rw [hsum]
  congr 1
  omega

theorem NodeSum_of_data {E : Settings} {aBins : List Bin} {n n' : TreeNode}
    (h : SameData n n') (hn : NodeSum E aBins n) : NodeSum E aBins n' := by
  obtain ⟨s1, s2, s3⟩ := h
  unfold NodeSum at hn ⊢
  rw [s1, s2, s3]
  exact hn

/-- In the buffer that a call leaves, every slot that the call has taken
holds a node whose aggregate is the sum of the bins of its range. -/
theorem Func_nodes_sum (E : Settings) (rng : RandomDeterministic) (shell : BoosterShell)
    (cBins m cLeavesMax : Nat) (hbins : 1 ≤ cBins)
    (hfin : ∀ b ∈ shell.aBins, FinBin E b)
    (hsum : shell.sumAllBins.Copy E.cScores = BinSum E shell.aBins 0 cBins) :
    ∀ i < SlotsUsed E rng shell cBins m cLeavesMax,
      NodeSum E shell.aBins (FinalArena E rng shell cBins m cLeavesMax i) := by
  have hroot := RootArena_NodeSum E shell cBins hbins hsum
  intro i hi
  unfold SlotsUsed at hi
  unfold FinalArena
  by_cases h0 : (RootFind E rng shell cBins m).ret ≠ 0
  · rw [if_pos h0] at hi ⊢
    have hr : (RootFind E rng shell cBins m).arena 0 = RootArena E shell cBins 0 :=
      (FindBestSplitGain_reject E shell.aBins rng (RootArena E shell cBins) 0 1 m
        h0 (by decide) (by decide)).1
    have : i = 0 := by omega
    rw [this, hr]
    exact hroot
  · have h0' : (RootFind E rng shell cBins m).ret = 0 := by
      by_contra h; exact h0 h
    rw [if_neg h0] at hi ⊢
    by_cases hfast : cLeavesMax = 2 ∨ cBins = 2
    · rw [if_pos hfast] at hi ⊢
      obtain ⟨k1, -, -, k4, k5⟩ := FindBestSplitGain_BranchOk E shell.aBins rng
        (RootArena E shell cBins) 0 1 m h0' (by decide) (by decide)
      have k1' : BranchOk E shell.aBins m (RootFind E rng shell cBins m).arena 0 := k1
      have k4' : ((RootFind E rng shell cBins m).arena 0).m_pTreeNodeChildren = 1 := k4
      have k5' : SameData (RootArena E shell cBins 0) ((RootFind E rng shell cBins m).arena 0) :=
        k5
      have hn := NodeSum_of_data k5' hroot
      obtain ⟨nl, nr⟩ := BranchOk_NodeSum hfin k1' hn
      rw [k4'] at nl nr
      have : i = 0 ∨ i = 1 ∨ i = 1 + 1 := by omega
      rcases this with rfl | rfl | rfl
      · exact hn
      · exact nl
      · exact nr
    · rw [if_neg hfast] at hi ⊢
      obtain ⟨T, hTroot, hrd, hok, -, -, -, -, -, hcells⟩ :=
        GrowTree_cells E rng shell cBins m cLeavesMax h0'
      have hn : NodeSum E shell.aBins ((GrowTree E rng shell cBins m cLeavesMax).arena T.root) := by
        rw [hTroot]
        exact NodeSum_of_data hrd hroot
      exact Shape.cells_sum hfin T hok hn i ((hcells i).mp hi)

/-! ## The waiting nodes when the loop ends -/

namespace Shape

theorem leaves_subset_cells (T : Shape) : ∀ q ∈ T.leaves, q ∈ T.cells := by
  induction T with
  | leaf j => intro q hq; simp only [leaves, List.mem_singleton] at hq; simp [cells, hq]
  | pend j c => intro q hq; simp only [leaves, List.mem_singleton] at hq; simp [cells, hq]
  | split j l r ih1 ih2 =>
    intro q hq
    simp only [leaves, List.mem_append] at hq
    simp only [cells, List.mem_cons, List.mem_append]
    rcases hq with h | h
    · exact Or.inr (Or.inl (ih1 q h))
    · exact Or.inr (Or.inr (ih2 q h))

theorem pends_subset_leaves (T : Shape) : ∀ q ∈ T.pends, q ∈ T.leaves := by
  induction T with
  | leaf j => intro q hq; simp [pends] at hq
  | pend j c => intro q hq; simp only [pends, List.mem_singleton] at hq; simp [leaves, hq]
  | split j l r ih1 ih2 =>
    intro q hq
    simp only [pends, List.mem_append] at hq
    simp only [leaves, List.mem_append]
    rcases hq with h | h
    · exact Or.inl (ih1 q h)
    · exact Or.inr (ih2 q h)

/-- The children of a waiting node are neither leaves nor formally split
nodes of the shape. -/
theorem pend_fresh {E : Settings} {aBins : List Bin} {m : Nat} {a : Arena} {p : Nat} :
    ∀ {T : Shape}, T.Ok E aBins m a → T.cells.Nodup → p ∈ T.pends →
      (a p).m_pTreeNodeChildren ∉ T.leaves ∧ (a p).m_pTreeNodeChildren + 1 ∉ T.leaves ∧
      (a p).m_pTreeNodeChildren ∉ T.branches ∧ (a p).m_pTreeNodeChildren + 1 ∉ T.branches := by
  intro T
  induction T with
  | leaf i => intro _ _ hp; simp [pends] at hp
  | pend i ch =>
    intro hok hnd hp
    simp only [pends, List.mem_singleton] at hp
    subst hp
    simp only [Ok] at hok
    obtain ⟨-, -, h3, -⟩ := hok
    simp only [cells, List.nodup_cons, List.mem_cons, List.mem_singleton, not_or] at hnd
    rw [h3]
    simp only [leaves, branches, List.mem_singleton, List.not_mem_nil, not_false_eq_true,
      and_true]
    exact ⟨fun h => hnd.1.1 h.symm, fun h => hnd.1.2.1 h.symm⟩
  | split i l r ihl ihr =>
    intro hok hnd hp
    have hpc := pend_children hok hnd hp
    simp only [Ok] at hok
    obtain ⟨-, -, -, -, -, hl, hr⟩ := hok
    simp only [cells, List.nodup_cons, List.mem_append, not_or] at hnd
    obtain ⟨⟨hil, hir⟩, hnd⟩ := hnd
    have hnl := (List.nodup_append.mp hnd).1
    have hnr := (List.nodup_append.mp hnd).2.1
    have hdis : ∀ x, x ∈ l.cells → x ∈ r.cells → False := fun x hx hy =>
      (List.nodup_append.mp hnd).2.2 hx hy
    simp only [pends, List.mem_append] at hp
    simp only [leaves, branches, List.mem_append, List.mem_cons, not_or]
    rcases hp with hp | hp
    · obtain ⟨c1, c2, -⟩ := pend_children hl hnl hp
      obtain ⟨i1, i2, i3, i4⟩ := ihl hl hnl hp
      refine ⟨⟨i1, ?_⟩, ⟨i2, ?_⟩, ⟨i3, ?_, ?_⟩, ⟨i4, ?_, ?_⟩⟩
      · exact fun h => hdis _ c1 (leaves_subset_cells r _ h)
      · exact fun h => hdis _ c2 (leaves_subset_cells r _ h)
      · exact fun h => hil (h ▸ c1)
      · exact fun h => hdis _ c1 (branches_subset_cells r _ h)
      · exact fun h => hil (h ▸ c2)
      · exact fun h => hdis _ c2 (branches_subset_cells r _ h)
    · obtain ⟨c1, c2, -⟩ := pend_children hr hnr hp
      obtain ⟨i1, i2, i3, i4⟩ := ihr hr hnr hp
      refine ⟨⟨?_, i1⟩, ⟨?_, i2⟩, ⟨?_, ?_, i3⟩, ⟨?_, ?_, i4⟩⟩
      · exact fun h => hdis _ (leaves_subset_cells l _ h) c1
      · exact fun h => hdis _ (leaves_subset_cells l _ h) c2
      · exact fun h => hdis _ (branches_subset_cells l _ h) c1
      · exact fun h => hir (h ▸ c1)
      · exact fun h => hdis _ (branches_subset_cells l _ h) c2
      · exact fun h => hir (h ▸ c2)

/-- The split value of a waiting node lies in the range of the root and is
the split value of no formally split node of the shape. -/
theorem pend_split_value {E : Settings} {aBins : List Bin} {m : Nat} {a : Arena} {p : Nat} :
    ∀ {T : Shape}, T.Ok E aBins m a → p ∈ T.pends →
      (a T.root).m_pBinFirst ≤ (a p).m_splitVal ∧ (a p).m_splitVal < (a T.root).m_pBinLast ∧
      (a p).m_splitVal ∉ T.branches.map (fun i => (a i).m_splitVal) := by
  intro T
  induction T with
  | leaf i => intro _ hp; simp [pends] at hp
  | pend i ch =>
    intro hok hp
    simp only [pends, List.mem_singleton] at hp
    subst hp
    simp only [Ok] at hok
    obtain ⟨-, -, -, hb⟩ := hok
    unfold BranchOk at hb
    obtain ⟨b1, b2, -⟩ := hb
    simp only [root, branches, List.map_nil, List.not_mem_nil, not_false_eq_true, and_true]
    exact ⟨b1, b2⟩
  | split i l r ihl ihr =>
    intro hok hp
    obtain ⟨hbnd, -⟩ := splits_sorted (Shape.split i l r) hok
    simp only [Ok] at hok
    obtain ⟨-, -, g3, g4, g5, hl, hr⟩ := hok
    obtain ⟨bl, -⟩ := splits_sorted l hl
    obtain ⟨br, -⟩ := splits_sorted r hr
    unfold BranchOk at g5
    rw [g3] at g5
    rw [g4] at br
    obtain ⟨b1, b2, b3, b4, b5, b6, -⟩ := g5
    rw [b3, b4] at bl
    rw [b5, b6] at br
    simp only [pends, List.mem_append] at hp
    simp only [root, branches, List.map_append, List.map_cons, List.mem_append, List.mem_cons,
      not_or]
    rcases hp with hp | hp
    · obtain ⟨i1, i2, i3⟩ := ihl hl hp
      rw [b3] at i1
      rw [b4] at i2
      refine ⟨i1, by omega, i3, by omega, ?_⟩
      intro h
      have := br _ h
      omega
    · obtain ⟨i1, i2, i3⟩ := ihr hr hp
      rw [g4, b5] at i1
      rw [g4, b6] at i2
      refine ⟨by omega, i2, ?_, by omega, i3⟩
      intro h
      have := bl _ h
      omega

end Shape

/-- The loop takes a node from the queue only while the number of leaves
is below `cLeavesMax`. -/
theorem GrowPops_lt (E : Settings) (aBins : List Bin) (m cLeavesMax : Nat) :
    ∀ (fuel : Nat) (g : Growth) (p : Nat),
      ∀ x ∈ GrowPops E aBins m cLeavesMax fuel g p,
        x.1.cLeaves < cLeavesMax ∧ x.2 ∈ x.1.bestTreeNodeToSplit := by
  intro fuel
  induction fuel with
  | zero =>
    intro g p x hx
    unfold GrowPops at hx
    simp only at hx
    split_ifs at hx
    · split at hx <;> simp at hx
    · simp at hx
  | succ fuel ih =>
    intro g p x hx
    unfold GrowPops at hx
    simp only at hx
    split_ifs at hx with c
    · split at hx
      · simp at hx
      · rename_i iTop htop
        have hmem := QueueTop_mem _ _ _ htop
        rcases List.mem_cons.mp hx with rfl | hx
        · exact ⟨c, hmem⟩
        · exact ih _ iTop x hx
    · simp at hx

/-! ## The general path with two leaves -/

/-- A loop that ends with one leaf more than it started with has run its
body once. -/
theorem GrowLoop_single (E : Settings) (aBins : List Bin) (m cLeavesMax : Nat)
    (fuel : Nat) (g : Growth) (p : Nat)
    (h : (GrowLoop E aBins m cLeavesMax fuel g p).cLeaves = g.cLeaves + 1) :
    GrowLoop E aBins m cLeavesMax fuel g p = SplitParent E aBins m g p := by
  have hp := GrowLoop_pops E aBins m cLeavesMax fuel g p
  have hl : (GrowPops E aBins m cLeavesMax fuel g p).length = 0 := by omega
  cases fuel with
  | zero =>
    unfold GrowLoop
    simp only
    split_ifs
    · split <;> rfl
    · rfl
  | succ f =>
    unfold GrowPops at hl
    unfold GrowLoop
    simp only at hl ⊢
    by_cases c : (SplitParent E aBins m g p).cLeaves < cLeavesMax
    · rw [if_pos c] at hl ⊢
      cases hq : QueueTop (SplitParent E aBins m g p).arena
          (SplitParent E aBins m g p).bestTreeNodeToSplit with
      | none => simp only [hq]
      | some iTop =>
        simp only [hq, List.length_cons] at hl
        omega
    · rw [if_neg c]

/-- After the treatment of a child in the loop, the child is not formally
split. -/
theorem ExamineChild_leaf (E : Settings) (aBins : List Bin) (m : Nat) (g : Growth) (x : Nat)
    (hx : x < g.iStorageCur) :
    ((ExamineChild E aBins m g x).arena x).AFTER_IsSplit = false := by
  obtain ⟨-, -, -, -, -, S, xs, hroot, -, hlen, -, hok, -⟩ := ExamineChild_spec E aBins m g x hx
  cases S with
  | leaf i =>
    simp only [Shape.root] at hroot
    simp only [Shape.Ok] at hok
    subst hroot
    simp only [TreeNode.AFTER_IsSplit]
    cases hg : ((ExamineChild E aBins m g i).arena i).m_splitGain <;> simp_all
  | pend i ch =>
    simp only [Shape.root] at hroot
    simp only [Shape.Ok] at hok
    subst hroot
    simp only [TreeNode.AFTER_IsSplit, hok.1, Option.isNone_some]
  | split i l r =>
    have h1 := Shape.leaves_length_pos l
    have h2 := Shape.leaves_length_pos r
    simp only [Shape.leaves, List.length_append] at hlen
    omega

/-- A fast-path input on the general path: when the root is split and
`cLeavesMax` or `cBins` is 2, the loop runs its body once and ends with two
leaves; the root keeps its split value and is formally split, its children
in the slots 1 and 2 keep their aggregates and are leaves, and the total
gain is the gain of the root. -/
theorem GrowTree_fast (E : Settings) (rng : RandomDeterministic) (shell : BoosterShell)
    (cBins m cLeavesMax : Nat) (h : (RootFind E rng shell cBins m).ret = 0)
    (hfast : cLeavesMax = 2 ∨ cBins = 2) :
    (GrowTree E rng shell cBins m cLeavesMax).cLeaves = 2 ∧
    (GrowTree E rng shell cBins m cLeavesMax).totalGain =
      ((RootFind E rng shell cBins m).arena 0).AFTER_GetSplitGain ∧
    ((RootFind E rng shell cBins m).arena 0).m_pTreeNodeChildren = 1 ∧
    (GrowTree E rng shell cBins m cLeavesMax).arena 0 =
      ((RootFind E rng shell cBins m).arena 0).AFTER_SplitNode ∧
    ((GrowTree E rng shell cBins m cLeavesMax).arena 1).AFTER_IsSplit = false ∧
    ((GrowTree E rng shell cBins m cLeavesMax).arena 2).AFTER_IsSplit = false ∧
    ((GrowTree E rng shell cBins m cLeavesMax).arena 1).m_bin =
      ((RootFind E rng shell cBins m).arena 1).m_bin ∧
    ((GrowTree E rng shell cBins m cLeavesMax).arena 2).m_bin =
      ((RootFind E rng shell cBins m).arena 2).m_bin := by
  obtain ⟨⟨T, commits, hrd, hroot, hok, -, -, -, -, hleaves, -, -⟩, hle, hgt⟩ :=
    GrowTree_inv E rng shell cBins m cLeavesMax h
  obtain ⟨k1, -, -, k4, k5⟩ := FindBestSplitGain_BranchOk E shell.aBins rng
    (RootArena E shell cBins) 0 1 m h (by decide) (by decide)
  have k4' : ((RootFind E rng shell cBins m).arena 0).m_pTreeNodeChildren = 1 := k4
  have hlast : (RootArena E shell cBins 0).m_pBinLast = cBins - 1 := by
    simp [RootArena, Arena.set]
  have hfirst : (RootArena E shell cBins 0).m_pBinFirst = 0 := by
    simp [RootArena, Arena.set]
  have hbins : 2 ≤ cBins := by
    unfold BranchOk at k1
    obtain ⟨b1, b2, -⟩ := k1
    rw [k5.2.1, hlast] at b2
    omega
  have hc2 : (GrowTree E rng shell cBins m cLeavesMax).cLeaves = 2 := by
    rcases hfast with hf | hf
    · have := hle (by omega)
      omega
    · have hcap := Shape.cap_le_bins T hok (by rw [hroot, hrd.1, hrd.2.1, hfirst]; omega)
      rw [hroot, hrd.1, hrd.2.1, hfirst, hlast, hleaves] at hcap
      omega
  have e : GrowTree E rng shell cBins m cLeavesMax =
      GrowLoop E shell.aBins m cLeavesMax cLeavesMax (GrowStart E rng shell cBins m) 0 := rfl
  have hsingle := GrowLoop_single E shell.aBins m cLeavesMax cLeavesMax
    (GrowStart E rng shell cBins m) 0 (by rw [← e, hc2]; rfl)
  rw [← e] at hsingle
  have hg0 : (GrowStart E rng shell cBins m).arena 0 = (RootFind E rng shell cBins m).arena 0 :=
    rfl
  have hsp := SplitParent_eq E shell.aBins m (GrowStart E rng shell cBins m) 0
    (by rw [hg0, k4']; decide) (by rw [hg0, k4']; simp [GrowStart]) (by simp [GrowStart])
  rw [hg0, k4'] at hsp
  obtain ⟨A1, A2, -, A4, A5, -⟩ := ExamineChild_spec E shell.aBins m
    (FormalSplit (GrowStart E rng shell cBins m) 0) 1 (by simp [FormalSplit, GrowStart])
  have hcur : 3 ≤ (ExamineChild E shell.aBins m
      (FormalSplit (GrowStart E rng shell cBins m) 0) 1).iStorageCur := A5
  obtain ⟨B1, B2, -, B4, -, -⟩ := ExamineChild_spec E shell.aBins m
    (ExamineChild E shell.aBins m (FormalSplit (GrowStart E rng shell cBins m) 0) 1) (1 + 1)
    (by omega)
  have L1 := ExamineChild_leaf E shell.aBins m
    (FormalSplit (GrowStart E rng shell cBins m) 0) 1 (by simp [FormalSplit, GrowStart])
  have L2 := ExamineChild_leaf E shell.aBins m
    (ExamineChild E shell.aBins m (FormalSplit (GrowStart E rng shell cBins m) 0) 1) (1 + 1)
    (by omega)
  have hc3 : (FormalSplit (GrowStart E rng shell cBins m) 0).iStorageCur = 3 := rfl
  have hF : ∀ j, j ≠ 0 → (FormalSplit (GrowStart E rng shell cBins m) 0).arena j =
      (RootFind E rng shell cBins m).arena j := by
    intro j hj
    simp [FormalSplit, GrowStart, Arena.set, hj]
  have hF0 : (FormalSplit (GrowStart E rng shell cBins m) 0).arena 0 =
      ((RootFind E rng shell cBins m).arena 0).AFTER_SplitNode := by
    simp [FormalSplit, GrowStart, Arena.set]
  have hFg : (FormalSplit (GrowStart E rng shell cBins m) 0).totalGain =
      ((RootFind E rng shell cBins m).arena 0).AFTER_GetSplitGain := by
    simp [FormalSplit, GrowStart, FloatBig.zero_add]
  rw [hsingle, hsp]
  dsimp only
  refine ⟨?_, ?_, k4', ?_, ?_, L2, ?_, ?_⟩
  · rw [hsingle, hsp] at hc2
    exact hc2
  · rw [B4, A4, hFg]
  · rw [B1 0 (by decide) (by omega), A1 0 (by decide) (by rw [hc3]; decide), hF0]
  · rw [B1 1 (by decide) (by omega)]
    exact L1
  · rw [B1 1 (by decide) (by omega), A2.2.2, hF 1 (by decide)]
  · rw [B2.2.2, A1 2 (by decide) (by rw [hc3]; decide), hF 2 (by decide)]

/-- In a build where a regression has one score and where, with
`ZERO_FIRST_MULTICLASS_LOGIT`, the classification is multiclass exactly when
it has two scores or more, the score vector of `Flatten` for a leaf is that
of the fast path. -/
theorem FlattenLeaf_eq_FastScores (E : Settings) (n : TreeNode)
    (hreg : E.bClassification = false → E.cScores = 1)
    (hmc : E.bClassification = true → E.bZeroFirstMulticlassLogit = true →
      E.bMulticlass = decide (2 ≤ E.cScores)) :
    FlattenLeaf E n = FastScores E n := by
  unfold FlattenLeaf FastScores
  by_cases hc : E.bClassification = true
  · by_cases hz : E.bZeroFirstMulticlassLogit = true
    · simp [hc, hz, hmc hc hz]
    · have hz' : E.bZeroFirstMulticlassLogit = false := by simpa using hz
      simp [hc, hz']
  · have hc' : E.bClassification = false := by simpa using hc
    simp [hc', hreg hc', List.range_succ]

/-- The output of `Flatten` on a formally split root with two leaves. -/
theorem Flatten_two (E : Settings) (a : Arena) (h0 : (a 0).AFTER_IsSplit = true)
    (h1 : (a (a 0).m_pTreeNodeChildren).AFTER_IsSplit = false)
    (h2 : (a ((a 0).m_pTreeNodeChildren + 1)).AFTER_IsSplit = false) :
    Flatten E a 2 0 =
      ([(a 0).m_splitVal],
        FlattenLeaf E (a (a 0).m_pTreeNodeChildren) ++
          FlattenLeaf E (a ((a 0).m_pTreeNodeChildren + 1))) := by
  simp [Flatten, h0, h1, h2]

theorem FlattenLeaf_congr (E : Settings) {n n' : TreeNode} (h : n.m_bin = n'.m_bin) :
    FlattenLeaf E n = FlattenLeaf E n' := by
  rw [FlattenLeaf_bin E n, FlattenLeaf_bin E n', h]

/-- The general path on a fast-path input: its outcome when the root is
split and `cLeavesMax` or `cBins` is 2. -/
theorem GeneralPath_fast (E : Settings) (rng : RandomDeterministic) (shell : BoosterShell)
    (cBins iDimension m cLeavesMax : Nat) (h : (RootFind E rng shell cBins m).ret = 0)
    (hfast : cLeavesMax = 2 ∨ cBins = 2)
    (hmul : IsMultiplyError E.cScores 2 = false)
    (hcap : shell.innerTermUpdate.EnsureTensorScoreCapacity (E.cScores * 2) = .Error_None) :
    (GeneralPath E rng shell cBins iDimension m cLeavesMax).error =
      shell.innerTermUpdate.SetCountSplits 1 ∧
    (shell.innerTermUpdate.SetCountSplits 1 ≠ .Error_None →
      (GeneralPath E rng shell cBins iDimension m cLeavesMax).cSplits = none ∧
      (GeneralPath E rng shell cBins iDimension m cLeavesMax).aSplits = [] ∧
      (GeneralPath E rng shell cBins iDimension m cLeavesMax).aScores = []) ∧
    (shell.innerTermUpdate.SetCountSplits 1 = .Error_None →
      (GeneralPath E rng shell cBins iDimension m cLeavesMax).cSplits = some 1 ∧
      (GeneralPath E rng shell cBins iDimension m cLeavesMax).totalGain =
        some ((RootFind E rng shell cBins m).arena 0).AFTER_GetSplitGain ∧
      (GeneralPath E rng shell cBins iDimension m cLeavesMax).aSplits =
        [((RootFind E rng shell cBins m).arena 0).m_splitVal] ∧
      (GeneralPath E rng shell cBins iDimension m cLeavesMax).aScores =
        FlattenLeaf E ((RootFind E rng shell cBins m).arena
          ((RootFind E rng shell cBins m).arena 0).m_pTreeNodeChildren) ++
        FlattenLeaf E ((RootFind E rng shell cBins m).arena
          (((RootFind E rng shell cBins m).arena 0).m_pTreeNodeChildren + 1))) := by
  obtain ⟨g1, g2, g3, g4, g5, g6, g7, g8⟩ := GrowTree_fast E rng shell cBins m cLeavesMax h hfast
  have hs0 : ((GrowTree E rng shell cBins m cLeavesMax).arena 0).AFTER_IsSplit = true := by
    rw [g4]; rfl
  have hch : ((GrowTree E rng shell cBins m cLeavesMax).arena 0).m_pTreeNodeChildren = 1 := by
    rw [g4]; exact g3
  have hsv : ((GrowTree E rng shell cBins m cLeavesMax).arena 0).m_splitVal =
      ((RootFind E rng shell cBins m).arena 0).m_splitVal := by
    rw [g4]; rfl
  have hfl := Flatten_two E (GrowTree E rng shell cBins m cLeavesMax).arena hs0
    (by rw [hch]; exact g5) (by rw [hch]; exact g6)
  rw [hch, hsv, FlattenLeaf_congr E g7, FlattenLeaf_congr E g8] at hfl
  have hmul' : ¬ IsMultiplyError E.cScores 2 = true := by rw [hmul]; decide
  have hcap' : ¬ shell.innerTermUpdate.EnsureTensorScoreCapacity (E.cScores * 2) ≠
      .Error_None := not_not.mpr hcap
  unfold GeneralPath
  simp only [g1, g2, Nat.add_one_sub_one, show (2 : Nat) - 1 = 1 from rfl]
  by_cases c : shell.innerTermUpdate.SetCountSplits 1 ≠ .Error_None
  · rw [if_pos c]
    exact ⟨rfl, fun _ => ⟨rfl, rfl, rfl⟩, fun hc => absurd hc c⟩
  · rw [if_neg c, if_neg hmul', if_neg hcap']
    refine ⟨(not_not.mp c).symm, fun hc => absurd hc c, fun _ => ⟨rfl, rfl, ?_, ?_⟩⟩
    · dsimp only; rw [hfl]
    · dsimp only; rw [hfl, g3]

/-! ## The search does not read `ZERO_FIRST_MULTICLASS_LOGIT` -/

theorem SweepLoop_zf (E : Settings) (b : Bool) (aBins : List Bin) (m : Nat) :
    ∀ (k i : Nat) (s : Sweep),
      SweepLoop (WithZeroFirst E b) aBins m k i s = SweepLoop E aBins m k i s := by
  intro k
  induction k with
  | zero => intro i s; rfl
  | succ k ih =>
    intro i s
    simp only [SweepLoop]
    rw [ih]
    rfl

theorem FindBestSplitGain_zf (E : Settings) (b : Bool) (aBins : List Bin)
    (rng : RandomDeterministic) (arena : Arena) (iNode iChildren m : Nat) :
    FindBestSplitGain (WithZeroFirst E b) aBins rng arena iNode iChildren m =
      FindBestSplitGain E aBins rng arena iNode iChildren m := by
  have hs : NodeSweep (WithZeroFirst E b) aBins m (arena iNode) =
      NodeSweep E aBins m (arena iNode) := by
    unfold NodeSweep
    rw [SweepLoop_zf]
    rfl
  unfold FindBestSplitGain
  rw [hs]
  rfl

theorem ExamineChild_zf (E : Settings) (b : Bool) (aBins : List Bin) (m : Nat) (g : Growth)
    (x : Nat) :
    ExamineChild (WithZeroFirst E b) aBins m g x = ExamineChild E aBins m g x := by
  unfold ExamineChild
  rw [FindBestSplitGain_zf]

theorem SplitParent_zf (E : Settings) (b : Bool) (aBins : List Bin) (m : Nat) (g : Growth)
    (p : Nat) :
    SplitParent (WithZeroFirst E b) aBins m g p = SplitParent E aBins m g p := by
  unfold SplitParent
  simp only [ExamineChild_zf]

theorem GrowLoop_zf (E : Settings) (b : Bool) (aBins : List Bin) (m cLeavesMax : Nat) :
    ∀ (fuel : Nat) (g : Growth) (p : Nat),
      GrowLoop (WithZeroFirst E b) aBins m cLeavesMax fuel g p =
        GrowLoop E aBins m cLeavesMax fuel g p := by
  intro fuel
  induction fuel with
  | zero =>
    intro g p
    unfold GrowLoop
    simp only [SplitParent_zf]
  | succ fuel ih =>
    intro g p
    unfold GrowLoop
    simp only [SplitParent_zf, ih]

theorem RootFind_zf (E : Settings) (b : Bool) (rng : RandomDeterministic) (shell : BoosterShell)
    (cBins m : Nat) :
    RootFind (WithZeroFirst E b) rng shell cBins m = RootFind E rng shell cBins m := by
  unfold RootFind
  rw [FindBestSplitGain_zf]
  rfl

theorem GrowTree_zf (E : Settings) (b : Bool) (rng : RandomDeterministic) (shell : BoosterShell)
    (cBins m cLeavesMax : Nat) :
    GrowTree (WithZeroFirst E b) rng shell cBins m cLeavesMax =
      GrowTree E rng shell cBins m cLeavesMax := by
  unfold GrowTree
  simp only [RootFind_zf, GrowLoop_zf]

theorem Flatten_zf (E : Settings) (b : Bool) (a : Arena) :
    ∀ (fuel i : Nat), (Flatten (WithZeroFirst E b) a fuel i).1 = (Flatten E a fuel i).1 := by
  intro fuel
  induction fuel with
  | zero => intro i; rfl
  | succ fuel ih =>
    intro i
    simp only [Flatten]
    split_ifs
    · simp only [ih]
    · rfl

/-- A call gives the same error code, total gain, split count, split values
and random stream whether `ZERO_FIRST_MULTICLASS_LOGIT` is defined or not. -/
theorem Func_zf (E : Settings) (b : Bool) (rng : RandomDeterministic) (shell : BoosterShell)
    (cBins iDimension m cLeavesMax : Nat) :
    (PartitionOneDimensionalBoostingInternal.Func (WithZeroFirst E b) rng shell cBins iDimension
        m cLeavesMax).error =
      (PartitionOneDimensionalBoostingInternal.Func E rng shell cBins iDimension m
        cLeavesMax).error ∧
    (PartitionOneDimensionalBoostingInternal.Func (WithZeroFirst E b) rng shell cBins iDimension
        m cLeavesMax).totalGain =
      (PartitionOneDimensionalBoostingInternal.Func E rng shell cBins iDimension m
        cLeavesMax).totalGain ∧
    (PartitionOneDimensionalBoostingInternal.Func (WithZeroFirst E b) rng shell cBins iDimension
        m cLeavesMax).cSplits =
      (PartitionOneDimensionalBoostingInternal.Func E rng shell cBins iDimension m
        cLeavesMax).cSplits ∧
    (PartitionOneDimensionalBoostingInternal.Func (WithZeroFirst E b) rng shell cBins iDimension
        m cLeavesMax).aSplits =
      (PartitionOneDimensionalBoostingInternal.Func E rng shell cBins iDimension m
        cLeavesMax).aSplits ∧
    (PartitionOneDimensionalBoostingInternal.Func (WithZeroFirst E b) rng shell cBins iDimension
        m cLeavesMax).rng =
      (PartitionOneDimensionalBoostingInternal.Func E rng shell cBins iDimension m
        cLeavesMax).rng := by
  have hc : (WithZeroFirst E b).cScores = E.cScores := rfl
  simp only [PartitionOneDimensionalBoostingInternal.Func, RootFind_zf, GrowTree_zf, hc]
  split_ifs <;> simp [Flatten_zf]

theorem LeafCount_zf (E : Settings) (b : Bool) (rng : RandomDeterministic) (shell : BoosterShell)
    (cBins m cLeavesMax : Nat) :
    LeafCount (WithZeroFirst E b) rng shell cBins m cLeavesMax =
      LeafCount E rng shell cBins m cLeavesMax := by
  unfold LeafCount
  simp only [RootFind_zf, GrowTree_zf]

/-! ## The scores of a multiclass leaf -/

/-- In a multiclass build the three pieces of code that write the scores of
a leaf write the same vector: with `ZERO_FIRST_MULTICLASS_LOGIT` the raw
updates minus the raw update of the first score, without it the raw
updates, each narrowed by `SafeConvertFloat`. -/
theorem Scores_multiclass (E : Settings) (n : TreeNode) (hc : E.bClassification = true)
    (hm : E.bMulticlass = true) (h2 : 2 ≤ E.cScores) :
    (RootScores (WithZeroFirst E true) n = (List.range E.cScores).map fun i =>
      E.SafeConvertFloat ((RawUpdate E n i).sub (RawUpdate E n 0))) ∧
    (FastScores (WithZeroFirst E true) n = (List.range E.cScores).map fun i =>
      E.SafeConvertFloat ((RawUpdate E n i).sub (RawUpdate E n 0))) ∧
    (FlattenLeaf (WithZeroFirst E true) n = (List.range E.cScores).map fun i =>
      E.SafeConvertFloat ((RawUpdate E n i).sub (RawUpdate E n 0))) ∧
    (RootScores (WithZeroFirst E false) n = (List.range E.cScores).map fun i =>
      E.SafeConvertFloat (RawUpdate E n i)) ∧
    (FastScores (WithZeroFirst E false) n = (List.range E.cScores).map fun i =>
      E.SafeConvertFloat (RawUpdate E n i)) ∧
    (FlattenLeaf (WithZeroFirst E false) n = (List.range E.cScores).map fun i =>
      E.SafeConvertFloat (RawUpdate E n i)) := by
  refine ⟨?_, ?_, ?_, ?_, ?_, ?_⟩ <;>
    simp [RootScores, FastScores, FlattenLeaf, WithZeroFirst, RawUpdate, hc, hm, h2]

/-- The first entry of a vector of differences to the first raw update. -/
theorem head_sub_first (E : Settings) (n : TreeNode) (h2 : 2 ≤ E.cScores) :
    ((List.range E.cScores).map fun i =>
      E.SafeConvertFloat ((RawUpdate E n i).sub (RawUpdate E n 0))).head? =
      some (E.SafeConvertFloat ((RawUpdate E n 0).sub (RawUpdate E n 0))) := by
  obtain ⟨k, hk⟩ : ∃ k, E.cScores = k + 1 := ⟨E.cScores - 1, by omega⟩
  rw [hk, List.range_succ_eq_map]
  rfl

theorem FloatBig.sub_self_fin (q : ℚ) : (FloatBig.fin q).sub (.fin q) = .fin 0 := by
  simp [FloatBig.sub, FloatBig.neg, FloatBig.add]

/-! ## The slots that the evaluations use -/

namespace Shape

/-- A shape with a waiting node `p` has room left: its leaves and waiting
nodes, the waiting nodes counting twice, and the bins of `p` are at most
the bins of the root plus two. -/
theorem cap_pend {E : Settings} {aBins : List Bin} {m : Nat} {a : Arena} {p : Nat} :
    ∀ (T : Shape), T.Ok E aBins m a → (a T.root).m_pBinFirst ≤ (a T.root).m_pBinLast →
      p ∈ T.pends →
      T.leaves.length + T.pends.length + ((a p).m_pBinLast + 1 - (a p).m_pBinFirst) ≤
        (a T.root).m_pBinLast + 1 - (a T.root).m_pBinFirst + 2 := by
  intro T
  induction T with
  | leaf i => intro _ _ hp; simp [pends] at hp
  | pend i ch =>
    intro _ _ hp
    simp only [pends, List.mem_singleton] at hp
    subst hp
    simp only [leaves, pends, root, List.length_cons, List.length_nil]
    omega
  | split i l r ihl ihr =>
    intro hok _ hp
    simp only [Ok] at hok
    obtain ⟨-, -, g3, g4, g5, hl, hr⟩ := hok
    unfold BranchOk at g5
    rw [g3, ← g4] at g5
    obtain ⟨b1, b2, b3, b4, b5, b6, -⟩ := g5
    have hl1 : (a l.root).m_pBinFirst ≤ (a l.root).m_pBinLast := by rw [b3, b4]; exact b1
    have hr1 : (a r.root).m_pBinFirst ≤ (a r.root).m_pBinLast := by rw [b5, b6]; omega
    have cl := cap_le_bins l hl hl1
    have cr := cap_le_bins r hr hr1
    simp only [pends, List.mem_append] at hp
    simp only [leaves, pends, root, List.length_append]
    rcases hp with hp | hp
    · have il := ihl hl hl1 hp
      rw [b3, b4] at il
      rw [b5, b6] at cr
      omega
    · have ir := ihr hr hr1 hp
      rw [b5, b6] at ir
      rw [b3, b4] at cl
      omega

end Shape

/-- The treatment of a child moves the cursor by two slots, and only past a
splittable child, or leaves it where it is. -/
theorem ExamineChild_cursor_cases (E : Settings) (aBins : List Bin) (m : Nat) (g : Growth)
    (x : Nat) :
    (ExamineChild E aBins m g x).iStorageCur = g.iStorageCur ∨
    ((ExamineChild E aBins m g x).iStorageCur = g.iStorageCur + 2 ∧
      (g.arena x).BEFORE_IsSplittable = true) := by
  unfold ExamineChild
  by_cases h1 : (g.arena x).BEFORE_IsSplittable = true
  · rw [if_pos h1]
    by_cases h2 : (FindBestSplitGain E aBins g.rng g.arena x g.iStorageCur m).ret = 0
    · simp [h2, h1]
    · simp [h2]
  · rw [if_neg h1]
    exact Or.inl rfl

/-- In one round of the loop every call of `FindBestSplitGain` finds its two
slots within the first `2 * B - 1` slots, `B` being the number of bins of
the root. -/
theorem SplitParentEvals_bound (E : Settings) (aBins : List Bin) (m : Nat) (root : TreeNode)
    (g : Growth) (p : Nat) (h : GrowInv E aBins m root g (p :: g.bestTreeNodeToSplit))
    (hci : g.iStorageCur + 1 = 2 * (g.cLeaves + 1 + g.bestTreeNodeToSplit.length))
    (hne : root.m_pBinFirst ≤ root.m_pBinLast) :
    ∀ e ∈ SplitParentEvals E aBins m g p,
      e + 3 ≤ 2 * (root.m_pBinLast + 1 - root.m_pBinFirst) := by
  obtain ⟨T, commits, hrd, hroot, hok, hnd, hlt, hPnd, hP, hleaves, -, -⟩ := h
  have hp : p ∈ T.pends := hP p (List.mem_cons_self _ _)
  have hcap := Shape.cap_pend T hok (by rw [hroot, hrd.1, hrd.2.1]; exact hne) hp
  rw [hroot, hrd.1, hrd.2.1, hleaves] at hcap
  have hlen : (p :: g.bestTreeNodeToSplit).length ≤ T.pends.length :=
    (List.Nodup.subperm hPnd hP).length_le
  simp only [List.length_cons] at hlen
  obtain ⟨c1, c2, n1, n2, -, -, -, -, -, hb⟩ := Shape.pend_children hok hnd hp
  have hc1 := hlt _ c1
  have hc2 := hlt _ c2
  have hpc := hlt _ (Shape.pends_subset_cells T p hp)
  unfold BranchOk at hb
  obtain ⟨b1, b2, b3, b4, b5, b6, -⟩ := hb
  -- the states of the round
  have hA : (g.arena.set p (g.arena p).AFTER_SplitNode p).m_pTreeNodeChildren =
      (g.arena p).m_pTreeNodeChildren := by
    simp [Arena.set, TreeNode.AFTER_SplitNode]
  have hA1 : g.arena.set p (g.arena p).AFTER_SplitNode (g.arena p).m_pTreeNodeChildren =
      g.arena (g.arena p).m_pTreeNodeChildren := by
    simp [Arena.set, Ne.symm n1]
  have hA2 : g.arena.set p (g.arena p).AFTER_SplitNode ((g.arena p).m_pTreeNodeChildren + 1) =
      g.arena ((g.arena p).m_pTreeNodeChildren + 1) := by
    simp [Arena.set, Ne.symm n2]
  obtain ⟨A1, -⟩ := ExamineChild_spec E aBins m
    { g with arena := g.arena.set p (g.arena p).AFTER_SplitNode,
             totalGain := g.totalGain.add (g.arena p).AFTER_GetSplitGain }
    (g.arena p).m_pTreeNodeChildren hc1
  have hcur := ExamineChild_cursor_cases E aBins m
    { g with arena := g.arena.set p (g.arena p).AFTER_SplitNode,
             totalGain := g.totalGain.add (g.arena p).AFTER_GetSplitGain }
    (g.arena p).m_pTreeNodeChildren
  have hB1 := A1 p n1 hpc
  have hB2 := A1 ((g.arena p).m_pTreeNodeChildren + 1) (by omega) hc2
  dsimp only at hB1 hB2 hcur
  intro e he
  unfold SplitParentEvals at he
  simp only [hA] at he
  rw [hB1, hA, hB2, hA1, hA2] at he
  rw [hA1] at hcur
  rcases List.mem_append.mp he with he | he
  · split_ifs at he with hs
    · simp only [List.mem_singleton] at he
      simp only [TreeNode.BEFORE_IsSplittable, decide_eq_true_eq] at hs
      rw [b3, b4] at hs
      omega
    · simp at he
  · split_ifs at he with hs
    · simp only [List.mem_singleton] at he
      simp only [TreeNode.BEFORE_IsSplittable, decide_eq_true_eq] at hs
      rw [b5, b6] at hs
      rcases hcur with hcur | ⟨hcur, hs1⟩
      · rw [hcur] at he
        omega
      · rw [hcur] at he
        simp only [TreeNode.BEFORE_IsSplittable, decide_eq_true_eq] at hs1
        rw [b3, b4] at hs1
        omega
    · simp at he

/-- In the loop every call of `FindBestSplitGain` finds its two slots within
the first `2 * B - 1` slots, `B` being the number of bins of the root. -/
theorem GrowEvals_bound (E : Settings) (aBins : List Bin) (m cLeavesMax : Nat) (root : TreeNode)
    (hne : root.m_pBinFirst ≤ root.m_pBinLast) :
    ∀ (fuel : Nat) (g : Growth) (p : Nat),
      GrowInv E aBins m root g (p :: g.bestTreeNodeToSplit) →
      g.iStorageCur + 1 = 2 * (g.cLeaves + 1 + g.bestTreeNodeToSplit.length) →
      ∀ e ∈ GrowEvals E aBins m cLeavesMax fuel g p,
        e + 3 ≤ 2 * (root.m_pBinLast + 1 - root.m_pBinFirst) := by
  intro fuel
  induction fuel with
  | zero =>
    intro g p h hci e he
    have hr := SplitParentEvals_bound E aBins m root g p h hci hne
    unfold GrowEvals at he
    simp only at he
    rcases List.mem_append.mp he with he | he
    · exact hr e he
    · split_ifs at he
      · split at he <;> simp at he
      · simp at he
  | succ fuel ih =>
    intro g p h hci e he
    have hr := SplitParentEvals_bound E aBins m root g p h hci hne
    obtain ⟨h1, -⟩ := SplitParent_inv E aBins m root g p h
    obtain ⟨a1, a2, a3⟩ := SplitParent_cursor E aBins m g p
    unfold GrowEvals at he
    simp only at he
    rcases List.mem_append.mp he with he | he
    · exact hr e he
    · split_ifs at he with c
      · split at he
        · simp at he
        · rename_i iTop htop
          have hmem := QueueTop_mem _ _ _ htop
          have hlen := List.length_erase_of_mem hmem
          have hpos : 0 < (SplitParent E aBins m g p).bestTreeNodeToSplit.length :=
            List.length_pos_of_mem hmem
          refine ih _ iTop (GrowInv_pop E aBins m root _ iTop h1 hmem) ?_ e he
          dsimp only
          rw [hlen]
          omega
      · simp at he

/-- Every call of `FindBestSplitGain` that a call on two bins or more makes
finds its two slots within the first `2 * cBins - 1` slots of the buffer. -/
theorem CallEvals_bound (E : Settings) (rng : RandomDeterministic) (shell : BoosterShell)
    (cBins m cLeavesMax : Nat) (hbins : 2 ≤ cBins) :
    ∀ e ∈ CallEvals E rng shell cBins m cLeavesMax, e + 1 < 2 * cBins - 1 := by
  intro e he
  unfold CallEvals at he
  rcases List.mem_cons.mp he with rfl | he
  · omega
  · by_cases h0 : (RootFind E rng shell cBins m).ret ≠ 0
    · rw [if_pos h0] at he; simp at he
    · have h0' : (RootFind E rng shell cBins m).ret = 0 := by
        by_contra h; exact h0 h
      rw [if_neg h0] at he
      by_cases hfast : cLeavesMax = 2 ∨ cBins = 2
      · rw [if_pos hfast] at he; simp at he
      · rw [if_neg hfast] at he
        have hlast : (RootArena E shell cBins 0).m_pBinLast = cBins - 1 := by
          simp [RootArena, Arena.set]
        have hfirst : (RootArena E shell cBins 0).m_pBinFirst = 0 := by
          simp [RootArena, Arena.set]
        have := GrowEvals_bound E shell.aBins m cLeavesMax (RootArena E shell cBins 0)
          (by rw [hfirst]; omega) cLeavesMax (GrowStart E rng shell cBins m) 0
          (GrowStart_inv E rng shell cBins m h0') (by simp [GrowStart]) e he
        rw [hfirst, hlast] at this
        omega

/-- The slots that a call on two bins or more takes are within the first
`2 * cBins - 1` slots of the buffer. -/
theorem SlotsUsed_le (E : Settings) (rng : RandomDeterministic) (shell : BoosterShell)
    (cBins m cLeavesMax : Nat) (hbins : 2 ≤ cBins) :
    SlotsUsed E rng shell cBins m cLeavesMax ≤ 2 * cBins - 1 := by
  unfold SlotsUsed
  by_cases h0 : (RootFind E rng shell cBins m).ret ≠ 0
  · rw [if_pos h0]; omega
  · have h0' : (RootFind E rng shell cBins m).ret = 0 := by
      by_contra h; exact h0 h
    rw [if_neg h0]
    by_cases hfast : cLeavesMax = 2 ∨ cBins = 2
    · rw [if_pos hfast]; omega
    · rw [if_neg hfast]
      obtain ⟨T, hroot, hrd, hok, -, -, -, -, hcells, -⟩ :=
        GrowTree_cells E rng shell cBins m cLeavesMax h0'
      have hlast : (RootArena E shell cBins 0).m_pBinLast = cBins - 1 := by
        simp [RootArena, Arena.set]
      have hfirst : (RootArena E shell cBins 0).m_pBinFirst = 0 := by
        simp [RootArena, Arena.set]
      have hcap := Shape.cap_le_bins T hok (by rw [hroot, hrd.1, hrd.2.1, hfirst]; omega)
      rw [hroot, hrd.1, hrd.2.1, hfirst, hlast] at hcap
      have hlen := Shape.cells_length T
      omega

/-! ## NaN gains of the sample oracle -/

theorem FloatBig.add_not_lt {h w m : FloatBig} (hh : h.lt m = false)
    (hw : (FloatBig.fin 0).le w = true) : (h.add w).lt m = false := by
  cases h <;> cases w <;> cases m <;> simp_all [FloatBig.lt, FloatBig.le, FloatBig.add]
  linarith

theorem k_hessianMin_not_lt_zero {b : ℚ} (h : (FloatBig.fin b).lt k_hessianMin = false) :
    0 < b := by
  have hp := k_hessianMin_pos
  simp only [k_hessianMin, FloatBig.lt, decide_eq_true_eq, decide_eq_false_iff_not, not_lt] at hp h
  exact lt_of_lt_of_le hp h

/-- The partial gain of the sample oracle is NaN exactly when the hessian
is not below `k_hessianMin` and the gradient sum is NaN, the hessian is NaN,
or the gradient sum is infinite with the hessian +infinity. -/
theorem GuardedGain_nan_iff (g h : FloatBig) :
    (RegressionSettings.CalcPartialGain g h).isnan = true ↔
      h.lt k_hessianMin = false ∧
        (g.isnan = true ∨ h.isnan = true ∨ (g.isinf = true ∧ h = .pinf)) := by
  simp only [RegressionSettings]
  by_cases c : h.lt k_hessianMin = true
  · rw [if_pos c]; simp [FloatBig.isnan, c]
  · rw [if_neg c]
    have c' : h.lt k_hessianMin = false := by simpa using c
    cases h with
    | nan => cases g <;> simp [FloatBig.div, FloatBig.mul, FloatBig.isnan, FloatBig.isinf, c']
    | ninf => exact absurd rfl c
    | pinf => cases g <;> simp [FloatBig.div, FloatBig.mul, FloatBig.isnan, FloatBig.isinf, c']
    | fin b =>
      have hb := k_hessianMin_not_lt_zero c'
      cases g with
      | nan => simp [FloatBig.div, FloatBig.mul, FloatBig.isnan, FloatBig.isinf, c']
      | ninf => simp [FloatBig.div, FloatBig.mul, FloatBig.isnan, FloatBig.isinf, c', le_of_lt hb]
      | pinf => simp [FloatBig.div, FloatBig.mul, FloatBig.isnan, FloatBig.isinf, c', le_of_lt hb]
      | fin a =>
        simp [FloatBig.div, FloatBig.mul, FloatBig.isnan, FloatBig.isinf, c', ne_of_gt hb]

/-- The partial gain of the sample oracle stays NaN when a bin whose hessian
is not negative is added to the accumulator. -/
theorem GuardedGain_nan_add {g h : FloatBig} (g' : FloatBig) {w : FloatBig}
    (hn : (RegressionSettings.CalcPartialGain g h).isnan = true)
    (hw : (FloatBig.fin 0).le w = true) :
    (RegressionSettings.CalcPartialGain (g.add g') (h.add w)).isnan = true := by
  rw [GuardedGain_nan_iff] at hn ⊢
  obtain ⟨h1, h2⟩ := hn
  refine ⟨FloatBig.add_not_lt h1 hw, ?_⟩
  rcases h2 with h2 | h2 | ⟨h2, h3⟩
  · left; cases g <;> simp_all [FloatBig.isnan, FloatBig.add]
  · right; left; cases h <;> simp_all [FloatBig.isnan, FloatBig.add]
  · subst h3
    cases g <;> cases g' <;> cases w <;>
      simp_all [FloatBig.isnan, FloatBig.isinf, FloatBig.add, FloatBig.le]

/-- The partial gain of the sample oracle is NaN when the hessian is NaN. -/
theorem GuardedGain_nan_of_hessian (g : FloatBig) {h : FloatBig} (hn : h.isnan = true) :
    (RegressionSettings.CalcPartialGain g h).isnan = true := by
  rw [GuardedGain_nan_iff]
  cases h <;> simp_all [FloatBig.isnan, FloatBig.lt]

/-- When the partial gain of the sample oracle is NaN, the hessian is NaN,
or it is not below `k_hessianMin` and the gradient sum is not finite. -/
theorem GuardedGain_nan_cases {g h : FloatBig}
    (hn : (RegressionSettings.CalcPartialGain g h).isnan = true) :
    h.isnan = true ∨
      (h.isnan = false ∧ h.lt k_hessianMin = false ∧ ∀ q : ℚ, g ≠ .fin q) := by
  rw [GuardedGain_nan_iff] at hn
  obtain ⟨h1, h2⟩ := hn
  cases h <;> cases g <;> simp_all [FloatBig.isnan, FloatBig.isinf]

/-- With a hessian that is not NaN and not below `k_hessianMin` and a
gradient sum that is not finite, the partial gain of the sample oracle is
NaN or +infinity. -/
theorem GuardedGain_bad {g h : FloatBig} (h1 : h.isnan = false)
    (h2 : h.lt k_hessianMin = false) (h3 : ∀ q : ℚ, g ≠ .fin q) :
    (RegressionSettings.CalcPartialGain g h).isnan = true ∨
      RegressionSettings.CalcPartialGain g h = .pinf := by
  simp only [RegressionSettings, h2, Bool.false_eq_true, if_false]
  cases h with
  | nan => simp [FloatBig.isnan] at h1
  | ninf => simp [FloatBig.lt, k_hessianMin] at h2
  | pinf => cases g <;> simp_all [FloatBig.div, FloatBig.mul, FloatBig.isnan]
  | fin b =>
    have hb := k_hessianMin_not_lt_zero h2
    cases g with
    | fin a => exact absurd rfl (h3 a)
    | nan => simp [FloatBig.div, FloatBig.mul, FloatBig.isnan]
    | pinf => simp [FloatBig.div, FloatBig.mul, FloatBig.isnan, le_of_lt hb]
    | ninf => simp [FloatBig.div, FloatBig.mul, FloatBig.isnan, le_of_lt hb]

/-- A difference that is not NaN and not below a bound comes from a value
that is not NaN and not below the bound, when what is subtracted is not
negative. -/
theorem FloatBig.of_sub_not_lt {a w m : FloatBig} (h1 : (a.sub w).isnan = false)
    (h2 : (a.sub w).lt m = false) (hw : (FloatBig.fin 0).le w = true) :
    a.isnan = false ∧ a.lt m = false := by
  cases a <;> cases w <;> cases m <;>
    simp_all [FloatBig.lt, FloatBig.le, FloatBig.add, FloatBig.sub, FloatBig.neg, FloatBig.isnan]
  linarith

theorem FloatBig.fin_of_add_fin {a b : FloatBig} {q : ℚ} (h : a.add b = .fin q) :
    (∃ x : ℚ, a = .fin x) ∧ ∃ y : ℚ, b = .fin y := by
  cases a <;> cases b <;> simp_all [FloatBig.add]

theorem FloatBig.sub_nan {a : FloatBig} (b : FloatBig) (h : a.isnan = true) :
    (a.sub b).isnan = true := by
  cases a <;> cases b <;> simp_all [FloatBig.sub, FloatBig.add, FloatBig.neg, FloatBig.isnan]

/-! ## The gain of a boundary, score by score -/

theorem CalcSplitGain_eq (E : Settings) (l r : Bin) :
    CalcSplitGain E l r = (List.range E.cScores).foldl
      (fun gain s =>
        (gain.add (E.CalcPartialGain (r.pair s).m_sumGradients (GainHessian E r s))).add
          (E.CalcPartialGain (l.pair s).m_sumGradients (GainHessian E l s))) (.fin 0) := rfl

theorem SubtractParentGain_eq (E : Settings) (p : Bin) (z : FloatBig) :
    SubtractParentGain E p z = (List.range E.cScores).foldl
      (fun (best : FloatBig) s =>
        best.sub (E.CalcPartialGain (p.pair s).m_sumGradients (GainHessian E p s))) z := rfl

theorem FloatBig.add_nan_left {a : FloatBig} (b : FloatBig) (h : a.isnan = true) :
    (a.add b).isnan = true := by
  cases a <;> cases b <;> simp_all [FloatBig.add, FloatBig.isnan]

theorem FloatBig.add_nan_right (a : FloatBig) {b : FloatBig} (h : b.isnan = true) :
    (a.add b).isnan = true := by
  cases a <;> cases b <;> simp_all [FloatBig.add, FloatBig.isnan]

theorem foldl_add2_nan (a b : Nat → FloatBig) :
    ∀ (l : List Nat) (z : FloatBig),
      (z.isnan = true ∨ ∃ s ∈ l, (a s).isnan = true ∨ (b s).isnan = true) →
      (l.foldl (fun (acc : FloatBig) s => (acc.add (a s)).add (b s)) z).isnan = true := by
  intro l
  induction l with
  | nil =>
    intro z h
    rcases h with h | ⟨s, hs, -⟩
    · exact h
    · simp at hs
  | cons x xs ih =>
    intro z h
    simp only [List.foldl_cons]
    apply ih
    rcases h with h | ⟨s, hs, h⟩
    · exact Or.inl (FloatBig.add_nan_left _ (FloatBig.add_nan_left _ h))
    · rcases List.mem_cons.mp hs with rfl | hs
      · left
        rcases h with h | h
        · exact FloatBig.add_nan_left _ (FloatBig.add_nan_right _ h)
        · exact FloatBig.add_nan_right _ h
      · exact Or.inr ⟨s, hs, h⟩

theorem foldl_add2_nonneg (a b : Nat → FloatBig) :
    ∀ (l : List Nat) (z : FloatBig), (FloatBig.fin 0).le z = true →
      (∀ s ∈ l, (FloatBig.fin 0).le (a s) = true ∧ (FloatBig.fin 0).le (b s) = true) →
      (FloatBig.fin 0).le
        (l.foldl (fun (acc : FloatBig) s => (acc.add (a s)).add (b s)) z) = true := by
  intro l
  induction l with
  | nil => intro z hz _; exact hz
  | cons x xs ih =>
    intro z hz h
    simp only [List.foldl_cons]
    obtain ⟨h1, h2⟩ := h x (List.mem_cons_self _ _)
    exact ih _ (FloatBig.zero_le_add (FloatBig.zero_le_add hz h1) h2)
      (fun s hs => h s (List.mem_cons_of_mem _ hs))

/-- The gain of a boundary is NaN when the partial gain of one side is NaN
for one score. -/
theorem CalcSplitGain_nan_of (E : Settings) (l r : Bin) (s : Nat) (hs : s < E.cScores)
    (h : (E.CalcPartialGain (r.pair s).m_sumGradients (GainHessian E r s)).isnan = true ∨
      (E.CalcPartialGain (l.pair s).m_sumGradients (GainHessian E l s)).isnan = true) :
    (CalcSplitGain E l r).isnan = true := by
  rw [CalcSplitGain_eq]
  exact foldl_add2_nan _ _ _ _ (Or.inr ⟨s, List.mem_range.mpr hs, h⟩)

/-- With partial gains that are NaN or not negative, a NaN gain of a
boundary comes from a NaN partial gain of one side for one score. -/
theorem CalcSplitGain_nan_term (E : Settings) (l r : Bin)
    (ho : ∀ g h, (E.CalcPartialGain g h).isnan = true ∨
      (FloatBig.fin 0).le (E.CalcPartialGain g h) = true)
    (hn : (CalcSplitGain E l r).isnan = true) :
    ∃ s < E.cScores,
      (E.CalcPartialGain (r.pair s).m_sumGradients (GainHessian E r s)).isnan = true ∨
      (E.CalcPartialGain (l.pair s).m_sumGradients (GainHessian E l s)).isnan = true := by
  by_contra hcon
  push_neg at hcon
  have hall : ∀ s ∈ List.range E.cScores,
      (FloatBig.fin 0).le
        (E.CalcPartialGain (r.pair s).m_sumGradients (GainHessian E r s)) = true ∧
      (FloatBig.fin 0).le
        (E.CalcPartialGain (l.pair s).m_sumGradients (GainHessian E l s)) = true := by
    intro s hs
    obtain ⟨c1, c2⟩ := hcon s (List.mem_range.mp hs)
    refine ⟨?_, ?_⟩
    · rcases ho (r.pair s).m_sumGradients (GainHessian E r s) with h | h
      · exact absurd h c1
      · exact h
    · rcases ho (l.pair s).m_sumGradients (GainHessian E l s) with h | h
      · exact absurd h c2
      · exact h
  have := foldl_add2_nonneg _ _ (List.range E.cScores) (.fin 0) (by simp [FloatBig.le]) hall
  rw [← CalcSplitGain_eq] at this
  have h2 := FloatBig.not_nan_of_le this
  rw [hn] at h2
  exact absurd h2 (by simp)

/-! ## The accumulators, score by score -/

theorem BinSum_grad_succ (E : Settings) (aBins : List Bin) (f k s : Nat) (hs : s < E.cScores) :
    ((BinSum E aBins f (k + 1)).pair s).m_sumGradients =
      ((BinSum E aBins f k).pair s).m_sumGradients.add
        ((aBins.getD (f + k) (Bin.Zero E.cScores)).pair s).m_sumGradients := by
  simp only [BinSum, Bin.Add]
  rw [Bin.pair_map _ _ _ hs]

theorem BinSum_hessian_succ (E : Settings) (aBins : List Bin) (f k s : Nat)
    (hs : s < E.cScores) :
    GainHessian E (BinSum E aBins f (k + 1)) s =
      (GainHessian E (BinSum E aBins f k) s).add
        (GainHessian E (aBins.getD (f + k) (Bin.Zero E.cScores)) s) := by
  simp only [GainHessian, BinSum, Bin.Add]
  rw [Bin.pair_map _ _ _ hs]
  split_ifs <;> rfl

theorem RightAcc_grad_zero (E : Settings) (aBins : List Bin) (node : TreeNode) (s : Nat)
    (hs : s < E.cScores) :
    ((RightAcc E aBins node 0).pair s).m_sumGradients = (node.m_bin.pair s).m_sumGradients := by
  simp only [RightAcc]
  rw [Bin.pair_Copy _ _ _ hs]

theorem RightAcc_hessian_zero (E : Settings) (aBins : List Bin) (node : TreeNode) (s : Nat)
    (hs : s < E.cScores) :
    GainHessian E (RightAcc E aBins node 0) s = GainHessian E node.m_bin s := by
  simp only [GainHessian, RightAcc]
  rw [Bin.pair_Copy _ _ _ hs]
  rfl

theorem RightAcc_grad_succ (E : Settings) (aBins : List Bin) (node : TreeNode) (k s : Nat)
    (hs : s < E.cScores) :
    ((RightAcc E aBins node (k + 1)).pair s).m_sumGradients =
      ((RightAcc E aBins node k).pair s).m_sumGradients.sub
        ((aBins.getD (node.m_pBinFirst + k) (Bin.Zero E.cScores)).pair s).m_sumGradients := by
  simp only [RightAcc, Bin.Subtract]
  rw [Bin.pair_map _ _ _ hs]

theorem RightAcc_hessian_succ (E : Settings) (aBins : List Bin) (node : TreeNode) (k s : Nat)
    (hs : s < E.cScores) :
    GainHessian E (RightAcc E aBins node (k + 1)) s =
      (GainHessian E (RightAcc E aBins node k) s).sub
        (GainHessian E (aBins.getD (node.m_pBinFirst + k) (Bin.Zero E.cScores)) s) := by
  simp only [GainHessian, RightAcc, Bin.Subtract]
  rw [Bin.pair_map _ _ _ hs]
  split_ifs <;> rfl

/-- A NaN partial gain of the left accumulator stays NaN while bins whose
hessian is not negative are added. -/
theorem BinSum_gain_nan (E : Settings) (aBins : List Bin) (f s : Nat) (hs : s < E.cScores)
    (hE : E.CalcPartialGain = RegressionSettings.CalcPartialGain) (c : Nat)
    (hn : (E.CalcPartialGain ((BinSum E aBins f c).pair s).m_sumGradients
      (GainHessian E (BinSum E aBins f c) s)).isnan = true) :
    ∀ d, (∀ i, c ≤ i → i < c + d →
        (FloatBig.fin 0).le (GainHessian E (aBins.getD (f + i) (Bin.Zero E.cScores)) s) = true) →
      (E.CalcPartialGain ((BinSum E aBins f (c + d)).pair s).m_sumGradients
        (GainHessian E (BinSum E aBins f (c + d)) s)).isnan = true := by
  intro d
  induction d with
  | zero => intro _; exact hn
  | succ d ih =>
    intro hw
    have h1 := ih (fun i h1 h2 => hw i h1 (by omega))
    have e : c + (d + 1) = (c + d) + 1 := by omega
    rw [e, BinSum_grad_succ E aBins f (c + d) s hs, BinSum_hessian_succ E aBins f (c + d) s hs, hE]
    rw [hE] at h1
    exact GuardedGain_nan_add _ h1 (hw (c + d) (by omega) (by omega))

/-- A NaN hessian of the right accumulator stays NaN. -/
theorem RightAcc_hessian_nan (E : Settings) (aBins : List Bin) (node : TreeNode) (s : Nat)
    (hs : s < E.cScores) (c : Nat)
    (hn : (GainHessian E (RightAcc E aBins node c) s).isnan = true) :
    ∀ d, (GainHessian E (RightAcc E aBins node (c + d)) s).isnan = true := by
  intro d
  induction d with
  | zero => exact hn
  | succ d ih =>
    have e : c + (d + 1) = (c + d) + 1 := by omega
    rw [e, RightAcc_hessian_succ E aBins node (c + d) s hs]
    exact FloatBig.sub_nan _ ih

/-- When the hessian of the right accumulator is not NaN and not below
`k_hessianMin` and the bins that have moved have hessians that are not
negative, the hessian of the node is not NaN and not below `k_hessianMin`. -/
theorem RightAcc_hessian_back (E : Settings) (aBins : List Bin) (node : TreeNode) (s : Nat)
    (hs : s < E.cScores) :
    ∀ c, (GainHessian E (RightAcc E aBins node c) s).isnan = false →
      (GainHessian E (RightAcc E aBins node c) s).lt k_hessianMin = false →
      (∀ i < c, (FloatBig.fin 0).le
        (GainHessian E (aBins.getD (node.m_pBinFirst + i) (Bin.Zero E.cScores)) s) = true) →
      (GainHessian E node.m_bin s).isnan = false ∧
        (GainHessian E node.m_bin s).lt k_hessianMin = false := by
  intro c
  induction c with
  | zero =>
    intro h1 h2 _
    rw [RightAcc_hessian_zero E aBins node s hs] at h1 h2
    exact ⟨h1, h2⟩
  | succ c ih =>
    intro h1 h2 hw
    rw [RightAcc_hessian_succ E aBins node c s hs] at h1 h2
    obtain ⟨k1, k2⟩ := FloatBig.of_sub_not_lt h1 h2 (hw c (by omega))
    exact ih k1 k2 (fun i hi => hw i (by omega))

/-- When a gradient sum of the sum of bins is finite, so is that of every
bin. -/
theorem BinSum_grad_fin (E : Settings) (aBins : List Bin) (f s : Nat) (hs : s < E.cScores) :
    ∀ n, (∃ q : ℚ, ((BinSum E aBins f n).pair s).m_sumGradients = .fin q) →
      ∀ i < n, ∃ q : ℚ,
        ((aBins.getD (f + i) (Bin.Zero E.cScores)).pair s).m_sumGradients = .fin q := by
  intro n
  induction n with
  | zero => intro _ i hi; omega
  | succ n ih =>
    intro h i hi
    obtain ⟨q, hq⟩ := h
    rw [BinSum_grad_succ E aBins f n s hs] at hq
    obtain ⟨h1, h2⟩ := FloatBig.fin_of_add_fin hq
    by_cases hin : i < n
    · exact ih h1 i hin
    · have : i = n := by omega
      rw [this]; exact h2

/-- The gradient sum of the right accumulator is finite when that of the
node and those of the bins that have moved are. -/
theorem RightAcc_grad_fin (E : Settings) (aBins : List Bin) (node : TreeNode) (s : Nat)
    (hs : s < E.cScores) (h0 : ∃ q : ℚ, (node.m_bin.pair s).m_sumGradients = .fin q) :
    ∀ c, (∀ i < c, ∃ q : ℚ,
        ((aBins.getD (node.m_pBinFirst + i) (Bin.Zero E.cScores)).pair s).m_sumGradients =
          .fin q) →
      ∃ q : ℚ, ((RightAcc E aBins node c).pair s).m_sumGradients = .fin q := by
  intro c
  induction c with
  | zero => intro _; rw [RightAcc_grad_zero E aBins node s hs]; exact h0
  | succ c ih =>
    intro h
    obtain ⟨x, hx⟩ := ih (fun i hi => h i (by omega))
    obtain ⟨y, hy⟩ := h c (by omega)
    rw [RightAcc_grad_succ E aBins node c s hs, hx, hy]
    exact ⟨x - y, by simp [FloatBig.sub, FloatBig.add, FloatBig.neg, sub_eq_add_neg]⟩

/-! ## NaN gains and the outcome of the scan -/

theorem SweepRecord_nonempty (E : Settings) (m cur : Nat) (l r : Bin) (s : Sweep)
    (h : s.aTreeSweep ≠ []) : (SweepRecord E m cur l r s).aTreeSweep ≠ [] := by
  simp only [SweepRecord]
  split_ifs <;> simp [h]

/-- When the scan computes the gain of a boundary and this gain is NaN, the
tie list is not empty at the end of the scan. -/
theorem SweepLoop_recorded (E : Settings) (aBins : List Bin) (m : Nat) (node : TreeNode) (j : Nat)
    (hvj : Visited E aBins m node j = true)
    (hgj : (BoundaryGain E aBins node j).isnan = true) :
    ∀ (k c : Nat) (s : Sweep), s.left = BinSum E aBins node.m_pBinFirst c →
      s.right = RightAcc E aBins node c →
      (∀ i < c, Reached E aBins m node i = true) →
      j < c + k →
      (c ≤ j ∨ s.aTreeSweep ≠ []) →
      (SweepLoop E aBins m k (node.m_pBinFirst + c) s).aTreeSweep ≠ [] := by
  have hrj : Reached E aBins m node j = true := by
    simp only [Visited, Bool.and_eq_true] at hvj
    exact hvj.1
  intro k
  induction k with
  | zero =>
    intro c s _ _ _ hj hP
    rcases hP with h | h
    · omega
    · exact h
  | succ k ih =>
    intro c s hl hr hreach hj hP
    rw [SweepLoop]
    have hr' : s.right.Subtract (aBins.getD (node.m_pBinFirst + c) (Bin.Zero E.cScores))
        E.cScores = RightAcc E aBins node (c + 1) := by rw [hr]; rfl
    have hl' : s.left.Add (aBins.getD (node.m_pBinFirst + c) (Bin.Zero E.cScores))
        E.cScores = BinSum E aBins node.m_pBinFirst (c + 1) := by rw [hl]; rfl
    simp only [hr', hl']
    by_cases hb : (RightAcc E aBins node (c + 1)).m_cSamples < m
    · rw [if_pos hb]
      rcases hP with h | h
      · exfalso
        have e : j = c + (j - c) := by omega
        rw [e] at hrj
        have := Reached_right E aBins m node c (Reached_mono E aBins m node (j - c) c hrj)
        omega
      · exact h
    · rw [if_neg hb]
      have hrc : Reached E aBins m node c = true :=
        Reached_succ E aBins m node c hreach (by omega)
      have e1 : node.m_pBinFirst + c + 1 = node.m_pBinFirst + (c + 1) := by omega
      rw [e1]
      refine ih (c + 1) _ (SweepRecord_left _ _ _ _ _ _) (SweepRecord_right _ _ _ _ _ _) ?_
        (by omega) ?_
      · intro i hi
        by_cases hic : i < c
        · exact hreach i hic
        · have : i = c := by omega
          rw [this]; exact hrc
      · by_cases hcj : c < j
        · left; omega
        · right
          by_cases hcj' : c = j
          · have hlc : m ≤ (BinSum E aBins node.m_pBinFirst (c + 1)).m_cSamples := by
              rw [hcj']
              simp only [Visited, Bool.and_eq_true, decide_eq_true_eq] at hvj
              exact hvj.2
            have hgc : (BoundaryGain E aBins node c).isnan = true := by rw [hcj']; exact hgj
            exact (SweepRecord_nan E m (node.m_pBinFirst + c)
              (BinSum E aBins node.m_pBinFirst (c + 1)) (RightAcc E aBins node (c + 1)) s
              hlc hgc).2
          · rcases hP with h | h
            · omega
            · exact SweepRecord_nonempty E m _ _ _ s h

/-- When the gain of a boundary that the scan computes is NaN and so are the
gains of all the boundaries that it computes afterwards, `FindBestSplitGain`
returns -1. -/
theorem FindBestSplitGain_nan_tail (E : Settings) (aBins : List Bin) (rng : RandomDeterministic)
    (arena : Arena) (iNode iChildren m : Nat) (j : Nat)
    (hj : j < (arena iNode).m_pBinLast - (arena iNode).m_pBinFirst)
    (hvj : Visited E aBins m (arena iNode) j = true)
    (hgj : (BoundaryGain E aBins (arena iNode) j).isnan = true)
    (hlater : ∀ i, j < i → i < (arena iNode).m_pBinLast - (arena iNode).m_pBinFirst →
      Visited E aBins m (arena iNode) i = true →
      (BoundaryGain E aBins (arena iNode) i).isnan = true) :
    (FindBestSplitGain E aBins rng arena iNode iChildren m).ret = -1 := by
  obtain ⟨n1, n2⟩ := SweepLoop_nan E aBins m (arena iNode) j hvj hgj
    ((arena iNode).m_pBinLast - (arena iNode).m_pBinFirst) 0 (SweepInit E (arena iNode).m_bin)
    rfl rfl (fun i hi => absurd hi (by omega))
    (fun i h1 h2 => hlater i h1 (by omega)) (by omega) (Or.inl (by omega))
  have h1 : (NodeSweep E aBins m (arena iNode)).BEST_gain.isnan = true := by
    simpa [NodeSweep] using n1
  have h2 : (NodeSweep E aBins m (arena iNode)).aTreeSweep ≠ [] := by
    simpa [NodeSweep] using n2
  have he : (NodeSweep E aBins m (arena iNode)).aTreeSweep.isEmpty = false := by
    cases hl : (NodeSweep E aBins m (arena iNode)).aTreeSweep with
    | nil => exact absurd hl h2
    | cons x xs => rfl
  have hm : (NodeSweep E aBins m (arena iNode)).BEST_gain.leMax = false := by
    cases hg : (NodeSweep E aBins m (arena iNode)).BEST_gain <;>
      simp_all [FloatBig.isnan, FloatBig.leMax]
  simp [FindBestSplitGain, he, hm]

theorem FloatBig.sub_low {a x : FloatBig} (ha : a.isnan = true ∨ a = .ninf)
    (hx : x.isnan = true ∨ (FloatBig.fin 0).le x = true) :
    (a.sub x).isnan = true ∨ a.sub x = .ninf := by
  cases a <;> cases x <;>
    simp_all [FloatBig.sub, FloatBig.add, FloatBig.neg, FloatBig.isnan, FloatBig.le]

theorem FloatBig.sub_bad {a x : FloatBig} (ha : a.isnan = true ∨ a.leMax = true)
    (hx : x.isnan = true ∨ x = .pinf) :
    (a.sub x).isnan = true ∨ a.sub x = .ninf := by
  cases a <;> cases x <;>
    simp_all [FloatBig.sub, FloatBig.add, FloatBig.neg, FloatBig.isnan, FloatBig.leMax]

theorem foldl_sub_low (f : Nat → FloatBig)
    (hf : ∀ i, (f i).isnan = true ∨ (FloatBig.fin 0).le (f i) = true) :
    ∀ (l : List Nat) (z : FloatBig), (z.isnan = true ∨ z = .ninf) →
      ((l.foldl (fun (t : FloatBig) i => t.sub (f i)) z).isnan = true ∨
        l.foldl (fun (t : FloatBig) i => t.sub (f i)) z = .ninf) := by
  intro l
  induction l with
  | nil => intro z hz; exact hz
  | cons x xs ih =>
    intro z hz
    simp only [List.foldl_cons]
    exact ih _ (FloatBig.sub_low hz (hf x))

/-- Subtracting values that are NaN or not negative, one of them NaN or
+infinity, from a value that is NaN or not above the largest finite value
gives NaN or -infinity. -/
theorem foldl_sub_bad (f : Nat → FloatBig)
    (hf : ∀ i, (f i).isnan = true ∨ (FloatBig.fin 0).le (f i) = true) :
    ∀ (l : List Nat) (z : FloatBig), (z.isnan = true ∨ z.leMax = true) →
      (∃ s ∈ l, (f s).isnan = true ∨ f s = .pinf) →
      ((l.foldl (fun (t : FloatBig) i => t.sub (f i)) z).isnan = true ∨
        l.foldl (fun (t : FloatBig) i => t.sub (f i)) z = .ninf) := by
  intro l
  induction l with
  | nil => intro z _ h; obtain ⟨s, hs, -⟩ := h; simp at hs
  | cons x xs ih =>
    intro z hz h
    simp only [List.foldl_cons]
    obtain ⟨s, hs, hbad⟩ := h
    rcases List.mem_cons.mp hs with rfl | hs
    · exact foldl_sub_low f hf xs _ (FloatBig.sub_bad hz hbad)
    · exact ih _ (FloatBig.sub_leMax hz (hf x)) ⟨s, hs, hbad⟩

/-- When the tie list of the scan of a node is not empty and the partial
gain of the aggregate of the node is NaN or +infinity for one score,
`FindBestSplitGain` returns -1. -/
theorem FindBestSplitGain_parent_bad (E : Settings) (aBins : List Bin)
    (rng : RandomDeterministic) (arena : Arena) (iNode iChildren m : Nat)
    (h1 : iNode ≠ iChildren) (h2 : iNode ≠ iChildren + 1)
    (hk : (FloatBig.fin 0).le E.k_gainMin = true)
    (ho : ∀ g h, (E.CalcPartialGain g h).isnan = true ∨
      (FloatBig.fin 0).le (E.CalcPartialGain g h) = true)
    (hne : (NodeSweep E aBins m (arena iNode)).aTreeSweep ≠ [])
    (s : Nat) (hs : s < E.cScores)
    (hbad : (E.CalcPartialGain ((arena iNode).m_bin.pair s).m_sumGradients
        (GainHessian E (arena iNode).m_bin s)).isnan = true ∨
      E.CalcPartialGain ((arena iNode).m_bin.pair s).m_sumGradients
        (GainHessian E (arena iNode).m_bin s) = .pinf) :
    (FindBestSplitGain E aBins rng arena iNode iChildren m).ret = -1 := by
  have he : (NodeSweep E aBins m (arena iNode)).aTreeSweep.isEmpty = false := by
    cases hl : (NodeSweep E aBins m (arena iNode)).aTreeSweep with
    | nil => exact absurd hl hne
    | cons x xs => rfl
  simp only [FindBestSplitGain, he, Bool.false_eq_true, if_false]
  by_cases hm : (NodeSweep E aBins m (arena iNode)).BEST_gain.leMax = true
  · simp only [hm, Bool.not_true, Bool.false_eq_true, if_false]
    rw [ScratchChildren_other arena iNode iChildren _ iNode h1 h2]
    have hlow := foldl_sub_bad
      (fun s => E.CalcPartialGain ((arena iNode).m_bin.pair s).m_sumGradients
        (GainHessian E (arena iNode).m_bin s)) (fun i => ho _ _) (List.range E.cScores)
      (NodeSweep E aBins m (arena iNode)).BEST_gain (Or.inr hm)
      ⟨s, List.mem_range.mpr hs, hbad⟩
    rw [← SubtractParentGain_eq] at hlow
    have hle : E.k_gainMin.le (SubtractParentGain E (arena iNode).m_bin
        (NodeSweep E aBins m (arena iNode)).BEST_gain) = false := by
      rcases hlow with h | h
      · cases hx : SubtractParentGain E (arena iNode).m_bin
          (NodeSweep E aBins m (arena iNode)).BEST_gain <;>
          simp_all [FloatBig.isnan, FloatBig.le_nan]
      · rw [h]; exact FloatBig.le_ninf_of_zero_le hk
    have hlo : (SubtractParentGain E (arena iNode).m_bin
        (NodeSweep E aBins m (arena iNode)).BEST_gain).lowestLe = false := by
      rcases hlow with h | h
      · cases hx : SubtractParentGain E (arena iNode).m_bin
          (NodeSweep E aBins m (arena iNode)).BEST_gain <;>
          simp_all [FloatBig.isnan, FloatBig.lowestLe]
      · rw [h]; rfl
    simp [hle, hlo]
  · simp [hm]

/-! ## The sample oracle with the range of the double -/

theorem k_floatOverflow_pos : 0 < k_floatOverflow := by decide!

theorem FloatBig.overflow_nonneg {x : FloatBig} (h : (FloatBig.fin 0).le x = true) :
    (FloatBig.fin 0).le x.overflow = true := by
  cases x with
  | fin q =>
    have hk := k_floatOverflow_pos
    simp only [FloatBig.overflow]
    split_ifs with c1 c2
    · rfl
    · exfalso
      simp only [FloatBig.le, decide_eq_true_eq] at h
      linarith
    · exact h
  | _ => simpa [FloatBig.overflow] using h

/-- The partial gain of the sample oracle with the range of the double is
NaN or not negative. -/
theorem DoubleRangeSettings_gain_nonneg (g h : FloatBig) :
    (DoubleRangeSettings.CalcPartialGain g h).isnan = true ∨
      (FloatBig.fin 0).le (DoubleRangeSettings.CalcPartialGain g h) = true := by
  simp only [DoubleRangeSettings]
  have hk := k_floatOverflow_pos
  split_ifs with c
  · right; rfl
  · have c' : h.lt k_hessianMin = false := by simpa using c
    cases h with
    | nan => left; cases g <;> rfl
    | ninf => exact absurd rfl c
    | pinf =>
      cases g with
      | fin a =>
        right
        have h1 : ¬ k_floatOverflow ≤ 0 := not_le.mpr hk
        have h2 : ¬ (0 : ℚ) ≤ -k_floatOverflow := by linarith
        simp [FloatBig.div, FloatBig.overflow, FloatBig.mul, FloatBig.le, h1, h2]
      | _ => left; rfl
    | fin b =>
      have hb := k_hessianMin_not_lt_zero c'
      cases g with
      | nan => left; rfl
      | pinf =>
        right
        simp [FloatBig.div, FloatBig.overflow, FloatBig.mul, FloatBig.le, le_of_lt hb]
      | ninf =>
        right
        simp [FloatBig.div, FloatBig.overflow, FloatBig.mul, FloatBig.le, le_of_lt hb]
      | fin a =>
        right
        apply FloatBig.overflow_nonneg
        simp only [FloatBig.div, if_neg (ne_of_gt hb), FloatBig.overflow]
        by_cases k1 : k_floatOverflow ≤ a / b
        · have ha : 0 < a := by
            have : 0 < a / b := lt_of_lt_of_le hk k1
            by_contra hcon
            have : a / b ≤ 0 := div_nonpos_of_nonpos_of_nonneg (not_lt.mp hcon) (le_of_lt hb)
            linarith
          simp [k1, FloatBig.mul, ne_of_gt ha, ha, FloatBig.le]
        · by_cases k2 : a / b ≤ -k_floatOverflow
          · have ha : a < 0 := by
              by_contra hcon
              have : 0 ≤ a / b := div_nonneg (not_lt.mp hcon) (le_of_lt hb)
              linarith
            simp [k1, k2, FloatBig.mul, ne_of_lt ha, not_lt.mpr (le_of_lt ha), FloatBig.le]
          · simp only [if_neg k1, if_neg k2, FloatBig.mul, FloatBig.le, decide_eq_true_eq]
            have : a / b * a = a * a / b := by ring
            rw [this]
            exact div_nonneg (mul_self_nonneg a) (le_of_lt hb)

/-! ## C1: the four-bin regression scenario -/

/-- C1, as stated, fails: on the scenario of four bins with sample counts
10, 10, 10, 10, weights equal to the counts, gradient sums -4, -2, 2, 4,
`cSamplesLeafMin = 5` and `cLeavesMax = 2`, it is not the case that the call
succeeds with one split whose stored value is 2. -/
theorem C1_split_value_is_not_two :
    ¬ ((PartitionOneDimensionalBoosting RegressionSettings ZeroStream
          (FourBinShell fun _ => ZeroNode) 4 0 5 2).error = .Error_None ∧
       (PartitionOneDimensionalBoosting RegressionSettings ZeroStream
          (FourBinShell fun _ => ZeroNode) 4 0 5 2).cSplits = some 1 ∧
       (PartitionOneDimensionalBoosting RegressionSettings ZeroStream
          (FourBinShell fun _ => ZeroNode) 4 0 5 2).aSplits = [2]) := by
  decide!

/-- C1, amended: on the same scenario the call succeeds with exactly one
split, the split value stored is 1 (the index of the last bin of the left
child: the boundary lies between bins 1 and 2), the total gain is the
positive finite value 18/5 and the two leaf scores are 3/10 and -3/10, of
opposite signs. -/
theorem C1_four_bin_scenario :
    (PartitionOneDimensionalBoosting RegressionSettings ZeroStream
        (FourBinShell fun _ => ZeroNode) 4 0 5 2).error = .Error_None ∧
    (PartitionOneDimensionalBoosting RegressionSettings ZeroStream
        (FourBinShell fun _ => ZeroNode) 4 0 5 2).cSplits = some 1 ∧
    (PartitionOneDimensionalBoosting RegressionSettings ZeroStream
        (FourBinShell fun _ => ZeroNode) 4 0 5 2).aSplits = [1] ∧
    (PartitionOneDimensionalBoosting RegressionSettings ZeroStream
        (FourBinShell fun _ => ZeroNode) 4 0 5 2).totalGain = some (.fin (18 / 5)) ∧
    (PartitionOneDimensionalBoosting RegressionSettings ZeroStream
        (FourBinShell fun _ => ZeroNode) 4 0 5 2).aScores = [.fin (3 / 10), .fin (-3 / 10)] := by
  decide!

/-! ## C2: leaf count, split count and the sizes of the output -/

/-- C2: on every call with `cLeavesMax >= 2` that returns success, the leaf
count is positive and at most `cLeavesMax`, the split count set for the
dimension is the leaf count minus one, and exactly that many split values
and `cScores` times the leaf count scores are stored. A regression build
has one score. -/
theorem C2_leaf_and_split_counts (E : Settings) (rng : RandomDeterministic)
    (shell : BoosterShell) (cBins iDimension cSamplesLeafMin cLeavesMax : Nat)
    (hmax : 2 ≤ cLeavesMax) (hreg : E.bClassification = false → E.cScores = 1)
    (hs : (PartitionOneDimensionalBoosting E rng shell cBins iDimension cSamplesLeafMin
      cLeavesMax).error = .Error_None) :
    0 < LeafCount E rng shell cBins cSamplesLeafMin cLeavesMax ∧
    LeafCount E rng shell cBins cSamplesLeafMin cLeavesMax ≤ cLeavesMax ∧
    (PartitionOneDimensionalBoosting E rng shell cBins iDimension cSamplesLeafMin
      cLeavesMax).cSplits = some (LeafCount E rng shell cBins cSamplesLeafMin cLeavesMax - 1) ∧
    (PartitionOneDimensionalBoosting E rng shell cBins iDimension cSamplesLeafMin
      cLeavesMax).aSplits.length = LeafCount E rng shell cBins cSamplesLeafMin cLeavesMax - 1 ∧
    (PartitionOneDimensionalBoosting E rng shell cBins iDimension cSamplesLeafMin
      cLeavesMax).aScores.length =
        E.cScores * LeafCount E rng shell cBins cSamplesLeafMin cLeavesMax := by
  unfold PartitionOneDimensionalBoosting at hs ⊢
  unfold LeafCount
  by_cases h0 : (RootFind E rng shell cBins cSamplesLeafMin).ret ≠ 0
  · rw [if_pos h0, Func_root E rng shell cBins iDimension cSamplesLeafMin cLeavesMax h0]
    simp [RootScores_length E _ hreg]
    omega
  · rw [if_neg h0]
    have h0' : (RootFind E rng shell cBins cSamplesLeafMin).ret = 0 := not_not.mp h0
    by_cases hf : cLeavesMax = 2 ∨ cBins = 2
    · rw [if_pos hf, Func_fast E rng shell cBins iDimension cSamplesLeafMin cLeavesMax h0' hf hs]
      simp [FastScores_length E _ hreg]
      omega
    · rw [if_neg hf,
        Func_general E rng shell cBins iDimension cSamplesLeafMin cLeavesMax h0' hf hs]
      obtain ⟨-, hle, hgt⟩ := GrowTree_inv E rng shell cBins cSamplesLeafMin cLeavesMax h0'
      obtain ⟨T, -, -, hleaves, hflat⟩ :=
        GrowTree_flatten E rng shell cBins cSamplesLeafMin cLeavesMax h0'
      have hb := Shape.branches_length T
      refine ⟨by omega, hle hmax, rfl, ?_, ?_⟩
      · simp only [hflat, List.length_map]; omega
      · simp only [hflat]
        rw [Shape.flatten_length_const E.cScores _ (by
          intro x hx
          obtain ⟨i, -, rfl⟩ := List.mem_map.mp hx
          exact FlattenLeaf_length E _)]
        rw [List.length_map, hleaves]

/-- C2 holds on an input with four bins and `cLeavesMax = 4`, where the
tree grows to four leaves on the general path. -/
theorem C2_leaf_and_split_counts_witness :
    (PartitionOneDimensionalBoosting RegressionSettings ZeroStream
        (FourBinShell fun _ => ZeroNode) 4 0 5 4).error = .Error_None ∧
    LeafCount RegressionSettings ZeroStream (FourBinShell fun _ => ZeroNode) 4 5 4 = 4 ∧
    0 < LeafCount RegressionSettings ZeroStream (FourBinShell fun _ => ZeroNode) 4 5 4 ∧
    LeafCount RegressionSettings ZeroStream (FourBinShell fun _ => ZeroNode) 4 5 4 ≤ 4 ∧
    (PartitionOneDimensionalBoosting RegressionSettings ZeroStream
      (FourBinShell fun _ => ZeroNode) 4 0 5 4).cSplits =
        some (LeafCount RegressionSettings ZeroStream (FourBinShell fun _ => ZeroNode) 4 5 4 - 1) ∧
    (PartitionOneDimensionalBoosting RegressionSettings ZeroStream
      (FourBinShell fun _ => ZeroNode) 4 0 5 4).aSplits.length =
        LeafCount RegressionSettings ZeroStream (FourBinShell fun _ => ZeroNode) 4 5 4 - 1 ∧
    (PartitionOneDimensionalBoosting RegressionSettings ZeroStream
      (FourBinShell fun _ => ZeroNode) 4 0 5 4).aScores.length =
        RegressionSettings.cScores *
          LeafCount RegressionSettings ZeroStream (FourBinShell fun _ => ZeroNode) 4 5 4 :=
  ⟨by decide!, by decide!,
    C2_leaf_and_split_counts RegressionSettings ZeroStream (FourBinShell fun _ => ZeroNode)
      4 0 5 4 (by decide) (fun _ => rfl) (by decide!)⟩

/-! ## C3: the split values are strictly ascending -/

/-- C3: the split values that a call stores, in the order in which `Flatten`
(or the fast path) stores them, are strictly ascending: each one is greater
than all those before it. -/
theorem C3_splits_strictly_ascending (E : Settings) (rng : RandomDeterministic)
    (shell : BoosterShell) (cBins iDimension cSamplesLeafMin cLeavesMax : Nat) :
    (PartitionOneDimensionalBoosting E rng shell cBins iDimension cSamplesLeafMin
      cLeavesMax).aSplits.Sorted (· < ·) := by
  unfold PartitionOneDimensionalBoosting
  by_cases h0 : (RootFind E rng shell cBins cSamplesLeafMin).ret ≠ 0
  · rw [Func_root E rng shell cBins iDimension cSamplesLeafMin cLeavesMax h0]
    exact List.sorted_nil
  · have h0' : (RootFind E rng shell cBins cSamplesLeafMin).ret = 0 := not_not.mp h0
    simp only [PartitionOneDimensionalBoostingInternal.Func]
    rw [if_neg h0]
    split_ifs
    · exact List.sorted_nil
    · exact List.sorted_singleton _
    · exact List.sorted_nil
    · exact List.sorted_nil
    · exact List.sorted_nil
    · obtain ⟨T, -, hok, -, hflat⟩ :=
        GrowTree_flatten E rng shell cBins cSamplesLeafMin cLeavesMax h0'
      simp only [hflat]
      exact (Shape.splits_sorted T hok).2

/-! ## C4: no split leaves fewer than `cSamplesLeafMin` samples on a side -/

/-- C4: whenever `FindBestSplitGain` returns 0 on a node that does not lie
in its own child slots, the aggregates of the left and of the right child
hold at least `cSamplesLeafMin` samples each, the count of the right child
being the count of the node minus the count of the left one; hence in the
tree grown on the general path both children of every formally split node
hold at least `cSamplesLeafMin` samples. -/
theorem C4_min_samples_per_leaf (E : Settings) (cSamplesLeafMin : Nat) :
    (∀ (aBins : List Bin) (rng : RandomDeterministic) (arena : Arena) (iNode iChildren : Nat),
      (FindBestSplitGain E aBins rng arena iNode iChildren cSamplesLeafMin).ret = 0 →
      iNode ≠ iChildren → iNode ≠ iChildren + 1 →
      cSamplesLeafMin ≤ ((FindBestSplitGain E aBins rng arena iNode iChildren
        cSamplesLeafMin).arena iChildren).m_bin.m_cSamples ∧
      cSamplesLeafMin ≤ ((FindBestSplitGain E aBins rng arena iNode iChildren
        cSamplesLeafMin).arena (iChildren + 1)).m_bin.m_cSamples ∧
      ((FindBestSplitGain E aBins rng arena iNode iChildren
        cSamplesLeafMin).arena (iChildren + 1)).m_bin.m_cSamples =
        subSize (arena iNode).m_bin.m_cSamples
          ((FindBestSplitGain E aBins rng arena iNode iChildren
            cSamplesLeafMin).arena iChildren).m_bin.m_cSamples) ∧
    (∀ (rng : RandomDeterministic) (shell : BoosterShell) (cBins cLeavesMax : Nat),
      (RootFind E rng shell cBins cSamplesLeafMin).ret = 0 →
      ∀ i ∈ FlattenBranches (GrowTree E rng shell cBins cSamplesLeafMin cLeavesMax).arena
          (GrowTree E rng shell cBins cSamplesLeafMin cLeavesMax).cLeaves 0,
        cSamplesLeafMin ≤ ((GrowTree E rng shell cBins cSamplesLeafMin cLeavesMax).arena
          ((GrowTree E rng shell cBins cSamplesLeafMin cLeavesMax).arena
            i).m_pTreeNodeChildren).m_bin.m_cSamples ∧
        cSamplesLeafMin ≤ ((GrowTree E rng shell cBins cSamplesLeafMin cLeavesMax).arena
          (((GrowTree E rng shell cBins cSamplesLeafMin cLeavesMax).arena
            i).m_pTreeNodeChildren + 1)).m_bin.m_cSamples) := by
  refine ⟨?_, ?_⟩
  · intro aBins rng arena iNode iChildren hret h1 h2
    obtain ⟨hb, -, -, hc, hd⟩ :=
      FindBestSplitGain_BranchOk E aBins rng arena iNode iChildren cSamplesLeafMin hret h1 h2
    unfold BranchOk at hb
    rw [hc] at hb
    obtain ⟨-, -, -, -, -, -, b7, b8, b9, -⟩ := hb
    refine ⟨b7, b8, ?_⟩
    rw [b9, hd.2.2]
    rfl
  · intro rng shell cBins cLeavesMax hret i hi
    obtain ⟨T, -, -, hok, hbr, -⟩ :=
      GrowTree_branches E rng shell cBins cSamplesLeafMin cLeavesMax hret
    rw [hbr] at hi
    obtain ⟨hb, -⟩ := Shape.branches_ok T hok i hi
    unfold BranchOk at hb
    exact ⟨hb.2.2.2.2.2.2.1, hb.2.2.2.2.2.2.2.1⟩

/-- C4 holds on the root of the four-bin scenario, split into two children
of twenty samples, and on the root of the tree grown from it with up to
four leaves. -/
theorem C4_min_samples_per_leaf_witness :
    (5 ≤ ((FindBestSplitGain RegressionSettings (FourBinShell fun _ => ZeroNode).aBins ZeroStream
        (RootArena RegressionSettings (FourBinShell fun _ => ZeroNode) 4) 0 1
        5).arena 1).m_bin.m_cSamples ∧
     5 ≤ ((FindBestSplitGain RegressionSettings (FourBinShell fun _ => ZeroNode).aBins ZeroStream
        (RootArena RegressionSettings (FourBinShell fun _ => ZeroNode) 4) 0 1
        5).arena (1 + 1)).m_bin.m_cSamples ∧
     ((FindBestSplitGain RegressionSettings (FourBinShell fun _ => ZeroNode).aBins ZeroStream
        (RootArena RegressionSettings (FourBinShell fun _ => ZeroNode) 4) 0 1
        5).arena (1 + 1)).m_bin.m_cSamples =
      subSize ((RootArena RegressionSettings (FourBinShell fun _ => ZeroNode) 4) 0).m_bin.m_cSamples
        ((FindBestSplitGain RegressionSettings (FourBinShell fun _ => ZeroNode).aBins ZeroStream
          (RootArena RegressionSettings (FourBinShell fun _ => ZeroNode) 4) 0 1
          5).arena 1).m_bin.m_cSamples) ∧
    (5 ≤ ((GrowTree RegressionSettings ZeroStream (FourBinShell fun _ => ZeroNode) 4 5 4).arena
        ((GrowTree RegressionSettings ZeroStream (FourBinShell fun _ => ZeroNode) 4 5 4).arena
          0).m_pTreeNodeChildren).m_bin.m_cSamples ∧
     5 ≤ ((GrowTree RegressionSettings ZeroStream (FourBinShell fun _ => ZeroNode) 4 5 4).arena
        (((GrowTree RegressionSettings ZeroStream (FourBinShell fun _ => ZeroNode) 4 5 4).arena
          0).m_pTreeNodeChildren + 1)).m_bin.m_cSamples) :=
  ⟨(C4_min_samples_per_leaf RegressionSettings 5).1 _ ZeroStream _ 0 1 (by decide!) (by decide)
      (by decide),
   (C4_min_samples_per_leaf RegressionSettings 5).2 ZeroStream (FourBinShell fun _ => ZeroNode)
      4 4 (by decide!) 0 (by decide!)⟩

/-! ## C5: conservation at a split -/

/-- C5: when `FindBestSplitGain` returns 0 on a node that does not lie in
its own child slots, the aggregate of the right child is the aggregate of
the node minus that of the left child; hence the sample counts of the two
children add up to the count of the node (a `size_t` value), and, where the
values of the node and of the left child are finite, so do the weights and
the gradient and hessian sums of every score. -/
theorem C5_split_conserves_aggregate (E : Settings) (aBins : List Bin)
    (rng : RandomDeterministic) (arena : Arena) (iNode iChildren cSamplesLeafMin : Nat)
    (hret : (FindBestSplitGain E aBins rng arena iNode iChildren cSamplesLeafMin).ret = 0)
    (h1 : iNode ≠ iChildren) (h2 : iNode ≠ iChildren + 1)
    (hsize : (arena iNode).m_bin.m_cSamples < 18446744073709551616) :
    ((FindBestSplitGain E aBins rng arena iNode iChildren cSamplesLeafMin).arena iNode).m_bin =
      (arena iNode).m_bin ∧
    ((FindBestSplitGain E aBins rng arena iNode iChildren cSamplesLeafMin).arena
        (iChildren + 1)).m_bin =
      ((arena iNode).m_bin.Copy E.cScores).Subtract
        ((FindBestSplitGain E aBins rng arena iNode iChildren cSamplesLeafMin).arena
          iChildren).m_bin E.cScores ∧
    addSize
        ((FindBestSplitGain E aBins rng arena iNode iChildren cSamplesLeafMin).arena
          iChildren).m_bin.m_cSamples
        ((FindBestSplitGain E aBins rng arena iNode iChildren cSamplesLeafMin).arena
          (iChildren + 1)).m_bin.m_cSamples =
      (arena iNode).m_bin.m_cSamples ∧
    (∀ a b : ℚ,
      ((FindBestSplitGain E aBins rng arena iNode iChildren cSamplesLeafMin).arena
        iChildren).m_bin.m_weight = .fin a →
      (arena iNode).m_bin.m_weight = .fin b →
      ((FindBestSplitGain E aBins rng arena iNode iChildren cSamplesLeafMin).arena
          iChildren).m_bin.m_weight.add
        ((FindBestSplitGain E aBins rng arena iNode iChildren cSamplesLeafMin).arena
          (iChildren + 1)).m_bin.m_weight = (arena iNode).m_bin.m_weight) ∧
    (∀ iScore < E.cScores, ∀ a b : ℚ,
      (((FindBestSplitGain E aBins rng arena iNode iChildren cSamplesLeafMin).arena
        iChildren).m_bin.pair iScore).m_sumGradients = .fin a →
      ((arena iNode).m_bin.pair iScore).m_sumGradients = .fin b →
      (((FindBestSplitGain E aBins rng arena iNode iChildren cSamplesLeafMin).arena
          iChildren).m_bin.pair iScore).m_sumGradients.add
        (((FindBestSplitGain E aBins rng arena iNode iChildren cSamplesLeafMin).arena
          (iChildren + 1)).m_bin.pair iScore).m_sumGradients =
        ((arena iNode).m_bin.pair iScore).m_sumGradients) ∧
    (∀ iScore < E.cScores, ∀ a b : ℚ,
      (((FindBestSplitGain E aBins rng arena iNode iChildren cSamplesLeafMin).arena
        iChildren).m_bin.pair iScore).m_sumHessians = .fin a →
      ((arena iNode).m_bin.pair iScore).m_sumHessians = .fin b →
      (((FindBestSplitGain E aBins rng arena iNode iChildren cSamplesLeafMin).arena
          iChildren).m_bin.pair iScore).m_sumHessians.add
        (((FindBestSplitGain E aBins rng arena iNode iChildren cSamplesLeafMin).arena
          (iChildren + 1)).m_bin.pair iScore).m_sumHessians =
        ((arena iNode).m_bin.pair iScore).m_sumHessians) := by
  obtain ⟨hb, -, -, hc, hd⟩ :=
    FindBestSplitGain_BranchOk E aBins rng arena iNode iChildren cSamplesLeafMin hret h1 h2
  unfold BranchOk at hb
  rw [hc, hd.2.2] at hb
  obtain ⟨-, -, -, -, -, -, -, -, b9, -⟩ := hb
  refine ⟨hd.2.2, b9, ?_, ?_, ?_, ?_⟩
  · rw [b9]
    simp only [Bin.Subtract, Bin.Copy, addSize, subSize]
    omega
  · intro a b ha hb'
    rw [b9]
    simp only [Bin.Subtract, Bin.Copy]
    rw [ha, hb']
    simp [FloatBig.sub, FloatBig.add, FloatBig.neg]
  · intro i hi a b ha hb'
    rw [b9, Bin.Subtract, Bin.pair_map _ _ _ hi, Bin.pair_Copy _ _ _ hi]
    dsimp only
    rw [ha, hb']
    simp [FloatBig.sub, FloatBig.add, FloatBig.neg]
  · intro i hi a b ha hb'
    rw [b9, Bin.Subtract, Bin.pair_map _ _ _ hi, Bin.pair_Copy _ _ _ hi]
    dsimp only
    rw [ha, hb']
    simp [FloatBig.sub, FloatBig.add, FloatBig.neg]

/-- C5 holds on the root of the four-bin scenario: the counts 20 and 20 of
the children add up to 40 and their weights to the weight 40 of the root. -/
theorem C5_split_conserves_aggregate_witness :
    addSize
        ((FindBestSplitGain RegressionSettings (FourBinShell fun _ => ZeroNode).aBins ZeroStream
          (RootArena RegressionSettings (FourBinShell fun _ => ZeroNode) 4) 0 1
          5).arena 1).m_bin.m_cSamples
        ((FindBestSplitGain RegressionSettings (FourBinShell fun _ => ZeroNode).aBins ZeroStream
          (RootArena RegressionSettings (FourBinShell fun _ => ZeroNode) 4) 0 1
          5).arena (1 + 1)).m_bin.m_cSamples =
      ((RootArena RegressionSettings (FourBinShell fun _ => ZeroNode) 4) 0).m_bin.m_cSamples ∧
    ((FindBestSplitGain RegressionSettings (FourBinShell fun _ => ZeroNode).aBins ZeroStream
          (RootArena RegressionSettings (FourBinShell fun _ => ZeroNode) 4) 0 1
          5).arena 1).m_bin.m_weight.add
        ((FindBestSplitGain RegressionSettings (FourBinShell fun _ => ZeroNode).aBins ZeroStream
          (RootArena RegressionSettings (FourBinShell fun _ => ZeroNode) 4) 0 1
          5).arena (1 + 1)).m_bin.m_weight =
      ((RootArena RegressionSettings (FourBinShell fun _ => ZeroNode) 4) 0).m_bin.m_weight :=
  ⟨(C5_split_conserves_aggregate RegressionSettings _ ZeroStream _ 0 1 5 (by decide!) (by decide)
      (by decide) (by decide!)).2.2.1,
   (C5_split_conserves_aggregate RegressionSettings _ ZeroStream _ 0 1 5 (by decide!) (by decide)
      (by decide) (by decide!)).2.2.2.1 20 40 (by decide!) (by decide!)⟩

/-! ## C6: the total gain is the sum of the net gains of the branches -/

/-- C6: on every successful call on which the root is not an overflow, and
with `0 <= k_gainMin` as the source asserts, the value stored into
`*pTotalGain` is the sum, from 0, of the net split gains of exactly the
committed branches (the root and the nodes taken from the queue, which are
the nodes whose split values are stored), and it is not below 0. In exact
arithmetic the order of the sum does not matter. -/
theorem C6_total_gain_is_sum_of_net_gains (E : Settings) (rng : RandomDeterministic)
    (shell : BoosterShell) (cBins iDimension cSamplesLeafMin cLeavesMax : Nat)
    (hk : (FloatBig.fin 0).le E.k_gainMin = true)
    (hs : (PartitionOneDimensionalBoosting E rng shell cBins iDimension cSamplesLeafMin
      cLeavesMax).error = .Error_None)
    (hov : (RootFind E rng shell cBins cSamplesLeafMin).ret ≠ -1) :
    (PartitionOneDimensionalBoosting E rng shell cBins iDimension cSamplesLeafMin
      cLeavesMax).totalGain =
      some ((CommittedBranches E rng shell cBins cSamplesLeafMin cLeavesMax).foldl
        (fun t i => t.add (NetSplitGain E shell.aBins cSamplesLeafMin
          (FinalArena E rng shell cBins cSamplesLeafMin cLeavesMax i))) (.fin 0)) ∧
    (PartitionOneDimensionalBoosting E rng shell cBins iDimension cSamplesLeafMin
      cLeavesMax).aSplits =
      (CommittedBranches E rng shell cBins cSamplesLeafMin cLeavesMax).map
        (fun i => (FinalArena E rng shell cBins cSamplesLeafMin cLeavesMax i).m_splitVal) ∧
    (∀ i ∈ CommittedBranches E rng shell cBins cSamplesLeafMin cLeavesMax,
      (FloatBig.fin 0).le (NetSplitGain E shell.aBins cSamplesLeafMin
        (FinalArena E rng shell cBins cSamplesLeafMin cLeavesMax i)) = true) ∧
    (FloatBig.fin 0).le
      ((CommittedBranches E rng shell cBins cSamplesLeafMin cLeavesMax).foldl
        (fun t i => t.add (NetSplitGain E shell.aBins cSamplesLeafMin
          (FinalArena E rng shell cBins cSamplesLeafMin cLeavesMax i))) (.fin 0)) = true := by
  have hnn : ∀ i ∈ CommittedBranches E rng shell cBins cSamplesLeafMin cLeavesMax,
      (FloatBig.fin 0).le (NetSplitGain E shell.aBins cSamplesLeafMin
        (FinalArena E rng shell cBins cSamplesLeafMin cLeavesMax i)) = true := by
    intro i hi
    unfold CommittedBranches at hi
    unfold FinalArena
    by_cases h0 : (RootFind E rng shell cBins cSamplesLeafMin).ret ≠ 0
    · rw [if_pos h0] at hi; simp at hi
    · have h0' : (RootFind E rng shell cBins cSamplesLeafMin).ret = 0 := not_not.mp h0
      rw [if_neg h0] at hi ⊢
      by_cases hf : cLeavesMax = 2 ∨ cBins = 2
      · rw [if_pos hf] at hi ⊢
        simp only [List.mem_singleton] at hi
        rw [hi]
        unfold RootFind at h0' ⊢
        obtain ⟨-, -, k3, -, k5⟩ := FindBestSplitGain_BranchOk E shell.aBins rng
          (RootArena E shell cBins) 0 1 cSamplesLeafMin h0' (by decide) (by decide)
        rw [NetSplitGain_congr E shell.aBins cSamplesLeafMin k5]
        exact FloatBig.le_trans' hk k3
      · rw [if_neg hf] at hi ⊢
        obtain ⟨T, -, -, hok, hbr, -⟩ :=
          GrowTree_branches E rng shell cBins cSamplesLeafMin cLeavesMax h0'
        rw [hbr] at hi
        exact FloatBig.le_trans' hk (Shape.branches_ok T hok i hi).2
  refine ⟨?_, ?_, hnn, foldl_gain_nonneg _ _ _ (by simp [FloatBig.le]) hnn⟩
  · unfold PartitionOneDimensionalBoosting at hs ⊢
    unfold CommittedBranches FinalArena
    by_cases h0 : (RootFind E rng shell cBins cSamplesLeafMin).ret ≠ 0
    · rw [if_pos h0, if_pos h0,
        Func_root E rng shell cBins iDimension cSamplesLeafMin cLeavesMax h0]
      have hlt : ¬ (RootFind E rng shell cBins cSamplesLeafMin).ret < 0 := by
        unfold RootFind at h0 hov ⊢
        rcases FindBestSplitGain_ret E shell.aBins rng (RootArena E shell cBins) 0 1
          cSamplesLeafMin with h | h | h
        · exact absurd h h0
        · rw [h]; decide
        · exact absurd h hov
      simp [hlt]
    · have h0' : (RootFind E rng shell cBins cSamplesLeafMin).ret = 0 := not_not.mp h0
      rw [if_neg h0, if_neg h0]
      by_cases hf : cLeavesMax = 2 ∨ cBins = 2
      · rw [if_pos hf, if_pos hf,
          Func_fast E rng shell cBins iDimension cSamplesLeafMin cLeavesMax h0' hf hs]
        unfold RootFind at h0' ⊢
        obtain ⟨-, k2, -, -, k5⟩ := FindBestSplitGain_BranchOk E shell.aBins rng
          (RootArena E shell cBins) 0 1 cSamplesLeafMin h0' (by decide) (by decide)
        simp only [List.foldl_cons, List.foldl_nil, FloatBig.zero_add,
          TreeNode.AFTER_GetSplitGain, k2, Option.getD_some,
          NetSplitGain_congr E shell.aBins cSamplesLeafMin k5]
      · rw [if_neg hf, if_neg hf,
          Func_general E rng shell cBins iDimension cSamplesLeafMin cLeavesMax h0' hf hs]
        obtain ⟨T, -, -, -, hbr, -, hgain⟩ :=
          GrowTree_branches E rng shell cBins cSamplesLeafMin cLeavesMax h0'
        simp only [hbr, hgain]
  · unfold PartitionOneDimensionalBoosting at hs ⊢
    unfold CommittedBranches FinalArena
    by_cases h0 : (RootFind E rng shell cBins cSamplesLeafMin).ret ≠ 0
    · rw [if_pos h0, if_pos h0,
        Func_root E rng shell cBins iDimension cSamplesLeafMin cLeavesMax h0]
      rfl
    · have h0' : (RootFind E rng shell cBins cSamplesLeafMin).ret = 0 := not_not.mp h0
      rw [if_neg h0, if_neg h0]
      by_cases hf : cLeavesMax = 2 ∨ cBins = 2
      · rw [if_pos hf, if_pos hf,
          Func_fast E rng shell cBins iDimension cSamplesLeafMin cLeavesMax h0' hf hs]
        rfl
      · rw [if_neg hf, if_neg hf,
          Func_general E rng shell cBins iDimension cSamplesLeafMin cLeavesMax h0' hf hs]
        obtain ⟨T, -, -, -, hbr, hsp, -⟩ :=
          GrowTree_branches E rng shell cBins cSamplesLeafMin cLeavesMax h0'
        simp only [hbr, hsp]

/-- C6 holds on the four-bin scenario with `cLeavesMax = 4`: the three
committed branches have the net gains 18/5, 1/5 and 1/5, and the total gain
is 4. -/
theorem C6_total_gain_is_sum_of_net_gains_witness :
    (PartitionOneDimensionalBoosting RegressionSettings ZeroStream
      (FourBinShell fun _ => ZeroNode) 4 0 5 4).totalGain =
      some ((CommittedBranches RegressionSettings ZeroStream (FourBinShell fun _ => ZeroNode)
          4 5 4).foldl
        (fun t i => t.add (NetSplitGain RegressionSettings (FourBinShell fun _ => ZeroNode).aBins 5
          (FinalArena RegressionSettings ZeroStream (FourBinShell fun _ => ZeroNode) 4 5 4 i)))
        (.fin 0)) ∧
    (PartitionOneDimensionalBoosting RegressionSettings ZeroStream
      (FourBinShell fun _ => ZeroNode) 4 0 5 4).totalGain = some (.fin 4) ∧
    CommittedBranches RegressionSettings ZeroStream (FourBinShell fun _ => ZeroNode) 4 5 4 =
      [1, 0, 2] :=
  ⟨(C6_total_gain_is_sum_of_net_gains RegressionSettings ZeroStream
      (FourBinShell fun _ => ZeroNode) 4 0 5 4 (by decide!) (by decide!) (by decide!)).1,
   by decide!, by decide!⟩

/-! ## C7: bins without gradient -/

/-- C7, as stated, fails: with two bins of ten samples whose gradient sums
are zero, `cSamplesLeafMin = 1` and `k_gainMin = 0`, the call does not
produce a single leaf; it splits between the two bins, with gain 0. -/
theorem C7_zero_gradient_splits :
    ¬ ((PartitionOneDimensionalBoosting RegressionSettings ZeroStream ZeroGradShell
          2 0 1 2).totalGain = some (.fin 0) ∧
       (PartitionOneDimensionalBoosting RegressionSettings ZeroStream ZeroGradShell
          2 0 1 2).cSplits = some 0) := by
  decide!

/-- C7, amended: when the gradient sums of every bin and of the sum of all
bins are zero (their weights and hessian sums being finite), the partial
gain of a zero gradient sum is 0 and `0 <= k_gainMin`, a successful call
reports the total gain 0; when moreover `k_gainMin` is above 0 the root is
not split, so that the call produces a single leaf, with no split. -/
theorem C7_zero_gradient_total_gain (E : Settings) (rng : RandomDeterministic)
    (shell : BoosterShell) (cBins iDimension cSamplesLeafMin cLeavesMax : Nat)
    (hbins : ∀ b ∈ shell.aBins, ZeroGrad E b) (hsum : ZeroGrad E shell.sumAllBins)
    (ho : ∀ h : ℚ, E.CalcPartialGain (.fin 0) (.fin h) = .fin 0)
    (hk : (FloatBig.fin 0).le E.k_gainMin = true)
    (hs : (PartitionOneDimensionalBoosting E rng shell cBins iDimension cSamplesLeafMin
      cLeavesMax).error = .Error_None) :
    (PartitionOneDimensionalBoosting E rng shell cBins iDimension cSamplesLeafMin
      cLeavesMax).totalGain = some (.fin 0) ∧
    ((FloatBig.fin 0).lt E.k_gainMin = true →
      (RootFind E rng shell cBins cSamplesLeafMin).ret = 1 ∧
      (PartitionOneDimensionalBoosting E rng shell cBins iDimension cSamplesLeafMin
        cLeavesMax).cSplits = some 0 ∧
      (PartitionOneDimensionalBoosting E rng shell cBins iDimension cSamplesLeafMin
        cLeavesMax).aSplits = [] ∧
      (PartitionOneDimensionalBoosting E rng shell cBins iDimension cSamplesLeafMin
        cLeavesMax).aScores.length = (RootScores E (RootArena E shell cBins 0)).length) := by
  have hroot : ZeroGrad E (RootArena E shell cBins 0).m_bin := by
    simp only [RootArena, Arena.set_same]
    exact ZeroGrad.Copy hsum
  obtain ⟨z1, z2, z3⟩ := FindBestSplitGain_zero E shell.aBins rng (RootArena E shell cBins) 0 1
    cSamplesLeafMin hbins ho hk hroot (by decide) (by decide)
  have hrej : ∀ h : (RootFind E rng shell cBins cSamplesLeafMin).ret ≠ 0,
      (RootFind E rng shell cBins cSamplesLeafMin).arena 0 = RootArena E shell cBins 0 :=
    fun h => (FindBestSplitGain_reject E shell.aBins rng (RootArena E shell cBins) 0 1
      cSamplesLeafMin h (by decide) (by decide)).1
  unfold PartitionOneDimensionalBoosting at hs ⊢
  refine ⟨?_, ?_⟩
  · by_cases h0 : (RootFind E rng shell cBins cSamplesLeafMin).ret ≠ 0
    · rw [Func_root E rng shell cBins iDimension cSamplesLeafMin cLeavesMax h0]
      have hlt : ¬ (RootFind E rng shell cBins cSamplesLeafMin).ret < 0 := by
        unfold RootFind at h0 ⊢
        rcases FindBestSplitGain_ret E shell.aBins rng (RootArena E shell cBins) 0 1
          cSamplesLeafMin with h | h | h
        · exact absurd h h0
        · rw [h]; decide
        · exact absurd h z1
      simp [hlt]
    · have h0' : (RootFind E rng shell cBins cSamplesLeafMin).ret = 0 := not_not.mp h0
      have hnpos : (FloatBig.fin 0).lt E.k_gainMin = false := by
        by_contra hc
        have hc' : (FloatBig.fin 0).lt E.k_gainMin = true := by simpa using hc
        have := z2 hc'
        unfold RootFind at h0'
        rw [h0'] at this
        exact absurd this (by decide)
      by_cases hf : cLeavesMax = 2 ∨ cBins = 2
      · rw [Func_fast E rng shell cBins iDimension cSamplesLeafMin cLeavesMax h0' hf hs]
        unfold RootFind at h0' ⊢
        obtain ⟨-, k2, -, -, -⟩ := FindBestSplitGain_BranchOk E shell.aBins rng
          (RootArena E shell cBins) 0 1 cSamplesLeafMin h0' (by decide) (by decide)
        simp only [TreeNode.AFTER_GetSplitGain, k2, Option.getD_some, z3 hnpos]
      · rw [Func_general E rng shell cBins iDimension cSamplesLeafMin cLeavesMax h0' hf hs]
        obtain ⟨T, hT, hrd, hok, -, -, hgain⟩ :=
          GrowTree_branches E rng shell cBins cSamplesLeafMin cLeavesMax h0'
        have hz0 : ZeroGrad E ((GrowTree E rng shell cBins cSamplesLeafMin cLeavesMax).arena
            T.root).m_bin := by
          rw [hT, hrd.2.2]; exact hroot
        have hall := Shape.zero_branches hbins T hok hz0
        simp only [hgain]
        rw [foldl_gain_zero _ _ (fun i hi =>
          (FindBestSplitGain_zero E shell.aBins rng
            (GrowTree E rng shell cBins cSamplesLeafMin cLeavesMax).arena i (i + 1)
            cSamplesLeafMin hbins ho hk (hall i hi) (by omega) (by omega)).2.2 hnpos)]
  · intro hpos
    have hret := z2 hpos
    have h0 : (RootFind E rng shell cBins cSamplesLeafMin).ret ≠ 0 := by
      unfold RootFind; rw [hret]; decide
    rw [Func_root E rng shell cBins iDimension cSamplesLeafMin cLeavesMax h0, hrej h0]
    exact ⟨hret, rfl, rfl, rfl⟩

/-- C7, amended, holds on the two-bin scenario without gradient: the total
gain of the call is 0. -/
theorem C7_zero_gradient_total_gain_witness :
    (PartitionOneDimensionalBoosting RegressionSettings ZeroStream ZeroGradShell
      2 0 1 2).totalGain = some (.fin 0) :=
  (C7_zero_gradient_total_gain RegressionSettings ZeroStream ZeroGradShell 2 0 1 2
    (fun b hb => by
      have hb' : b = RegressionBin 10 0 := by simpa [ZeroGradShell] using hb
      rw [hb']; exact RegressionBin_ZeroGrad 10)
    (RegressionBin_ZeroGrad 20) RegressionSettings_zero_gain (by decide!) (by decide!)).1

/-! ## C8: a minimum above half of the samples -/

/-- C8: when the root aggregate holds the total sample count of the bins (a
count that fits `size_t`) and twice `cSamplesLeafMin` is above that total,
no boundary of the root has `cSamplesLeafMin` samples on both sides, the
scan of the root records nothing, `FindBestSplitGain` on the root returns 1
(unsplittable), and the call succeeds with no split, the score vector of the
root alone and the total gain 0. -/
theorem C8_min_above_half_of_samples (E : Settings) (rng : RandomDeterministic)
    (shell : BoosterShell) (cBins iDimension cSamplesLeafMin cLeavesMax : Nat)
    (hsum : shell.sumAllBins.m_cSamples = CountSum E shell.aBins cBins)
    (hfit : CountSum E shell.aBins cBins < 18446744073709551616)
    (hmin : CountSum E shell.aBins cBins < 2 * cSamplesLeafMin) :
    (∀ k, k + 1 ≤ cBins →
      ¬ (cSamplesLeafMin ≤ (BinSum E shell.aBins 0 (k + 1)).m_cSamples ∧
        cSamplesLeafMin ≤ subSize (RootArena E shell cBins 0).m_bin.m_cSamples
          (BinSum E shell.aBins 0 (k + 1)).m_cSamples)) ∧
    (NodeSweep E shell.aBins cSamplesLeafMin (RootArena E shell cBins 0)).aTreeSweep = [] ∧
    (RootFind E rng shell cBins cSamplesLeafMin).ret = 1 ∧
    PartitionOneDimensionalBoosting E rng shell cBins iDimension cSamplesLeafMin cLeavesMax =
      { error := .Error_None, totalGain := some (.fin 0), iDimension := iDimension,
        cSplits := some 0, aSplits := [],
        aScores := RootScores E (RootArena E shell cBins 0), rng := rng } := by
  have ht := Root_no_ties E shell cBins cSamplesLeafMin hsum hfit hmin
  have hr : (RootFind E rng shell cBins cSamplesLeafMin).ret = 1 :=
    FindBestSplitGain_no_ties E shell.aBins rng (RootArena E shell cBins) 0 1 cSamplesLeafMin ht
  have hne : (RootFind E rng shell cBins cSamplesLeafMin).ret ≠ 0 := by rw [hr]; decide
  obtain ⟨hnode, hrng⟩ := FindBestSplitGain_reject E shell.aBins rng (RootArena E shell cBins)
    0 1 cSamplesLeafMin hne (by decide) (by decide)
  refine ⟨fun k hk => Root_not_eligible E shell cBins cSamplesLeafMin hsum hfit hmin k hk,
    ht, hr, ?_⟩
  unfold PartitionOneDimensionalBoosting
  rw [Func_root E rng shell cBins iDimension cSamplesLeafMin cLeavesMax hne]
  simp only [RootFind] at hr ⊢
  rw [hnode, hrng]
  simp [hr]

/-- C8 holds on the scenario with four bins of ten samples and
`cSamplesLeafMin = 21`: the call returns the single score of the root. -/
theorem C8_min_above_half_of_samples_witness :
    CountSum RegressionSettings (FourBinShell fun _ => ZeroNode).aBins 4 = 40 ∧
    (RootFind RegressionSettings ZeroStream (FourBinShell fun _ => ZeroNode) 4 21).ret = 1 ∧
    (PartitionOneDimensionalBoosting RegressionSettings ZeroStream
      (FourBinShell fun _ => ZeroNode) 4 0 21 4).cSplits = some 0 :=
  ⟨by decide,
    (C8_min_above_half_of_samples RegressionSettings ZeroStream (FourBinShell fun _ => ZeroNode)
      4 0 21 4 (by decide) (by decide) (by decide)).2.2.1,
    by rw [(C8_min_above_half_of_samples RegressionSettings ZeroStream
      (FourBinShell fun _ => ZeroNode) 4 0 21 4 (by decide) (by decide) (by decide)).2.2.2]⟩

/-! ## C9: two bins -/

/-- C9, as stated, fails: with two bins of ten samples and
`cSamplesLeafMin = 11` the root is not split, and the call with
`cLeavesMax = 3` succeeds without any split. -/
theorem C9_two_bins_without_split :
    (PartitionOneDimensionalBoosting RegressionSettings ZeroStream ZeroGradShell
      2 0 11 3).error = .Error_None ∧
    (PartitionOneDimensionalBoosting RegressionSettings ZeroStream ZeroGradShell
      2 0 11 3).cSplits = some 0 ∧
    ¬ ((PartitionOneDimensionalBoosting RegressionSettings ZeroStream ZeroGradShell
      2 0 11 3).cSplits = some 1) := by
  decide!

/-- C9, amended: with `cBins = 2` the outcome of the call is the same for
every `cLeavesMax` and is that of the root path or of the fast path, never
that of the loop: when `FindBestSplitGain` does not split the root there is
no split, and when it splits the root and the call succeeds there is exactly
one split, of value 0, with the scores of the two children of the root and
the gain of the root. -/
theorem C9_two_bins (E : Settings) (rng : RandomDeterministic) (shell : BoosterShell)
    (iDimension cSamplesLeafMin cLeavesMax : Nat) :
    PartitionOneDimensionalBoosting E rng shell 2 iDimension cSamplesLeafMin cLeavesMax =
      PartitionOneDimensionalBoosting E rng shell 2 iDimension cSamplesLeafMin 2 ∧
    ((RootFind E rng shell 2 cSamplesLeafMin).ret ≠ 0 →
      (PartitionOneDimensionalBoosting E rng shell 2 iDimension cSamplesLeafMin
        cLeavesMax).cSplits = some 0 ∧
      (PartitionOneDimensionalBoosting E rng shell 2 iDimension cSamplesLeafMin
        cLeavesMax).aSplits = []) ∧
    ((RootFind E rng shell 2 cSamplesLeafMin).ret = 0 →
      (PartitionOneDimensionalBoosting E rng shell 2 iDimension cSamplesLeafMin
        cLeavesMax).error = .Error_None →
      PartitionOneDimensionalBoosting E rng shell 2 iDimension cSamplesLeafMin cLeavesMax =
        { error := .Error_None,
          totalGain := some ((RootFind E rng shell 2 cSamplesLeafMin).arena 0).AFTER_GetSplitGain,
          iDimension := iDimension, cSplits := some 1, aSplits := [0],
          aScores :=
            FastScores E ((RootFind E rng shell 2 cSamplesLeafMin).arena 1) ++
            FastScores E ((RootFind E rng shell 2 cSamplesLeafMin).arena 2),
          rng := (RootFind E rng shell 2 cSamplesLeafMin).rng }) := by
  refine ⟨?_, ?_, ?_⟩
  · simp [PartitionOneDimensionalBoosting, PartitionOneDimensionalBoostingInternal.Func]
  · intro h
    unfold PartitionOneDimensionalBoosting
    rw [Func_root E rng shell 2 iDimension cSamplesLeafMin cLeavesMax h]
    exact ⟨rfl, rfl⟩
  · intro h hs
    unfold PartitionOneDimensionalBoosting at hs ⊢
    rw [Func_fast E rng shell 2 iDimension cSamplesLeafMin cLeavesMax h (Or.inr rfl) hs]
    obtain ⟨hb, -, -, hch, hsame⟩ := FindBestSplitGain_BranchOk E shell.aBins rng
      (RootArena E shell 2) 0 1 cSamplesLeafMin h (by decide) (by decide)
    obtain ⟨b1, b2, -⟩ := hb
    have hv : ((RootFind E rng shell 2 cSamplesLeafMin).arena 0).m_splitVal = 0 := by
      have hl : ((RootFind E rng shell 2 cSamplesLeafMin).arena 0).m_pBinLast = 1 := by
        have := hsame.2.1
        simp only [RootFind]
        rw [this]
        simp [RootArena]
      simp only [RootFind] at hl ⊢
      omega
    have hc : ((RootFind E rng shell 2 cSamplesLeafMin).arena 0).m_pTreeNodeChildren = 1 := hch
    rw [hv, hc]

/-- C9, amended, holds on the scenario with two bins of ten samples and
`cSamplesLeafMin = 1`, where the root is split: the calls with
`cLeavesMax = 5` and with `cLeavesMax = 2` agree. -/
theorem C9_two_bins_witness :
    (RootFind RegressionSettings ZeroStream ZeroGradShell 2 1).ret = 0 ∧
    PartitionOneDimensionalBoosting RegressionSettings ZeroStream ZeroGradShell 2 0 1 5 =
      PartitionOneDimensionalBoosting RegressionSettings ZeroStream ZeroGradShell 2 0 1 2 :=
  ⟨by decide!, (C9_two_bins RegressionSettings ZeroStream ZeroGradShell 0 1 5).1⟩

/-! ## C10: the root is not split -/

/-- C10: when `FindBestSplitGain` on the root does not return 0, the call
returns `Error_None` with the split count 0, no split value and the scores
of the single-partition update of the root aggregate, which is the copy of
the sum of all bins; the total gain stored is 0 when the root outcome is 1
(unsplittable), and it is +infinity if and only if the root outcome is -1
(overflow). -/
theorem C10_root_not_split (E : Settings) (rng : RandomDeterministic) (shell : BoosterShell)
    (cBins iDimension cSamplesLeafMin cLeavesMax : Nat)
    (h : (RootFind E rng shell cBins cSamplesLeafMin).ret ≠ 0) :
    PartitionOneDimensionalBoosting E rng shell cBins iDimension cSamplesLeafMin cLeavesMax =
      { error := .Error_None,
        totalGain := some (if (RootFind E rng shell cBins cSamplesLeafMin).ret = -1 then .pinf
          else .fin 0),
        iDimension := iDimension, cSplits := some 0, aSplits := [],
        aScores := RootScores E (RootArena E shell cBins 0), rng := rng } ∧
    (RootArena E shell cBins 0).m_bin = shell.sumAllBins.Copy E.cScores ∧
    ((RootFind E rng shell cBins cSamplesLeafMin).ret = 1 →
      (PartitionOneDimensionalBoosting E rng shell cBins iDimension cSamplesLeafMin
        cLeavesMax).totalGain = some (.fin 0)) ∧
    ((PartitionOneDimensionalBoosting E rng shell cBins iDimension cSamplesLeafMin
        cLeavesMax).totalGain = some .pinf ↔
      (RootFind E rng shell cBins cSamplesLeafMin).ret = -1) := by
  obtain ⟨hnode, hrng⟩ := FindBestSplitGain_reject E shell.aBins rng (RootArena E shell cBins)
    0 1 cSamplesLeafMin h (by decide) (by decide)
  have hret := FindBestSplitGain_ret E shell.aBins rng (RootArena E shell cBins) 0 1
    cSamplesLeafMin
  have hF : PartitionOneDimensionalBoosting E rng shell cBins iDimension cSamplesLeafMin
      cLeavesMax =
      { error := .Error_None,
        totalGain := some (if (RootFind E rng shell cBins cSamplesLeafMin).ret = -1 then .pinf
          else .fin 0),
        iDimension := iDimension, cSplits := some 0, aSplits := [],
        aScores := RootScores E (RootArena E shell cBins 0), rng := rng } := by
    unfold PartitionOneDimensionalBoosting
    rw [Func_root E rng shell cBins iDimension cSamplesLeafMin cLeavesMax h]
    simp only [RootFind] at h ⊢
    rw [hnode, hrng]
    rcases hret with h0 | h1 | h2
    · exact absurd h0 h
    · simp [h1]
    · simp [h2]
  refine ⟨hF, by simp [RootArena], ?_, ?_⟩
  · intro h1
    rw [hF]
    simp [h1]
  · rw [hF]
    by_cases h2 : (RootFind E rng shell cBins cSamplesLeafMin).ret = -1
    · simp [h2]
    · simp [h2]

/-- C10 holds on the scenario with four bins of ten samples and
`cSamplesLeafMin = 21`, where the root outcome is 1 and the total gain
stored is 0, and on a scenario with an infinite gradient sum, where the root
outcome is -1 and the total gain stored is +infinity. -/
theorem C10_root_not_split_witness :
    ((RootFind RegressionSettings ZeroStream (FourBinShell fun _ => ZeroNode) 4 21).ret = 1 ∧
      (PartitionOneDimensionalBoosting RegressionSettings ZeroStream
        (FourBinShell fun _ => ZeroNode) 4 0 21 4).totalGain = some (.fin 0)) ∧
    ((RootFind RegressionSettings ZeroStream OverflowShell 2 1).ret = -1 ∧
      (PartitionOneDimensionalBoosting RegressionSettings ZeroStream OverflowShell
        2 0 1 2).totalGain = some .pinf) :=
  ⟨⟨by decide!,
    (C10_root_not_split RegressionSettings ZeroStream (FourBinShell fun _ => ZeroNode)
      4 0 21 4 (by decide!)).2.2.1 (by decide!)⟩,
   ⟨by decide!,
    (C10_root_not_split RegressionSettings ZeroStream OverflowShell
      2 0 1 2 (by decide!)).2.2.2.mpr (by decide!)⟩⟩

/-! ## C11: the ranges of the leaves and their scores -/

/-- C11: for every successful call on finite bins with at least one bin
whose root aggregate is the sum of all the bins, the leaves whose scores are
written, in the order of the scores, have bin ranges (first and last bin
both included) that are not empty, that are pairwise disjoint, every range
ending before the later ones start, and that are consecutive: the first
range starts at the bin 0, the range `j` ends at the split value `j`, the
next one starts at the bin behind it, and the last range ends at the last
bin. Every bin below `cBins` lies in exactly one of the ranges, and the
scores written are, leaf after leaf, the score vectors computed from the
sums of the bins of the ranges. -/
theorem C11_leaf_ranges_and_scores (E : Settings) (rng : RandomDeterministic)
    (shell : BoosterShell) (cBins iDimension cSamplesLeafMin cLeavesMax : Nat)
    (hbins : 1 ≤ cBins) (hfin : ∀ b ∈ shell.aBins, FinBin E b)
    (hsum : shell.sumAllBins.Copy E.cScores = BinSum E shell.aBins 0 cBins)
    (hok : (PartitionOneDimensionalBoosting E rng shell cBins iDimension cSamplesLeafMin
      cLeavesMax).error = .Error_None) :
    (∀ i ∈ OutputLeaves E rng shell cBins cSamplesLeafMin cLeavesMax,
      (FinalArena E rng shell cBins cSamplesLeafMin cLeavesMax i).m_pBinFirst ≤
        (FinalArena E rng shell cBins cSamplesLeafMin cLeavesMax i).m_pBinLast) ∧
    (OutputLeaves E rng shell cBins cSamplesLeafMin cLeavesMax).Pairwise (fun i j =>
      (FinalArena E rng shell cBins cSamplesLeafMin cLeavesMax i).m_pBinLast <
        (FinalArena E rng shell cBins cSamplesLeafMin cLeavesMax j).m_pBinFirst) ∧
    (OutputLeaves E rng shell cBins cSamplesLeafMin cLeavesMax).map
        (fun i => (FinalArena E rng shell cBins cSamplesLeafMin cLeavesMax i).m_pBinFirst) =
      0 :: (PartitionOneDimensionalBoosting E rng shell cBins iDimension cSamplesLeafMin
        cLeavesMax).aSplits.map (· + 1) ∧
    (OutputLeaves E rng shell cBins cSamplesLeafMin cLeavesMax).map
        (fun i => (FinalArena E rng shell cBins cSamplesLeafMin cLeavesMax i).m_pBinLast) =
      (PartitionOneDimensionalBoosting E rng shell cBins iDimension cSamplesLeafMin
        cLeavesMax).aSplits ++ [cBins - 1] ∧
    (∀ b < cBins, (OutputLeaves E rng shell cBins cSamplesLeafMin cLeavesMax).countP (fun i =>
      decide ((FinalArena E rng shell cBins cSamplesLeafMin cLeavesMax i).m_pBinFirst ≤ b) &&
      decide (b ≤ (FinalArena E rng shell cBins cSamplesLeafMin cLeavesMax i).m_pBinLast)) = 1) ∧
    (PartitionOneDimensionalBoosting E rng shell cBins iDimension cSamplesLeafMin
        cLeavesMax).aScores =
      ((OutputLeaves E rng shell cBins cSamplesLeafMin cLeavesMax).map fun i =>
        LeafScores E rng shell cBins cSamplesLeafMin cLeavesMax
          (BinSum E shell.aBins
            (FinalArena E rng shell cBins cSamplesLeafMin cLeavesMax i).m_pBinFirst
            ((FinalArena E rng shell cBins cSamplesLeafMin cLeavesMax i).m_pBinLast + 1 -
              (FinalArena E rng shell cBins cSamplesLeafMin cLeavesMax i).m_pBinFirst))).flatten := by
  unfold PartitionOneDimensionalBoosting at hok ⊢
  obtain ⟨h1, h2, h3, h4⟩ :=
    Func_leaves E rng shell cBins iDimension cSamplesLeafMin cLeavesMax hbins hfin hsum hok
  have hne : ∀ i ∈ OutputLeaves E rng shell cBins cSamplesLeafMin cLeavesMax,
      (FinalArena E rng shell cBins cSamplesLeafMin cLeavesMax i).m_pBinFirst ≤
        (FinalArena E rng shell cBins cSamplesLeafMin cLeavesMax i).m_pBinLast :=
    fun i hi => (h2 i hi).1
  refine ⟨hne, ?_, h3, h4, ?_, ?_⟩
  · exact ranges_pairwise _ _ (cBins - 1) _ 0 _ h3 h4 hne
  · intro b hb
    exact ranges_count _ _ (cBins - 1) _ 0 _ h3 h4 hne b (Nat.zero_le b) (by omega)
  · rw [h1]
    congr 1
    apply List.map_congr_left
    intro i hi
    rw [(h2 i hi).2]

/-- C11 holds on the scenario of four bins with gradient sums -4, -2, 2, 4,
`cSamplesLeafMin = 5` and `cLeavesMax = 4`: the call succeeds with the split
values 0, 1, 2, the four leaves cover the bins 0, 1, 2 and 3 in this order,
and the four scores 2/5, 1/5, -1/5, -2/5 are computed from the four bins. -/
theorem C11_leaf_ranges_and_scores_witness :
    (PartitionOneDimensionalBoosting RegressionSettings ZeroStream
      (FourBinShell fun _ => ZeroNode) 4 0 5 4).error = .Error_None ∧
    (PartitionOneDimensionalBoosting RegressionSettings ZeroStream
      (FourBinShell fun _ => ZeroNode) 4 0 5 4).aSplits = [0, 1, 2] ∧
    (PartitionOneDimensionalBoosting RegressionSettings ZeroStream
      (FourBinShell fun _ => ZeroNode) 4 0 5 4).aScores =
      [.fin (2 / 5), .fin (1 / 5), .fin (-1 / 5), .fin (-2 / 5)] ∧
    (OutputLeaves RegressionSettings ZeroStream (FourBinShell fun _ => ZeroNode) 4 5 4).map
        (fun i => (FinalArena RegressionSettings ZeroStream (FourBinShell fun _ => ZeroNode)
          4 5 4 i).m_pBinLast) =
      (PartitionOneDimensionalBoosting RegressionSettings ZeroStream
        (FourBinShell fun _ => ZeroNode) 4 0 5 4).aSplits ++ [4 - 1] ∧
    (PartitionOneDimensionalBoosting RegressionSettings ZeroStream
        (FourBinShell fun _ => ZeroNode) 4 0 5 4).aScores =
      ((OutputLeaves RegressionSettings ZeroStream (FourBinShell fun _ => ZeroNode) 4 5 4).map
        fun i =>
        LeafScores RegressionSettings ZeroStream (FourBinShell fun _ => ZeroNode) 4 5 4
          (BinSum RegressionSettings (FourBinShell fun _ => ZeroNode).aBins
            (FinalArena RegressionSettings ZeroStream (FourBinShell fun _ => ZeroNode)
              4 5 4 i).m_pBinFirst
            ((FinalArena RegressionSettings ZeroStream (FourBinShell fun _ => ZeroNode)
              4 5 4 i).m_pBinLast + 1 -
              (FinalArena RegressionSettings ZeroStream (FourBinShell fun _ => ZeroNode)
                4 5 4 i).m_pBinFirst))).flatten :=
  ⟨by decide!, by decide!, by decide!,
    (C11_leaf_ranges_and_scores RegressionSettings ZeroStream (FourBinShell fun _ => ZeroNode)
      4 0 5 4 (by decide)
      (fun b hb => by
        simp only [FourBinShell, List.mem_cons, List.mem_singleton, List.not_mem_nil,
          or_false] at hb
        rcases hb with rfl | rfl | rfl | rfl <;> exact RegressionBin_FinBin _ _)
      (by decide!) (by decide!)).2.2.2.1,
    (C11_leaf_ranges_and_scores RegressionSettings ZeroStream (FourBinShell fun _ => ZeroNode)
      4 0 5 4 (by decide)
      (fun b hb => by
        simp only [FourBinShell, List.mem_cons, List.mem_singleton, List.not_mem_nil,
          or_false] at hb
        rcases hb with rfl | rfl | rfl | rfl <;> exact RegressionBin_FinBin _ _)
      (by decide!) (by decide!)).2.2.2.2.2⟩

/-! ## C12: the draw among the ties -/

/-- C12: `FindBestSplitGain` and the whole call depend on the random stream
through the values it draws only. When `FindBestSplitGain` splits a node
whose tie list has `M > 1` entries, it makes one draw `NextFast(M)`, which
is below `M`, and the split value of the node is the bin of the tie-list
entry at that index; with a single entry no draw is made. Two random
streams that give the same draws lead `FindBestSplitGain` to the same return
value and buffer, and the call to the same error code, total gain, split
count, split values and scores. For every entry of the tie list there is a
value of the draw (a stream that draws the index of the entry) with which
the node is split at the bin of that entry. -/
theorem C12_random_draw (E : Settings) (rng rng' : RandomDeterministic) (shell : BoosterShell)
    (cBins iDimension cSamplesLeafMin cLeavesMax : Nat) :
    (∀ (r : RandomDeterministic) (arena : Arena) (iNode iChildren : Nat),
      iNode ≠ iChildren → iNode ≠ iChildren + 1 →
      (FindBestSplitGain E shell.aBins r arena iNode iChildren cSamplesLeafMin).ret = 0 →
      (1 < (NodeSweep E shell.aBins cSamplesLeafMin (arena iNode)).aTreeSweep.length →
        (r.NextFast (NodeSweep E shell.aBins cSamplesLeafMin (arena iNode)).aTreeSweep.length).1 <
          (NodeSweep E shell.aBins cSamplesLeafMin (arena iNode)).aTreeSweep.length ∧
        ((FindBestSplitGain E shell.aBins r arena iNode iChildren cSamplesLeafMin).arena
          iNode).m_splitVal =
          ((NodeSweep E shell.aBins cSamplesLeafMin (arena iNode)).aTreeSweep.getD
            (r.NextFast
              (NodeSweep E shell.aBins cSamplesLeafMin (arena iNode)).aTreeSweep.length).1
            { m_pBestBin := 0, m_bestLeftBin := Bin.Zero E.cScores }).m_pBestBin ∧
        (FindBestSplitGain E shell.aBins r arena iNode iChildren cSamplesLeafMin).rng =
          (r.NextFast
            (NodeSweep E shell.aBins cSamplesLeafMin (arena iNode)).aTreeSweep.length).2) ∧
      (¬ 1 < (NodeSweep E shell.aBins cSamplesLeafMin (arena iNode)).aTreeSweep.length →
        ((FindBestSplitGain E shell.aBins r arena iNode iChildren cSamplesLeafMin).arena
          iNode).m_splitVal =
          ((NodeSweep E shell.aBins cSamplesLeafMin (arena iNode)).aTreeSweep.getD 0
            { m_pBestBin := 0, m_bestLeftBin := Bin.Zero E.cScores }).m_pBestBin ∧
        (FindBestSplitGain E shell.aBins r arena iNode iChildren cSamplesLeafMin).rng = r) ∧
      (∀ j < (NodeSweep E shell.aBins cSamplesLeafMin (arena iNode)).aTreeSweep.length,
        (FindBestSplitGain E shell.aBins (ConstStream j) arena iNode iChildren
          cSamplesLeafMin).ret = 0 ∧
        ((FindBestSplitGain E shell.aBins (ConstStream j) arena iNode iChildren
          cSamplesLeafMin).arena iNode).m_splitVal =
          ((NodeSweep E shell.aBins cSamplesLeafMin (arena iNode)).aTreeSweep.getD j
            { m_pBestBin := 0, m_bestLeftBin := Bin.Zero E.cScores }).m_pBestBin)) ∧
    (rng.Agree rng' →
      (∀ (arena : Arena) (iNode iChildren : Nat),
        (FindBestSplitGain E shell.aBins rng arena iNode iChildren cSamplesLeafMin).ret =
          (FindBestSplitGain E shell.aBins rng' arena iNode iChildren cSamplesLeafMin).ret ∧
        (FindBestSplitGain E shell.aBins rng arena iNode iChildren cSamplesLeafMin).arena =
          (FindBestSplitGain E shell.aBins rng' arena iNode iChildren cSamplesLeafMin).arena ∧
        (FindBestSplitGain E shell.aBins rng arena iNode iChildren cSamplesLeafMin).rng.Agree
          (FindBestSplitGain E shell.aBins rng' arena iNode iChildren cSamplesLeafMin).rng) ∧
      (PartitionOneDimensionalBoosting E rng shell cBins iDimension cSamplesLeafMin
          cLeavesMax).error =
        (PartitionOneDimensionalBoosting E rng' shell cBins iDimension cSamplesLeafMin
          cLeavesMax).error ∧
      (PartitionOneDimensionalBoosting E rng shell cBins iDimension cSamplesLeafMin
          cLeavesMax).totalGain =
        (PartitionOneDimensionalBoosting E rng' shell cBins iDimension cSamplesLeafMin
          cLeavesMax).totalGain ∧
      (PartitionOneDimensionalBoosting E rng shell cBins iDimension cSamplesLeafMin
          cLeavesMax).cSplits =
        (PartitionOneDimensionalBoosting E rng' shell cBins iDimension cSamplesLeafMin
          cLeavesMax).cSplits ∧
      (PartitionOneDimensionalBoosting E rng shell cBins iDimension cSamplesLeafMin
          cLeavesMax).aSplits =
        (PartitionOneDimensionalBoosting E rng' shell cBins iDimension cSamplesLeafMin
          cLeavesMax).aSplits ∧
      (PartitionOneDimensionalBoosting E rng shell cBins iDimension cSamplesLeafMin
          cLeavesMax).aScores =
        (PartitionOneDimensionalBoosting E rng' shell cBins iDimension cSamplesLeafMin
          cLeavesMax).aScores ∧
      (PartitionOneDimensionalBoosting E rng shell cBins iDimension cSamplesLeafMin
          cLeavesMax).rng.Agree
        (PartitionOneDimensionalBoosting E rng' shell cBins iDimension cSamplesLeafMin
          cLeavesMax).rng) := by
  refine ⟨?_, ?_⟩
  · intro r arena iNode iChildren h1 h2 hret
    have key : ∀ r' : RandomDeterministic,
        ((FindBestSplitGain E shell.aBins r' arena iNode iChildren cSamplesLeafMin).arena
          iNode).m_splitVal =
          (PickSweep E r' (NodeSweep E shell.aBins cSamplesLeafMin
            (arena iNode)).aTreeSweep).1.m_pBestBin ∧
        (FindBestSplitGain E shell.aBins r' arena iNode iChildren cSamplesLeafMin).rng =
          (PickSweep E r' (NodeSweep E shell.aBins cSamplesLeafMin
            (arena iNode)).aTreeSweep).2 := by
      intro r'
      have hret' : (FindBestSplitGain E shell.aBins r' arena iNode iChildren
          cSamplesLeafMin).ret = 0 := by
        rw [FindBestSplitGain_ret_rng E shell.aBins r' r]; exact hret
      obtain ⟨a1, a2⟩ := FindBestSplitGain_pick E shell.aBins r' arena iNode iChildren
        cSamplesLeafMin hret'
      refine ⟨?_, a2⟩
      rw [a1, CommitSplit_node E _ _ _ _ _ h1 h2]
    generalize (NodeSweep E shell.aBins cSamplesLeafMin (arena iNode)).aTreeSweep = l at key ⊢
    refine ⟨?_, ?_, ?_⟩
    · intro hM
      obtain ⟨k1, k2⟩ := key r
      refine ⟨?_, ?_, ?_⟩
      · exact Nat.mod_lt _ (by omega)
      · rw [k1]; simp only [PickSweep, if_pos hM]
      · rw [k2]; simp only [PickSweep, if_pos hM]
    · intro hM
      obtain ⟨k1, k2⟩ := key r
      refine ⟨?_, ?_⟩
      · rw [k1]; simp only [PickSweep, if_neg hM]
      · rw [k2]; simp only [PickSweep, if_neg hM]
    · intro j hj
      refine ⟨by rw [FindBestSplitGain_ret_rng E shell.aBins (ConstStream j) r]; exact hret, ?_⟩
      rw [(key (ConstStream j)).1]
      simp only [PickSweep]
      by_cases hM : 1 < l.length
      · simp only [if_pos hM, RandomDeterministic.NextFast, ConstStream, Nat.mod_eq_of_lt hj]
      · have hj0 : j = 0 := by omega
        simp only [if_neg hM, hj0]
  · intro hagree
    refine ⟨fun arena iNode iChildren =>
      FindBestSplitGain_agree E shell.aBins hagree arena iNode iChildren cSamplesLeafMin, ?_⟩
    exact Func_agree E hagree shell cBins iDimension cSamplesLeafMin cLeavesMax

/-- C12 holds on the scenario of three bins without gradient, where the two
boundaries of the root are tied: with a stream that draws 0 the root is
split after the bin 0, with a stream that draws 1 after the bin 1, and two
streams that draw 1 from different positions give the same split. -/
theorem C12_random_draw_witness :
    (NodeSweep RegressionSettings TieShell.aBins 1
      (RootArena RegressionSettings TieShell 3 0)).aTreeSweep.length = 2 ∧
    ((FindBestSplitGain RegressionSettings TieShell.aBins (ConstStream 0)
      (RootArena RegressionSettings TieShell 3) 0 1 1).arena 0).m_splitVal = 0 ∧
    ((FindBestSplitGain RegressionSettings TieShell.aBins (ConstStream 1)
      (RootArena RegressionSettings TieShell 3) 0 1 1).arena 0).m_splitVal = 1 ∧
    ((FindBestSplitGain RegressionSettings TieShell.aBins (ConstStream 1)
      (RootArena RegressionSettings TieShell 3) 0 1 1).arena 0).m_splitVal =
      ((NodeSweep RegressionSettings TieShell.aBins 1
        (RootArena RegressionSettings TieShell 3 0)).aTreeSweep.getD
        ((ConstStream 1).NextFast (NodeSweep RegressionSettings TieShell.aBins 1
          (RootArena RegressionSettings TieShell 3 0)).aTreeSweep.length).1
        { m_pBestBin := 0, m_bestLeftBin := Bin.Zero RegressionSettings.cScores }).m_pBestBin ∧
    (PartitionOneDimensionalBoosting RegressionSettings (ConstStream 1) TieShell 3 0 1 2).aSplits =
      (PartitionOneDimensionalBoosting RegressionSettings
        { seq := fun _ => 1, pos := 5 } TieShell 3 0 1 2).aSplits :=
  ⟨by decide!, by decide!, by decide!,
    (((C12_random_draw RegressionSettings (ConstStream 1) { seq := fun _ => 1, pos := 5 }
      TieShell 3 0 1 2).1 (ConstStream 1) (RootArena RegressionSettings TieShell 3) 0 1
      (by decide) (by decide) (by decide!)).1 (by decide!)).2.1,
    ((C12_random_draw RegressionSettings (ConstStream 1) { seq := fun _ => 1, pos := 5 }
      TieShell 3 0 1 2).2 (fun _ => rfl)).2.2.2.2.1⟩

/-! ## C13: the slots of the tree-node buffer -/

/-- C13, as stated, fails: on the scenario of four bins with
`cSamplesLeafMin = 5` and `cLeavesMax = 3` the call succeeds with three
leaves and takes seven slots of the buffer, more than `2 * 3 - 1`. The
root and its two children are all split by `FindBestSplitGain`, and each
split takes two slots although only two of the three are formally split. -/
theorem C13_seven_slots_for_three_leaves :
    (PartitionOneDimensionalBoosting RegressionSettings ZeroStream
      (FourBinShell fun _ => ZeroNode) 4 0 5 3).error = .Error_None ∧
    LeafCount RegressionSettings ZeroStream (FourBinShell fun _ => ZeroNode) 4 5 3 = 3 ∧
    SlotsUsed RegressionSettings ZeroStream (FourBinShell fun _ => ZeroNode) 4 5 3 = 7 ∧
    ¬ (SlotsUsed RegressionSettings ZeroStream (FourBinShell fun _ => ZeroNode) 4 5 3 ≤
      2 * 3 - 1) := by
  decide!

/-- C13, amended: with `cLeavesMax >= 2` the number of slots that a call
takes (the root, plus two child slots for every call of `FindBestSplitGain`
that returns 0) is twice the number of leaves and of split nodes left in the
priority queue, minus one; the queue holds at most as many nodes as there
are leaves, and there are at most `cLeavesMax` leaves, so that the call
takes at most `4 * cLeavesMax - 1` slots. -/
theorem C13_slots_bound (E : Settings) (rng : RandomDeterministic) (shell : BoosterShell)
    (cBins cSamplesLeafMin cLeavesMax : Nat) (hmax : 2 ≤ cLeavesMax) :
    SlotsUsed E rng shell cBins cSamplesLeafMin cLeavesMax + 1 =
      2 * (LeafCount E rng shell cBins cSamplesLeafMin cLeavesMax +
        PendingCount E rng shell cBins cSamplesLeafMin cLeavesMax) ∧
    PendingCount E rng shell cBins cSamplesLeafMin cLeavesMax ≤
      LeafCount E rng shell cBins cSamplesLeafMin cLeavesMax ∧
    LeafCount E rng shell cBins cSamplesLeafMin cLeavesMax ≤ cLeavesMax ∧
    SlotsUsed E rng shell cBins cSamplesLeafMin cLeavesMax ≤ 4 * cLeavesMax - 1 := by
  unfold SlotsUsed LeafCount PendingCount
  by_cases h0 : (RootFind E rng shell cBins cSamplesLeafMin).ret ≠ 0
  · simp only [ne_eq, h0, not_false_eq_true, if_true]
    refine ⟨?_, ?_, ?_, ?_⟩ <;> first | trivial | omega
  · have h0' : (RootFind E rng shell cBins cSamplesLeafMin).ret = 0 := not_not.mp h0
    simp only [ne_eq, h0', not_true_eq_false, if_false]
    by_cases hf : cLeavesMax = 2 ∨ cBins = 2
    · simp only [hf, if_true]
      refine ⟨?_, ?_, ?_, ?_⟩ <;> first | trivial | omega
    · simp only [hf, if_false]
      obtain ⟨c1, c2⟩ := GrowTree_cursor E rng shell cBins cSamplesLeafMin cLeavesMax
      obtain ⟨-, hle, -⟩ :=
        GrowTree_inv E rng shell cBins cSamplesLeafMin cLeavesMax (not_not.mp h0)
      have hl := hle hmax
      generalize (GrowTree E rng shell cBins cSamplesLeafMin cLeavesMax).iStorageCur = a at *
      generalize (GrowTree E rng shell cBins cSamplesLeafMin cLeavesMax).cLeaves = b at *
      generalize
        (GrowTree E rng shell cBins cSamplesLeafMin cLeavesMax).bestTreeNodeToSplit.length = c
        at *
      exact ⟨c1, c2, hl, by omega⟩

/-- C13, amended, holds on the four-bin scenario with `cLeavesMax = 3`:
three leaves and one node left in the queue make seven slots, within
`4 * 3 - 1`. -/
theorem C13_slots_bound_witness :
    PendingCount RegressionSettings ZeroStream (FourBinShell fun _ => ZeroNode) 4 5 3 = 1 ∧
    SlotsUsed RegressionSettings ZeroStream (FourBinShell fun _ => ZeroNode) 4 5 3 + 1 =
      2 * (LeafCount RegressionSettings ZeroStream (FourBinShell fun _ => ZeroNode) 4 5 3 +
        PendingCount RegressionSettings ZeroStream (FourBinShell fun _ => ZeroNode) 4 5 3) ∧
    SlotsUsed RegressionSettings ZeroStream (FourBinShell fun _ => ZeroNode) 4 5 3 ≤
      4 * 3 - 1 :=
  ⟨by decide!,
    (C13_slots_bound RegressionSettings ZeroStream (FourBinShell fun _ => ZeroNode) 4 5 3
      (by decide)).1,
    (C13_slots_bound RegressionSettings ZeroStream (FourBinShell fun _ => ZeroNode) 4 5 3
      (by decide)).2.2.2⟩
/-! ## C14: overflow below the root -/

/-- C14, as stated, fails in the finiteness of the total gain. On the
scenario with the gradient sums 0, `2^512`, `-3 * 2^511`, `2^511` and the
weights 1, 1, 3, 2, with `cSamplesLeafMin = 1` and `cLeavesMax = 3`, under
the sample oracle with the range of the double: the root is split after the
bin 1 with the net gain `14/5 * 2^1022`; on its left child, the slot 1,
the partial gain `2^512 / 1 * 2^512` of the bin 1 is +infinity and
`FindBestSplitGain` returns -1; the child stays a leaf; the right child, the
slot 2, is split with the net gain `27/10 * 2^1022`; the call returns
`Error_None` with the splits 1 and 2. Both net gains are within the range
of the double, but their sum `11 * 2^1021`, which is the total gain of the
embedding, is beyond it: the sum `totalGain += totalGainUpdate` of the
source is +infinity. -/
theorem C14_total_gain_overflows :
    (RootFind DoubleRangeSettings ZeroStream HugeGradientShell 4 1).ret = 0 ∧
    (FindBestSplitGain DoubleRangeSettings HugeGradientShell.aBins
      (FormalSplit (GrowStart DoubleRangeSettings ZeroStream HugeGradientShell 4 1) 0).rng
      (FormalSplit (GrowStart DoubleRangeSettings ZeroStream HugeGradientShell 4 1) 0).arena 1
      (FormalSplit (GrowStart DoubleRangeSettings ZeroStream HugeGradientShell 4 1) 0).iStorageCur
      1).ret = -1 ∧
    BoundaryGain DoubleRangeSettings HugeGradientShell.aBins
      ((FormalSplit (GrowStart DoubleRangeSettings ZeroStream HugeGradientShell 4 1) 0).arena 1)
      0 = .pinf ∧
    (PartitionOneDimensionalBoosting DoubleRangeSettings ZeroStream HugeGradientShell
      4 0 1 3).error = .Error_None ∧
    (PartitionOneDimensionalBoosting DoubleRangeSettings ZeroStream HugeGradientShell
      4 0 1 3).aSplits = [1, 2] ∧
    NetSplitGain DoubleRangeSettings HugeGradientShell.aBins 1
      ((GrowTree DoubleRangeSettings ZeroStream HugeGradientShell 4 1 3).arena 0) =
      .fin (mkRat (14 * (2 ^ 255 * 2 ^ 255 * 2 ^ 255 * 2 ^ 255 * 4)) 5) ∧
    NetSplitGain DoubleRangeSettings HugeGradientShell.aBins 1
      ((GrowTree DoubleRangeSettings ZeroStream HugeGradientShell 4 1 3).arena 2) =
      .fin (mkRat (27 * (2 ^ 255 * 2 ^ 255 * 2 ^ 255 * 2 ^ 255 * 4)) 10) ∧
    (FloatBig.fin (mkRat (14 * (2 ^ 255 * 2 ^ 255 * 2 ^ 255 * 2 ^ 255 * 4)) 5)).overflow =
      .fin (mkRat (14 * (2 ^ 255 * 2 ^ 255 * 2 ^ 255 * 2 ^ 255 * 4)) 5) ∧
    (FloatBig.fin (mkRat (27 * (2 ^ 255 * 2 ^ 255 * 2 ^ 255 * 2 ^ 255 * 4)) 10)).overflow =
      .fin (mkRat (27 * (2 ^ 255 * 2 ^ 255 * 2 ^ 255 * 2 ^ 255 * 4)) 10) ∧
    (PartitionOneDimensionalBoosting DoubleRangeSettings ZeroStream HugeGradientShell
      4 0 1 3).totalGain =
      some (.fin (mkRat (11 * (2 ^ 255 * 2 ^ 255 * 2 ^ 255 * 2 ^ 255 * 2)) 1)) ∧
    (FloatBig.fin (mkRat (11 * (2 ^ 255 * 2 ^ 255 * 2 ^ 255 * 2 ^ 255 * 2)) 1)).overflow =
      .pinf := by
  decide!

/-- C14, amended: in the loop, a child on which `FindBestSplitGain` returns
-1 (overflow) is treated exactly as one on which it returns 1: in both cases
the variables of the loop after the treatment of the child are
`RejectChild`, an expression of the variables before it that does not
depend on the outcome, in which the child is rejected (`AFTER_RejectSplit`)
in the buffer that the scan leaves; the child is a leaf, and the queue, the
cursor, the leaf count, the total gain and the random stream are unchanged,
so that the loop goes on as for an unsplittable child. No error comes from
such an outcome: a call whose root outcome is not -1 returns `Error_None`
when the container accepts the split count and the score count (the
exceptions of the priority queue are outside the embedding), and then, with
`0 <= k_gainMin` and partial gains that are NaN or not negative (both
asserted by the source), the total gain stored is not NaN and not negative.
It need not be finite: the source asserts `!isnan` and `0 <=` only. -/
theorem C14_overflow_absorbed (E : Settings) (rng : RandomDeterministic) (shell : BoosterShell)
    (cBins iDimension cSamplesLeafMin cLeavesMax : Nat) :
    (∀ (g : Growth) (x : Nat), (g.arena x).BEFORE_IsSplittable = true →
      x ≠ g.iStorageCur → x ≠ g.iStorageCur + 1 →
      ((FindBestSplitGain E shell.aBins g.rng g.arena x g.iStorageCur cSamplesLeafMin).ret = -1 ∨
        (FindBestSplitGain E shell.aBins g.rng g.arena x g.iStorageCur cSamplesLeafMin).ret = 1) →
      ExamineChild E shell.aBins cSamplesLeafMin g x =
        RejectChild E shell.aBins cSamplesLeafMin g x ∧
      ((ExamineChild E shell.aBins cSamplesLeafMin g x).arena x).m_splitGain = some (.fin 0) ∧
      ((ExamineChild E shell.aBins cSamplesLeafMin g x).arena x).AFTER_IsSplit = false) ∧
    ((RootFind E rng shell cBins cSamplesLeafMin).ret ≠ -1 →
      shell.innerTermUpdate.SetCountSplits
        (LeafCount E rng shell cBins cSamplesLeafMin cLeavesMax - 1) = .Error_None →
      shell.innerTermUpdate.EnsureTensorScoreCapacity
        (E.cScores * LeafCount E rng shell cBins cSamplesLeafMin cLeavesMax) = .Error_None →
      IsMultiplyError E.cScores (LeafCount E rng shell cBins cSamplesLeafMin cLeavesMax) = false →
      (PartitionOneDimensionalBoosting E rng shell cBins iDimension cSamplesLeafMin
        cLeavesMax).error = .Error_None ∧
      ((FloatBig.fin 0).le E.k_gainMin = true →
        (∀ g h, (E.CalcPartialGain g h).isnan = true ∨
          (FloatBig.fin 0).le (E.CalcPartialGain g h) = true) →
        ∃ t : FloatBig,
          (PartitionOneDimensionalBoosting E rng shell cBins iDimension cSamplesLeafMin
            cLeavesMax).totalGain = some t ∧ t.isnan = false ∧
          (FloatBig.fin 0).le t = true)) := by
  refine ⟨?_, ?_⟩
  · intro g x hs hx1 hx2 hret
    have hne : (FindBestSplitGain E shell.aBins g.rng g.arena x g.iStorageCur
        cSamplesLeafMin).ret ≠ 0 := by
      rcases hret with h | h <;> rw [h] <;> decide
    obtain ⟨ha, hr⟩ := FindBestSplitGain_scratch E shell.aBins g.rng g.arena x g.iStorageCur
      cSamplesLeafMin hne
    have hE : ExamineChild E shell.aBins cSamplesLeafMin g x =
        RejectChild E shell.aBins cSamplesLeafMin g x := by
      unfold ExamineChild RejectChild
      rw [if_pos hs, if_neg hne, ha, hr, ScratchChildren_other g.arena x g.iStorageCur _ x hx1 hx2]
    refine ⟨hE, ?_, ?_⟩
    · rw [hE]; simp [RejectChild, TreeNode.AFTER_RejectSplit]
    · rw [hE]; simp [RejectChild, TreeNode.AFTER_RejectSplit, TreeNode.AFTER_IsSplit]
  · intro hroot hc1 hc2 hm
    have herr : (PartitionOneDimensionalBoosting E rng shell cBins iDimension cSamplesLeafMin
        cLeavesMax).error = .Error_None := by
      unfold LeafCount at hm hc1 hc2
      simp only [PartitionOneDimensionalBoosting, PartitionOneDimensionalBoostingInternal.Func]
      by_cases h0 : (RootFind E rng shell cBins cSamplesLeafMin).ret ≠ 0
      · rw [if_pos h0, SetCountSplits_zero, if_neg (fun h => h rfl)]
      · rw [if_neg h0] at hm hc1 hc2 ⊢
        by_cases hf : cLeavesMax = 2 ∨ cBins = 2
        · rw [if_pos hf] at hc1 ⊢
          rw [if_neg (not_not.mpr hc1)]
        · rw [if_neg hf] at hm hc1 hc2 ⊢
          rw [if_neg (not_not.mpr hc1), if_neg (by rw [hm]; decide),
            if_neg (not_not.mpr hc2)]
    refine ⟨herr, ?_⟩
    intro hk ho
    suffices hfin : ∃ q : ℚ, 0 ≤ q ∧
        (PartitionOneDimensionalBoosting E rng shell cBins iDimension cSamplesLeafMin
          cLeavesMax).totalGain = some (.fin q) by
      obtain ⟨q, hq, hg⟩ := hfin
      exact ⟨.fin q, hg, rfl, by simpa [FloatBig.le] using hq⟩
    unfold PartitionOneDimensionalBoosting at herr ⊢
    by_cases h0 : (RootFind E rng shell cBins cSamplesLeafMin).ret ≠ 0
    · rw [Func_root E rng shell cBins iDimension cSamplesLeafMin cLeavesMax h0]
      have h1 : (RootFind E rng shell cBins cSamplesLeafMin).ret = 1 := by
        rcases FindBestSplitGain_ret E shell.aBins rng (RootArena E shell cBins) 0 1
          cSamplesLeafMin with h | h | h
        · exact absurd h h0
        · exact h
        · exact absurd h hroot
      exact ⟨0, le_rfl, by simp [h1]⟩
    · have h0' : (RootFind E rng shell cBins cSamplesLeafMin).ret = 0 := not_not.mp h0
      by_cases hf : cLeavesMax = 2 ∨ cBins = 2
      · rw [Func_fast E rng shell cBins iDimension cSamplesLeafMin cLeavesMax h0' hf herr]
        obtain ⟨k1, k2, k3, -, -⟩ := FindBestSplitGain_BranchOk E shell.aBins rng
          (RootArena E shell cBins) 0 1 cSamplesLeafMin h0' (by decide) (by decide)
        obtain ⟨q, hq, hg⟩ := NetSplitGain_fin E shell.aBins cSamplesLeafMin
          (RootArena E shell cBins 0) hk ho
          (by
            have hb := k1
            unfold BranchOk at hb
            have h11 := hb.2.2.2.2.2.2.2.2.2.2
            obtain ⟨-, -, -, -, k5⟩ := FindBestSplitGain_BranchOk E shell.aBins rng
              (RootArena E shell cBins) 0 1 cSamplesLeafMin h0' (by decide) (by decide)
            simp only [NodeSweep] at h11 ⊢
            rw [k5.1, k5.2.1, k5.2.2] at h11
            exact h11) k3
        refine ⟨q, hq, ?_⟩
        simp only [RootFind, TreeNode.AFTER_GetSplitGain, k2, hg, Option.getD_some]
      · rw [Func_general E rng shell cBins iDimension cSamplesLeafMin cLeavesMax h0' hf herr]
        obtain ⟨T, -, -, hok, -, -, hgain⟩ :=
          GrowTree_branches E rng shell cBins cSamplesLeafMin cLeavesMax h0'
        obtain ⟨q, hq, hg⟩ := foldl_gain_fin
          (fun i => NetSplitGain E shell.aBins cSamplesLeafMin
            ((GrowTree E rng shell cBins cSamplesLeafMin cLeavesMax).arena i))
          T.branches 0 le_rfl (by
            intro i hi
            obtain ⟨hb, hle⟩ := Shape.branches_ok T hok i hi
            unfold BranchOk at hb
            exact NetSplitGain_fin E shell.aBins cSamplesLeafMin _ hk ho
              hb.2.2.2.2.2.2.2.2.2.2 hle)
        exact ⟨q, hq, by simp only [hgain, hg]⟩

/-- C14, amended, holds on the scenario with the gradient sums 0, `2^512`,
`-3 * 2^511`, `2^511` under the sample oracle with the range of the double,
with `cSamplesLeafMin = 1` and `cLeavesMax = 3`: the root is split after the
bin 1, `FindBestSplitGain` returns -1 on its left child, the slot 1, whose
only boundary has the gain +infinity; the child becomes a leaf, the right
child is split, and the call succeeds with the splits 1 and 2 and a total
gain that is not NaN and not negative. -/
theorem C14_overflow_absorbed_witness :
    (FindBestSplitGain DoubleRangeSettings HugeGradientShell.aBins
      (FormalSplit (GrowStart DoubleRangeSettings ZeroStream HugeGradientShell 4 1) 0).rng
      (FormalSplit (GrowStart DoubleRangeSettings ZeroStream HugeGradientShell 4 1) 0).arena 1
      (FormalSplit (GrowStart DoubleRangeSettings ZeroStream HugeGradientShell 4 1) 0).iStorageCur
      1).ret = -1 ∧
    ((ExamineChild DoubleRangeSettings HugeGradientShell.aBins 1
      (FormalSplit (GrowStart DoubleRangeSettings ZeroStream HugeGradientShell 4 1) 0) 1).arena
        1).AFTER_IsSplit = false ∧
    ((GrowTree DoubleRangeSettings ZeroStream HugeGradientShell 4 1 3).arena 1).m_splitGain =
      some (.fin 0) ∧
    (PartitionOneDimensionalBoosting DoubleRangeSettings ZeroStream HugeGradientShell
      4 0 1 3).error = .Error_None ∧
    (PartitionOneDimensionalBoosting DoubleRangeSettings ZeroStream HugeGradientShell
      4 0 1 3).aSplits = [1, 2] ∧
    ∃ t : FloatBig,
      (PartitionOneDimensionalBoosting DoubleRangeSettings ZeroStream HugeGradientShell
        4 0 1 3).totalGain = some t ∧ t.isnan = false ∧ (FloatBig.fin 0).le t = true :=
  ⟨by decide!,
    ((C14_overflow_absorbed DoubleRangeSettings ZeroStream HugeGradientShell 4 0 1 3).1
      (FormalSplit (GrowStart DoubleRangeSettings ZeroStream HugeGradientShell 4 1) 0) 1
      (by decide!) (by decide!) (by decide!) (Or.inl (by decide!))).2.2,
    by decide!, by decide!, by decide!,
    ((C14_overflow_absorbed DoubleRangeSettings ZeroStream HugeGradientShell
      4 0 1 3).2 (by decide!) (by decide!) (by decide!) (by decide!)).2 (by decide!)
      DoubleRangeSettings_gain_nonneg⟩

/-! ## C15: failures of the output container -/

/-- C15: a failure of the output container ends the call with the error of
the container and without any split value or score: on the path of the
unsplit root and on the fast path when `SetCountSplits` fails, and on the
general path when `SetCountSplits` fails, when `cScores * cLeaves` does not
fit `size_t` (the error is then `Error_OutOfMemory`), or when
`EnsureTensorScoreCapacity` fails; `Flatten`, which alone writes on the
general path, is not run. Every call that returns an error has written no
split value and no score. -/
theorem C15_container_failure (E : Settings) (rng : RandomDeterministic) (shell : BoosterShell)
    (cBins iDimension cSamplesLeafMin cLeavesMax : Nat) :
    ((RootFind E rng shell cBins cSamplesLeafMin).ret ≠ 0 →
      shell.innerTermUpdate.SetCountSplits 0 ≠ .Error_None →
      (PartitionOneDimensionalBoosting E rng shell cBins iDimension cSamplesLeafMin
        cLeavesMax).error = shell.innerTermUpdate.SetCountSplits 0) ∧
    ((RootFind E rng shell cBins cSamplesLeafMin).ret = 0 → (cLeavesMax = 2 ∨ cBins = 2) →
      shell.innerTermUpdate.SetCountSplits 1 ≠ .Error_None →
      (PartitionOneDimensionalBoosting E rng shell cBins iDimension cSamplesLeafMin
        cLeavesMax).error = shell.innerTermUpdate.SetCountSplits 1) ∧
    ((RootFind E rng shell cBins cSamplesLeafMin).ret = 0 → ¬ (cLeavesMax = 2 ∨ cBins = 2) →
      (shell.innerTermUpdate.SetCountSplits
          ((GrowTree E rng shell cBins cSamplesLeafMin cLeavesMax).cLeaves - 1) ≠ .Error_None →
        (PartitionOneDimensionalBoosting E rng shell cBins iDimension cSamplesLeafMin
          cLeavesMax).error = shell.innerTermUpdate.SetCountSplits
            ((GrowTree E rng shell cBins cSamplesLeafMin cLeavesMax).cLeaves - 1)) ∧
      (shell.innerTermUpdate.SetCountSplits
          ((GrowTree E rng shell cBins cSamplesLeafMin cLeavesMax).cLeaves - 1) = .Error_None →
        IsMultiplyError E.cScores
          (GrowTree E rng shell cBins cSamplesLeafMin cLeavesMax).cLeaves = true →
        (PartitionOneDimensionalBoosting E rng shell cBins iDimension cSamplesLeafMin
          cLeavesMax).error = .Error_OutOfMemory) ∧
      (shell.innerTermUpdate.SetCountSplits
          ((GrowTree E rng shell cBins cSamplesLeafMin cLeavesMax).cLeaves - 1) = .Error_None →
        IsMultiplyError E.cScores
          (GrowTree E rng shell cBins cSamplesLeafMin cLeavesMax).cLeaves = false →
        shell.innerTermUpdate.EnsureTensorScoreCapacity
          (E.cScores * (GrowTree E rng shell cBins cSamplesLeafMin cLeavesMax).cLeaves) ≠
            .Error_None →
        (PartitionOneDimensionalBoosting E rng shell cBins iDimension cSamplesLeafMin
          cLeavesMax).error = shell.innerTermUpdate.EnsureTensorScoreCapacity
            (E.cScores * (GrowTree E rng shell cBins cSamplesLeafMin cLeavesMax).cLeaves))) ∧
    ((PartitionOneDimensionalBoosting E rng shell cBins iDimension cSamplesLeafMin
        cLeavesMax).error ≠ .Error_None →
      (PartitionOneDimensionalBoosting E rng shell cBins iDimension cSamplesLeafMin
        cLeavesMax).aSplits = [] ∧
      (PartitionOneDimensionalBoosting E rng shell cBins iDimension cSamplesLeafMin
        cLeavesMax).aScores = []) := by
  refine ⟨?_, ?_, ?_, ?_⟩
  · intro h0 hc
    simp only [PartitionOneDimensionalBoosting, PartitionOneDimensionalBoostingInternal.Func]
    rw [if_pos h0, if_pos hc]
  · intro h0 hf hc
    simp only [PartitionOneDimensionalBoosting, PartitionOneDimensionalBoostingInternal.Func]
    rw [if_neg (not_not.mpr h0), if_pos hf, if_pos hc]
  · intro h0 hf
    refine ⟨?_, ?_, ?_⟩
    · intro hc
      simp only [PartitionOneDimensionalBoosting, PartitionOneDimensionalBoostingInternal.Func]
      rw [if_neg (not_not.mpr h0), if_neg hf, if_pos hc]
    · intro hc hm
      simp only [PartitionOneDimensionalBoosting, PartitionOneDimensionalBoostingInternal.Func]
      rw [if_neg (not_not.mpr h0), if_neg hf, if_neg (not_not.mpr hc), if_pos hm]
    · intro hc hm he
      simp only [PartitionOneDimensionalBoosting, PartitionOneDimensionalBoostingInternal.Func]
      rw [if_neg (not_not.mpr h0), if_neg hf, if_neg (not_not.mpr hc),
        if_neg (by rw [hm]; decide), if_pos he]
  · intro herr
    simp only [PartitionOneDimensionalBoosting, PartitionOneDimensionalBoostingInternal.Func]
      at herr ⊢
    split_ifs at herr ⊢ <;> first | exact ⟨rfl, rfl⟩ | exact absurd rfl herr

/-- C15 holds on the four-bin scenario with a container for one split:
with `cLeavesMax = 4` the tree grows to four leaves, `SetCountSplits`
refuses three splits, and the call returns `Error_OutOfMemory` without any
split value or score. -/
theorem C15_container_failure_witness :
    (GrowTree RegressionSettings ZeroStream TightShell 4 5 4).cLeaves = 4 ∧
    (PartitionOneDimensionalBoosting RegressionSettings ZeroStream TightShell 4 0 5 4).error =
      .Error_OutOfMemory ∧
    (PartitionOneDimensionalBoosting RegressionSettings ZeroStream TightShell 4 0 5 4).aSplits =
      [] ∧
    (PartitionOneDimensionalBoosting RegressionSettings ZeroStream TightShell 4 0 5 4).aScores =
      [] :=
  ⟨by decide!, by decide!,
    (C15_container_failure RegressionSettings ZeroStream TightShell 4 0 5 4).2.2.2
      (by decide!)⟩

/-! ## C16: the node taken from the priority queue -/

/-- C16: on the general path, when the root is split, every node that the
loop takes from the priority queue (`GrowPops` lists these pops, in the
recursion of the loop) is at that moment a node of the queue that
`FindBestSplitGain` has split and that is not formally split yet, every
node of the queue carries its net gain as split gain, and the net gain of
the node taken is not below the net gain of any node of the queue. Each pop
is followed by the formal split of the node taken: the final number of
leaves is two plus the number of pops. -/
theorem C16_pop_is_maximal (E : Settings) (rng : RandomDeterministic) (shell : BoosterShell)
    (cBins cSamplesLeafMin cLeavesMax : Nat)
    (hret : (RootFind E rng shell cBins cSamplesLeafMin).ret = 0) :
    (GrowTree E rng shell cBins cSamplesLeafMin cLeavesMax).cLeaves =
      2 + (GrowPops E shell.aBins cSamplesLeafMin cLeavesMax cLeavesMax
        (GrowStart E rng shell cBins cSamplesLeafMin) 0).length ∧
    ∀ x ∈ GrowPops E shell.aBins cSamplesLeafMin cLeavesMax cLeavesMax
        (GrowStart E rng shell cBins cSamplesLeafMin) 0,
      x.2 ∈ x.1.bestTreeNodeToSplit ∧
      (x.1.arena x.2).AFTER_IsSplit = false ∧
      ∀ q ∈ x.1.bestTreeNodeToSplit,
        (x.1.arena q).m_splitGain =
          some (NetSplitGain E shell.aBins cSamplesLeafMin (x.1.arena q)) ∧
        (NetSplitGain E shell.aBins cSamplesLeafMin (x.1.arena q)).le
          (NetSplitGain E shell.aBins cSamplesLeafMin (x.1.arena x.2)) = true := by
  refine ⟨?_, ?_⟩
  · have := GrowLoop_pops E shell.aBins cSamplesLeafMin cLeavesMax cLeavesMax
      (GrowStart E rng shell cBins cSamplesLeafMin) 0
    have e : GrowTree E rng shell cBins cSamplesLeafMin cLeavesMax =
        GrowLoop E shell.aBins cSamplesLeafMin cLeavesMax cLeavesMax
          (GrowStart E rng shell cBins cSamplesLeafMin) 0 := rfl
    rw [e, this]
    simp only [GrowStart]
  · exact GrowPops_max E shell.aBins cSamplesLeafMin cLeavesMax (RootArena E shell cBins 0)
      cLeavesMax _ 0 (GrowStart_inv E rng shell cBins cSamplesLeafMin hret)

/-- C16 holds on the scenario with the gradient sums -2, -3, 1, 4 and
`cLeavesMax = 4`: the left child of the root, the slot 1, is pushed before
the right child, the slot 2; their net gains are 1/20 and 9/20, and the loop
takes the slot 2 from the queue first and then the slot 1, and ends with
four leaves. On the scenario with the gradient sums -4, -2, 2, 4 the two
children have the same net gain and the loop takes the slot 1 first. -/
theorem C16_pop_is_maximal_witness :
    (GrowPops RegressionSettings SkewShell.aBins 5 4 4
      (GrowStart RegressionSettings ZeroStream SkewShell 4 5) 0).map Prod.snd = [2, 1] ∧
    (GrowPops RegressionSettings SkewShell.aBins 5 4 4
      (GrowStart RegressionSettings ZeroStream SkewShell 4 5) 0).map
      (fun x => (NetSplitGain RegressionSettings SkewShell.aBins 5 (x.1.arena 1),
        NetSplitGain RegressionSettings SkewShell.aBins 5 (x.1.arena 2))) =
      [(.fin (1 / 20), .fin (9 / 20)), (.fin (1 / 20), .fin (9 / 20))] ∧
    (GrowPops RegressionSettings (FourBinShell fun _ => ZeroNode).aBins 5 4 4
      (GrowStart RegressionSettings ZeroStream (FourBinShell fun _ => ZeroNode) 4 5) 0).map
        Prod.snd = [1, 2] ∧
    (GrowTree RegressionSettings ZeroStream SkewShell 4 5 4).cLeaves =
      2 + (GrowPops RegressionSettings SkewShell.aBins 5 4 4
        (GrowStart RegressionSettings ZeroStream SkewShell 4 5) 0).length :=
  ⟨by decide!, by decide!, by decide!,
    (C16_pop_is_maximal RegressionSettings ZeroStream SkewShell 4 5 4 (by decide!)).1⟩

/-! ## C17: the tie list after the scan -/

/-- C17: on a node that holds the sample count of its bins (a count that
fits `size_t`), with `k_gainMin` not NaN and no NaN among the gains of the
eligible boundaries, after the scan of `FindBestSplitGain` the tie list is
`TieListSpec`: the eligible boundaries (both sides hold `cSamplesLeafMin`
samples) whose gain is not below `k_gainMin` and not below the gain of any
eligible boundary, in ascending order, each with the copy of the left
accumulator at that boundary. When some eligible boundary has a gain not
below `k_gainMin`, `BEST_gain` is the gain of an eligible boundary and no
eligible boundary has a gain above it; when none has, the tie list is empty
and `BEST_gain` is `k_gainMin`. -/
theorem C17_tie_list (E : Settings) (aBins : List Bin) (cSamplesLeafMin : Nat) (node : TreeNode)
    (hk : E.k_gainMin.isnan = false)
    (hcount : node.m_bin.m_cSamples =
      RangeCount E aBins node.m_pBinFirst (node.m_pBinLast - node.m_pBinFirst + 1))
    (hfit : RangeCount E aBins node.m_pBinFirst (node.m_pBinLast - node.m_pBinFirst + 1) <
      18446744073709551616)
    (hnan : ∀ k < node.m_pBinLast - node.m_pBinFirst,
      Eligible E aBins cSamplesLeafMin node k = true →
        (BoundaryGain E aBins node k).isnan = false) :
    (NodeSweep E aBins cSamplesLeafMin node).aTreeSweep =
      TieListSpec E aBins cSamplesLeafMin node ∧
    ((∃ k < node.m_pBinLast - node.m_pBinFirst,
        Eligible E aBins cSamplesLeafMin node k = true ∧
          E.k_gainMin.le (BoundaryGain E aBins node k) = true) →
      (∀ j < node.m_pBinLast - node.m_pBinFirst,
        Eligible E aBins cSamplesLeafMin node j = true →
          (BoundaryGain E aBins node j).le
            (NodeSweep E aBins cSamplesLeafMin node).BEST_gain = true) ∧
      ∃ k < node.m_pBinLast - node.m_pBinFirst,
        Eligible E aBins cSamplesLeafMin node k = true ∧
          (NodeSweep E aBins cSamplesLeafMin node).BEST_gain = BoundaryGain E aBins node k) ∧
    ((∀ k < node.m_pBinLast - node.m_pBinFirst,
        Eligible E aBins cSamplesLeafMin node k = true →
          E.k_gainMin.le (BoundaryGain E aBins node k) = false) →
      (NodeSweep E aBins cSamplesLeafMin node).aTreeSweep = [] ∧
      (NodeSweep E aBins cSamplesLeafMin node).BEST_gain = E.k_gainMin) := by
  have hve : ∀ i < node.m_pBinLast - node.m_pBinFirst,
      Visited E aBins cSamplesLeafMin node i = Eligible E aBins cSamplesLeafMin node i :=
    fun i hi => Visited_eq_Eligible E aBins cSamplesLeafMin node _ hcount hfit i (by omega)
  obtain ⟨I1, I2, I3, I4⟩ := NodeSweep_scan E aBins cSamplesLeafMin node hk
    (fun i hi hv => hnan i hi (by rw [← hve i hi]; exact hv))
  generalize NodeSweep E aBins cSamplesLeafMin node = s at I1 I2 I3 I4 ⊢
  have J2 : ∀ j < node.m_pBinLast - node.m_pBinFirst,
      Eligible E aBins cSamplesLeafMin node j = true →
        (BoundaryGain E aBins node j).le s.BEST_gain = true :=
    fun j hj he => I2 j hj (by rw [hve j hj]; exact he)
  have J4 : s.BEST_gain = E.k_gainMin ∨ ∃ i < node.m_pBinLast - node.m_pBinFirst,
      Eligible E aBins cSamplesLeafMin node i = true ∧
        s.BEST_gain = BoundaryGain E aBins node i := by
    rcases I4 with h | ⟨i, hi, hv, h⟩
    · exact Or.inl h
    · exact Or.inr ⟨i, hi, by rw [← hve i hi]; exact hv, h⟩
  refine ⟨?_, ?_, ?_⟩
  · rw [I1, TieListSpec]
    congr 1
    apply List.filter_congr
    intro i hi
    have hin : i < node.m_pBinLast - node.m_pBinFirst := List.mem_range.mp hi
    rw [hve i hin]
    by_cases he : Eligible E aBins cSamplesLeafMin node i = true
    · rw [he, Bool.true_and, Bool.true_and]
      rw [Bool.eq_iff_iff]
      simp only [Bool.and_eq_true, List.all_eq_true, List.mem_range, Bool.or_eq_true,
        Bool.not_eq_true']
      constructor
      · intro heq
        have hgb := FloatBig.eq_of_eq heq
        refine ⟨by rw [hgb]; exact I3, ?_⟩
        intro j hj
        by_cases hej : Eligible E aBins cSamplesLeafMin node j = true
        · right; rw [hgb]; exact J2 j hj hej
        · left; simpa using hej
      · rintro ⟨h1, h2⟩
        refine FloatBig.eq_of_le_le (J2 i hin he) ?_
        rcases J4 with h | ⟨j, hj, hej, h⟩
        · rw [h]; exact h1
        · rw [h]
          rcases h2 j hj with h3 | h3
          · rw [hej] at h3; exact absurd h3 (by simp)
          · exact h3
    · have he' : Eligible E aBins cSamplesLeafMin node i = false := by simpa using he
      rw [he', Bool.false_and, Bool.false_and]
  · rintro ⟨k, hk1, hk2, hk3⟩
    refine ⟨J2, ?_⟩
    rcases J4 with h | h
    · refine ⟨k, hk1, hk2, ?_⟩
      have h5 := J2 k hk1 hk2
      rw [h] at h5 ⊢
      exact FloatBig.eq_of_eq (FloatBig.eq_of_le_le hk3 h5)
    · exact h
  · intro hall
    have hB : s.BEST_gain = E.k_gainMin := by
      rcases J4 with h | ⟨i, hi, hei, h⟩
      · exact h
      · have := hall i hi hei
        rw [← h, I3] at this
        exact absurd this (by simp)
    refine ⟨?_, hB⟩
    rw [I1, List.map_eq_nil_iff, List.filter_eq_nil_iff]
    intro i hi
    have hin : i < node.m_pBinLast - node.m_pBinFirst := List.mem_range.mp hi
    rw [hve i hin]
    by_cases he : Eligible E aBins cSamplesLeafMin node i = true
    · have h1 := hall i hin he
      by_cases heq : (BoundaryGain E aBins node i).eq s.BEST_gain = true
      · rw [FloatBig.eq_of_eq heq, I3] at h1
        exact absurd h1 (by simp)
      · simp [heq]
    · simp [he]

/-- C17 holds on the root of the scenario of three bins without gradient
and on the root of the four-bin scenario: the tie list of the first holds
its two boundaries, in ascending order, and that of the second the middle
boundary alone. -/
theorem C17_tie_list_witness :
    ((NodeSweep RegressionSettings TieShell.aBins 1
      (RootArena RegressionSettings TieShell 3 0)).aTreeSweep.map fun e => e.m_pBestBin) =
      [0, 1] ∧
    (NodeSweep RegressionSettings TieShell.aBins 1
      (RootArena RegressionSettings TieShell 3 0)).aTreeSweep =
      TieListSpec RegressionSettings TieShell.aBins 1
        (RootArena RegressionSettings TieShell 3 0) ∧
    ((TieListSpec RegressionSettings (FourBinShell fun _ => ZeroNode).aBins 5
      (RootArena RegressionSettings (FourBinShell fun _ => ZeroNode) 4 0)).map
        fun e => e.m_pBestBin) = [1] ∧
    (NodeSweep RegressionSettings (FourBinShell fun _ => ZeroNode).aBins 5
      (RootArena RegressionSettings (FourBinShell fun _ => ZeroNode) 4 0)).aTreeSweep =
      TieListSpec RegressionSettings (FourBinShell fun _ => ZeroNode).aBins 5
        (RootArena RegressionSettings (FourBinShell fun _ => ZeroNode) 4 0) :=
  ⟨by decide!,
    (C17_tie_list RegressionSettings TieShell.aBins 1
      (RootArena RegressionSettings TieShell 3 0)
      (by decide!) (by decide!) (by decide!) (by decide!)).1,
    by decide!,
    (C17_tie_list RegressionSettings (FourBinShell fun _ => ZeroNode).aBins 5
      (RootArena RegressionSettings (FourBinShell fun _ => ZeroNode) 4 0)
      (by decide!) (by decide!) (by decide!) (by decide!)).1⟩

/-! ## C18: the ranges of the children and the split value -/

/-- C18, as stated, fails: on the scenario of four bins with gradient sums
-4, -2, 2, 4 and `cSamplesLeafMin = 5` the root is split with the split
value 1, which is emitted; the bin 1 is the last bin of the left child, and
the first bin of the right child is the bin 2, not the bin of the emitted
split value. -/
theorem C18_split_value_is_not_first_of_right :
    (RootFind RegressionSettings ZeroStream (FourBinShell fun _ => ZeroNode) 4 5).ret = 0 ∧
    (PartitionOneDimensionalBoosting RegressionSettings ZeroStream
      (FourBinShell fun _ => ZeroNode) 4 0 5 2).aSplits = [1] ∧
    ((RootFind RegressionSettings ZeroStream (FourBinShell fun _ => ZeroNode) 4 5).arena
      1).m_pBinLast = 1 ∧
    ((RootFind RegressionSettings ZeroStream (FourBinShell fun _ => ZeroNode) 4 5).arena
      2).m_pBinFirst = 2 ∧
    ¬ (((RootFind RegressionSettings ZeroStream (FourBinShell fun _ => ZeroNode) 4 5).arena
        2).m_pBinFirst =
      ((RootFind RegressionSettings ZeroStream (FourBinShell fun _ => ZeroNode) 4 5).arena
        0).m_splitVal) := by
  decide!

/-- C18, amended: when `FindBestSplitGain` returns 0 on a node whose bins
are `first .. last` (both included), the split value `b` recorded on the
node is a bin of the node other than the last one, the left child covers
the bins `first .. b` and the right child the bins `b + 1 .. last`: the bin
of the split value is the last bin of the left child. The node keeps its
range, its children are the two slots handed to the function, and `Flatten`
emits this split value between the values of the two children once the node
is formally split. -/
theorem C18_split_ranges (E : Settings) (aBins : List Bin) (rng : RandomDeterministic)
    (arena : Arena) (iNode iChildren cSamplesLeafMin : Nat)
    (hret : (FindBestSplitGain E aBins rng arena iNode iChildren cSamplesLeafMin).ret = 0)
    (h1 : iNode ≠ iChildren) (h2 : iNode ≠ iChildren + 1) :
    ((FindBestSplitGain E aBins rng arena iNode iChildren cSamplesLeafMin).arena
      iNode).m_pBinFirst = (arena iNode).m_pBinFirst ∧
    ((FindBestSplitGain E aBins rng arena iNode iChildren cSamplesLeafMin).arena
      iNode).m_pBinLast = (arena iNode).m_pBinLast ∧
    ((FindBestSplitGain E aBins rng arena iNode iChildren cSamplesLeafMin).arena
      iNode).m_pTreeNodeChildren = iChildren ∧
    (arena iNode).m_pBinFirst ≤
      ((FindBestSplitGain E aBins rng arena iNode iChildren cSamplesLeafMin).arena
        iNode).m_splitVal ∧
    ((FindBestSplitGain E aBins rng arena iNode iChildren cSamplesLeafMin).arena
      iNode).m_splitVal < (arena iNode).m_pBinLast ∧
    ((FindBestSplitGain E aBins rng arena iNode iChildren cSamplesLeafMin).arena
      iChildren).m_pBinFirst = (arena iNode).m_pBinFirst ∧
    ((FindBestSplitGain E aBins rng arena iNode iChildren cSamplesLeafMin).arena
      iChildren).m_pBinLast =
      ((FindBestSplitGain E aBins rng arena iNode iChildren cSamplesLeafMin).arena
        iNode).m_splitVal ∧
    ((FindBestSplitGain E aBins rng arena iNode iChildren cSamplesLeafMin).arena
      (iChildren + 1)).m_pBinFirst =
      ((FindBestSplitGain E aBins rng arena iNode iChildren cSamplesLeafMin).arena
        iNode).m_splitVal + 1 ∧
    ((FindBestSplitGain E aBins rng arena iNode iChildren cSamplesLeafMin).arena
      (iChildren + 1)).m_pBinLast = (arena iNode).m_pBinLast ∧
    (∀ (a : Arena) (fuel i : Nat), (a i).AFTER_IsSplit = true →
      (Flatten E a (fuel + 1) i).1 =
        (Flatten E a fuel (a i).m_pTreeNodeChildren).1 ++
          (a i).m_splitVal :: (Flatten E a fuel ((a i).m_pTreeNodeChildren + 1)).1) := by
  obtain ⟨hb, -, -, hc, hd⟩ :=
    FindBestSplitGain_BranchOk E aBins rng arena iNode iChildren cSamplesLeafMin hret h1 h2
  unfold BranchOk at hb
  rw [hc, hd.1, hd.2.1] at hb
  obtain ⟨b1, b2, b3, b4, b5, b6, -⟩ := hb
  refine ⟨hd.1, hd.2.1, hc, b1, b2, b3, b4, b5, b6, ?_⟩
  intro a fuel i hi
  simp [Flatten, hi]

/-- C18, amended, holds on the root of the four-bin scenario: the node
covers the bins 0 .. 3, the left child ends at the bin 1 of the split value
and the right child starts at the bin 2. -/
theorem C18_split_ranges_witness :
    ((FindBestSplitGain RegressionSettings (FourBinShell fun _ => ZeroNode).aBins ZeroStream
      (RootArena RegressionSettings (FourBinShell fun _ => ZeroNode) 4) 0 1 5).arena
      0).m_splitVal = 1 ∧
    ((FindBestSplitGain RegressionSettings (FourBinShell fun _ => ZeroNode).aBins ZeroStream
      (RootArena RegressionSettings (FourBinShell fun _ => ZeroNode) 4) 0 1 5).arena
      1).m_pBinLast =
      ((FindBestSplitGain RegressionSettings (FourBinShell fun _ => ZeroNode).aBins ZeroStream
        (RootArena RegressionSettings (FourBinShell fun _ => ZeroNode) 4) 0 1 5).arena
        0).m_splitVal ∧
    ((FindBestSplitGain RegressionSettings (FourBinShell fun _ => ZeroNode).aBins ZeroStream
      (RootArena RegressionSettings (FourBinShell fun _ => ZeroNode) 4) 0 1 5).arena
      (1 + 1)).m_pBinFirst =
      ((FindBestSplitGain RegressionSettings (FourBinShell fun _ => ZeroNode).aBins ZeroStream
        (RootArena RegressionSettings (FourBinShell fun _ => ZeroNode) 4) 0 1 5).arena
        0).m_splitVal + 1 :=
  ⟨by decide!,
    (C18_split_ranges RegressionSettings (FourBinShell fun _ => ZeroNode).aBins ZeroStream
      (RootArena RegressionSettings (FourBinShell fun _ => ZeroNode) 4) 0 1 5
      (by decide!) (by decide) (by decide)).2.2.2.2.2.2.1,
    (C18_split_ranges RegressionSettings (FourBinShell fun _ => ZeroNode).aBins ZeroStream
      (RootArena RegressionSettings (FourBinShell fun _ => ZeroNode) 4) 0 1 5
      (by decide!) (by decide) (by decide)).2.2.2.2.2.2.2.1⟩

/-! ## C19: the outcomes of the split finder -/

/-- C19: with `0 <= k_gainMin` (asserted by the source), on a node that does
not lie in its own child slots, `FindBestSplitGain` returns 1 when the tie
list is empty after the scan; otherwise -1 when the winning gain is NaN or
+infinity; otherwise, with the net gain the winning gain minus the partial
gains of the aggregate of the node over the scores, it returns -1 when the
net gain is NaN or -infinity, 1 when the net gain is finite and below
`k_gainMin`, and 0 in the remaining cases, and then the split gain stored on
the node is exactly the net gain. -/
theorem C19_outcome_classification (E : Settings) (aBins : List Bin)
    (rng : RandomDeterministic) (arena : Arena) (iNode iChildren cSamplesLeafMin : Nat)
    (hk : (FloatBig.fin 0).le E.k_gainMin = true)
    (h1 : iNode ≠ iChildren) (h2 : iNode ≠ iChildren + 1) :
    ((NodeSweep E aBins cSamplesLeafMin (arena iNode)).aTreeSweep = [] →
      (FindBestSplitGain E aBins rng arena iNode iChildren cSamplesLeafMin).ret = 1) ∧
    ((NodeSweep E aBins cSamplesLeafMin (arena iNode)).aTreeSweep ≠ [] →
      ((NodeSweep E aBins cSamplesLeafMin (arena iNode)).BEST_gain.isnan = true ∨
        (NodeSweep E aBins cSamplesLeafMin (arena iNode)).BEST_gain = .pinf) →
      (FindBestSplitGain E aBins rng arena iNode iChildren cSamplesLeafMin).ret = -1) ∧
    ((NodeSweep E aBins cSamplesLeafMin (arena iNode)).aTreeSweep ≠ [] →
      (NodeSweep E aBins cSamplesLeafMin (arena iNode)).BEST_gain.isnan = false →
      (NodeSweep E aBins cSamplesLeafMin (arena iNode)).BEST_gain ≠ .pinf →
      (((NetSplitGain E aBins cSamplesLeafMin (arena iNode)).isnan = true ∨
          NetSplitGain E aBins cSamplesLeafMin (arena iNode) = .ninf) →
        (FindBestSplitGain E aBins rng arena iNode iChildren cSamplesLeafMin).ret = -1) ∧
      ((NetSplitGain E aBins cSamplesLeafMin (arena iNode)).isnan = false →
        (NetSplitGain E aBins cSamplesLeafMin (arena iNode)).isinf = false →
        (NetSplitGain E aBins cSamplesLeafMin (arena iNode)).lt E.k_gainMin = true →
        (FindBestSplitGain E aBins rng arena iNode iChildren cSamplesLeafMin).ret = 1) ∧
      ((NetSplitGain E aBins cSamplesLeafMin (arena iNode)).isnan = false →
        NetSplitGain E aBins cSamplesLeafMin (arena iNode) ≠ .ninf →
        ((NetSplitGain E aBins cSamplesLeafMin (arena iNode)).isinf = true ∨
          (NetSplitGain E aBins cSamplesLeafMin (arena iNode)).lt E.k_gainMin = false) →
        (FindBestSplitGain E aBins rng arena iNode iChildren cSamplesLeafMin).ret = 0 ∧
        ((FindBestSplitGain E aBins rng arena iNode iChildren cSamplesLeafMin).arena
          iNode).m_splitGain = some (NetSplitGain E aBins cSamplesLeafMin (arena iNode)))) := by
  have hs : ScratchChildren arena iNode iChildren
      (NodeSweep E aBins cSamplesLeafMin (arena iNode)) iNode = arena iNode :=
    ScratchChildren_other arena iNode iChildren _ iNode h1 h2
  refine ⟨?_, ?_, ?_⟩
  · intro h0
    simp [FindBestSplitGain, h0]
  · intro h0 hb
    have he : (NodeSweep E aBins cSamplesLeafMin (arena iNode)).aTreeSweep.isEmpty = false := by
      cases hl : (NodeSweep E aBins cSamplesLeafMin (arena iNode)).aTreeSweep with
      | nil => exact absurd hl h0
      | cons x xs => rfl
    have hm : (NodeSweep E aBins cSamplesLeafMin (arena iNode)).BEST_gain.leMax = false := by
      rcases hb with hb | hb
      · cases hg : (NodeSweep E aBins cSamplesLeafMin (arena iNode)).BEST_gain <;>
          simp_all [FloatBig.isnan, FloatBig.leMax]
      · rw [hb]; rfl
    simp [FindBestSplitGain, he, hm]
  · intro h0 hn hp
    have he : (NodeSweep E aBins cSamplesLeafMin (arena iNode)).aTreeSweep.isEmpty = false := by
      cases hl : (NodeSweep E aBins cSamplesLeafMin (arena iNode)).aTreeSweep with
      | nil => exact absurd hl h0
      | cons x xs => rfl
    have hm : (NodeSweep E aBins cSamplesLeafMin (arena iNode)).BEST_gain.leMax = true := by
      cases hg : (NodeSweep E aBins cSamplesLeafMin (arena iNode)).BEST_gain <;>
        simp_all [FloatBig.isnan, FloatBig.leMax]
    simp only [NetSplitGain]
    generalize hnet : SubtractParentGain E (arena iNode).m_bin
      (NodeSweep E aBins cSamplesLeafMin (arena iNode)).BEST_gain = net
    have hF : (FindBestSplitGain E aBins rng arena iNode iChildren cSamplesLeafMin) =
        if !(E.k_gainMin.le net) then
          { ret := if net.lowestLe then 1 else -1,
            arena := ScratchChildren arena iNode iChildren
              (NodeSweep E aBins cSamplesLeafMin (arena iNode)), rng := rng }
        else
          { ret := 0,
            arena := CommitSplit E (ScratchChildren arena iNode iChildren
              (NodeSweep E aBins cSamplesLeafMin (arena iNode))) iNode iChildren
              (PickSweep E rng (NodeSweep E aBins cSamplesLeafMin (arena iNode)).aTreeSweep).1 net,
            rng := (PickSweep E rng
              (NodeSweep E aBins cSamplesLeafMin (arena iNode)).aTreeSweep).2 } := by
      simp only [FindBestSplitGain, he, hm, hs, hnet]
      simp
    refine ⟨?_, ?_, ?_⟩
    · intro hx
      have hle : E.k_gainMin.le net = false := by
        rcases hx with hx | hx
        · cases net <;> simp_all [FloatBig.isnan, FloatBig.le_nan]
        · rw [hx]; exact FloatBig.le_ninf_of_zero_le hk
      have hlow : net.lowestLe = false := by
        rcases hx with hx | hx
        · cases net <;> simp_all [FloatBig.isnan, FloatBig.lowestLe]
        · rw [hx]; rfl
      rw [hF]
      simp [hle, hlow]
    · intro a b c
      have hle : E.k_gainMin.le net = false := by
        rw [FloatBig.le_eq_not_lt hk a, c]; rfl
      have hlow : net.lowestLe = true := by
        cases net <;> simp_all [FloatBig.isnan, FloatBig.isinf, FloatBig.lowestLe]
      rw [hF]
      simp [hle, hlow]
    · intro a b c
      have hle : E.k_gainMin.le net = true := by
        rcases c with c | c
        · have hpi : net = .pinf := by
            cases net <;> simp_all [FloatBig.isinf]
          rw [hpi]; exact FloatBig.le_pinf_of_zero_le hk
        · rw [FloatBig.le_eq_not_lt hk a, c]; rfl
      rw [hF]
      simp only [hle, Bool.not_true, Bool.false_eq_true, if_false]
      refine ⟨trivial, ?_⟩
      rw [CommitSplit_node E _ _ _ _ _ h1 h2]

/-- C19 holds on the root of the four-bin scenario: the tie list is not
empty, the winning gain and the net gain 18/5 are finite, the net gain is
not below `k_gainMin`, and the function returns 0 and stores the net gain. -/
theorem C19_outcome_classification_witness :
    NetSplitGain RegressionSettings (FourBinShell fun _ => ZeroNode).aBins 5
      (RootArena RegressionSettings (FourBinShell fun _ => ZeroNode) 4 0) = .fin (18 / 5) ∧
    (FindBestSplitGain RegressionSettings (FourBinShell fun _ => ZeroNode).aBins ZeroStream
      (RootArena RegressionSettings (FourBinShell fun _ => ZeroNode) 4) 0 1 5).ret = 0 ∧
    ((FindBestSplitGain RegressionSettings (FourBinShell fun _ => ZeroNode).aBins ZeroStream
      (RootArena RegressionSettings (FourBinShell fun _ => ZeroNode) 4) 0 1 5).arena
        0).m_splitGain =
      some (NetSplitGain RegressionSettings (FourBinShell fun _ => ZeroNode).aBins 5
        (RootArena RegressionSettings (FourBinShell fun _ => ZeroNode) 4 0)) :=
  ⟨by decide!,
    ((C19_outcome_classification RegressionSettings (FourBinShell fun _ => ZeroNode).aBins
      ZeroStream (RootArena RegressionSettings (FourBinShell fun _ => ZeroNode) 4) 0 1 5
      (by decide!) (by decide) (by decide)).2.2
      (fun h => absurd (congrArg List.isEmpty h) (by decide!)) (by decide!) (by decide!)).2.2
      (by decide!) (by decide!) (Or.inr (by decide!))⟩
/-! ## C20: NaN gains -/

/-- C20: with the second-order oracle of the sample settings (a partial gain
`sumGradient / sumHessian * sumGradient`, replaced by 0 when the hessian is
below `k_hessianMin`) and `0 <= k_gainMin`, on a node whose aggregate is the
sum of its bins and whose bins have hessians (weights, when the hessians are
not tracked) that are not negative: when the scan computes the gain of a
boundary (the boundary is reached and holds `cSamplesLeafMin` samples on
both sides) and this gain is NaN, `FindBestSplitGain` returns -1; it neither
splits the node (0) nor reports it as not splittable (1). The node, as in
every call, is not one of the two child slots at the cursor. -/
theorem C20_nan_gain_is_overflow (E : Settings) (aBins : List Bin) (rng : RandomDeterministic)
    (arena : Arena) (iNode iChildren cSamplesLeafMin j : Nat)
    (hE : E.CalcPartialGain = RegressionSettings.CalcPartialGain)
    (hk : (FloatBig.fin 0).le E.k_gainMin = true)
    (h1 : iNode ≠ iChildren) (h2 : iNode ≠ iChildren + 1)
    (hsum : NodeSum E aBins (arena iNode))
    (hw : ∀ i, (arena iNode).m_pBinFirst ≤ i → i ≤ (arena iNode).m_pBinLast →
      ∀ s < E.cScores,
        (FloatBig.fin 0).le (GainHessian E (aBins.getD i (Bin.Zero E.cScores)) s) = true)
    (hj : j < (arena iNode).m_pBinLast - (arena iNode).m_pBinFirst)
    (hv : Visited E aBins cSamplesLeafMin (arena iNode) j = true)
    (hg : (BoundaryGain E aBins (arena iNode) j).isnan = true) :
    (FindBestSplitGain E aBins rng arena iNode iChildren cSamplesLeafMin).ret = -1 ∧
    (FindBestSplitGain E aBins rng arena iNode iChildren cSamplesLeafMin).ret ≠ 0 ∧
    (FindBestSplitGain E aBins rng arena iNode iChildren cSamplesLeafMin).ret ≠ 1 := by
  have ho : ∀ g h, (E.CalcPartialGain g h).isnan = true ∨
      (FloatBig.fin 0).le (E.CalcPartialGain g h) = true := by
    intro g h; rw [hE]; exact RegressionSettings_gain_nonneg g h
  have main : (FindBestSplitGain E aBins rng arena iNode iChildren cSamplesLeafMin).ret = -1 := by
    obtain ⟨s, hs, hside⟩ := CalcSplitGain_nan_term E _ _ ho hg
    rcases hside with hR | hL
    · rw [hE] at hR
      rcases GuardedGain_nan_cases hR with hn | ⟨hnn, hlt, hnf⟩
      · refine FindBestSplitGain_nan_tail E aBins rng arena iNode iChildren cSamplesLeafMin j
          hj hv hg ?_
        intro i hji hi _
        refine CalcSplitGain_nan_of E _ _ s hs (Or.inl ?_)
        have := RightAcc_hessian_nan E aBins (arena iNode) s hs (j + 1) hn (i - j)
        have e : j + 1 + (i - j) = i + 1 := by omega
        rw [e] at this
        rw [hE]
        exact GuardedGain_nan_of_hessian _ this
      · obtain ⟨p1, p2⟩ := RightAcc_hessian_back E aBins (arena iNode) s hs (j + 1) hnn hlt
          (fun i hi => hw _ (by omega) (by omega) s hs)
        have p3 : ∀ q : ℚ, ((arena iNode).m_bin.pair s).m_sumGradients ≠ .fin q := by
          intro q hq
          have hall := BinSum_grad_fin E aBins (arena iNode).m_pBinFirst s hs
            ((arena iNode).m_pBinLast + 1 - (arena iNode).m_pBinFirst)
            ⟨q, by rw [← hsum.2]; exact hq⟩
          obtain ⟨x, hx⟩ := RightAcc_grad_fin E aBins (arena iNode) s hs ⟨q, hq⟩ (j + 1)
            (fun i hi => hall i (by omega))
          exact hnf x hx
        have hbad := GuardedGain_bad p1 p2 p3
        rw [← hE] at hbad
        refine FindBestSplitGain_parent_bad E aBins rng arena iNode iChildren cSamplesLeafMin
          h1 h2 hk ho ?_ s hs hbad
        have := SweepLoop_recorded E aBins cSamplesLeafMin (arena iNode) j hv hg
          ((arena iNode).m_pBinLast - (arena iNode).m_pBinFirst) 0
          (SweepInit E (arena iNode).m_bin) rfl rfl (fun i hi => absurd hi (by omega))
          (by omega) (Or.inl (by omega))
        simpa [NodeSweep] using this
    · refine FindBestSplitGain_nan_tail E aBins rng arena iNode iChildren cSamplesLeafMin j
        hj hv hg ?_
      intro i hji hi _
      refine CalcSplitGain_nan_of E _ _ s hs (Or.inr ?_)
      have := BinSum_gain_nan E aBins (arena iNode).m_pBinFirst s hs hE (j + 1) hL (i - j)
        (fun i' k1 k2 => hw _ (by omega) (by omega) s hs)
      have e : j + 1 + (i - j) = i + 1 := by omega
      rw [e] at this
      exact this
  exact ⟨main, by rw [main]; decide, by rw [main]; decide⟩

/-- C20 holds on the roots of two scenarios of the sample settings with
`cSamplesLeafMin = 5`. With the gradient sums +infinity, 0, 0 and the
weights 10, 10, 0 the gain of the first boundary is NaN (the right gradient
sum is +infinity minus +infinity) and the gain of the second boundary is
+infinity, which becomes the best gain; `FindBestSplitGain` returns -1. With
the weights of the second scenario the gain of the first boundary is NaN and
that of the second boundary is 0, which becomes the best gain with the tie
list holding the bin 1; the partial gain of the root is +infinity, the net
gain is -infinity and `FindBestSplitGain` returns -1. -/
theorem C20_nan_gain_is_overflow_witness :
    ((BoundaryGain RegressionSettings NanGainShell.aBins
        (RootArena RegressionSettings NanGainShell 3 0) 0).isnan = true ∧
      BoundaryGain RegressionSettings NanGainShell.aBins
        (RootArena RegressionSettings NanGainShell 3 0) 1 = .pinf ∧
      (NodeSweep RegressionSettings NanGainShell.aBins 5
        (RootArena RegressionSettings NanGainShell 3 0)).BEST_gain = .pinf ∧
      (FindBestSplitGain RegressionSettings NanGainShell.aBins ZeroStream
        (RootArena RegressionSettings NanGainShell 3) 0 1 5).ret = -1) ∧
    ((BoundaryGain RegressionSettings TinyWeightShell.aBins
        (RootArena RegressionSettings TinyWeightShell 3 0) 0).isnan = true ∧
      BoundaryGain RegressionSettings TinyWeightShell.aBins
        (RootArena RegressionSettings TinyWeightShell 3 0) 1 = .fin 0 ∧
      (NodeSweep RegressionSettings TinyWeightShell.aBins 5
        (RootArena RegressionSettings TinyWeightShell 3 0)).BEST_gain = .fin 0 ∧
      (NodeSweep RegressionSettings TinyWeightShell.aBins 5
        (RootArena RegressionSettings TinyWeightShell 3 0)).aTreeSweep.map
          (fun e => e.m_pBestBin) = [1] ∧
      NetSplitGain RegressionSettings TinyWeightShell.aBins 5
        (RootArena RegressionSettings TinyWeightShell 3 0) = .ninf ∧
      (FindBestSplitGain RegressionSettings TinyWeightShell.aBins ZeroStream
        (RootArena RegressionSettings TinyWeightShell 3) 0 1 5).ret = -1) :=
  ⟨⟨by decide!, by decide!, by decide!,
    (C20_nan_gain_is_overflow RegressionSettings NanGainShell.aBins ZeroStream
      (RootArena RegressionSettings NanGainShell 3) 0 1 5 0 rfl (by decide!) (by decide)
      (by decide) (by unfold NodeSum; decide!)
      (by
        intro i _ hi s hs
        have h2 : i ≤ 2 := hi
        have h3 : s = 0 := by
          have : s < 1 := hs
          omega
        subst h3
        interval_cases i <;> decide!)
      (by decide!) (by decide!) (by decide!)).1⟩,
    ⟨by decide!, by decide!, by decide!, by decide!, by decide!,
    (C20_nan_gain_is_overflow RegressionSettings TinyWeightShell.aBins ZeroStream
      (RootArena RegressionSettings TinyWeightShell 3) 0 1 5 0 rfl (by decide!) (by decide)
      (by decide) (by unfold NodeSum; decide!)
      (by
        intro i _ hi s hs
        have h2 : i ≤ 2 := hi
        have h3 : s = 0 := by
          have : s < 1 := hs
          omega
        subst h3
        interval_cases i <;> decide!)
      (by decide!) (by decide!) (by decide!)).1⟩⟩

/-! ## C21: the fast path and the general path -/

/-- C21: when the root is split and `cLeavesMax` or `cBins` is 2, the fast
path gives what the general path (`GeneralPath`: the loop, the sizing of the
container and `Flatten`, run without the test for the fast path) gives on
the same input: the same error code, split count, split values and scores,
and on success the same total gain. On success the split count is 1, the
split value is that of the root, the scores are those of the left child
followed by those of the right child, and the total gain is the gain of the
root, its net gain. The build is one where a regression has one score and
where, with `ZERO_FIRST_MULTICLASS_LOGIT`, a classification is multiclass
exactly when it has two scores or more, and the container has room for
`2 * cScores` scores, which the fast path takes for granted. -/
theorem C21_fast_path_is_general_path (E : Settings) (rng : RandomDeterministic)
    (shell : BoosterShell) (cBins iDimension cSamplesLeafMin cLeavesMax : Nat)
    (hret : (RootFind E rng shell cBins cSamplesLeafMin).ret = 0)
    (hfast : cLeavesMax = 2 ∨ cBins = 2)
    (hreg : E.bClassification = false → E.cScores = 1)
    (hmc : E.bClassification = true → E.bZeroFirstMulticlassLogit = true →
      E.bMulticlass = decide (2 ≤ E.cScores))
    (hmul : IsMultiplyError E.cScores 2 = false)
    (hcap : shell.innerTermUpdate.EnsureTensorScoreCapacity (E.cScores * 2) = .Error_None) :
    (PartitionOneDimensionalBoosting E rng shell cBins iDimension cSamplesLeafMin
        cLeavesMax).error =
      (GeneralPath E rng shell cBins iDimension cSamplesLeafMin cLeavesMax).error ∧
    (PartitionOneDimensionalBoosting E rng shell cBins iDimension cSamplesLeafMin
        cLeavesMax).cSplits =
      (GeneralPath E rng shell cBins iDimension cSamplesLeafMin cLeavesMax).cSplits ∧
    (PartitionOneDimensionalBoosting E rng shell cBins iDimension cSamplesLeafMin
        cLeavesMax).aSplits =
      (GeneralPath E rng shell cBins iDimension cSamplesLeafMin cLeavesMax).aSplits ∧
    (PartitionOneDimensionalBoosting E rng shell cBins iDimension cSamplesLeafMin
        cLeavesMax).aScores =
      (GeneralPath E rng shell cBins iDimension cSamplesLeafMin cLeavesMax).aScores ∧
    ((PartitionOneDimensionalBoosting E rng shell cBins iDimension cSamplesLeafMin
        cLeavesMax).error = .Error_None →
      (PartitionOneDimensionalBoosting E rng shell cBins iDimension cSamplesLeafMin
          cLeavesMax).totalGain =
        (GeneralPath E rng shell cBins iDimension cSamplesLeafMin cLeavesMax).totalGain ∧
      (PartitionOneDimensionalBoosting E rng shell cBins iDimension cSamplesLeafMin
        cLeavesMax).cSplits = some 1 ∧
      (PartitionOneDimensionalBoosting E rng shell cBins iDimension cSamplesLeafMin
        cLeavesMax).aSplits =
        [((RootFind E rng shell cBins cSamplesLeafMin).arena 0).m_splitVal] ∧
      (PartitionOneDimensionalBoosting E rng shell cBins iDimension cSamplesLeafMin
        cLeavesMax).aScores =
        FastScores E ((RootFind E rng shell cBins cSamplesLeafMin).arena
          ((RootFind E rng shell cBins cSamplesLeafMin).arena 0).m_pTreeNodeChildren) ++
        FastScores E ((RootFind E rng shell cBins cSamplesLeafMin).arena
          (((RootFind E rng shell cBins cSamplesLeafMin).arena 0).m_pTreeNodeChildren + 1)) ∧
      (PartitionOneDimensionalBoosting E rng shell cBins iDimension cSamplesLeafMin
        cLeavesMax).totalGain =
        some (NetSplitGain E shell.aBins cSamplesLeafMin (RootArena E shell cBins 0))) := by
  obtain ⟨G1, G2, G3⟩ := GeneralPath_fast E rng shell cBins iDimension cSamplesLeafMin
    cLeavesMax hret hfast hmul hcap
  obtain ⟨-, k2, -, -, -⟩ := FindBestSplitGain_BranchOk E shell.aBins rng
    (RootArena E shell cBins) 0 1 cSamplesLeafMin hret (by decide) (by decide)
  have k2' : ((RootFind E rng shell cBins cSamplesLeafMin).arena 0).m_splitGain =
      some (NetSplitGain E shell.aBins cSamplesLeafMin (RootArena E shell cBins 0)) := k2
  have hgain : ((RootFind E rng shell cBins cSamplesLeafMin).arena 0).AFTER_GetSplitGain =
      NetSplitGain E shell.aBins cSamplesLeafMin (RootArena E shell cBins 0) := by
    simp only [TreeNode.AFTER_GetSplitGain, k2', Option.getD_some]
  unfold PartitionOneDimensionalBoosting
  by_cases c : shell.innerTermUpdate.SetCountSplits 1 ≠ .Error_None
  · obtain ⟨c1, c2, c3⟩ := G2 c
    have hF : PartitionOneDimensionalBoostingInternal.Func E rng shell cBins iDimension
        cSamplesLeafMin cLeavesMax =
        { error := shell.innerTermUpdate.SetCountSplits 1, totalGain := none,
          iDimension := iDimension, cSplits := none, aSplits := [], aScores := [],
          rng := (RootFind E rng shell cBins cSamplesLeafMin).rng } := by
      simp only [PartitionOneDimensionalBoostingInternal.Func]
      rw [if_neg (not_not.mpr hret), if_pos hfast, if_pos c]
    rw [hF, G1, c1, c2, c3]
    exact ⟨rfl, rfl, rfl, rfl, fun hc => absurd hc c⟩
  · have c' := not_not.mp c
    obtain ⟨c1, c2, c3, c4⟩ := G3 c'
    have hok : (PartitionOneDimensionalBoostingInternal.Func E rng shell cBins iDimension
        cSamplesLeafMin cLeavesMax).error = .Error_None := by
      simp only [PartitionOneDimensionalBoostingInternal.Func]
      rw [if_neg (not_not.mpr hret), if_pos hfast, if_neg c]
    rw [Func_fast E rng shell cBins iDimension cSamplesLeafMin cLeavesMax hret hfast hok,
      G1, c1, c2, c3, c4, c',
      FlattenLeaf_eq_FastScores E _ hreg hmc, FlattenLeaf_eq_FastScores E _ hreg hmc]
    exact ⟨rfl, rfl, rfl, rfl, fun _ => ⟨rfl, rfl, rfl, rfl, by rw [hgain]⟩⟩

/-- C21 holds on the four-bin scenario with `cLeavesMax = 2`: the call
succeeds with the split value 1 and the scores 3/10 and -3/10 of the two
children of the root, which are the split values and the scores of the
general path. -/
theorem C21_fast_path_is_general_path_witness :
    (PartitionOneDimensionalBoosting RegressionSettings ZeroStream
      (FourBinShell fun _ => ZeroNode) 4 0 5 2).aSplits = [1] ∧
    (PartitionOneDimensionalBoosting RegressionSettings ZeroStream
      (FourBinShell fun _ => ZeroNode) 4 0 5 2).aScores = [.fin (3 / 10), .fin (-3 / 10)] ∧
    (PartitionOneDimensionalBoosting RegressionSettings ZeroStream
        (FourBinShell fun _ => ZeroNode) 4 0 5 2).aSplits =
      (GeneralPath RegressionSettings ZeroStream (FourBinShell fun _ => ZeroNode) 4 0 5
        2).aSplits ∧
    (PartitionOneDimensionalBoosting RegressionSettings ZeroStream
        (FourBinShell fun _ => ZeroNode) 4 0 5 2).aScores =
      (GeneralPath RegressionSettings ZeroStream (FourBinShell fun _ => ZeroNode) 4 0 5
        2).aScores :=
  ⟨by decide!, by decide!,
    (C21_fast_path_is_general_path RegressionSettings ZeroStream
      (FourBinShell fun _ => ZeroNode) 4 0 5 2 (by decide!) (Or.inl rfl) (fun _ => rfl)
      (fun h => absurd h (by decide)) (by decide) (by decide)).2.2.1,
    (C21_fast_path_is_general_path RegressionSettings ZeroStream
      (FourBinShell fun _ => ZeroNode) 4 0 5 2 (by decide!) (Or.inl rfl) (fun _ => rfl)
      (fun h => absurd h (by decide)) (by decide) (by decide)).2.2.2.1⟩

/-! ## C22: the early exit of the scan -/

/-- C22: on a node that holds the sample count of its bins (a count that
fits `size_t`), once the right accumulator holds fewer than
`cSamplesLeafMin` samples at a boundary, no boundary from this one on is
eligible, and the scan of `FindBestSplitGain`, which stops there, records
the same tie list and the same best gain as the scan without the early exit
(`NodeSweepAll`), which examines every boundary of the node. -/
theorem C22_early_exit_sound (E : Settings) (aBins : List Bin) (cSamplesLeafMin : Nat)
    (node : TreeNode)
    (hcount : node.m_bin.m_cSamples =
      RangeCount E aBins node.m_pBinFirst (node.m_pBinLast - node.m_pBinFirst + 1))
    (hfit : RangeCount E aBins node.m_pBinFirst (node.m_pBinLast - node.m_pBinFirst + 1) <
      18446744073709551616) :
    (∀ k j, k ≤ j → j < node.m_pBinLast - node.m_pBinFirst →
      (RightAcc E aBins node (k + 1)).m_cSamples < cSamplesLeafMin →
      (RightAcc E aBins node (j + 1)).m_cSamples ≤ (RightAcc E aBins node (k + 1)).m_cSamples ∧
      Eligible E aBins cSamplesLeafMin node j = false) ∧
    (NodeSweep E aBins cSamplesLeafMin node).aTreeSweep =
      (NodeSweepAll E aBins cSamplesLeafMin node).aTreeSweep ∧
    (NodeSweep E aBins cSamplesLeafMin node).BEST_gain =
      (NodeSweepAll E aBins cSamplesLeafMin node).BEST_gain := by
  refine ⟨?_, ?_⟩
  · intro k j hkj hj hlt
    have h1 := RightAcc_count E aBins node _ hcount hfit (k + 1) (by omega)
    have h2 := RightAcc_count E aBins node _ hcount hfit (j + 1) (by omega)
    have h3 := RangeCount_mono E aBins node.m_pBinFirst (k + 1) (j - k)
    have e : k + 1 + (j - k) = j + 1 := by omega
    rw [e] at h3
    have hle : (RightAcc E aBins node (j + 1)).m_cSamples ≤
        (RightAcc E aBins node (k + 1)).m_cSamples := by omega
    refine ⟨hle, ?_⟩
    simp only [Eligible, Bool.and_eq_false_iff, decide_eq_false_iff_not, not_le]
    exact Or.inr (by omega)
  · unfold NodeSweep NodeSweepAll
    refine SweepLoop_eq_All E aBins cSamplesLeafMin _ _ _ ?_ ?_
    · have := RangeCount_mono E aBins node.m_pBinFirst (node.m_pBinLast - node.m_pBinFirst) 1
      simp only [SweepInit, Bin.Copy]
      omega
    · simp only [SweepInit, Bin.Copy]
      omega

/-- C22 holds on the root of the four-bin scenario with
`cSamplesLeafMin = 15`: the right accumulator holds 10 samples at the last
boundary, where the scan stops, and both scans record the boundary behind
the bin 1 alone. -/
theorem C22_early_exit_sound_witness :
    (RightAcc RegressionSettings (FourBinShell fun _ => ZeroNode).aBins
      (RootArena RegressionSettings (FourBinShell fun _ => ZeroNode) 4 0) 3).m_cSamples = 10 ∧
    ((NodeSweep RegressionSettings (FourBinShell fun _ => ZeroNode).aBins 15
      (RootArena RegressionSettings (FourBinShell fun _ => ZeroNode) 4 0)).aTreeSweep.map
        fun e => e.m_pBestBin) = [1] ∧
    (NodeSweep RegressionSettings (FourBinShell fun _ => ZeroNode).aBins 15
      (RootArena RegressionSettings (FourBinShell fun _ => ZeroNode) 4 0)).aTreeSweep =
      (NodeSweepAll RegressionSettings (FourBinShell fun _ => ZeroNode).aBins 15
        (RootArena RegressionSettings (FourBinShell fun _ => ZeroNode) 4 0)).aTreeSweep :=
  ⟨by decide!, by decide!,
    (C22_early_exit_sound RegressionSettings (FourBinShell fun _ => ZeroNode).aBins 15
      (RootArena RegressionSettings (FourBinShell fun _ => ZeroNode) 4 0)
      (by decide!) (by decide!)).2.1⟩

/-! ## C23: the gains that the priority queue compares -/

/-- C23: with `0 <= k_gainMin` and partial gains of the oracle that are NaN
or not negative (both asserted by the source), a node on which
`FindBestSplitGain` returns 0 receives a split gain that is finite (neither
NaN nor infinite) and not negative. This holds for the root when it is
split and for every child that the loop pushes on the priority queue, which
is pushed with such a gain while the other slots below the cursor keep their
content; and at every pop of the loop and at its end every node of the queue
carries a finite gain that is not negative, so that the comparator never
compares a NaN. -/
theorem C23_queue_gains_finite (E : Settings) (rng : RandomDeterministic) (shell : BoosterShell)
    (cBins cSamplesLeafMin cLeavesMax : Nat)
    (hk : (FloatBig.fin 0).le E.k_gainMin = true)
    (ho : ∀ g h, (E.CalcPartialGain g h).isnan = true ∨
      (FloatBig.fin 0).le (E.CalcPartialGain g h) = true) :
    (∀ (r : RandomDeterministic) (arena : Arena) (iNode iChildren : Nat),
      iNode ≠ iChildren → iNode ≠ iChildren + 1 →
      (FindBestSplitGain E shell.aBins r arena iNode iChildren cSamplesLeafMin).ret = 0 →
      ∃ q : ℚ, 0 ≤ q ∧
        ((FindBestSplitGain E shell.aBins r arena iNode iChildren cSamplesLeafMin).arena
          iNode).m_splitGain = some (.fin q)) ∧
    (∀ (g : Growth) (x : Nat), x ≠ g.iStorageCur → x ≠ g.iStorageCur + 1 →
      (g.arena x).BEFORE_IsSplittable = true →
      (FindBestSplitGain E shell.aBins g.rng g.arena x g.iStorageCur cSamplesLeafMin).ret = 0 →
      (ExamineChild E shell.aBins cSamplesLeafMin g x).bestTreeNodeToSplit =
        x :: g.bestTreeNodeToSplit ∧
      (∃ q : ℚ, 0 ≤ q ∧
        ((ExamineChild E shell.aBins cSamplesLeafMin g x).arena x).AFTER_GetSplitGain = .fin q) ∧
      ∀ j, j ≠ x → j < g.iStorageCur →
        (ExamineChild E shell.aBins cSamplesLeafMin g x).arena j = g.arena j) ∧
    ((RootFind E rng shell cBins cSamplesLeafMin).ret = 0 →
      (∃ q : ℚ, 0 ≤ q ∧
        ((RootFind E rng shell cBins cSamplesLeafMin).arena 0).AFTER_GetSplitGain = .fin q) ∧
      (∀ x ∈ GrowPops E shell.aBins cSamplesLeafMin cLeavesMax cLeavesMax
          (GrowStart E rng shell cBins cSamplesLeafMin) 0,
        ∀ q ∈ x.1.bestTreeNodeToSplit,
          ∃ v : ℚ, 0 ≤ v ∧ (x.1.arena q).AFTER_GetSplitGain = .fin v) ∧
      ∀ q ∈ (GrowTree E rng shell cBins cSamplesLeafMin cLeavesMax).bestTreeNodeToSplit,
        ∃ v : ℚ, 0 ≤ v ∧
          ((GrowTree E rng shell cBins cSamplesLeafMin cLeavesMax).arena
            q).AFTER_GetSplitGain = .fin v) := by
  refine ⟨?_, ?_, ?_⟩
  · intro r arena iNode iChildren h1 h2 hret
    exact FindBestSplitGain_gain_fin E shell.aBins r arena iNode iChildren cSamplesLeafMin
      hk ho hret h1 h2
  · intro g x hx1 hx2 hs hret
    obtain ⟨q, hq, e⟩ := FindBestSplitGain_gain_fin E shell.aBins g.rng g.arena x g.iStorageCur
      cSamplesLeafMin hk ho hret hx1 hx2
    have hE : ExamineChild E shell.aBins cSamplesLeafMin g x =
        { g with
          arena := (FindBestSplitGain E shell.aBins g.rng g.arena x g.iStorageCur
            cSamplesLeafMin).arena,
          rng := (FindBestSplitGain E shell.aBins g.rng g.arena x g.iStorageCur
            cSamplesLeafMin).rng,
          iStorageCur := g.iStorageCur + 2,
          bestTreeNodeToSplit := x :: g.bestTreeNodeToSplit } := by
      unfold ExamineChild
      rw [if_pos hs]
      simp only [hret, if_true]
    rw [hE]
    refine ⟨rfl, ⟨q, hq, ?_⟩, ?_⟩
    · simp only [TreeNode.AFTER_GetSplitGain, e, Option.getD_some]
    · intro j hj1 hj2
      exact FindBestSplitGain_frame E shell.aBins g.rng g.arena x g.iStorageCur cSamplesLeafMin
        j hj1 (by omega) (by omega)
  · intro hret
    have hinv := GrowStart_inv E rng shell cBins cSamplesLeafMin hret
    refine ⟨?_, ?_, ?_⟩
    · obtain ⟨q, hq, e⟩ := FindBestSplitGain_gain_fin E shell.aBins rng
        (RootArena E shell cBins) 0 1 cSamplesLeafMin hk ho hret (by decide) (by decide)
      have e' : ((RootFind E rng shell cBins cSamplesLeafMin).arena 0).m_splitGain =
          some (.fin q) := e
      exact ⟨q, hq, by simp only [TreeNode.AFTER_GetSplitGain, e', Option.getD_some]⟩
    · intro x hx
      exact GrowInv_queue_fin (GrowPops_inv E shell.aBins cSamplesLeafMin cLeavesMax
        (RootArena E shell cBins 0) cLeavesMax _ 0 hinv x hx) hk ho
    · exact GrowInv_queue_fin (GrowTree_inv E rng shell cBins cSamplesLeafMin cLeavesMax
        hret).1 hk ho

/-- C23 holds on the four-bin scenario: the root is split with the gain
18/5, and the root carries a finite gain that is not negative. -/
theorem C23_queue_gains_finite_witness :
    ((RootFind RegressionSettings ZeroStream (FourBinShell fun _ => ZeroNode) 4 5).arena
      0).AFTER_GetSplitGain = .fin (18 / 5) ∧
    ∃ q : ℚ, 0 ≤ q ∧
      ((RootFind RegressionSettings ZeroStream (FourBinShell fun _ => ZeroNode) 4 5).arena
        0).AFTER_GetSplitGain = .fin q :=
  ⟨by decide!,
    ((C23_queue_gains_finite RegressionSettings ZeroStream (FourBinShell fun _ => ZeroNode)
      4 5 4 (by decide!) RegressionSettings_gain_nonneg).2.2 (by decide!)).1⟩

/-! ## C24: the end of the growth and the nodes left in the queue -/

/-- C24: on the general path, when the root is split, the loop takes a node
from the queue only while the number of leaves is below `cLeavesMax` and the
queue is not empty, and it ends with `cLeavesMax` leaves reached or with an
empty queue. Every node that is still in the queue at that moment is not
formally split and is a leaf for `Flatten`: it is among the leaves that
`Flatten` walks through, whose score vectors, each computed from the
aggregate of the leaf itself, make up the scores; it is not among the
formally split nodes, its split value is not among the split values that
`Flatten` stores, its two children are neither leaves nor formally split
nodes of the walk, and the total gain is the sum of the net gains of the
formally split nodes only. -/
theorem C24_pending_nodes_are_leaves (E : Settings) (rng : RandomDeterministic)
    (shell : BoosterShell) (cBins cSamplesLeafMin cLeavesMax : Nat)
    (hret : (RootFind E rng shell cBins cSamplesLeafMin).ret = 0) :
    (¬ (GrowTree E rng shell cBins cSamplesLeafMin cLeavesMax).cLeaves < cLeavesMax ∨
      (GrowTree E rng shell cBins cSamplesLeafMin cLeavesMax).bestTreeNodeToSplit = []) ∧
    (2 ≤ cLeavesMax →
      (GrowTree E rng shell cBins cSamplesLeafMin cLeavesMax).cLeaves ≤ cLeavesMax) ∧
    (∀ x ∈ GrowPops E shell.aBins cSamplesLeafMin cLeavesMax cLeavesMax
        (GrowStart E rng shell cBins cSamplesLeafMin) 0,
      x.1.cLeaves < cLeavesMax ∧ x.2 ∈ x.1.bestTreeNodeToSplit) ∧
    (Flatten E (GrowTree E rng shell cBins cSamplesLeafMin cLeavesMax).arena
        (GrowTree E rng shell cBins cSamplesLeafMin cLeavesMax).cLeaves 0).2 =
      ((FlattenLeaves (GrowTree E rng shell cBins cSamplesLeafMin cLeavesMax).arena
        (GrowTree E rng shell cBins cSamplesLeafMin cLeavesMax).cLeaves 0).map fun i =>
          FlattenLeaf E
            ((GrowTree E rng shell cBins cSamplesLeafMin cLeavesMax).arena i)).flatten ∧
    (GrowTree E rng shell cBins cSamplesLeafMin cLeavesMax).totalGain =
      (FlattenBranches (GrowTree E rng shell cBins cSamplesLeafMin cLeavesMax).arena
        (GrowTree E rng shell cBins cSamplesLeafMin cLeavesMax).cLeaves 0).foldl
        (fun t i => t.add (NetSplitGain E shell.aBins cSamplesLeafMin
          ((GrowTree E rng shell cBins cSamplesLeafMin cLeavesMax).arena i))) (.fin 0) ∧
    ∀ q ∈ (GrowTree E rng shell cBins cSamplesLeafMin cLeavesMax).bestTreeNodeToSplit,
      ((GrowTree E rng shell cBins cSamplesLeafMin cLeavesMax).arena q).AFTER_IsSplit = false ∧
      q ∈ FlattenLeaves (GrowTree E rng shell cBins cSamplesLeafMin cLeavesMax).arena
        (GrowTree E rng shell cBins cSamplesLeafMin cLeavesMax).cLeaves 0 ∧
      q ∉ FlattenBranches (GrowTree E rng shell cBins cSamplesLeafMin cLeavesMax).arena
        (GrowTree E rng shell cBins cSamplesLeafMin cLeavesMax).cLeaves 0 ∧
      ((GrowTree E rng shell cBins cSamplesLeafMin cLeavesMax).arena q).m_splitVal ∉
        (Flatten E (GrowTree E rng shell cBins cSamplesLeafMin cLeavesMax).arena
          (GrowTree E rng shell cBins cSamplesLeafMin cLeavesMax).cLeaves 0).1 ∧
      (∀ c, c = ((GrowTree E rng shell cBins cSamplesLeafMin cLeavesMax).arena
            q).m_pTreeNodeChildren ∨
          c = ((GrowTree E rng shell cBins cSamplesLeafMin cLeavesMax).arena
            q).m_pTreeNodeChildren + 1 →
        c ∉ FlattenLeaves (GrowTree E rng shell cBins cSamplesLeafMin cLeavesMax).arena
          (GrowTree E rng shell cBins cSamplesLeafMin cLeavesMax).cLeaves 0 ∧
        c ∉ FlattenBranches (GrowTree E rng shell cBins cSamplesLeafMin cLeavesMax).arena
          (GrowTree E rng shell cBins cSamplesLeafMin cLeavesMax).cLeaves 0) := by
  have e : GrowTree E rng shell cBins cSamplesLeafMin cLeavesMax =
      GrowLoop E shell.aBins cSamplesLeafMin cLeavesMax cLeavesMax
        (GrowStart E rng shell cBins cSamplesLeafMin) 0 := rfl
  obtain ⟨T, hroot, -, hok, hnd, hleaves, -, hP, -, -⟩ :=
    GrowTree_cells E rng shell cBins cSamplesLeafMin cLeavesMax hret
  obtain ⟨e1, e2, e3⟩ := Shape.flatten_eq T
    (GrowTree E rng shell cBins cSamplesLeafMin cLeavesMax).cLeaves hok
    (by rw [← hleaves]; exact Shape.height_le_leaves T)
  rw [hroot] at e1 e2 e3
  obtain ⟨T', -, -, -, f1, -, f3⟩ :=
    GrowTree_branches E rng shell cBins cSamplesLeafMin cLeavesMax hret
  refine ⟨?_, (GrowTree_inv E rng shell cBins cSamplesLeafMin cLeavesMax hret).2.1,
    GrowPops_lt E shell.aBins cSamplesLeafMin cLeavesMax cLeavesMax _ 0, ?_, ?_, ?_⟩
  · rw [e]
    exact GrowLoop_exit E shell.aBins cSamplesLeafMin cLeavesMax cLeavesMax _ 0
      (by simp only [GrowStart]; omega)
  · rw [e1, e3]
  · rw [f1, f3]
  · intro q hq
    have hp := hP q hq
    obtain ⟨-, -, -, -, -, -, p7, p8, -⟩ := Shape.pend_children hok hnd hp
    obtain ⟨c1, c2, c3, c4⟩ := Shape.pend_fresh hok hnd hp
    obtain ⟨-, -, v3⟩ := Shape.pend_split_value hok hp
    rw [e1, e2, e3]
    refine ⟨?_, Shape.pends_subset_leaves T q hp, p7, v3, ?_⟩
    · simp only [TreeNode.AFTER_IsSplit, p8, Option.isNone_some]
    · intro c hc
      rcases hc with rfl | rfl
      · exact ⟨c1, c3⟩
      · exact ⟨c2, c4⟩

/-- C24 holds on the scenario with the gradient sums -2, -3, 1, 4 and
`cLeavesMax = 3`: the loop takes the right child of the root, the slot 2,
whose net gain 9/20 is above the net gain 1/20 of the left child, and ends
with three leaves and the left child, the slot 1, still in the queue;
`Flatten` walks through the leaves 1, 5, 6, stores the split values 1 and 2
and the scores 1/4, -1/10, -2/5, the first one from the aggregate of the
slot 1; the split value 0 of the slot 1 is not stored and the total gain is
5/2 + 9/20. On the scenario with the gradient sums -4, -2, 2, 4, where the
two children have the same net gain, the slot 2 stays in the queue and the
leaves are 3, 4, 2. -/
theorem C24_pending_nodes_are_leaves_witness :
    (GrowTree RegressionSettings ZeroStream SkewShell 4 5 3).bestTreeNodeToSplit = [1] ∧
    FlattenLeaves (GrowTree RegressionSettings ZeroStream SkewShell 4 5 3).arena
      (GrowTree RegressionSettings ZeroStream SkewShell 4 5 3).cLeaves 0 = [1, 5, 6] ∧
    Flatten RegressionSettings (GrowTree RegressionSettings ZeroStream SkewShell 4 5 3).arena
      (GrowTree RegressionSettings ZeroStream SkewShell 4 5 3).cLeaves 0 =
      ([1, 2], [.fin (1 / 4), .fin (-1 / 10), .fin (-2 / 5)]) ∧
    ((GrowTree RegressionSettings ZeroStream SkewShell 4 5 3).arena 1).m_splitVal = 0 ∧
    ((GrowTree RegressionSettings ZeroStream SkewShell 4 5 3).arena 1).m_splitGain =
      some (.fin (1 / 20)) ∧
    (GrowTree RegressionSettings ZeroStream SkewShell 4 5 3).totalGain = .fin (59 / 20) ∧
    (GrowTree RegressionSettings ZeroStream (FourBinShell fun _ => ZeroNode) 4 5
      3).bestTreeNodeToSplit = [2] ∧
    FlattenLeaves (GrowTree RegressionSettings ZeroStream (FourBinShell fun _ => ZeroNode) 4 5
        3).arena
      (GrowTree RegressionSettings ZeroStream (FourBinShell fun _ => ZeroNode) 4 5 3).cLeaves 0 =
      [3, 4, 2] ∧
    (Flatten RegressionSettings
      (GrowTree RegressionSettings ZeroStream (FourBinShell fun _ => ZeroNode) 4 5 3).arena
      (GrowTree RegressionSettings ZeroStream (FourBinShell fun _ => ZeroNode) 4 5 3).cLeaves
      0).1 = [0, 1] ∧
    (¬ (GrowTree RegressionSettings ZeroStream SkewShell 4 5 3).cLeaves < 3 ∨
      (GrowTree RegressionSettings ZeroStream SkewShell 4 5 3).bestTreeNodeToSplit = []) :=
  ⟨by decide!, by decide!, by decide!, by decide!, by decide!, by decide!, by decide!,
    by decide!, by decide!,
    (C24_pending_nodes_are_leaves RegressionSettings ZeroStream SkewShell 4 5 3
      (by decide!)).1⟩

/-! ## C25: the zero-first-logit normalisation -/

/-- C25, as stated, fails: in a multiclass build with
`ZERO_FIRST_MULTICLASS_LOGIT`, on a root that is not split and whose first
gradient sum has overflowed to +infinity, the raw update of the first score
is -infinity, and the first score written, the raw update minus itself, is
NaN and not 0; the other two scores are +infinity. -/
theorem C25_first_component_is_nan :
    MulticlassSettings.bZeroFirstMulticlassLogit = true ∧
    MulticlassSettings.bMulticlass = true ∧
    (PartitionOneDimensionalBoosting MulticlassSettings ZeroStream OverflowLogitShell
      2 0 100 2).error = .Error_None ∧
    RawUpdate MulticlassSettings (RootArena MulticlassSettings OverflowLogitShell 2 0) 0 =
      .ninf ∧
    (PartitionOneDimensionalBoosting MulticlassSettings ZeroStream OverflowLogitShell
      2 0 100 2).aScores = [.nan, .pinf, .pinf] ∧
    ¬ ((PartitionOneDimensionalBoosting MulticlassSettings ZeroStream OverflowLogitShell
      2 0 100 2).aScores.head? = some (.fin 0)) := by
  decide!

/-- C25, amended: a call returns the same error code, total gain, split
count, split values, random stream and number of leaves whether
`ZERO_FIRST_MULTICLASS_LOGIT` is defined or not. In a multiclass build
(classification with two scores or more) the code of the unsplit root, that
of the fast path and `Flatten` write the same vector for a leaf: with the
normalisation every raw update minus the raw update of the first score,
without it the raw updates, each narrowed by `SafeConvertFloat`. The first
score written with the normalisation is the narrowed difference of the first
raw update to itself, which is 0 when the first raw update is finite and the
narrowing keeps 0. -/
theorem C25_zero_first_logit (E : Settings) (rng : RandomDeterministic) (shell : BoosterShell)
    (cBins iDimension cSamplesLeafMin cLeavesMax : Nat) :
    ((PartitionOneDimensionalBoosting (WithZeroFirst E true) rng shell cBins iDimension
        cSamplesLeafMin cLeavesMax).error =
      (PartitionOneDimensionalBoosting (WithZeroFirst E false) rng shell cBins iDimension
        cSamplesLeafMin cLeavesMax).error ∧
    (PartitionOneDimensionalBoosting (WithZeroFirst E true) rng shell cBins iDimension
        cSamplesLeafMin cLeavesMax).totalGain =
      (PartitionOneDimensionalBoosting (WithZeroFirst E false) rng shell cBins iDimension
        cSamplesLeafMin cLeavesMax).totalGain ∧
    (PartitionOneDimensionalBoosting (WithZeroFirst E true) rng shell cBins iDimension
        cSamplesLeafMin cLeavesMax).cSplits =
      (PartitionOneDimensionalBoosting (WithZeroFirst E false) rng shell cBins iDimension
        cSamplesLeafMin cLeavesMax).cSplits ∧
    (PartitionOneDimensionalBoosting (WithZeroFirst E true) rng shell cBins iDimension
        cSamplesLeafMin cLeavesMax).aSplits =
      (PartitionOneDimensionalBoosting (WithZeroFirst E false) rng shell cBins iDimension
        cSamplesLeafMin cLeavesMax).aSplits ∧
    (PartitionOneDimensionalBoosting (WithZeroFirst E true) rng shell cBins iDimension
        cSamplesLeafMin cLeavesMax).rng =
      (PartitionOneDimensionalBoosting (WithZeroFirst E false) rng shell cBins iDimension
        cSamplesLeafMin cLeavesMax).rng ∧
    LeafCount (WithZeroFirst E true) rng shell cBins cSamplesLeafMin cLeavesMax =
      LeafCount (WithZeroFirst E false) rng shell cBins cSamplesLeafMin cLeavesMax) ∧
    (E.bClassification = true → E.bMulticlass = true → 2 ≤ E.cScores → ∀ node : TreeNode,
      (RootScores (WithZeroFirst E true) node = (List.range E.cScores).map fun i =>
        E.SafeConvertFloat ((RawUpdate E node i).sub (RawUpdate E node 0))) ∧
      (FastScores (WithZeroFirst E true) node = (List.range E.cScores).map fun i =>
        E.SafeConvertFloat ((RawUpdate E node i).sub (RawUpdate E node 0))) ∧
      (FlattenLeaf (WithZeroFirst E true) node = (List.range E.cScores).map fun i =>
        E.SafeConvertFloat ((RawUpdate E node i).sub (RawUpdate E node 0))) ∧
      (RootScores (WithZeroFirst E false) node = (List.range E.cScores).map fun i =>
        E.SafeConvertFloat (RawUpdate E node i)) ∧
      (FastScores (WithZeroFirst E false) node = (List.range E.cScores).map fun i =>
        E.SafeConvertFloat (RawUpdate E node i)) ∧
      (FlattenLeaf (WithZeroFirst E false) node = (List.range E.cScores).map fun i =>
        E.SafeConvertFloat (RawUpdate E node i))) ∧
    (E.bClassification = true → E.bMulticlass = true → 2 ≤ E.cScores →
      ∀ (node : TreeNode) (q : ℚ), RawUpdate E node 0 = .fin q →
      E.SafeConvertFloat (.fin 0) = .fin 0 →
      (RootScores (WithZeroFirst E true) node).head? = some (.fin 0) ∧
      (FastScores (WithZeroFirst E true) node).head? = some (.fin 0) ∧
      (FlattenLeaf (WithZeroFirst E true) node).head? = some (.fin 0)) := by
  refine ⟨?_, ?_, ?_⟩
  · obtain ⟨a1, a2, a3, a4, a5⟩ :=
      Func_zf E true rng shell cBins iDimension cSamplesLeafMin cLeavesMax
    obtain ⟨b1, b2, b3, b4, b5⟩ :=
      Func_zf E false rng shell cBins iDimension cSamplesLeafMin cLeavesMax
    unfold PartitionOneDimensionalBoosting
    rw [a1, a2, a3, a4, a5, b1, b2, b3, b4, b5, LeafCount_zf, LeafCount_zf]
    exact ⟨rfl, rfl, rfl, rfl, rfl, rfl⟩
  · intro hc hm h2 node
    exact Scores_multiclass E node hc hm h2
  · intro hc hm h2 node q hq hs
    obtain ⟨s1, s2, s3, -⟩ := Scores_multiclass E node hc hm h2
    have hz : E.SafeConvertFloat ((RawUpdate E node 0).sub (RawUpdate E node 0)) = .fin 0 := by
      rw [hq, FloatBig.sub_self_fin, hs]
    have hh := head_sub_first E node h2
    rw [hz] at hh
    rw [s1, s2, s3]
    exact ⟨hh, hh, hh⟩

/-- C25, amended, holds on a multiclass scenario with two bins and finite
sums: the fast path writes the same split value with and without the
normalisation, the scores differ, and with the normalisation the first score
of the left child of the root is 0. -/
theorem C25_zero_first_logit_witness :
    (PartitionOneDimensionalBoosting (WithZeroFirst MulticlassSettings true) ZeroStream
      MulticlassShell 2 0 5 2).aSplits = [0] ∧
    (PartitionOneDimensionalBoosting (WithZeroFirst MulticlassSettings true) ZeroStream
      MulticlassShell 2 0 5 2).aScores ≠
      (PartitionOneDimensionalBoosting (WithZeroFirst MulticlassSettings false) ZeroStream
        MulticlassShell 2 0 5 2).aScores ∧
    (PartitionOneDimensionalBoosting (WithZeroFirst MulticlassSettings true) ZeroStream
        MulticlassShell 2 0 5 2).aSplits =
      (PartitionOneDimensionalBoosting (WithZeroFirst MulticlassSettings false) ZeroStream
        MulticlassShell 2 0 5 2).aSplits ∧
    (FastScores (WithZeroFirst MulticlassSettings true)
      ((RootFind MulticlassSettings ZeroStream MulticlassShell 2 5).arena 1)).head? =
      some (.fin 0) :=
  ⟨by decide!, by decide!,
    (C25_zero_first_logit MulticlassSettings ZeroStream MulticlassShell 2 0 5 2).1.2.2.2.1,
    ((C25_zero_first_logit MulticlassSettings ZeroStream MulticlassShell 2 0 5 2).2.2
      rfl rfl (by decide)
      ((RootFind MulticlassSettings ZeroStream MulticlassShell 2 5).arena 1) (-4 / 5)
      (by decide!) rfl).2.1⟩

/-! ## C26: the aggregate of every node -/

/-- C26: with finite bins (exact arithmetic), when `FindBestSplitGain`
returns 0 on a node whose aggregate is the sum of the bins of its range, the
aggregate of the left child, the left accumulator recorded at the chosen
boundary, is the sum of the bins from the first bin of the node to the bin
of the split value; the aggregate of the right child is that of the node
minus that of the left child, and it is the sum of the bins behind the split
value up to the last bin of the node. When the root aggregate handed in is
the sum of all the bins, every slot that a call takes holds, in the buffer
that the call leaves, a node whose range is not empty and whose aggregate is
the sum of the bins of its range. -/
theorem C26_node_aggregate (E : Settings) (rng : RandomDeterministic) (shell : BoosterShell)
    (cBins cSamplesLeafMin cLeavesMax : Nat) (hbins : 1 ≤ cBins)
    (hfin : ∀ b ∈ shell.aBins, FinBin E b)
    (hsum : shell.sumAllBins.Copy E.cScores = BinSum E shell.aBins 0 cBins) :
    (∀ (r : RandomDeterministic) (arena : Arena) (iNode iChildren : Nat),
      iNode ≠ iChildren → iNode ≠ iChildren + 1 →
      NodeSum E shell.aBins (arena iNode) →
      (FindBestSplitGain E shell.aBins r arena iNode iChildren cSamplesLeafMin).ret = 0 →
      ((FindBestSplitGain E shell.aBins r arena iNode iChildren cSamplesLeafMin).arena
        iChildren).m_bin =
        BinSum E shell.aBins (arena iNode).m_pBinFirst
          (((FindBestSplitGain E shell.aBins r arena iNode iChildren cSamplesLeafMin).arena
            iNode).m_splitVal + 1 - (arena iNode).m_pBinFirst) ∧
      ((FindBestSplitGain E shell.aBins r arena iNode iChildren cSamplesLeafMin).arena
        (iChildren + 1)).m_bin =
        ((arena iNode).m_bin.Copy E.cScores).Subtract
          ((FindBestSplitGain E shell.aBins r arena iNode iChildren cSamplesLeafMin).arena
            iChildren).m_bin E.cScores ∧
      ((FindBestSplitGain E shell.aBins r arena iNode iChildren cSamplesLeafMin).arena
        (iChildren + 1)).m_bin =
        BinSum E shell.aBins
          (((FindBestSplitGain E shell.aBins r arena iNode iChildren cSamplesLeafMin).arena
            iNode).m_splitVal + 1)
          ((arena iNode).m_pBinLast -
            ((FindBestSplitGain E shell.aBins r arena iNode iChildren cSamplesLeafMin).arena
              iNode).m_splitVal) ∧
      NodeSum E shell.aBins
        ((FindBestSplitGain E shell.aBins r arena iNode iChildren cSamplesLeafMin).arena iNode) ∧
      NodeSum E shell.aBins
        ((FindBestSplitGain E shell.aBins r arena iNode iChildren cSamplesLeafMin).arena
          iChildren) ∧
      NodeSum E shell.aBins
        ((FindBestSplitGain E shell.aBins r arena iNode iChildren cSamplesLeafMin).arena
          (iChildren + 1))) ∧
    ∀ i < SlotsUsed E rng shell cBins cSamplesLeafMin cLeavesMax,
      NodeSum E shell.aBins (FinalArena E rng shell cBins cSamplesLeafMin cLeavesMax i) := by
  refine ⟨?_, Func_nodes_sum E rng shell cBins cSamplesLeafMin cLeavesMax hbins hfin hsum⟩
  intro r arena iNode iChildren h1 h2 hn hret
  obtain ⟨hb, -, -, hc, hd⟩ :=
    FindBestSplitGain_BranchOk E shell.aBins r arena iNode iChildren cSamplesLeafMin hret h1 h2
  have hn' := NodeSum_of_data hd hn
  obtain ⟨nl, nr⟩ := BranchOk_NodeSum hfin hb hn'
  rw [hc] at nl nr
  unfold BranchOk at hb
  rw [hc, hd.1, hd.2.1, hd.2.2] at hb
  obtain ⟨b1, b2, b3, b4, b5, b6, -, -, b9, -⟩ := hb
  have el := nl.2
  have er := nr.2
  rw [b3, b4] at el
  rw [b5, b6] at er
  refine ⟨el, b9, ?_, hn', nl, nr⟩
  rw [er]
  congr 1
  omega

/-- C26 holds on the four-bin scenario with `cLeavesMax = 4`: the call
takes seven slots, and the node of the slot 2, the right child of the root,
holds the sum of the bins 2 and 3. -/
theorem C26_node_aggregate_witness :
    SlotsUsed RegressionSettings ZeroStream (FourBinShell fun _ => ZeroNode) 4 5 4 = 7 ∧
    (FinalArena RegressionSettings ZeroStream (FourBinShell fun _ => ZeroNode) 4 5 4
      2).m_bin = RegressionBin 20 6 ∧
    NodeSum RegressionSettings (FourBinShell fun _ => ZeroNode).aBins
      (FinalArena RegressionSettings ZeroStream (FourBinShell fun _ => ZeroNode) 4 5 4 2) :=
  ⟨by decide!, by decide!,
    (C26_node_aggregate RegressionSettings ZeroStream (FourBinShell fun _ => ZeroNode) 4 5 4
      (by decide)
      (fun b hb => by
        simp only [FourBinShell, List.mem_cons, List.mem_singleton, List.not_mem_nil,
          or_false] at hb
        rcases hb with rfl | rfl | rfl | rfl <;> exact RegressionBin_FinBin _ _)
      (by decide!)).2 2 (by decide!)⟩

/-! ## C27: the number of commits and the number of bins -/

/-- C27: on every call with `cLeavesMax >= 2` on at least one bin, the
number of leaves is at most `cLeavesMax` and at most the number of bins, so
that the number of formally split nodes, which is the number of leaves minus
one, is at most `min(cLeavesMax, cBins) - 1`. On the general path the loop
runs one round for the root and one for every pop, the number of leaves
being two plus the number of pops, and it ends with `cLeavesMax` leaves
reached or with an empty queue, within the rounds that the embedding allows.
A child with a single bin is not evaluated: it is rejected and only its slot
changes. -/
theorem C27_commit_bound (E : Settings) (rng : RandomDeterministic) (shell : BoosterShell)
    (cBins cSamplesLeafMin cLeavesMax : Nat) (hmax : 2 ≤ cLeavesMax) (hbins : 1 ≤ cBins) :
    LeafCount E rng shell cBins cSamplesLeafMin cLeavesMax ≤ min cLeavesMax cBins ∧
    (CommittedBranches E rng shell cBins cSamplesLeafMin cLeavesMax).length =
      LeafCount E rng shell cBins cSamplesLeafMin cLeavesMax - 1 ∧
    (CommittedBranches E rng shell cBins cSamplesLeafMin cLeavesMax).length ≤
      min cLeavesMax cBins - 1 ∧
    (GrowTree E rng shell cBins cSamplesLeafMin cLeavesMax).cLeaves =
      2 + (GrowPops E shell.aBins cSamplesLeafMin cLeavesMax cLeavesMax
        (GrowStart E rng shell cBins cSamplesLeafMin) 0).length ∧
    (¬ (GrowTree E rng shell cBins cSamplesLeafMin cLeavesMax).cLeaves < cLeavesMax ∨
      (GrowTree E rng shell cBins cSamplesLeafMin cLeavesMax).bestTreeNodeToSplit = []) ∧
    (∀ (g : Growth) (x : Nat), (g.arena x).m_pBinLast = (g.arena x).m_pBinFirst →
      (ExamineChild E shell.aBins cSamplesLeafMin g x).arena =
        g.arena.set x (g.arena x).AFTER_RejectSplit ∧
      (ExamineChild E shell.aBins cSamplesLeafMin g x).rng = g.rng ∧
      (ExamineChild E shell.aBins cSamplesLeafMin g x).iStorageCur = g.iStorageCur ∧
      (ExamineChild E shell.aBins cSamplesLeafMin g x).bestTreeNodeToSplit =
        g.bestTreeNodeToSplit) := by
  obtain ⟨h1, h2⟩ := LeafCount_le E rng shell cBins cSamplesLeafMin cLeavesMax hmax hbins
  have h3 := CommittedBranches_length E rng shell cBins cSamplesLeafMin cLeavesMax
  have e : GrowTree E rng shell cBins cSamplesLeafMin cLeavesMax =
      GrowLoop E shell.aBins cSamplesLeafMin cLeavesMax cLeavesMax
        (GrowStart E rng shell cBins cSamplesLeafMin) 0 := rfl
  refine ⟨le_min h1 h2, by omega, ?_, ?_, ?_, ?_⟩
  · have : LeafCount E rng shell cBins cSamplesLeafMin cLeavesMax ≤ min cLeavesMax cBins :=
      le_min h1 h2
    omega
  · rw [e, GrowLoop_pops]
    simp only [GrowStart]
  · rw [e]
    exact GrowLoop_exit E shell.aBins cSamplesLeafMin cLeavesMax cLeavesMax _ 0
      (by simp only [GrowStart]; omega)
  · intro g x hx
    obtain ⟨a1, a2, a3, a4, -⟩ := ExamineChild_single E shell.aBins cSamplesLeafMin g x hx
    exact ⟨a1, a2, a3, a4⟩

/-- C27 holds on the four-bin scenario with `cLeavesMax = 8`: the call
ends with four leaves, one for every bin, and three formally split nodes,
with an empty queue. -/
theorem C27_commit_bound_witness :
    LeafCount RegressionSettings ZeroStream (FourBinShell fun _ => ZeroNode) 4 5 8 = 4 ∧
    LeafCount RegressionSettings ZeroStream (FourBinShell fun _ => ZeroNode) 4 5 8 ≤ min 8 4 ∧
    (CommittedBranches RegressionSettings ZeroStream (FourBinShell fun _ => ZeroNode)
      4 5 8).length ≤ min 8 4 - 1 :=
  ⟨by decide!,
    (C27_commit_bound RegressionSettings ZeroStream (FourBinShell fun _ => ZeroNode) 4 5 8
      (by decide) (by decide)).1,
    (C27_commit_bound RegressionSettings ZeroStream (FourBinShell fun _ => ZeroNode) 4 5 8
      (by decide) (by decide)).2.2.1⟩

/-! ## C28: the slots of the buffer that a call touches -/

/-- C28: on two bins or more and for every `cLeavesMax`, every call of
`FindBestSplitGain` that a call of `Func` makes (that on the root and those
of the loop, whether they split or not; `CallEvals` lists the cursor at each
of them) finds the two slots at the cursor within the first `2 * cBins - 1`
slots of the buffer, the final position of the cursor is at most
`2 * cBins - 1`, and a call of `FindBestSplitGain` stores into the slot of
its node and into the two slots at the cursor only. -/
theorem C28_slots_within_bins (E : Settings) (rng : RandomDeterministic) (shell : BoosterShell)
    (cBins cSamplesLeafMin cLeavesMax : Nat) (hbins : 2 ≤ cBins) :
    (∀ e ∈ CallEvals E rng shell cBins cSamplesLeafMin cLeavesMax, e + 1 < 2 * cBins - 1) ∧
    SlotsUsed E rng shell cBins cSamplesLeafMin cLeavesMax ≤ 2 * cBins - 1 ∧
    (∀ (r : RandomDeterministic) (arena : Arena) (iNode iChildren j : Nat),
      j ≠ iNode → j ≠ iChildren → j ≠ iChildren + 1 →
      (FindBestSplitGain E shell.aBins r arena iNode iChildren cSamplesLeafMin).arena j =
        arena j) :=
  ⟨CallEvals_bound E rng shell cBins cSamplesLeafMin cLeavesMax hbins,
    SlotsUsed_le E rng shell cBins cSamplesLeafMin cLeavesMax hbins,
    fun r arena iNode iChildren j h0 h1 h2 =>
      FindBestSplitGain_frame E shell.aBins r arena iNode iChildren cSamplesLeafMin j h0 h1 h2⟩

/-- C28 holds on the four-bin scenario with `cLeavesMax = 8`: the calls of
`FindBestSplitGain` are made with the cursor at the slots 1, 3 and 5, the
call takes seven slots, and `2 * 4 - 1` is seven. -/
theorem C28_slots_within_bins_witness :
    CallEvals RegressionSettings ZeroStream (FourBinShell fun _ => ZeroNode) 4 5 8 = [1, 3, 5] ∧
    SlotsUsed RegressionSettings ZeroStream (FourBinShell fun _ => ZeroNode) 4 5 8 = 7 ∧
    (∀ e ∈ CallEvals RegressionSettings ZeroStream (FourBinShell fun _ => ZeroNode) 4 5 8,
      e + 1 < 2 * 4 - 1) ∧
    SlotsUsed RegressionSettings ZeroStream (FourBinShell fun _ => ZeroNode) 4 5 8 ≤ 2 * 4 - 1 :=
  ⟨by decide!, by decide!,
    (C28_slots_within_bins RegressionSettings ZeroStream (FourBinShell fun _ => ZeroNode) 4 5 8
      (by decide)).1,
    (C28_slots_within_bins RegressionSettings ZeroStream (FourBinShell fun _ => ZeroNode) 4 5 8
      (by decide)).2.1⟩

/-! ## C29: the range of the split values -/

/-- C29: when `FindBestSplitGain` returns 0 on a node, the split value that
it stores is the index of a bin of the range of the node other than its
last bin, so that the ranges of both children, which end at the split value
and start behind it, are not empty. Every split value that a call writes to
the output is at most `cBins - 2`. -/
theorem C29_split_value_in_range (E : Settings) (rng : RandomDeterministic)
    (shell : BoosterShell) (cBins iDimension cSamplesLeafMin cLeavesMax : Nat) :
    (∀ (r : RandomDeterministic) (arena : Arena) (iNode iChildren : Nat),
      iNode ≠ iChildren → iNode ≠ iChildren + 1 →
      (FindBestSplitGain E shell.aBins r arena iNode iChildren cSamplesLeafMin).ret = 0 →
      (arena iNode).m_pBinFirst ≤
        ((FindBestSplitGain E shell.aBins r arena iNode iChildren cSamplesLeafMin).arena
          iNode).m_splitVal ∧
      ((FindBestSplitGain E shell.aBins r arena iNode iChildren cSamplesLeafMin).arena
        iNode).m_splitVal < (arena iNode).m_pBinLast ∧
      ((FindBestSplitGain E shell.aBins r arena iNode iChildren cSamplesLeafMin).arena
        iChildren).m_pBinFirst ≤
        ((FindBestSplitGain E shell.aBins r arena iNode iChildren cSamplesLeafMin).arena
          iChildren).m_pBinLast ∧
      ((FindBestSplitGain E shell.aBins r arena iNode iChildren cSamplesLeafMin).arena
        (iChildren + 1)).m_pBinFirst ≤
        ((FindBestSplitGain E shell.aBins r arena iNode iChildren cSamplesLeafMin).arena
          (iChildren + 1)).m_pBinLast) ∧
    ∀ v ∈ (PartitionOneDimensionalBoosting E rng shell cBins iDimension cSamplesLeafMin
      cLeavesMax).aSplits, v + 2 ≤ cBins := by
  refine ⟨?_, Func_splits_bound E rng shell cBins iDimension cSamplesLeafMin cLeavesMax⟩
  intro r arena iNode iChildren h1 h2 hret
  obtain ⟨hb, -, -, hc, hd⟩ :=
    FindBestSplitGain_BranchOk E shell.aBins r arena iNode iChildren cSamplesLeafMin hret h1 h2
  unfold BranchOk at hb
  rw [hc, hd.1, hd.2.1] at hb
  obtain ⟨b1, b2, b3, b4, b5, b6, -⟩ := hb
  refine ⟨b1, b2, ?_, ?_⟩
  · rw [b3, b4]; exact b1
  · rw [b5, b6]; omega

/-- C29 holds on the four-bin scenario with `cLeavesMax = 4`: the split
values written are 0, 1 and 2, all at most `4 - 2`, and the split value 1 of
the root is a bin of the range 0 .. 3 other than the last. -/
theorem C29_split_value_in_range_witness :
    (PartitionOneDimensionalBoosting RegressionSettings ZeroStream
      (FourBinShell fun _ => ZeroNode) 4 0 5 4).aSplits = [0, 1, 2] ∧
    (∀ v ∈ (PartitionOneDimensionalBoosting RegressionSettings ZeroStream
      (FourBinShell fun _ => ZeroNode) 4 0 5 4).aSplits, v + 2 ≤ 4) ∧
    ((FindBestSplitGain RegressionSettings (FourBinShell fun _ => ZeroNode).aBins ZeroStream
      (RootArena RegressionSettings (FourBinShell fun _ => ZeroNode) 4) 0 1 5).arena
      0).m_splitVal <
      (RootArena RegressionSettings (FourBinShell fun _ => ZeroNode) 4 0).m_pBinLast :=
  ⟨by decide!,
    (C29_split_value_in_range RegressionSettings ZeroStream (FourBinShell fun _ => ZeroNode)
      4 0 5 4).2,
    ((C29_split_value_in_range RegressionSettings ZeroStream (FourBinShell fun _ => ZeroNode)
      4 0 5 4).1 ZeroStream (RootArena RegressionSettings (FourBinShell fun _ => ZeroNode) 4)
      0 1 (by decide) (by decide) (by decide!)).2.1⟩

/-! ## C30: the random stream and `FindBestSplitGain` -/

/-- C30: a call of `FindBestSplitGain` never changes the sequence of the
random stream and makes at most one draw. It makes a draw exactly when it
returns 0 (split) on a tie list with more than one entry, and the draw is
`NextFast` of the length of the tie list. A call that returns 1 (no split)
or -1 (overflow), and a call that splits with a single entry in the tie
list, leave the random stream as it was. -/
theorem C30_random_stream_frame (E : Settings) (aBins : List Bin) (rng : RandomDeterministic)
    (arena : Arena) (iNode iChildren cSamplesLeafMin : Nat) :
    (FindBestSplitGain E aBins rng arena iNode iChildren cSamplesLeafMin).rng.seq = rng.seq ∧
    ((FindBestSplitGain E aBins rng arena iNode iChildren cSamplesLeafMin).rng.pos = rng.pos ∨
      (FindBestSplitGain E aBins rng arena iNode iChildren cSamplesLeafMin).rng.pos =
        rng.pos + 1) ∧
    ((FindBestSplitGain E aBins rng arena iNode iChildren cSamplesLeafMin).rng.pos = rng.pos + 1 ↔
      (FindBestSplitGain E aBins rng arena iNode iChildren cSamplesLeafMin).ret = 0 ∧
        1 < (NodeSweep E aBins cSamplesLeafMin (arena iNode)).aTreeSweep.length) ∧
    ((FindBestSplitGain E aBins rng arena iNode iChildren cSamplesLeafMin).ret ≠ 0 →
      (FindBestSplitGain E aBins rng arena iNode iChildren cSamplesLeafMin).rng = rng) ∧
    ((FindBestSplitGain E aBins rng arena iNode iChildren cSamplesLeafMin).ret = 0 →
      (NodeSweep E aBins cSamplesLeafMin (arena iNode)).aTreeSweep.length = 1 →
      (FindBestSplitGain E aBins rng arena iNode iChildren cSamplesLeafMin).rng = rng) ∧
    ((FindBestSplitGain E aBins rng arena iNode iChildren cSamplesLeafMin).ret = 0 →
      1 < (NodeSweep E aBins cSamplesLeafMin (arena iNode)).aTreeSweep.length →
      (FindBestSplitGain E aBins rng arena iNode iChildren cSamplesLeafMin).rng =
        (rng.NextFast
          (NodeSweep E aBins cSamplesLeafMin (arena iNode)).aTreeSweep.length).2) := by
  by_cases h0 : (FindBestSplitGain E aBins rng arena iNode iChildren cSamplesLeafMin).ret = 0
  · have hr := (FindBestSplitGain_pick E aBins rng arena iNode iChildren cSamplesLeafMin h0).2
    rw [hr]
    simp only [PickSweep]
    by_cases h1 : 1 < (NodeSweep E aBins cSamplesLeafMin (arena iNode)).aTreeSweep.length
    · rw [if_pos h1]
      have h2 : (NodeSweep E aBins cSamplesLeafMin (arena iNode)).aTreeSweep.length ≠ 1 := by
        omega
      simp [RandomDeterministic.NextFast, h0, h1, h2]
    · rw [if_neg h1]
      simp [h0, h1]
  · have hr := (FindBestSplitGain_scratch E aBins rng arena iNode iChildren cSamplesLeafMin h0).2
    rw [hr]
    simp [h0]

/-- C30 holds on two roots: that of the scenario of three bins with zero
gradient sums, where the two boundaries tie and the split makes one draw,
and that of the four-bin scenario, where a single boundary is best and the
split leaves the stream as it was. -/
theorem C30_random_stream_frame_witness :
    (FindBestSplitGain RegressionSettings TieShell.aBins ZeroStream
      (RootArena RegressionSettings TieShell 3) 0 1 5).rng =
      (ZeroStream.NextFast (NodeSweep RegressionSettings TieShell.aBins 5
        (RootArena RegressionSettings TieShell 3 0)).aTreeSweep.length).2 ∧
    (FindBestSplitGain RegressionSettings (FourBinShell fun _ => ZeroNode).aBins ZeroStream
      (RootArena RegressionSettings (FourBinShell fun _ => ZeroNode) 4) 0 1 5).rng =
      ZeroStream :=
  ⟨(C30_random_stream_frame RegressionSettings TieShell.aBins ZeroStream
      (RootArena RegressionSettings TieShell 3) 0 1 5).2.2.2.2.2 (by decide!) (by decide!),
    (C30_random_stream_frame RegressionSettings (FourBinShell fun _ => ZeroNode).aBins ZeroStream
      (RootArena RegressionSettings (FourBinShell fun _ => ZeroNode) 4) 0 1 5).2.2.2.2.1
      (by decide!) (by decide!)⟩

/-! ## C31: a call of `FindBestSplitGain` without a split -/

/-- C31: when `FindBestSplitGain` returns 1 (no split) or -1 (overflow) on a
node that is not one of the two slots at the cursor, the slot of the node is
as before the call: its range, its aggregate, its children, its split gain
and its split value are untouched. The buffer after the call is the buffer
before it with the content that the scan leaves in the two slots at the
cursor (`ScratchChildren`), every other slot is as before, and the random
stream is as before. In the loop the caller then rejects the child and
leaves the cursor and the queue as they were. -/
theorem C31_no_split_frame (E : Settings) (aBins : List Bin) (rng : RandomDeterministic)
    (arena : Arena) (iNode iChildren cSamplesLeafMin : Nat)
    (hret : (FindBestSplitGain E aBins rng arena iNode iChildren cSamplesLeafMin).ret = 1 ∨
      (FindBestSplitGain E aBins rng arena iNode iChildren cSamplesLeafMin).ret = -1)
    (h1 : iNode ≠ iChildren) (h2 : iNode ≠ iChildren + 1) :
    (FindBestSplitGain E aBins rng arena iNode iChildren cSamplesLeafMin).arena iNode =
      arena iNode ∧
    (FindBestSplitGain E aBins rng arena iNode iChildren cSamplesLeafMin).arena =
      ScratchChildren arena iNode iChildren (NodeSweep E aBins cSamplesLeafMin (arena iNode)) ∧
    (∀ j, j ≠ iChildren → j ≠ iChildren + 1 →
      (FindBestSplitGain E aBins rng arena iNode iChildren cSamplesLeafMin).arena j = arena j) ∧
    (FindBestSplitGain E aBins rng arena iNode iChildren cSamplesLeafMin).rng = rng ∧
    (∀ g : Growth, g.arena = arena → g.rng = rng → g.iStorageCur = iChildren →
      (ExamineChild E aBins cSamplesLeafMin g iNode).iStorageCur = g.iStorageCur ∧
      (ExamineChild E aBins cSamplesLeafMin g iNode).bestTreeNodeToSplit =
        g.bestTreeNodeToSplit ∧
      (ExamineChild E aBins cSamplesLeafMin g iNode).arena iNode =
        (arena iNode).AFTER_RejectSplit) := by
  have hne : (FindBestSplitGain E aBins rng arena iNode iChildren cSamplesLeafMin).ret ≠ 0 := by
    rcases hret with h | h <;> rw [h] <;> decide
  obtain ⟨ha, hr⟩ := FindBestSplitGain_scratch E aBins rng arena iNode iChildren
    cSamplesLeafMin hne
  obtain ⟨hn, -⟩ := FindBestSplitGain_reject E aBins rng arena iNode iChildren
    cSamplesLeafMin hne h1 h2
  refine ⟨hn, ha, ?_, hr, ?_⟩
  · intro j hj1 hj2
    by_cases hj : j = iNode
    · rw [hj]; exact hn
    · exact FindBestSplitGain_frame E aBins rng arena iNode iChildren cSamplesLeafMin j hj
        hj1 hj2
  · intro g hga hgr hgc
    unfold ExamineChild
    by_cases hs : (g.arena iNode).BEFORE_IsSplittable = true
    · rw [if_pos hs, hga, hgr, hgc]
      simp only [hne, if_false]
      refine ⟨trivial, trivial, ?_⟩
      rw [hn]
      simp [Arena.set]
    · rw [if_neg hs, hga]
      simp [Arena.set]

/-- C31 holds on the root of the four-bin scenario with
`cSamplesLeafMin = 25`, where no boundary is eligible: the call returns 1
and the slot of the root is as before the call. -/
theorem C31_no_split_frame_witness :
    (FindBestSplitGain RegressionSettings (FourBinShell fun _ => ZeroNode).aBins ZeroStream
      (RootArena RegressionSettings (FourBinShell fun _ => ZeroNode) 4) 0 1 25).ret = 1 ∧
    (FindBestSplitGain RegressionSettings (FourBinShell fun _ => ZeroNode).aBins ZeroStream
      (RootArena RegressionSettings (FourBinShell fun _ => ZeroNode) 4) 0 1 25).arena 0 =
      RootArena RegressionSettings (FourBinShell fun _ => ZeroNode) 4 0 ∧
    (FindBestSplitGain RegressionSettings (FourBinShell fun _ => ZeroNode).aBins ZeroStream
      (RootArena RegressionSettings (FourBinShell fun _ => ZeroNode) 4) 0 1 25).rng =
      ZeroStream :=
  ⟨by decide!,
    (C31_no_split_frame RegressionSettings (FourBinShell fun _ => ZeroNode).aBins ZeroStream
      (RootArena RegressionSettings (FourBinShell fun _ => ZeroNode) 4) 0 1 25
      (Or.inl (by decide!)) (by decide) (by decide)).1,
    (C31_no_split_frame RegressionSettings (FourBinShell fun _ => ZeroNode).aBins ZeroStream
      (RootArena RegressionSettings (FourBinShell fun _ => ZeroNode) 4) 0 1 25
      (Or.inl (by decide!)) (by decide) (by decide)).2.2.2.1⟩

/-! ## C32: the progression of the bit packs from 64 -/

/-- C32, as stated, fails: `k_cItemsPerBitPackMin` is 4, and on 4
`GetNextBitPack` gives the dynamic value 0 and not 3; the chain from 64
ends after 4 and holds neither 3, 2 nor 1. -/
theorem C32_chain_ends_after_four :
    k_cItemsPerBitPackMin = 4 ∧
    GetNextBitPack 4 = 0 ∧
    ¬ (GetNextBitPack 4 = 3) ∧
    BitPackChain 64 64 = [64, 32, 21, 16, 12, 10, 9, 8, 7, 6, 5, 4, 0] ∧
    3 ∉ BitPackChain 64 64 ∧ 2 ∉ BitPackChain 64 64 ∧ 1 ∉ BitPackChain 64 64 := by
  decide

/-- C32, amended: for 64 bits of storage, `GetNextBitPack` applied again
and again from 64 on gives 32, 21, 16, 12, 10, 9, 8, 7, 6, 5, 4 and then, 4
being `k_cItemsPerBitPackMin`, the dynamic value 0. The values 3, 2, 1 and
then 0 of the documented progression are those of the second operand of the
conditional alone (`NextOnSeries`), which `GetNextBitPack` leaves at 4. -/
theorem C32_progression_from_64 :
    ((List.range 12).map fun k => GetNextBitPack^[k + 1] 64) =
      [32, 21, 16, 12, 10, 9, 8, 7, 6, 5, 4, k_cItemsPerBitPackDynamic] ∧
    k_cItemsPerBitPackDynamic = 0 ∧
    (∀ c : Int, c ≠ k_cItemsPerBitPackMin → GetNextBitPack c = NextOnSeries c) ∧
    ((List.range 16).map fun k => NextOnSeries^[k] 64) =
      [64, 32, 21, 16, 12, 10, 9, 8, 7, 6, 5, 4, 3, 2, 1, 0] := by
  refine ⟨by decide, by decide, ?_, by decide⟩
  intro c hc
  unfold GetNextBitPack NextOnSeries
  rw [if_neg (fun h => hc h.symm)]

/-- C32, amended, holds at 5: the value is not `k_cItemsPerBitPackMin`, and
`GetNextBitPack` gives 4, the value of the series. -/
theorem C32_progression_from_64_witness :
    GetNextBitPack 5 = NextOnSeries 5 ∧ NextOnSeries 5 = 4 :=
  ⟨C32_progression_from_64.2.2.1 5 (by decide), by decide⟩

/-! ## C33: the chain of the bit packs decreases -/

/-- C33: for every `cItemsBitPackedPrev` above `k_cItemsPerBitPackMin` and
at most `k_cBitsForStorageType`, the value `n` of `GetNextBitPack` is below
`cItemsBitPackedPrev`, is at least `k_cItemsPerBitPackMin`, and lies on the
progression series: `n` is `k_cBitsForStorageType / (k_cBitsForStorageType /
n)`. The chain of bit packs from `k_cItemsPerBitPackMax` on is 8, 7, 6, 5,
4, 0: it decreases strictly, reaches `k_cItemsPerBitPackMin` and then the
dynamic value, where it ends after five steps, whatever the bound on the
number of steps is from five on. -/
theorem C33_next_bit_pack_decreases :
    (∀ cItemsBitPackedPrev : Int, k_cItemsPerBitPackMin < cItemsBitPackedPrev →
      cItemsBitPackedPrev ≤ k_cBitsForStorageType →
      GetNextBitPack cItemsBitPackedPrev < cItemsBitPackedPrev ∧
      k_cItemsPerBitPackMin ≤ GetNextBitPack cItemsBitPackedPrev ∧
      (1 ≤ GetNextBitPack cItemsBitPackedPrev →
        GetNextBitPack cItemsBitPackedPrev =
          k_cBitsForStorageType.tdiv
            (k_cBitsForStorageType.tdiv (GetNextBitPack cItemsBitPackedPrev)))) ∧
    GetNextBitPack k_cItemsPerBitPackMin = k_cItemsPerBitPackDynamic ∧
    (∀ k, BitPackChain (k + 5) k_cItemsPerBitPackMax =
      [k_cItemsPerBitPackMax, 7, 6, 5, k_cItemsPerBitPackMin, k_cItemsPerBitPackDynamic]) ∧
    (BitPackChain 5 k_cItemsPerBitPackMax).Pairwise (fun a b => b < a) := by
  refine ⟨?_, by decide, ?_, by decide⟩
  · intro p h1 h2
    have h1' : 4 < p := h1
    have h2' : p ≤ 64 := h2
    interval_cases p <;> decide
  · intro k
    have e5 : GetNextBitPack k_cItemsPerBitPackMax = 7 := by decide
    have e4 : GetNextBitPack 7 = 6 := by decide
    have e3 : GetNextBitPack 6 = 5 := by decide
    have e2 : GetNextBitPack 5 = 4 := by decide
    have e1 : GetNextBitPack 4 = 0 := by decide
    have d8 : ¬ k_cItemsPerBitPackMax = k_cItemsPerBitPackDynamic := by decide
    have d7 : ¬ (7 : Int) = k_cItemsPerBitPackDynamic := by decide
    have d6 : ¬ (6 : Int) = k_cItemsPerBitPackDynamic := by decide
    have d5 : ¬ (5 : Int) = k_cItemsPerBitPackDynamic := by decide
    have d4 : ¬ (4 : Int) = k_cItemsPerBitPackDynamic := by decide
    have d0 : (0 : Int) = k_cItemsPerBitPackDynamic := by decide
    have m4 : k_cItemsPerBitPackMin = 4 := rfl
    have m0 : k_cItemsPerBitPackDynamic = 0 := rfl
    rw [show k + 5 = (k + 4) + 1 from rfl, BitPackChain, if_neg d8, e5,
      show k + 4 = (k + 3) + 1 from rfl, BitPackChain, if_neg d7, e4,
      show k + 3 = (k + 2) + 1 from rfl, BitPackChain, if_neg d6, e3,
      show k + 2 = (k + 1) + 1 from rfl, BitPackChain, if_neg d5, e2,
      BitPackChain, if_neg d4, e1, m4, m0]
    cases k with
    | zero => rfl
    | succ k => rw [BitPackChain, if_pos d0]

/-- C33 holds at `k_cItemsPerBitPackMax`: the next bit pack of 8 is 7, which
is below 8 and on the series. -/
theorem C33_next_bit_pack_decreases_witness :
    GetNextBitPack 8 = 7 ∧
    GetNextBitPack 8 < 8 ∧
    BitPackChain 64 k_cItemsPerBitPackMax = [8, 7, 6, 5, 4, 0] :=
  ⟨by decide,
    (C33_next_bit_pack_decreases.1 8 (by decide) (by decide)).1,
    by decide⟩

/-! ## C34: the constructor of `MseRegressionLoss` -/

/-- C34: the constructor of `MseRegressionLoss` fails with
`ParamMismatchWithConfigException` exactly when the number of outputs of the
configuration is not 1, and it fails with no other exception; with one
output it succeeds, and `GetFinalMultiplier` of the loss is 1.0. -/
theorem C34_mse_constructor (config : Config) :
    (MseRegressionLoss.Construct config = .error .ParamMismatchWithConfigException ↔
      config.cOutputs ≠ 1) ∧
    (∀ e, MseRegressionLoss.Construct config = .error e →
      e = .ParamMismatchWithConfigException ∧ config.cOutputs ≠ 1) ∧
    (config.cOutputs = 1 →
      ∃ loss, MseRegressionLoss.Construct config = .ok loss ∧
        loss.GetFinalMultiplier = .fin 1) ∧
    ∀ loss : MseRegressionLoss, loss.GetFinalMultiplier = .fin 1 := by
  unfold MseRegressionLoss.Construct
  by_cases h : 1 ≠ config.cOutputs
  · rw [if_pos h]
    refine ⟨⟨fun _ => fun h' => h h'.symm, fun _ => rfl⟩, ?_, fun h' => absurd h'.symm h,
      fun _ => rfl⟩
    intro e he
    cases he
    exact ⟨rfl, fun h' => h h'.symm⟩
  · rw [if_neg h]
    have h1 : config.cOutputs = 1 := (not_not.mp h).symm
    refine ⟨⟨fun h' => (by cases h'), fun h' => absurd h1 h'⟩, ?_, fun _ => ⟨{}, rfl, rfl⟩,
      fun _ => rfl⟩
    intro e he
    cases he

/-- C34 holds on two configurations: with two outputs the constructor
fails with `ParamMismatchWithConfigException`, with one output it
succeeds. -/
theorem C34_mse_constructor_witness :
    MseRegressionLoss.Construct { cOutputs := 2 } =
      .error .ParamMismatchWithConfigException ∧
    ∃ loss, MseRegressionLoss.Construct { cOutputs := 1 } = .ok loss ∧
      loss.GetFinalMultiplier = .fin 1 :=
  ⟨(C34_mse_constructor { cOutputs := 2 }).1.mpr (by decide),
    (C34_mse_constructor { cOutputs := 1 }).2.2.1 rfl⟩

end Ebm
